import Mathlib

/-!
# tinyalsa_hal: SIMCOM voice path of `audio_hw.c`

Shallow embedding of the microphone ring buffer (`simcom_ring_reset`,
`simcom_ring_push`, `simcom_ring_pop`) and of the downmix / rate conversion
kernel (`simcom_voice_process_and_push`), with the properties of the
specification stated over them.

Conventions of the embedding.
* `int16_t` samples are `Int`; `size_t` indices are `Nat` (no ring index ever
  exceeds the capacity, so no `size_t` arithmetic wraps there).
* `unsigned int` counters wrap modulo `2 ^ 32`.
* The ring fields keep the names of `struct audio_device`.  The ring storage
  is present (the `!adev->simcom_mic_ring` early returns are the no-op path
  of an unallocated ring and are not modelled).
* The mutex, the condition variable and the log calls have no effect on the
  data and are left out.
* `while` loops take a fuel argument equal to a bound on their iteration
  count; completion lemmas (`pushLoop_spec`, `popLoop_spec`,
  `resample_closed`) show that the loops finish within it.
* A `double` is the rational number it stands for, and every `double`
  operation rounds its exact result to the nearest `double`, ties to even
  (`roundDouble`).
-/

namespace TinyalsaHal

/-! ## Ring buffer state -/

/-- Ring fields of `struct audio_device`, with the two function-level
`static unsigned int` counters of `simcom_ring_push`. -/
structure Ring where
  simcom_mic_ring : List Int
  simcom_mic_ring_size : Nat
  simcom_mic_ring_read : Nat
  simcom_mic_ring_write : Nat
  simcom_mic_ring_full : Bool
  ring_overwrite_counter : Nat
  ring_recovery_counter : Nat
  deriving DecidableEq, Repr

/-- `SIMCOM_MIC_RING_CAPACITY_SAMPLES`, `8000 * 6`. -/
def SIMCOM_MIC_RING_CAPACITY_SAMPLES : Nat := 8000 * 6

/-- Ring as `simcom_voice_ensure_ring` leaves it for a capacity: storage from
`calloc` (all zero), then `simcom_ring_reset`; the static counters start at 0. -/
def ensure_ring (capacity : Nat) : Ring :=
  { simcom_mic_ring := List.replicate capacity 0
    simcom_mic_ring_size := capacity
    simcom_mic_ring_read := 0
    simcom_mic_ring_write := 0
    simcom_mic_ring_full := false
    ring_overwrite_counter := 0
    ring_recovery_counter := 0 }

/-- `simcom_ring_reset`: both indices to 0, full flag cleared.  Storage and the
static counters are untouched. -/
def simcom_ring_reset (adev : Ring) : Ring :=
  { adev with
    simcom_mic_ring_read := 0
    simcom_mic_ring_write := 0
    simcom_mic_ring_full := false }

/-- `memcpy(&dst[d], &src[s], k * sizeof(int16_t))`, one sample at a time. -/
def memcpy (dst : List Int) (d : Nat) (src : List Int) (s : Nat) : Nat → List Int
  | 0 => dst
  | k + 1 => memcpy (dst.set d (src.getD s 0)) (d + 1) src (s + 1) k

/-- The `while (remaining > 0)` loop of `simcom_ring_push`.  Returns the
storage, `write_pos` and `remaining` at loop exit. -/
def pushLoop (capacity : Nat) (src : List Int) (samples : Nat) :
    Nat → List Int → Nat → Nat → List Int × Nat × Nat
  | 0, ring, write_pos, remaining => (ring, write_pos, remaining)
  | fuel + 1, ring, write_pos, remaining =>
    if 0 < remaining then
      let space_to_end := capacity - write_pos
      let to_write := if remaining < space_to_end then remaining else space_to_end
      pushLoop capacity src samples fuel
        (memcpy ring write_pos src (samples - remaining) to_write)
        ((write_pos + to_write) % capacity)
        (remaining - to_write)
    else (ring, write_pos, remaining)

/-- `simcom_ring_push(adev, src, samples)`. -/
def simcom_ring_push (adev : Ring) (src : List Int) (samples : Nat) : Ring :=
  if samples = 0 then adev
  else
    let capacity := adev.simcom_mic_ring_size
    let lp := pushLoop capacity src samples samples
      adev.simcom_mic_ring adev.simcom_mic_ring_write samples
    let a1 : Ring := { adev with simcom_mic_ring := lp.1, simcom_mic_ring_write := lp.2.1 }
    -- update of the full flag and of the read index on overflow
    let a2 : Ring :=
      if a1.simcom_mic_ring_full then
        { a1 with simcom_mic_ring_read := a1.simcom_mic_ring_write }
      else if a1.simcom_mic_ring_write = a1.simcom_mic_ring_read then
        { a1 with simcom_mic_ring_full := true }
      else a1
    if a2.simcom_mic_ring_full then
      let counter := (a2.ring_overwrite_counter + 1) % 2 ^ 32
      let a3 : Ring := { a2 with ring_overwrite_counter := counter }
      -- recovery
      if 100 < counter ∧ counter % 50 = 0 then
        { a3 with
          simcom_mic_ring_read := a3.simcom_mic_ring_write
          simcom_mic_ring_full := false
          ring_recovery_counter := (a3.ring_recovery_counter + 1) % 2 ^ 32 }
      else a3
    else a2

/-- Samples `ring[pos], …, ring[pos + n - 1]`: the source block of one
`memcpy` out of the ring storage. -/
def readBlock (ring : List Int) (pos n : Nat) : List Int :=
  (List.range n).map (fun i => ring.getD (pos + i) 0)

/-- Samples `ring[(pos + i) % capacity]` for `i < n`: what a reader that walks
`n` slots from `pos` around the ring sees. -/
def ringSlice (capacity : Nat) (ring : List Int) (pos n : Nat) : List Int :=
  (List.range n).map (fun i => ring.getD ((pos + i) % capacity) 0)

/-- The `available` computation of `simcom_ring_pop`, before it is limited to
the request. -/
def popAvailable (adev : Ring) : Nat :=
  if adev.simcom_mic_ring_full then adev.simcom_mic_ring_size
  else if adev.simcom_mic_ring_read < adev.simcom_mic_ring_write then
    adev.simcom_mic_ring_write - adev.simcom_mic_ring_read
  else if adev.simcom_mic_ring_read = adev.simcom_mic_ring_write then 0
  else 0

/-- The `while (remaining > 0)` loop of `simcom_ring_pop`.  `dst` is the part
of the destination written so far; returns `dst`, `read_pos`, `count` and
`remaining` at loop exit. -/
def popLoop (capacity : Nat) (ring : List Int) :
    Nat → List Int → Nat → Nat → Nat → List Int × Nat × Nat × Nat
  | 0, dst, read_pos, count, remaining => (dst, read_pos, count, remaining)
  | fuel + 1, dst, read_pos, count, remaining =>
    if 0 < remaining then
      let space_to_end := capacity - read_pos
      let to_read := if remaining < space_to_end then remaining else space_to_end
      popLoop capacity ring fuel
        (dst ++ readBlock ring read_pos to_read)
        ((read_pos + to_read) % capacity)
        (count + to_read)
        (remaining - to_read)
    else (dst, read_pos, count, remaining)

/-- Result of `simcom_ring_pop`: the device afterwards, the returned count and
the samples written to `dst[0 .. count)`. -/
structure PopResult where
  adev : Ring
  count : Nat
  dst : List Int
  deriving DecidableEq, Repr

/-- `simcom_ring_pop(adev, dst, samples)`. -/
def simcom_ring_pop (adev : Ring) (samples : Nat) : PopResult :=
  if samples = 0 then { adev := adev, count := 0, dst := [] }
  else
    let capacity := adev.simcom_mic_ring_size
    let available := popAvailable adev
    let available := if samples < available then samples else available
    let lp := popLoop capacity adev.simcom_mic_ring available [] adev.simcom_mic_ring_read 0 available
    { adev := { adev with simcom_mic_ring_read := lp.2.1, simcom_mic_ring_full := false }
      count := lp.2.2.1
      dst := lp.1 }

/-! ## Interleavings of pushes and pops -/

/-- One call on the ring: the producer pushes a buffer, or the consumer asks
for a number of samples. -/
inductive RingOp where
  | push (src : List Int)
  | pop (samples : Nat)
  deriving DecidableEq, Repr

/-- Runs an interleaving; returns the final ring and the concatenation of the
pop outputs. -/
def runOps : Ring → List RingOp → Ring × List Int
  | adev, [] => (adev, [])
  | adev, RingOp.push src :: ops => runOps (simcom_ring_push adev src src.length) ops
  | adev, RingOp.pop samples :: ops =>
    let r := simcom_ring_pop adev samples
    let rest := runOps r.adev ops
    (rest.1, r.dst ++ rest.2)

/-- Concatenation of the push inputs of an interleaving, in order. -/
def pushedSamples : List RingOp → List Int
  | [] => []
  | RingOp.push src :: ops => src ++ pushedSamples ops
  | RingOp.pop _ :: ops => pushedSamples ops

/-- Number of samples pushed, not yet popped and not overwritten (the ring
keeps at most `capacity` of them), following the words of the specification:
a push of `n` adds `n` up to the capacity, a pop removes what it returned, and
the recovery of `simcom_ring_push` drops everything. -/
def unreadAfter (capacity : Nat) : Ring → Nat → List RingOp → Nat
  | _, u, [] => u
  | adev, u, RingOp.push src :: ops =>
    let a := simcom_ring_push adev src src.length
    let u1 := if src.length = 0 then u else min capacity (u + src.length)
    let u2 := if a.ring_recovery_counter = adev.ring_recovery_counter then u1 else 0
    unreadAfter capacity a u2 ops
  | adev, u, RingOp.pop samples :: ops =>
    let r := simcom_ring_pop adev samples
    unreadAfter capacity r.adev (u - r.count) ops



/-- The write index, advancing by `samples` slots one at a time modulo the
capacity, reaches the read index at some step: the producer reaches or passes
the consumer during this push. -/
def overtakes (adev : Ring) (samples : Nat) : Prop :=
  ∃ i, 1 ≤ i ∧ i ≤ samples ∧
    (adev.simcom_mic_ring_write + i) % adev.simcom_mic_ring_size = adev.simcom_mic_ring_read

/-- Successive `simcom_ring_push` calls with no pop in between, one per buffer. -/
def pushAll (adev : Ring) (srcs : List (List Int)) : Ring :=
  srcs.foldl (fun a src => simcom_ring_push a src src.length) adev

/-- What the ring of capacity `capacity` looks like after the samples `stream`
were pushed from reset with no pop: the write index is the stream length
modulo the capacity, every slot written during the last `capacity` samples
holds the newest sample written to it, a set full flag comes with
`read = write` and at least `capacity` samples pushed, and the read index is
still 0 unless at least `capacity` samples were pushed. -/
def PushedInv (capacity : Nat) (stream : List Int) (adev : Ring) : Prop :=
  adev.simcom_mic_ring_size = capacity ∧
  adev.simcom_mic_ring.length = capacity ∧
  adev.simcom_mic_ring_write = stream.length % capacity ∧
  (∀ j, j < stream.length → stream.length ≤ j + capacity →
    adev.simcom_mic_ring.getD (j % capacity) 0 = stream.getD j 0) ∧
  (adev.simcom_mic_ring_full = true →
    adev.simcom_mic_ring_read = adev.simcom_mic_ring_write ∧ capacity ≤ stream.length) ∧
  (adev.simcom_mic_ring_read = 0 ∨ capacity ≤ stream.length)

/-! ## `double` arithmetic (IEEE 754 binary64)

A finite `double` is modelled by its value, a rational number.  An arithmetic
operation of the code on `double` operands is the exact operation followed by
`roundDouble`: rounding to the nearest `double`, ties to the even significand,
the default rounding mode.  Overflow to infinity is not modelled; every
`double` of the code is bounded by a frame count plus a step, far below
`2 ^ 1024`. -/

/-- Nearest integer, a tie going to the even one. -/
def roundNearestEven (x : ℚ) : Int :=
  if x - ⌊x⌋ < 1 / 2 then ⌊x⌋
  else if 1 / 2 < x - ⌊x⌋ then ⌊x⌋ + 1
  else if ⌊x⌋ % 2 = 0 then ⌊x⌋ else ⌊x⌋ + 1

/-- Position of the leading binary digit of `n`: `floor (log2 n)`, 0 for
`n = 0`; `fuel` bounds the number of halvings. -/
def log2Fuel : Nat → Nat → Nat
  | 0, _ => 0
  | fuel + 1, n => if n < 2 then 0 else log2Fuel fuel (n / 2) + 1

/-- Binary exponent of a rational `x ≠ 0`: the `e` with
`2 ^ e ≤ |x| < 2 ^ (e + 1)`. -/
def binExp (x : ℚ) : Int :=
  let e0 : Int := (log2Fuel x.num.natAbs x.num.natAbs : Int) - (log2Fuel x.den x.den : Int)
  if (2 : ℚ) ^ e0 ≤ |x| then e0 else e0 - 1

/-- Exponent of the unit in the last place of the `double`s around `x`: 52
below the binary exponent (53 significant bits), and `-1074` in the subnormal
range. -/
def ulpExp (x : ℚ) : Int := max (binExp x - 52) (-1074)

/-- The `double` nearest to `x`. -/
def roundDouble (x : ℚ) : ℚ := roundNearestEven (x / 2 ^ ulpExp x) * 2 ^ ulpExp x

/-! ## Downmix and rate conversion (`simcom_voice_process_and_push`)

`size_t` is 64 bits wide.  The pointer arguments are present (both callers
pass the addresses of their own variables); `mono_ok` and `down_ok` say
whether `simcom_voice_ensure_buffer` succeeded for the mono and for the
downsample buffer. -/

/-- Conversion of an integer to a signed 32-bit value (two's complement). -/
def wrapS32 (x : Int) : Int := (x + 2 ^ 31) % 2 ^ 32 - 2 ^ 31

/-- Conversion of an integer to `int16_t` (two's complement). -/
def wrapS16 (x : Int) : Int := (x + 2 ^ 15) % 2 ^ 16 - 2 ^ 15

/-- Conversion of a `double` to an integer: truncation toward zero. -/
def truncQ (x : ℚ) : Int := if 0 ≤ x then ⌊x⌋ else ⌈x⌉

/-- The inner `for (ch = 0; ch < channels; ++ch) sum += src[f * channels + ch]`
loop on an `int32_t` accumulator; `k` channels remain, `ch` is the next one. -/
def channelSum (src : List Int) (f channels : Nat) : Nat → Nat → Int → Int
  | 0, _, sum => sum
  | k + 1, ch, sum =>
    channelSum src f channels k (ch + 1) (wrapS32 (sum + src.getD (f * channels + ch) 0))

/-- The value stored to `(*mono_buf)[f]`: `(int16_t)(sum / (int32_t)channels)`,
with the truncating division of C. -/
def monoSample (src : List Int) (channels f : Nat) : Int :=
  wrapS16 (Int.tdiv (channelSum src f channels channels 0 0) (wrapS32 channels))

/-- The downmix loop over the frames: the contents of `*mono_buf`. -/
def downmix (src : List Int) (frames channels : Nat) : List Int :=
  (List.range frames).map (monoSample src channels)

/-- `if (channels == 0) channels = 1;`. -/
def usedChannels (channels : Nat) : Nat := if channels = 0 then 1 else channels

/-- The mono sequence `mono_src` the rate conversion reads: the downmix buffer
when `channels > 1` and the buffer could be allocated, otherwise `src` itself. -/
def monoStage (mono_ok : Bool) (src : List Int) (frames channels : Nat) : List Int :=
  if 1 < channels ∧ mono_ok = true then downmix src frames channels else src

/-- `effective_rate = rate ? rate : 8000`. -/
def effective_rate (rate : Nat) : Nat := if rate ≠ 0 then rate else 8000

/-- `max_out = (size_t)(((uint64_t)frames * 8000 + effective_rate - 1) / effective_rate + 8)`. -/
def maxOut (frames effective_rate : Nat) : Nat :=
  ((frames * 8000 + effective_rate - 1) % 2 ^ 64 / effective_rate + 8) % 2 ^ 64

/-- Body of the conversion loop at position `pos`: the value stored to
`(*downsample_buf)[out_count]`.  `idx = (size_t)pos`,
`frac = pos - (double)idx`, and the product `(sample1 - sample0) * frac` is a
`double` product converted to `int32_t`. -/
def interpAt (mono_src : List Int) (frames : Nat) (pos : ℚ) : Int :=
  let idx := ⌊pos⌋.toNat
  let frac := roundDouble (pos - roundDouble (idx : ℚ))
  let sample0 := mono_src.getD idx 0
  let sample1 := if idx + 1 < frames then mono_src.getD (idx + 1) 0 else sample0
  let interpolated := wrapS32 (sample0 +
    wrapS32 (truncQ (roundDouble (((sample1 - sample0 : Int) : ℚ) * frac))))
  wrapS16 interpolated

/-- The `while (pos < frames && out_count < max_out)` loop; `out` is
`(*downsample_buf)[0 .. out_count)`; `frames` is converted to `double` for the
comparison and `pos += step` is a `double` addition.  Returns `pos` and `out`
at loop exit. -/
def resampleLoop (mono_src : List Int) (frames max_out : Nat) (step : ℚ) :
    Nat → ℚ → List Int → ℚ × List Int
  | 0, pos, out => (pos, out)
  | fuel + 1, pos, out =>
    if pos < roundDouble (frames : ℚ) ∧ out.length < max_out then
      resampleLoop mono_src frames max_out step fuel (roundDouble (pos + step))
        (out ++ [interpAt mono_src frames pos])
    else (pos, out)

/-- The conversion state a caller keeps between calls: `*resample_pos`,
`*last_rate`, `*last_channels`. -/
structure VoiceState where
  resample_pos : ℚ
  last_rate : Nat
  last_channels : Nat
  deriving DecidableEq

/-- Outcome of one call: the caller's conversion state, the ring, and the
arguments `push_samples`, `push_frames` of the final `simcom_ring_push` (no
push happens when `push_frames` is 0). -/
structure ProcResult where
  st : VoiceState
  adev : Ring
  push_samples : List Int
  push_frames : Nat

/-- The samples handed to the ring: `push_samples[0 .. push_frames)`. -/
def ProcResult.pushed (r : ProcResult) : List Int :=
  readBlock r.push_samples 0 r.push_frames

/-- `simcom_voice_process_and_push`. -/
def simcom_voice_process_and_push (voice_active mono_ok down_ok : Bool) (adev : Ring)
    (st : VoiceState) (src : List Int) (frames channels rate : Nat) : ProcResult :=
  if voice_active = false ∨ frames = 0 then
    { st := st, adev := adev, push_samples := src, push_frames := 0 }
  else
    let channels := usedChannels channels
    let effective_rate := effective_rate rate
    let st1 : VoiceState :=
      if effective_rate ≠ st.last_rate ∨ channels ≠ st.last_channels then
        { resample_pos := 0, last_rate := effective_rate, last_channels := channels }
      else st
    let mono_src := monoStage mono_ok src frames channels
    let conv : VoiceState × List Int × Nat :=
      if effective_rate ≠ 8000 then
        if down_ok = true then
          let max_out := maxOut frames effective_rate
          let step : ℚ := roundDouble ((effective_rate : ℚ) / 8000)
          let lp := resampleLoop mono_src frames max_out step max_out st1.resample_pos []
          let pos := lp.1
          ({ st1 with
              resample_pos :=
                if roundDouble (frames : ℚ) ≤ pos then
                  roundDouble (pos - roundDouble (frames : ℚ))
                else pos },
            lp.2, lp.2.length)
        else (st1, mono_src, 0)
      else (st1, mono_src, frames)
    { st := conv.1
      adev := if 0 < conv.2.2 then simcom_ring_push adev conv.2.1 conv.2.2 else adev
      push_samples := conv.2.1
      push_frames := conv.2.2 }

/-- A capture buffer cut into `chunks` consecutive calls of `frames` frames
each, the conversion state and the ring carried from call to call.  Returns
the final state and ring and the concatenation of the pushed samples. -/
def processChunks (voice_active mono_ok down_ok : Bool) (frames channels rate : Nat) :
    Nat → Ring → VoiceState → List Int → VoiceState × Ring × List Int
  | 0, adev, st, _ => (st, adev, [])
  | chunks + 1, adev, st, src =>
    let r := simcom_voice_process_and_push voice_active mono_ok down_ok adev st src
      frames channels rate
    let rest := processChunks voice_active mono_ok down_ok frames channels rate chunks
      r.adev r.st (src.drop (frames * usedChannels channels))
    (rest.1, rest.2.1, r.pushed ++ rest.2.2)

/-- Number of positions at which two sample sequences differ. -/
def diffCount (xs ys : List Int) : Nat :=
  ((xs.zip ys).filter (fun p => decide (p.1 ≠ p.2))).length

/-- Number of positions `p0 + i * step`, `i = 0, 1, …`, that lie below
`frames`. -/
def emitCount (frames : Nat) (step p0 : ℚ) : Nat := ⌈((frames : ℚ) - p0) / step⌉₊

/-- Linear interpolation between two samples at a fraction, the product
truncated toward zero: `sample0 + (int)((sample1 - sample0) * frac)`. -/
def lerp (sample0 sample1 : Int) (frac : ℚ) : Int :=
  sample0 + truncQ (((sample1 - sample0 : Int) : ℚ) * frac)

/-- The sample the specification asks for at position `pos`: the linear
interpolation of `mono[⌊pos⌋]` and `mono[⌊pos⌋ + 1]` at the fraction
`pos - ⌊pos⌋`; at the last frame, where `mono[⌊pos⌋ + 1]` does not exist, the
last sample is held. -/
def lerpAt (mono : List Int) (frames : Nat) (pos : ℚ) : Int :=
  lerp (mono.getD ⌊pos⌋₊ 0)
    (if ⌊pos⌋₊ + 1 < frames then mono.getD (⌊pos⌋₊ + 1) 0 else mono.getD ⌊pos⌋₊ 0)
    (pos - (⌊pos⌋₊ : ℚ))

/-- The body of the conversion loop in exact arithmetic: what `interpAt`
computes when neither the subtraction nor the product is rounded. -/
def interpExact (mono_src : List Int) (frames : Nat) (pos : ℚ) : Int :=
  let idx := ⌊pos⌋.toNat
  let frac := pos - (idx : ℚ)
  let sample0 := mono_src.getD idx 0
  let sample1 := if idx + 1 < frames then mono_src.getD (idx + 1) 0 else sample0
  let interpolated := wrapS32 (sample0 + wrapS32 (truncQ (((sample1 - sample0 : Int) : ℚ) * frac)))
  wrapS16 interpolated

/-- Output of the conversion loop in exact arithmetic, in closed form: one
interpolated sample per position `p0 + i * step` below `frames`. -/
def convOut (mono_src : List Int) (frames : Nat) (step p0 : ℚ) : List Int :=
  (List.range (emitCount frames step p0)).map
    (fun i : Nat => interpExact mono_src frames (p0 + i * step))

/-- The position of a conversion loop after `k` passes: `p0` and then `k`
additions of `step` in `double` arithmetic. -/
def posAfter (step p0 : ℚ) : Nat → ℚ
  | 0 => p0
  | k + 1 => roundDouble (posAfter step p0 k + step)

/-- A non-negative multiple of `1 / 64` below `2 ^ 40`.  Such a number is a
`double`, and sums and differences of such numbers are computed without
rounding. -/
def OnGrid (p : ℚ) : Prop := ∃ a : Nat, a < 2 ^ 46 ∧ p = (a : ℚ) / 64

/-! ## Call-mode control: `adev_set_mode` and the voice usecase

The control side of `struct audio_device`: the stored mode, the flags of the
voice pipeline, the cached `AT+CPCMREG` state and the usecase list.  What the
code asks of the outside world (the AT port of the modem, `calloc`, the sound
card probe, `pcm_open`, `pcm_prepare`, `pcm_start`, `pthread_create`) is a
record of fixed answers, `Externals`.  Route and mixer programming and the log
calls change nothing the code reads back and are left out; the capture thread
itself, once created, is not run here. -/

/-- `AUDIO_MODE_NORMAL` of the Android audio headers. -/
def AUDIO_MODE_NORMAL : Int := 0

/-- `AUDIO_MODE_IN_CALL` of the Android audio headers. -/
def AUDIO_MODE_IN_CALL : Int := 2

/-- `AUDIO_MODE_IN_COMMUNICATION` of the Android audio headers. -/
def AUDIO_MODE_IN_COMMUNICATION : Int := 3

/-- `USECASE_SIMCOM_VOICE_CALL` of `audio_usecase_t`. -/
def USECASE_SIMCOM_VOICE_CALL : Int := 2

/-- `USECASE_PRIMARY_PLAYBACK` of `audio_usecase_t`. -/
def USECASE_PRIMARY_PLAYBACK : Int := 0

/-- `USECASE_TYPE_VOICE_CALL` of `usecase_type_t`. -/
def USECASE_TYPE_VOICE_CALL : Int := 2

/-- `USECASE_TYPE_PCM_PLAYBACK` of `usecase_type_t`. -/
def USECASE_TYPE_PCM_PLAYBACK : Int := 0

/-- `SND_IN_SOUND_CARD_UNKNOWN`. -/
def SND_IN_SOUND_CARD_UNKNOWN : Int := -1

/-- `EIO`. -/
def EIO : Int := 5

/-- `EAGAIN`. -/
def EAGAIN : Int := 11

/-- `ENODEV`. -/
def ENODEV : Int := 19

/-- `ENOMEM`. -/
def ENOMEM : Int := 12

/-- `EBUSY`. -/
def EBUSY : Int := 16

/-- `EPIPE`. -/
def EPIPE : Int := 32

/-- An entry of `adev->usecase_list`: the `id` and `type` of
`struct audio_usecase` (the other members are written once and never read). -/
structure audio_usecase where
  id : Int
  type : Int
  deriving DecidableEq, Repr

/-- The members of `struct simcom_capture_stats`. -/
structure simcom_capture_stats where
  total_samples : Nat
  sum_abs : Nat
  max_abs : Int
  call_count : Nat
  zero_batches : Nat
  nonzero_batches : Nat
  consecutive_zero : Nat
  final_reported : Bool
  deriving DecidableEq, Repr

/-- The statistics after `memset(&adev->simcom_stats, 0, ...)`. -/
def simcom_stats_zero : simcom_capture_stats :=
  { total_samples := 0, sum_abs := 0, max_abs := 0, call_count := 0, zero_batches := 0,
    nonzero_batches := 0, consecutive_zero := 0, final_reported := false }

/-- The voice-call side of `struct audio_device`.  `mode` is the
`unsigned int` member; `mic_card` and `mic_device` are
`dev_in[SND_IN_SOUND_CARD_MIC]`; `ring_allocated` says that `simcom_mic_ring`
is not `NULL`, the ring members themselves are in `ring`; `simcom_voice_pcm`
is `none` for `NULL` and otherwise the handle. -/
structure AudioDevice where
  mode : Int
  mic_card : Int
  mic_device : Int
  usecase_list : List audio_usecase
  simcom_mic_route_active : Bool
  ring_allocated : Bool
  ring : Ring
  simcom_voice_active : Bool
  simcom_voice_pcm : Option Nat
  simcom_voice_thread_started : Bool
  simcom_voice_thread_stop : Bool
  simcom_voice_rate : Nat
  simcom_voice_channels : Nat
  simcom_voice_period_size : Nat
  simcom_mixer_configured : Bool
  simcom_mixer_card : Int
  simcom_cpcmreg_state : Bool
  simcom_stats : simcom_capture_stats
  deriving DecidableEq, Repr

/-- Answers of the outside world to the control code.
* `simcom_send_at_command cmd`: whether the command could be written to the
  modem port;
* `ring_calloc_ok`, `usecase_calloc_ok`: whether the two `calloc` calls return
  memory;
* `detected_mic`: card and device that `read_in_sound_card` finds for the
  microphone role, `none` when no card matches (the entry is then left as it
  was);
* `mixer_open_ok`: whether `mixer_open_legacy` returns a mixer;
* `debug_audio`: `simcom_debug_audio_enabled()`;
* `pcm_open card device`: `none` for a `NULL` handle, otherwise the handle and
  `pcm_is_ready` of it;
* `pcm_prepare_ok`, `pcm_start_ok`: whether the call returns 0;
* `pthread_create_ok`, and `errno` as read after a failed `pthread_create`. -/
structure Externals where
  simcom_send_at_command : String → Bool
  ring_calloc_ok : Bool
  usecase_calloc_ok : Bool
  detected_mic : Option (Int × Int)
  mixer_open_ok : Bool
  debug_audio : Bool
  pcm_open : Int → Int → Option (Nat × Bool)
  pcm_prepare_ok : Bool
  pcm_start_ok : Bool
  pthread_create_ok : Bool
  pthread_create_errno : Int

/-- The device as `adev_open` leaves it: `calloc` zeroes the structure, then
`adev_open_init` runs (`set_default_dev_info` marks every card unknown). -/
def adev_open_init : AudioDevice :=
  { mode := 0
    mic_card := SND_IN_SOUND_CARD_UNKNOWN
    mic_device := 0
    usecase_list := []
    simcom_mic_route_active := false
    ring_allocated := false
    ring := { simcom_mic_ring := [], simcom_mic_ring_size := 0, simcom_mic_ring_read := 0,
              simcom_mic_ring_write := 0, simcom_mic_ring_full := false,
              ring_overwrite_counter := 0, ring_recovery_counter := 0 }
    simcom_voice_active := false
    simcom_voice_pcm := none
    simcom_voice_thread_started := false
    simcom_voice_thread_stop := false
    simcom_voice_rate := 0
    simcom_voice_channels := 0
    simcom_voice_period_size := 0
    simcom_mixer_configured := false
    simcom_mixer_card := 0
    simcom_cpcmreg_state := false
    simcom_stats := simcom_stats_zero }

/-- `simcom_update_cpcmreg(adev, enable)`: the device, the returned flag and
the commands handed to `simcom_send_at_command`. -/
def simcom_update_cpcmreg (ext : Externals) (adev : AudioDevice) (enable : Bool) :
    AudioDevice × Bool × List String :=
  if adev.simcom_cpcmreg_state = enable then (adev, true, [])
  else
    let cmd := if enable then "AT+CPCMREG=1" else "AT+CPCMREG=0"
    let ok := ext.simcom_send_at_command cmd
    (if ok then { adev with simcom_cpcmreg_state := enable } else adev, ok, [cmd])

/-- `simcom_voice_usecase_present`. -/
def simcom_voice_usecase_present (adev : AudioDevice) : Bool :=
  adev.usecase_list.any (fun usecase => decide (usecase.id = USECASE_SIMCOM_VOICE_CALL))

/-- `simcom_voice_ensure_ring` on the device: the device and the return value. -/
def simcom_voice_ensure_ring (ext : Externals) (adev : AudioDevice) : AudioDevice × Int :=
  ({ adev with
      ring_allocated :=
        if adev.ring_allocated = false then ext.ring_calloc_ok else adev.ring_allocated
      ring :=
        if adev.ring_allocated = false then
          if ext.ring_calloc_ok then
            simcom_ring_reset
              { adev.ring with
                simcom_mic_ring := List.replicate SIMCOM_MIC_RING_CAPACITY_SAMPLES 0
                simcom_mic_ring_size := SIMCOM_MIC_RING_CAPACITY_SAMPLES }
          else { adev.ring with simcom_mic_ring_size := 0 }
        else adev.ring },
    if adev.ring_allocated = false ∧ ext.ring_calloc_ok = false then -ENOMEM else 0)

/-- `simcom_ring_reset` on the device: nothing without ring storage. -/
def simcom_ring_reset_dev (adev : AudioDevice) : AudioDevice :=
  { adev with
    ring := if adev.ring_allocated = false then adev.ring else simcom_ring_reset adev.ring }

/-- `simcom_configure_mic_controls` as far as the device remembers it. -/
def simcom_configure_mic_controls (ext : Externals) (adev : AudioDevice) (mic_card : Int) :
    AudioDevice :=
  let skipped : Bool :=
    decide (mic_card < 0) ||
      (adev.simcom_mixer_configured && decide (adev.simcom_mixer_card = mic_card)) ||
      !ext.mixer_open_ok
  { adev with
    simcom_mixer_configured := if skipped then adev.simcom_mixer_configured else true
    simcom_mixer_card := if skipped then adev.simcom_mixer_card else mic_card }

/-- The loop of `simcom_voice_start_capture` over `device_candidates`, given
as pairs of index and candidate: the handle that opened ready and its device,
or `none` when `pcm` is `NULL` after the loop. -/
def openCapture (ext : Externals) (mic_card final_device : Int) :
    List (Nat × Int) → Option (Nat × Int)
  | [] => none
  | (idx, candidate) :: rest =>
    if candidate < 0 then openCapture ext mic_card final_device rest
    else if 0 < idx ∧ candidate = final_device then openCapture ext mic_card final_device rest
    else
      match ext.pcm_open mic_card candidate with
      | some (pcm, true) => some (pcm, candidate)
      | _ => openCapture ext mic_card final_device rest

/-- The microphone entry `dev_in[SND_IN_SOUND_CARD_MIC]` as
`simcom_voice_start_capture` has it before opening: `read_in_sound_card`
overwrites it when a card matches, and an unknown card is forced to card 2
(with a negative device forced to 0). -/
def probeMic (ext : Externals) (mic_card mic_device : Int) : Int × Int :=
  let found : Int × Int :=
    match ext.detected_mic with
    | some (card, device) => (card, device)
    | none => (mic_card, mic_device)
  if found.1 = SND_IN_SOUND_CARD_UNKNOWN then (2, if found.2 < 0 then 0 else found.2)
  else found

/-- `simcom_voice_start_capture`: the device and the return value. -/
def simcom_voice_start_capture (ext : Externals) (adev : AudioDevice) : AudioDevice × Int :=
  if adev.simcom_voice_thread_started then (adev, 0)
  else
    let mic := probeMic ext adev.mic_card adev.mic_device
    let a1 : AudioDevice := { adev with mic_card := mic.1, mic_device := mic.2 }
    let mic_card := a1.mic_card
    let mic_device := a1.mic_device
    if mic_card = SND_IN_SOUND_CARD_UNKNOWN then (a1, -ENODEV)
    else
      let a2 : AudioDevice := { a1 with simcom_mic_route_active := true }
      let a3 := simcom_configure_mic_controls ext a2 mic_card
      match openCapture ext mic_card mic_device [(0, mic_device), (1, 0), (2, 1)] with
      | none => ({ a3 with simcom_mic_route_active := false }, - EIO)
      | some (pcm, final_device) =>
        let a4 : AudioDevice :=
          { a3 with
            mic_device := final_device
            simcom_voice_pcm := some pcm
            simcom_voice_rate := 48000
            simcom_voice_channels := 2
            simcom_voice_period_size := 240 }
        if ext.pcm_prepare_ok = false then
          ({ a4 with simcom_voice_pcm := none, simcom_mic_route_active := false }, - EIO)
        else if ext.pcm_start_ok = false then
          ({ a4 with simcom_voice_pcm := none, simcom_mic_route_active := false }, - EIO)
        else
          let a5 : AudioDevice := { a4 with simcom_voice_thread_stop := false }
          if ext.pthread_create_ok = false then
            ({ a5 with simcom_voice_pcm := none, simcom_voice_thread_stop := true },
              -ext.pthread_create_errno)
          else ({ a5 with simcom_voice_thread_started := true }, 0)

/-- `simcom_voice_stop_capture`. -/
def simcom_voice_stop_capture (adev : AudioDevice) : AudioDevice :=
  { adev with
    simcom_voice_thread_started :=
      if adev.simcom_voice_thread_started then false else adev.simcom_voice_thread_started
    simcom_voice_thread_stop :=
      if adev.simcom_voice_thread_started then false else adev.simcom_voice_thread_stop
    simcom_voice_pcm := if adev.simcom_voice_pcm.isSome then none else adev.simcom_voice_pcm
    simcom_mic_route_active :=
      if adev.simcom_mic_route_active then false else adev.simcom_mic_route_active
    simcom_voice_rate := 0
    simcom_voice_channels := 0
    simcom_voice_period_size := 0 }

/-- `simcom_voice_start_usecase`. -/
def simcom_voice_start_usecase (ext : Externals) (adev : AudioDevice) : AudioDevice :=
  if adev.simcom_voice_active then adev
  else
    let e := simcom_voice_ensure_ring ext adev
    if e.2 ≠ 0 then e.1
    else
      let a1 := simcom_ring_reset_dev e.1
      let a2 : AudioDevice :=
        { a1 with
          simcom_stats := simcom_stats_zero
          simcom_mixer_configured := false
          simcom_mixer_card := -1
          simcom_voice_active := true }
      let c := simcom_voice_start_capture ext a2
      if c.2 ≠ 0 then
        simcom_voice_stop_capture { c.1 with simcom_voice_active := false }
      else if simcom_voice_usecase_present c.1 = false then
        if ext.usecase_calloc_ok then
          { c.1 with
            usecase_list := c.1.usecase_list ++
              [{ id := USECASE_SIMCOM_VOICE_CALL, type := USECASE_TYPE_VOICE_CALL }] }
        else c.1
      else c.1

/-- `simcom_log_capture_summary` as far as it writes to the device. -/
def simcom_log_capture_summary (ext : Externals) (adev : AudioDevice) : AudioDevice :=
  { adev with
    simcom_stats :=
      { adev.simcom_stats with
        final_reported :=
          if ext.debug_audio = false then adev.simcom_stats.final_reported
          else if adev.simcom_stats.final_reported then adev.simcom_stats.final_reported
          else true } }

/-- The `list_for_each_safe` loop of `simcom_voice_stop_usecase`: removes the
first entry whose id is `USECASE_SIMCOM_VOICE_CALL`. -/
def removeVoiceUsecase : List audio_usecase → List audio_usecase
  | [] => []
  | usecase :: rest =>
    if usecase.id = USECASE_SIMCOM_VOICE_CALL then rest
    else usecase :: removeVoiceUsecase rest

/-- `simcom_voice_stop_usecase`. -/
def simcom_voice_stop_usecase (ext : Externals) (adev : AudioDevice) : AudioDevice :=
  if adev.simcom_voice_active = false then adev
  else
    let a1 : AudioDevice := { adev with simcom_voice_active := false }
    let a2 := simcom_ring_reset_dev a1
    let a3 := simcom_log_capture_summary ext a2
    let a4 : AudioDevice := { a3 with simcom_cpcmreg_state := false }
    let a5 := simcom_voice_stop_capture a4
    { a5 with usecase_list := removeVoiceUsecase a5.usecase_list }

/-- Outcome of `adev_set_mode`: the device, the return value and the commands
handed to `simcom_send_at_command` during the call, in order. -/
structure SetModeResult where
  adev : AudioDevice
  ret : Int
  at_commands : List String
  deriving DecidableEq, Repr

/-- `adev_set_mode(dev, mode)`.  The stored mode is an `unsigned int`, so the
assignment `adev->mode = mode` keeps the value modulo `2 ^ 32`. -/
def adev_set_mode (ext : Externals) (adev : AudioDevice) (mode : Int) : SetModeResult :=
  let target_call : Bool :=
    decide (mode = AUDIO_MODE_IN_CALL ∨ mode = AUDIO_MODE_IN_COMMUNICATION)
  let current_call : Bool :=
    decide (adev.mode = AUDIO_MODE_IN_CALL ∨ adev.mode = AUDIO_MODE_IN_COMMUNICATION)
  if target_call = true ∧ current_call = false then
    let u := simcom_update_cpcmreg ext adev true
    let a := simcom_voice_start_usecase ext u.1
    { adev := { a with mode := mode % 2 ^ 32 }, ret := 0, at_commands := u.2.2 }
  else if target_call = false ∧ current_call = true then
    if adev.simcom_voice_active = true ∨ adev.simcom_voice_thread_started = true ∨
        adev.simcom_mic_route_active = true ∨ adev.simcom_voice_pcm.isSome = true then
      { adev := adev, ret := 0, at_commands := [] }
    else
      let u := simcom_update_cpcmreg ext adev false
      let a := simcom_voice_stop_usecase ext u.1
      { adev := { a with mode := mode % 2 ^ 32 }, ret := 0, at_commands := u.2.2 }
  else { adev := { adev with mode := mode % 2 ^ 32 }, ret := 0, at_commands := [] }

/-- A run of `adev_set_mode` calls: the final device and all commands sent. -/
def setModes (ext : Externals) : AudioDevice → List Int → AudioDevice × List String
  | adev, [] => (adev, [])
  | adev, mode :: rest =>
    let r := adev_set_mode ext adev mode
    let t := setModes ext r.adev rest
    (t.1, r.at_commands ++ t.2)

/-- An outside world in which everything succeeds: the AT port accepts every
command, memory is available, the microphone is card 2 device 0 and opens
ready as handle 1, the thread starts. -/
def allOk : Externals :=
  { simcom_send_at_command := fun _ => true
    ring_calloc_ok := true
    usecase_calloc_ok := true
    detected_mic := some (2, 0)
    mixer_open_ok := true
    debug_audio := false
    pcm_open := fun _ _ => some (1, true)
    pcm_prepare_ok := true
    pcm_start_ok := true
    pthread_create_ok := true
    pthread_create_errno := 0 }

/-! ## Playback: `start_output_stream`, `do_out_standby`, `out_write`

Several output streams share one device.  A stream is named by a number (its
address in the C code).  What `adev_open_output_stream` fixes for a stream and
no function modelled here writes (`output_direct`, `output_direct_mode`, the
PCM configuration) and the table `adev->outputs` are held in `Opened`; what the
functions write is in `stream_out` and `Hal`.

The answers of tinyalsa, of the allocator and of the platform are in `OutEnv`.
Every call of an external operation reads its answer at the current `tick` of
the state and advances the tick, so successive calls may answer differently in
any way.  `errno` is the one left by the latest `pcm_write`.  Calls run one at
a time: the locks are not modelled, and the only activity of another thread
that is let in is what the capture worker pushes to the ring while the uplink
writer waits on the condition variable (`capture`).  Route and mixer
programming, the mute property and the log calls are left out.  The build
switches `USE_DRM`, `RK3288`, `AUDIO_3A` are taken as not defined, `BT_AP_SCO`
is a field of the environment. -/

/-- `SNDRV_CARDS`. -/
def SNDRV_CARDS : Int := 8

/-- `SND_OUT_SOUND_CARD_UNKNOWN`. -/
def SND_OUT_SOUND_CARD_UNKNOWN : Int := -1

/-- `SND_OUT_SOUND_CARD_SPEAKER`. -/
def SND_OUT_SOUND_CARD_SPEAKER : Nat := 0

/-- `SND_OUT_SOUND_CARD_HDMI`. -/
def SND_OUT_SOUND_CARD_HDMI : Nat := 1

/-- `SND_OUT_SOUND_CARD_SPDIF`. -/
def SND_OUT_SOUND_CARD_SPDIF : Nat := 2

/-- `SND_OUT_SOUND_CARD_BT`. -/
def SND_OUT_SOUND_CARD_BT : Nat := 3

/-- `SOUND_CARD_HDMI`, index into `adev->owner`. -/
def SOUND_CARD_HDMI : Nat := 0

/-- `SOUND_CARD_SPDIF`, index into `adev->owner`. -/
def SOUND_CARD_SPDIF : Nat := 1

/-- `SOUND_CARD_BT`, index into `adev->owner`. -/
def SOUND_CARD_BT : Nat := 2

/-- `OUTPUT_HDMI_MULTI`, index into `adev->outputs`. -/
def OUTPUT_HDMI_MULTI : Nat := 2

/-- `LPCM` of the direct output modes. -/
def LPCM : Nat := 0

/-- `NLPCM` of the direct output modes. -/
def NLPCM : Nat := 1

/-- `HBR` of the direct output modes. -/
def HBR : Nat := 2

/-- `PCM_FORMAT_S16_LE` of tinyalsa. -/
def PCM_FORMAT_S16_LE : Nat := 0

/-- `PCM_FORMAT_S24_LE` of tinyalsa. -/
def PCM_FORMAT_S24_LE : Nat := 3

/-- The bits of `out->device` that the code tests: `AUDIO_DEVICE_OUT_SPEAKER`,
wired headset or headphone, `AUDIO_DEVICE_OUT_AUX_DIGITAL`,
`AUDIO_DEVICE_OUT_SPDIF`, and any bit of `AUDIO_DEVICE_OUT_ALL_SCO`. -/
structure OutDevices where
  speaker : Bool
  wired : Bool
  aux_digital : Bool
  spdif : Bool
  sco : Bool
  deriving DecidableEq, Repr

/-- The members of `struct stream_out` that are set when the stream is opened
and not written afterwards. -/
structure OutCfg where
  output_direct : Bool
  output_direct_mode : Nat
  config_rate : Nat
  config_channels : Nat
  config_format : Nat
  deriving DecidableEq, Repr

/-- What opening the streams fixed: `adev->outputs[type]` and the
configuration of each stream.  The entries of `outputs` are different streams
(`adev_open_output_stream` puts each new stream into a free entry). -/
structure Opened where
  outputs : Nat → Option Nat
  cfg : Nat → OutCfg

/-- The members of `struct stream_out` that the playback functions write.
`pcm i` says that `out->pcm[i]` is not `NULL`; `simcom_buffer` is `none` for
`NULL`; `resampler` says that the pointer is not `NULL`. -/
structure stream_out where
  pcm : Nat → Bool
  standby : Bool
  device : OutDevices
  disabled : Bool
  written : Nat
  nframes : Nat
  usecase : Int
  usecase_type : Int
  resampler : Bool
  simcom_buffer : Option (List Int)
  simcom_buffer_used : Nat
  simcom_pcm_started : Bool
  simcom_periods_written : Int

/-- The device with its streams: the voice-call side, `adev->owner`, the card
numbers `adev->dev_out[i].card`, the streams, and the tick of the external
calls. -/
structure Hal where
  adev : AudioDevice
  owner : Nat → Option Nat
  dev_out_card : Nat → Int
  streams : Nat → stream_out
  tick : Nat

/-- Result of one `pcm_write`: the return value and `errno` after it. -/
structure WriteOutcome where
  ret : Int
  errno : Int
  deriving DecidableEq, Repr

/-- Answers of the outside world to the playback code.
* `ext`: the answers to the voice-call control code;
* `hasExtCodec`: what `hasExtCodec()` returns on this platform;
* `bt_is_simcom`: whether the id of the BT card read from `/proc/asound`
  contains `SIMCOM` or `simcom`;
* `BT_AP_SCO`: the build switch;
* `probe_out t i`: the card `read_out_sound_card` finds for role `i`, `none`
  when no card matches (the entry is then left as it was);
* `pcm_open t`: `none` for a `NULL` handle, otherwise `pcm_is_ready` of it;
* `pcm_is_ready t`, `pcm_prepare t`, `pcm_write t`: the results of the calls;
* `malloc_ok t`, `resampler_ok t`: whether `malloc`, `create_resampler`
  succeed;
* `resampled t`: the frame count `resample_from_input` reports;
* `capture t`: the samples the capture worker pushes to the ring while the
  uplink writer waits;
* `garbage t`: the contents of uninitialised memory. -/
structure OutEnv where
  ext : Externals
  hasExtCodec : Bool
  bt_is_simcom : Bool
  BT_AP_SCO : Bool
  probe_out : Nat → Nat → Option Int
  pcm_open : Nat → Option Bool
  pcm_is_ready : Nat → Bool
  pcm_prepare : Nat → Int
  pcm_write : Nat → WriteOutcome
  malloc_ok : Nat → Bool
  resampler_ok : Nat → Bool
  resampled : Nat → Nat
  capture : Nat → List Int
  garbage : Nat → List Int

/-- One `pcm_write` call as the outside sees it: the calling stream, the index
`card` of the PCM in `out->pcm`, the entry of `adev->owner` for that card at
the time of the call (`none` for the speaker, which has no entry), the byte
count, whether the call is made on the SIMCOM path (the BT card identified as
the modem), and for those calls the samples handed over. -/
structure PcmWrite where
  stream : Nat
  card : Nat
  owner : Option Nat
  bytes : Nat
  simcom : Bool
  samples : List Int
  deriving DecidableEq, Repr

/-- `is_bitstream`. -/
def is_bitstream (out : OutCfg) : Bool :=
  out.output_direct && (decide (out.output_direct_mode = HBR) ||
    decide (out.output_direct_mode = NLPCM))

/-- `is_multi_pcm`. -/
def is_multi_pcm (out : OutCfg) : Bool :=
  out.output_direct && decide (out.output_direct_mode = LPCM) &&
    decide (2 < out.config_channels)

/-- The entry of `adev->owner` that guards `out->pcm[card]`. -/
def ownerAt (hal : Hal) (card : Nat) : Option Nat :=
  if card = SND_OUT_SOUND_CARD_HDMI then hal.owner SOUND_CARD_HDMI
  else if card = SND_OUT_SOUND_CARD_SPDIF then hal.owner SOUND_CARD_SPDIF
  else if card = SND_OUT_SOUND_CARD_BT then hal.owner SOUND_CARD_BT
  else none

/-- Assignment to `*out` for the stream `x`. -/
def setStream (hal : Hal) (x : Nat) (out : stream_out) : Hal :=
  { hal with streams := Function.update hal.streams x out }

/-- Assignment `out->pcm[i] = ...` for the stream `x`. -/
def setPcm (hal : Hal) (x i : Nat) (open_ : Bool) : Hal :=
  setStream hal x { hal.streams x with pcm := Function.update (hal.streams x).pcm i open_ }

/-- Assignment `adev->owner[s] = ...`. -/
def setOwner (hal : Hal) (s : Nat) (o : Option Nat) : Hal :=
  { hal with owner := Function.update hal.owner s o }

/-! ### Standby -/

/-- The body of `do_out_standby` for a stream that is not in standby, without
the call of `force_non_hdmi_out_standby`. -/
def standbyBody (env : OutEnv) (hal : Hal) (x : Nat) : Hal :=
  let out := hal.streams x
  let h1 := setStream hal x
    { out with
      pcm := fun _ => false
      simcom_buffer := none
      simcom_buffer_used := if out.simcom_buffer.isSome then 0 else out.simcom_buffer_used
      simcom_pcm_started := false
      simcom_periods_written := 0
      standby := true
      nframes := 0 }
  { h1 with
    owner := fun s =>
      if s = SOUND_CARD_HDMI ∨ s = SOUND_CARD_SPDIF then
        if env.hasExtCodec = false ∧ h1.owner s = some x then none else h1.owner s
      else if s = SOUND_CARD_BT then
        if h1.owner s = some x then none else h1.owner s
      else h1.owner s }

/-- `do_out_standby` of a stream other than `outputs[OUTPUT_HDMI_MULTI]`. -/
def standbyOther (env : OutEnv) (hal : Hal) (x : Nat) : Hal :=
  if (hal.streams x).standby = false then standbyBody env hal x else hal

/-- `force_non_hdmi_out_standby`: `do_out_standby` on the streams of the other
three entries of `adev->outputs`. -/
def force_non_hdmi_out_standby (env : OutEnv) (op : Opened) (hal : Hal) : Hal :=
  [0, 1, 3].foldl
    (fun h type =>
      match op.outputs type with
      | some y => standbyOther env h y
      | none => h)
    hal

/-- `do_out_standby`. -/
def do_out_standby (env : OutEnv) (op : Opened) (hal : Hal) (x : Nat) : Hal :=
  if (hal.streams x).standby = false then
    if op.outputs OUTPUT_HDMI_MULTI = some x then
      -- the other streams are put in standby between `out->standby = true` and the
      -- release of the owner entries; they are different streams
      standbyBody env (force_non_hdmi_out_standby env op hal) x
    else standbyBody env hal x
  else hal

/-! ### Opening the cards -/

/-- `read_out_sound_card` as far as the card numbers go. -/
def read_out_sound_card (env : OutEnv) (hal : Hal) : Hal :=
  { hal with
    dev_out_card := fun i =>
      match env.probe_out hal.tick i with
      | some card => card
      | none => hal.dev_out_card i
    tick := hal.tick + 1 }

/-- `open_sound_card_policy`. -/
def open_sound_card_policy (op : Opened) (hal : Hal) (x : Nat) : Hal :=
  let out := hal.streams x
  if is_bitstream (op.cfg x) ∨ is_multi_pcm (op.cfg x) then hal
  else if (op.cfg x).config_rate = 44100 ∨ (op.cfg x).config_rate = 48000 then
    setStream hal x
      { out with
        device :=
          { out.device with
            speaker :=
              if hal.dev_out_card SND_OUT_SOUND_CARD_SPEAKER ≠ SND_OUT_SOUND_CARD_UNKNOWN
              then true else out.device.speaker
            aux_digital :=
              if hal.dev_out_card SND_OUT_SOUND_CARD_HDMI ≠ SND_OUT_SOUND_CARD_UNKNOWN
              then (op.outputs OUTPUT_HDMI_MULTI).isNone else out.device.aux_digital
            spdif :=
              if hal.dev_out_card SND_OUT_SOUND_CARD_SPDIF ≠ SND_OUT_SOUND_CARD_UNKNOWN
              then true else out.device.spdif } }
  else hal

/-- The re-activation of the microphone route in `start_output_stream`. -/
def reactivateMicRoute (hal : Hal) : Hal :=
  { hal with
    adev :=
      { hal.adev with
        simcom_mic_route_active :=
          if hal.adev.mic_card ≠ SND_IN_SOUND_CARD_UNKNOWN ∧
              (hal.adev.simcom_voice_thread_started = true ∨
                hal.adev.simcom_voice_active = true ∨
                hal.adev.simcom_mic_route_active = true ∨
                hal.adev.simcom_voice_pcm.isSome = true)
          then true else hal.adev.simcom_mic_route_active } }

/-- One stage of `start_output_stream`: the state, and `some r` when the
function returns `r` inside this stage. -/
def openHdmi (env : OutEnv) (op : Opened) (hal : Hal) (x : Nat) : Hal × Option Int :=
  if (hal.streams x).device.aux_digital then
    if hal.owner SOUND_CARD_HDMI = none then
      if hal.dev_out_card SND_OUT_SOUND_CARD_HDMI ≠ SND_OUT_SOUND_CARD_UNKNOWN then
        let p := env.pcm_open hal.tick
        let h1 := setPcm { hal with tick := hal.tick + 1 } x SND_OUT_SOUND_CARD_HDMI p.isSome
        if p = some false then (h1, some (-ENOMEM))
        else if env.hasExtCodec = false ∧
            (is_multi_pcm (op.cfg x) = true ∨ is_bitstream (op.cfg x) = true) then
          (setOwner h1 SOUND_CARD_HDMI (some x), none)
        else (h1, none)
      else (hal, none)
    else
      (setStream hal x
        { hal.streams x with device := { (hal.streams x).device with speaker := true } }, none)
  else (hal, none)

/-- The speaker stage of `start_output_stream`. -/
def openSpeaker (env : OutEnv) (hal : Hal) (x : Nat) : Hal × Option Int :=
  if (hal.streams x).device.speaker ∨ (hal.streams x).device.wired then
    if hal.dev_out_card SND_OUT_SOUND_CARD_SPEAKER ≠ SND_OUT_SOUND_CARD_UNKNOWN then
      let p := env.pcm_open hal.tick
      let h1 := setPcm { hal with tick := hal.tick + 1 } x SND_OUT_SOUND_CARD_SPEAKER p.isSome
      if p = some false then (h1, some (-ENOMEM)) else (h1, none)
    else (hal, none)
  else (hal, none)

/-- The test `is_simcom` of `start_output_stream` and `is_simcom_write` of
`out_write`: the BT card number is a card index and its id names the modem. -/
def is_simcom (env : OutEnv) (hal : Hal) : Bool :=
  decide (0 ≤ hal.dev_out_card SND_OUT_SOUND_CARD_BT ∧
    hal.dev_out_card SND_OUT_SOUND_CARD_BT < SNDRV_CARDS) && env.bt_is_simcom

/-- `pcm_open` of the modem PCM followed by `pcm_prepare`, as both the first
open and the reopen do it: on failure the handle and the owner entry are
cleared. -/
def openModemPcm (env : OutEnv) (hal : Hal) (x : Nat) : Hal :=
  let p := env.pcm_open hal.tick
  let h1 := setPcm { hal with tick := hal.tick + 1 } x SND_OUT_SOUND_CARD_BT p.isSome
  match p with
  | none => h1
  | some false => setOwner (setPcm h1 x SND_OUT_SOUND_CARD_BT false) SOUND_CARD_BT none
  | some true =>
    if env.pcm_prepare h1.tick ≠ 0 then
      setOwner (setPcm { h1 with tick := h1.tick + 1 } x SND_OUT_SOUND_CARD_BT false)
        SOUND_CARD_BT none
    else { h1 with tick := h1.tick + 1 }

/-- The SIMCOM stage of `start_output_stream`. -/
def openSimcom (env : OutEnv) (hal : Hal) (x : Nat) : Hal :=
  if is_simcom env hal = true ∧ hal.adev.mode = AUDIO_MODE_IN_CALL then
    if hal.owner SOUND_CARD_BT = none then
      openModemPcm env (setOwner hal SOUND_CARD_BT (some x)) x
    else if hal.owner SOUND_CARD_BT = some x then
      if (hal.streams x).pcm SND_OUT_SOUND_CARD_BT = false then openModemPcm env hal x
      else if env.pcm_is_ready hal.tick = false then
        setPcm { hal with tick := hal.tick + 1 } x SND_OUT_SOUND_CARD_BT false
      else { hal with tick := hal.tick + 1 }
    else hal
  else hal

/-- The S/PDIF stage of `start_output_stream`. -/
def openSpdif (env : OutEnv) (op : Opened) (hal : Hal) (x : Nat) : Hal × Option Int :=
  if (hal.streams x).device.spdif then
    if hal.owner SOUND_CARD_SPDIF = none then
      if hal.dev_out_card SND_OUT_SOUND_CARD_SPDIF ≠ SND_OUT_SOUND_CARD_UNKNOWN then
        let p := env.pcm_open hal.tick
        let h1 := setPcm { hal with tick := hal.tick + 1 } x SND_OUT_SOUND_CARD_SPDIF p.isSome
        if p = some false then (h1, some (-ENOMEM))
        else if env.hasExtCodec = false ∧
            (is_multi_pcm (op.cfg x) = true ∨ is_bitstream (op.cfg x) = true) then
          (setOwner h1 SOUND_CARD_SPDIF (some x), none)
        else (h1, none)
      else (hal, none)
    else (hal, none)
  else (hal, none)

/-- The SCO stage of `start_output_stream`, compiled in with `BT_AP_SCO`. -/
def openSco (env : OutEnv) (hal : Hal) (x : Nat) : Hal :=
  if (hal.streams x).device.sco = true ∧ env.BT_AP_SCO = true then
    if hal.dev_out_card SND_OUT_SOUND_CARD_BT ≠ SND_OUT_SOUND_CARD_UNKNOWN then
      if (hal.streams x).pcm SND_OUT_SOUND_CARD_BT then hal
      else if hal.owner SOUND_CARD_BT ≠ none then hal
      else
        let p := env.pcm_open hal.tick
        let h1 := setPcm { hal with tick := hal.tick + 1 } x SND_OUT_SOUND_CARD_BT p.isSome
        match p with
        | none => h1
        | some false => setPcm h1 x SND_OUT_SOUND_CARD_BT false
        | some true =>
          -- pcm_prepare, its result only logged; then the resampler
          let h2 := setOwner { h1 with tick := h1.tick + 1 } SOUND_CARD_BT (some x)
          setStream { h2 with tick := h2.tick + 1 } x
            { h2.streams x with resampler := env.resampler_ok h2.tick }
    else hal
  else hal

/-- `start_output_stream(out)` for the stream `x`: the state and the return
value. -/
def start_output_stream (env : OutEnv) (op : Opened) (hal : Hal) (x : Nat) : Hal × Int :=
  let h0 : Hal :=
    if op.outputs OUTPUT_HDMI_MULTI = some x then force_non_hdmi_out_standby env op hal
    else hal
  let blocked : Bool :=
    match op.outputs OUTPUT_HDMI_MULTI with
    | some m => decide (m ≠ x) && !(hal.streams m).standby
    | none => false
  if blocked then (setStream h0 x { h0.streams x with disabled := true }, 0)
  else
    let h1 := setStream h0 x { h0.streams x with disabled := false }
    let h2 := read_out_sound_card env h1
    let h3 := if env.hasExtCodec = false then open_sound_card_policy op h2 x else h2
    let h4 := reactivateMicRoute h3
    let a := openHdmi env op h4 x
    match a.2 with
    | some r => (a.1, r)
    | none =>
      let b := openSpeaker env a.1 x
      match b.2 with
      | some r => (b.1, r)
      | none =>
        let h5 := openSimcom env b.1 x
        let c := openSpdif env op h5 x
        match c.2 with
        | some r => (c.1, r)
        | none => (openSco env c.1 x, 0)

/-! ### The uplink loop of `out_write` -/

/-- What a callee that fills `dst[0 .. src.length)` leaves in `dst`. -/
def fillFront (dst src : List Int) : List Int :=
  src ++ dst.drop src.length

/-- `memset(buf + lo, 0, (hi - lo) * sizeof(int16_t))`. -/
def zeroRange (buf : List Int) (lo hi : Nat) : List Int :=
  buf.take lo ++ List.replicate (hi - lo) 0 ++ buf.drop hi

/-- The `available_samples` computation at the head of the uplink loop. -/
def uplinkAvailable (adev : Ring) : Nat :=
  if adev.simcom_mic_ring_full then adev.simcom_mic_ring_size
  else if adev.simcom_mic_ring_read < adev.simcom_mic_ring_write then
    adev.simcom_mic_ring_write - adev.simcom_mic_ring_read
  else if adev.simcom_mic_ring_write < adev.simcom_mic_ring_read then
    adev.simcom_mic_ring_size - adev.simcom_mic_ring_read + adev.simcom_mic_ring_write
  else 0

/-- The variables of the uplink loop.  `fetched_log` records, for every
`pcm_write` of the loop and in the same order as `writes`, the samples that
`simcom_ring_pop` returned for that period. -/
structure UplinkState where
  adev : Ring
  uplink_buffer : List Int
  simcom_pcm_started : Bool
  ret : Int
  iteration : Nat
  total_processed : Nat
  tick : Nat
  writes : List PcmWrite
  fetched_log : List (List Int)

/-- The fetch of one period: a pop of 320 samples, and when it returns nothing
one timed wait (during which the capture worker may push) followed by a second
pop.  `fetched` are the samples the pop returned, `fetched_total` its count. -/
structure Fetch where
  adev : Ring
  uplink_buffer : List Int
  fetched_total : Nat
  fetched : List Int
  tick : Nat

/-- The fetch at the head of one pass of the uplink loop. -/
def uplinkFetch (env : OutEnv) (s : UplinkState) : Fetch :=
  let first_fetch := simcom_ring_pop s.adev 320
  if first_fetch.count = 0 then
    let pushed := env.capture s.tick
    let second := simcom_ring_pop
      (simcom_ring_push first_fetch.adev pushed pushed.length) 320
    { adev := second.adev
      uplink_buffer := fillFront (fillFront s.uplink_buffer first_fetch.dst) second.dst
      fetched_total := second.count
      fetched := second.dst
      tick := s.tick + 1 }
  else
    { adev := first_fetch.adev
      uplink_buffer := fillFront s.uplink_buffer first_fetch.dst
      fetched_total := first_fetch.count
      fetched := first_fetch.dst
      tick := s.tick }

/-- One pass of the body of the uplink `while` loop for the stream `x`; the
flag says whether the loop goes on (`false` after a `break`). -/
def uplinkPeriod (env : OutEnv) (x : Nat) (owner : Option Nat) (s : UplinkState) :
    UplinkState × Bool :=
  if uplinkAvailable s.adev < 160 ∧ 0 < s.iteration then (s, false)
  else
    let f := uplinkFetch env s
    let fetched := f.fetched
    let fetched_total := f.fetched_total
    let buf :=
      if fetched_total < 320 then zeroRange f.uplink_buffer fetched_total 320
      else f.uplink_buffer
    let s1 : UplinkState := { s with adev := f.adev, uplink_buffer := buf, tick := f.tick }
    let period : PcmWrite :=
      { stream := x, card := SND_OUT_SOUND_CARD_BT, owner := owner, bytes := 640,
        simcom := true, samples := buf.take 320 }
    -- pcm_is_ready, and pcm_prepare when it is not
    let ready := env.pcm_is_ready s1.tick
    if ready = false ∧ env.pcm_prepare (s1.tick + 1) ≠ 0 then
      ({ s1 with tick := s1.tick + 2 }, false)
    else
      let t := if ready then s1.tick + 1 else s1.tick + 2
      let w1 := env.pcm_write t
      let s2 : UplinkState :=
        { s1 with
          ret := w1.ret
          tick := t + 1
          writes := s1.writes ++ [period]
          fetched_log := s1.fetched_log ++ [fetched] }
      if w1.ret = 0 then
        ({ s2 with
            simcom_pcm_started := true
            total_processed := s2.total_processed + fetched_total
            iteration := s2.iteration + 1 }, true)
      else if env.pcm_prepare s2.tick = 0 then
        -- one more attempt after the prepare
        let w2 := env.pcm_write (s2.tick + 1)
        let s3 : UplinkState :=
          { s2 with
            ret := w2.ret
            tick := s2.tick + 2
            writes := s2.writes ++ [period]
            fetched_log := s2.fetched_log ++ [fetched] }
        if w2.ret = 0 then
          ({ s3 with
              total_processed := s3.total_processed + fetched_total
              iteration := s3.iteration + 1 }, true)
        else (s3, false)
      else ({ s2 with tick := s2.tick + 1 }, false)

/-- The uplink loop `while (iteration < 4 && adev->simcom_voice_active)`, the
voice call being active. -/
def uplinkLoop (env : OutEnv) (x : Nat) (owner : Option Nat) : Nat → UplinkState → UplinkState
  | 0, s => s
  | fuel + 1, s =>
    if s.iteration < 4 then
      let r := uplinkPeriod env x owner s
      if r.2 then uplinkLoop env x owner fuel r.1 else r.1
    else s

/-- The uninitialised array `uplink_buffer[640]`. -/
def uplinkStack (env : OutEnv) (tick : Nat) : List Int :=
  (env.garbage tick ++ List.replicate 640 0).take 640

/-! ### The downlink path of `out_write` -/

/-- The conversion loop of the downlink path: `conv[out_count]` is the sample
at `(size_t)pos` (the mean of the first two channels when there are several),
`pos` advancing by `step` in `double` arithmetic; the fuel is
`max_out_frames`. -/
def downlinkConvLoop (in16 : List Int) (in_frames_total in_channels : Nat) (step : ℚ) :
    Nat → ℚ → List Int → List Int
  | 0, _, conv => conv
  | fuel + 1, pos, conv =>
    if ⌊pos⌋₊ < in_frames_total then
      let idx := ⌊pos⌋₊
      let v : Int :=
        if in_channels = 1 then in16.getD idx 0
        else wrapS16 (Int.tdiv (in16.getD (idx * in_channels) 0
          + in16.getD (idx * in_channels + 1) 0) 2)
      downlinkConvLoop in16 in_frames_total in_channels step fuel (roundDouble (pos + step))
        (conv ++ [v])
    else conv

/-- `in_frames_total` of the downlink path. -/
def downlinkFrames (bytes in_channels : Nat) : Nat := bytes / (2 * in_channels)

/-- `max_out_frames` of the downlink path. -/
def downlinkMaxOut (in_frames_total in_rate : Nat) : Nat :=
  ((in_frames_total * 8000) % 2 ^ 64 / (if in_rate ≠ 0 then in_rate else 8000) + 16) % 2 ^ 64

/-- The samples `write_samples[0 .. write_frames)` of the downlink path: the
input itself at 8 kHz mono, the converted samples otherwise. -/
def downlinkSamples (in16 : List Int) (bytes in_rate in_channels : Nat) : List Int :=
  if in_rate = 8000 ∧ in_channels = 1 then
    readBlock in16 0 (downlinkFrames bytes in_channels)
  else
    downlinkConvLoop in16 (downlinkFrames bytes in_channels) in_channels
      (roundDouble ((in_rate : ℚ) / 8000))
      (downlinkMaxOut (downlinkFrames bytes in_channels) in_rate) 0 []

/-- The variables of the accumulation loop: the members of the stream it
works on, `adev->owner[SOUND_CARD_BT]`, and the log of the writes. -/
structure DownlinkState where
  simcom_buffer : List Int
  simcom_buffer_used : Nat
  simcom_pcm_started : Bool
  simcom_periods_written : Int
  pcm : Bool
  owner : Option Nat
  frames_appended : Nat
  ret : Int
  tick : Nat
  writes : List PcmWrite

/-- The state after a period was written: the `memmove` of what lies behind
the period to the front, and `simcom_buffer_used -= period_samples`. -/
def periodDone (s : DownlinkState) : DownlinkState :=
  { s with
    simcom_buffer := memcpy s.simcom_buffer 0 s.simcom_buffer 320 (s.simcom_buffer_used - 320)
    simcom_buffer_used := s.simcom_buffer_used - 320 }

/-- One pass of the body of the accumulation loop for the stream `x`; the flag
says whether the loop goes on (`false` after a `break`). -/
def downlinkPeriod (env : OutEnv) (x : Nat) (write_samples : List Int) (write_frames : Nat)
    (s : DownlinkState) : DownlinkState × Bool :=
  let space_available := 320 - s.simcom_buffer_used
  let frames_to_copy :=
    if space_available < write_frames - s.frames_appended then space_available
    else write_frames - s.frames_appended
  let s1 : DownlinkState :=
    { s with
      simcom_buffer := memcpy s.simcom_buffer s.simcom_buffer_used write_samples
        s.frames_appended frames_to_copy
      simcom_buffer_used := s.simcom_buffer_used + frames_to_copy
      frames_appended := s.frames_appended + frames_to_copy }
  if s1.simcom_buffer_used < 320 then (s1, true)
  else if s1.pcm = false then ({ s1 with ret := - EIO }, false)
  else
    -- pcm_is_ready; when not ready pcm_prepare and pcm_is_ready again
    let ready := env.pcm_is_ready s1.tick
    if ready = false ∧ env.pcm_is_ready (s1.tick + 2) = false then
      ({ s1 with ret := - EIO, tick := s1.tick + 3 }, false)
    else
      let t := if ready then s1.tick + 1 else s1.tick + 3
      let period : PcmWrite :=
        { stream := x, card := SND_OUT_SOUND_CARD_BT, owner := s1.owner, bytes := 640,
          simcom := true, samples := s1.simcom_buffer.take 320 }
      let w1 := env.pcm_write t
      let s2 : DownlinkState :=
        { s1 with ret := w1.ret, tick := t + 1, writes := s1.writes ++ [period] }
      if w1.ret = 0 then
        (periodDone { s2 with simcom_pcm_started := true }, true)
      else
        -- first write failed: start the PCM and write again
        let first_try : Bool :=
          !s2.simcom_pcm_started && decide (w1.ret < 0) &&
            (decide (w1.errno = EIO) || decide (w1.errno = EBUSY) ||
              decide (w1.errno = EAGAIN) || decide (w1.ret = -EPIPE))
        let w2 := env.pcm_write s2.tick
        let s3 : DownlinkState :=
          if first_try then
            { s2 with
              simcom_pcm_started := true
              ret := w2.ret
              tick := s2.tick + 1
              writes := s2.writes ++ [period] }
          else s2
        let e3 : Int := if first_try then w2.errno else w1.errno
        if first_try = true ∧ s3.ret = 0 then (periodDone s3, true)
        else if s3.ret = -EPIPE then
          -- retry same period
          ({ s3 with simcom_pcm_started := true, tick := s3.tick + 1 }, true)
        else
          let io : Bool := decide (s3.ret < 0) && decide (e3 = EIO)
          let w3 := env.pcm_write (s3.tick + 1)
          let s4 : DownlinkState :=
            if io then
              { s3 with
                simcom_pcm_started := true
                ret := w3.ret
                tick := s3.tick + 2
                writes := s3.writes ++ [period] }
            else s3
          let e4 : Int := if io then w3.errno else e3
          if io = true ∧ s4.ret = 0 then (periodDone s4, true)
          else if s4.ret < 0 ∧ (e4 = EBUSY ∨ e4 = EAGAIN) then
            ({ s4 with
                pcm := false
                owner := none
                simcom_pcm_started := false
                simcom_periods_written := 0 }, false)
          else (s4, false)

/-- The accumulation loop `while (frames_appended < write_frames)`.  The flag
of the result says whether the loop was left; it is `false` when the passes
allowed by `fuel` were used up with the loop still running. -/
def downlinkLoop (env : OutEnv) (x : Nat) (write_samples : List Int) (write_frames : Nat) :
    Nat → DownlinkState → DownlinkState × Bool
  | 0, s => (s, decide (¬ s.frames_appended < write_frames))
  | fuel + 1, s =>
    if s.frames_appended < write_frames then
      let r := downlinkPeriod env x write_samples write_frames s
      if r.2 then downlinkLoop env x write_samples write_frames fuel r.1 else (r.1, true)
    else (s, true)

/-! ### `out_write` -/

/-- The variables of the loop of `out_write` over the cards; `stop` is set by
a `break`. -/
structure WriteState where
  hal : Hal
  ret : Int
  writes : List PcmWrite
  stop : Bool

/-- A plain `ret = pcm_write(out->pcm[card], ...); if (ret != 0) break;`. -/
def plainWrite (env : OutEnv) (x card bytes : Nat) (w : WriteState) : WriteState :=
  { hal := { w.hal with tick := w.hal.tick + 1 }
    ret := (env.pcm_write w.hal.tick).ret
    writes := w.writes ++
      [{ stream := x, card := card, owner := ownerAt w.hal card, bytes := bytes,
         simcom := false, samples := [] }]
    stop := decide ((env.pcm_write w.hal.tick).ret ≠ 0) }

/-- The uplink branch of the SIMCOM path (voice call active). -/
def simcomUplink (env : OutEnv) (x : Nat) (w : WriteState) : WriteState :=
  let e := simcom_voice_ensure_ring env.ext w.hal.adev
  if e.2 = 0 then
    let u := uplinkLoop env x (w.hal.owner SOUND_CARD_BT) 4
      { adev := e.1.ring
        uplink_buffer := uplinkStack env w.hal.tick
        simcom_pcm_started := (w.hal.streams x).simcom_pcm_started
        ret := w.ret
        iteration := 0
        total_processed := 0
        tick := w.hal.tick + 1
        writes := w.writes
        fetched_log := [] }
    { w with
      hal := setStream { w.hal with adev := { e.1 with ring := u.adev }, tick := u.tick } x
        { w.hal.streams x with simcom_pcm_started := u.simcom_pcm_started }
      ret := u.ret
      writes := u.writes }
  else { w with hal := { w.hal with adev := e.1 } }

/-- The downlink branch of the SIMCOM path (no voice call active); `none`
when the accumulation loop is still running after `fuel` passes. -/
def simcomDownlink (env : OutEnv) (op : Opened) (fuel : Nat) (x : Nat) (buffer : List Int)
    (bytes : Nat) (w : WriteState) : Option WriteState :=
  let out := w.hal.streams x
  -- the accumulation buffer
  let alloc : Bool := out.simcom_buffer.isNone
  if alloc = true ∧ env.malloc_ok w.hal.tick = false then
    some { w with hal := { w.hal with tick := w.hal.tick + 1 }, ret := -ENOMEM, stop := true }
  else
    let t1 := if alloc then w.hal.tick + 2 else w.hal.tick
    let buf : List Int :=
      out.simcom_buffer.getD ((env.garbage (w.hal.tick + 1) ++ List.replicate 320 0).take 320)
    let used := if alloc then 0 else out.simcom_buffer_used
    let in_rate := (op.cfg x).config_rate
    let in_channels := (op.cfg x).config_channels
    let needs_resample : Bool := !(decide (in_rate = 8000) && decide (in_channels = 1))
    if needs_resample = true ∧ env.malloc_ok t1 = false then
      some { w with
        hal := setStream { w.hal with tick := t1 + 1 } x
          { out with simcom_buffer := some buf, simcom_buffer_used := used }
        ret := -ENOMEM
        stop := true }
    else
      let t2 := if needs_resample then t1 + 1 else t1
      let write_samples := downlinkSamples buffer bytes in_rate in_channels
      let r := downlinkLoop env x write_samples write_samples.length fuel
        { simcom_buffer := buf
          simcom_buffer_used := used
          simcom_pcm_started := out.simcom_pcm_started
          simcom_periods_written := out.simcom_periods_written
          pcm := out.pcm SND_OUT_SOUND_CARD_BT
          owner := w.hal.owner SOUND_CARD_BT
          frames_appended := 0
          ret := w.ret
          tick := t2
          writes := w.writes }
      if r.2 = false then none
      else
        let d := r.1
        some
          { hal := setOwner
              (setStream { w.hal with tick := d.tick } x
                { out with
                  pcm := Function.update out.pcm SND_OUT_SOUND_CARD_BT d.pcm
                  simcom_buffer := some d.simcom_buffer
                  simcom_buffer_used := d.simcom_buffer_used
                  simcom_pcm_started := d.simcom_pcm_started
                  simcom_periods_written := d.simcom_periods_written })
              SOUND_CARD_BT d.owner
            ret := d.ret
            writes := d.writes
            stop := decide (d.ret ≠ 0) }

/-- The body of the loop over the cards for `i == SND_OUT_SOUND_CARD_BT`. -/
def btStep (env : OutEnv) (op : Opened) (fuel : Nat) (x : Nat) (buffer : List Int)
    (bytes : Nat) (w : WriteState) : Option WriteState :=
  if is_simcom env w.hal then
    let out := w.hal.streams x
    let w1 : WriteState :=
      { w with
        hal := setStream w.hal x
          { out with
            usecase :=
              if w.hal.adev.simcom_voice_active then USECASE_SIMCOM_VOICE_CALL
              else USECASE_PRIMARY_PLAYBACK
            usecase_type :=
              if w.hal.adev.simcom_voice_active then USECASE_TYPE_VOICE_CALL
              else USECASE_TYPE_PCM_PLAYBACK } }
    if w1.hal.owner SOUND_CARD_BT ≠ some x then some w1
    else if w1.hal.adev.simcom_voice_active then some (simcomUplink env x w1)
    else simcomDownlink env op fuel x buffer bytes w1
  else if (w.hal.streams x).resampler then
    some (plainWrite env x SND_OUT_SOUND_CARD_BT (env.resampled w.hal.tick * 2 * 2)
      { w with hal := { w.hal with tick := w.hal.tick + 1 } })
  else some (plainWrite env x SND_OUT_SOUND_CARD_BT bytes w)

/-- The body of the loop over the cards for the other cards. -/
def cardStep (env : OutEnv) (x card bytes : Nat) (w : WriteState) : WriteState :=
  if env.hasExtCodec = false ∧
      ((card = SND_OUT_SOUND_CARD_HDMI ∧ w.hal.owner SOUND_CARD_HDMI ≠ some x ∧
          w.hal.owner SOUND_CARD_HDMI ≠ none) ∨
        (card = SND_OUT_SOUND_CARD_SPDIF ∧ w.hal.owner SOUND_CARD_SPDIF ≠ some x ∧
          w.hal.owner SOUND_CARD_SPDIF ≠ none)) then w
  else plainWrite env x card bytes w

/-- One turn of `for (i = 0; i < SND_OUT_SOUND_CARD_MAX; i++) if (out->pcm[i])`
for a card other than the BT card. -/
def writeCard (env : OutEnv) (x bytes : Nat) (w : WriteState) (card : Nat) : WriteState :=
  if w.stop then w
  else if (w.hal.streams x).pcm card = false then w
  else cardStep env x card bytes w

/-- The last turn of the loop over the cards, `i == SND_OUT_SOUND_CARD_BT`. -/
def writeBt (env : OutEnv) (op : Opened) (fuel : Nat) (x : Nat) (buffer : List Int)
    (bytes : Nat) (w : WriteState) : Option WriteState :=
  if w.stop then some w
  else if (w.hal.streams x).pcm SND_OUT_SOUND_CARD_BT = false then some w
  else btStep env op fuel x buffer bytes w

/-- `bitstream_write_data`: the state with the log, and the return value. -/
def bitstream_write_data (env : OutEnv) (op : Opened) (x bytes : Nat) (w : WriteState) :
    WriteState :=
  if bytes = 0 then { w with ret := -1 }
  else if (w.hal.streams x).device.aux_digital = true ∧
      (is_multi_pcm (op.cfg x) = true ∨ is_bitstream (op.cfg x) = true) then
    if w.hal.dev_out_card SND_OUT_SOUND_CARD_HDMI ≠ SND_OUT_SOUND_CARD_UNKNOWN ∧
        (w.hal.streams x).pcm SND_OUT_SOUND_CARD_HDMI = true then
      if (op.cfg x).config_format = PCM_FORMAT_S16_LE then
        { plainWrite env x SND_OUT_SOUND_CARD_HDMI bytes w with stop := false }
      else if (op.cfg x).config_format = PCM_FORMAT_S24_LE then
        { plainWrite env x SND_OUT_SOUND_CARD_HDMI (2 * bytes) w with stop := false }
      else { w with ret := 0 }
    else { w with ret := -1 }
  else { w with ret := 0 }

/-- Result of `out_write`: the state, the value returned to the caller, the
value of the local `ret` at the end, and the `pcm_write` calls made. -/
structure OutWriteResult where
  hal : Hal
  returned : Nat
  ret : Int
  writes : List PcmWrite

/-- The exit of `out_write` (`final_exit`): the frame counter advances by
`bytes / (channels * sizeof(short))` and `bytes` is returned. -/
def finalExit (op : Opened) (x bytes : Nat) (w : WriteState) : OutWriteResult :=
  { hal := setStream w.hal x
      { w.hal.streams x with
        written := ((w.hal.streams x).written + bytes / ((op.cfg x).config_channels * 2))
          % 2 ^ 64
        nframes := ((w.hal.streams x).written + bytes / ((op.cfg x).config_channels * 2))
          % 2 ^ 64 }
    returned := bytes
    ret := w.ret
    writes := w.writes }

/-- `out_write(stream, buffer, bytes)` for the stream `x`; `none` when the
accumulation loop of the downlink path is still running after `fuel` passes. -/
def out_write (env : OutEnv) (op : Opened) (fuel : Nat) (hal : Hal) (x : Nat)
    (buffer : List Int) (bytes : Nat) : Option OutWriteResult :=
  let started : Hal × Int :=
    if (hal.streams x).standby then start_output_stream env op hal x else (hal, 0)
  if (hal.streams x).standby = true ∧ started.2 < 0 then
    some (finalExit op x bytes { hal := started.1, ret := started.2, writes := [], stop := true })
  else
    let h1 : Hal :=
      if (hal.streams x).standby then
        setStream started.1 x { started.1.streams x with standby := false }
      else hal
    let w0 : WriteState := { hal := h1, ret := started.2, writes := [], stop := false }
    if (h1.streams x).disabled then
      some (finalExit op x bytes { w0 with ret := -EPIPE })
    else if (h1.streams x).device.aux_digital = true ∧ is_bitstream (op.cfg x) = true then
      if env.hasExtCodec = false then
        some (finalExit op x bytes (bitstream_write_data env op x bytes w0))
      else some (finalExit op x bytes w0)
    else
      let w1 : WriteState := { w0 with ret := -1 }
      let w2 := [SND_OUT_SOUND_CARD_SPEAKER, SND_OUT_SOUND_CARD_HDMI,
        SND_OUT_SOUND_CARD_SPDIF].foldl (writeCard env x bytes) w1
      (writeBt env op fuel x buffer bytes w2).map (finalExit op x bytes)

/-! ### Runs of playback calls -/

/-- One call on the playback side. -/
inductive OutOp where
  | start (x : Nat)
  | write (x : Nat) (buffer : List Int) (bytes : Nat) (fuel : Nat)
  | standby (x : Nat)

/-- The state after one call; an `out_write` that does not return leaves the
state to the calls that follow as it found it. -/
def applyOutOp (env : OutEnv) (op : Opened) (hal : Hal) : OutOp → Hal
  | OutOp.start x => (start_output_stream env op hal x).1
  | OutOp.write x buffer bytes fuel =>
    match out_write env op fuel hal x buffer bytes with
    | some r => r.hal
    | none => hal
  | OutOp.standby x => do_out_standby env op hal x

/-- The state after a run of calls. -/
def runOutOps (env : OutEnv) (op : Opened) (hal : Hal) (ops : List OutOp) : Hal :=
  ops.foldl (applyOutOp env op) hal

/-! ### Properties of the modem periods, in the words of the specification -/

/-- A period handed to the modem PCM that carries the fetched samples in
order, followed by zeros up to 320 samples, in a write of 640 bytes. -/
def PaddedPeriod (w : PcmWrite) (fetched : List Int) : Prop :=
  w.bytes = 640 ∧ w.samples.length = 320 ∧ fetched.length ≤ 320 ∧
    w.samples = fetched ++ List.replicate (320 - fetched.length) 0

/-- The `i`-th period of 320 samples of a stream, as a modem write of the
stream `x` while `owner` is the recorded owner. -/
def periodOf (x : Nat) (owner : Option Nat) (stream : List Int) (i : Nat) : PcmWrite :=
  { stream := x, card := SND_OUT_SOUND_CARD_BT, owner := owner, bytes := 640, simcom := true,
    samples := (stream.drop (320 * i)).take 320 }

/-- What one pass, or the whole uplink loop, adds to the two logs: at most
`bound` writes of the stream `x` on the SIMCOM path, each a padded period of
the samples fetched for it. -/
def UplinkAdds (x : Nat) (owner : Option Nat) (s s2 : UplinkState) (bound : Nat) : Prop :=
  ∃ ws fs, s2.writes = s.writes ++ ws ∧ s2.fetched_log = s.fetched_log ++ fs ∧
    List.Forall₂ PaddedPeriod ws fs ∧ ws.length ≤ bound ∧
    ∀ w ∈ ws, w.stream = x ∧ w.card = SND_OUT_SOUND_CARD_BT ∧ w.owner = owner ∧
      w.simcom = true

/-- The samples the accumulator of a stream holds: the first
`simcom_buffer_used` samples of `simcom_buffer`, none while the buffer is not
allocated. -/
def accumulated (out : stream_out) : List Int :=
  match out.simcom_buffer with
  | some b => b.take out.simcom_buffer_used
  | none => []

/-! ### A modem-only set-up -/

/-- The voice-call side of a platform whose capture PCM cannot be opened:
everything else succeeds. -/
def noCapture : Externals :=
  { allOk with pcm_open := fun _ _ => none }

/-- An outside world in which the only sound card is the modem (card 0, role
BT, id `SIMCOM`): no capture PCM opens, every playback operation but
`pcm_write` succeeds, nothing is pushed by the capture worker, and `pcm_write`
answers as `wr` says. -/
def modemOnly (wr : Nat → WriteOutcome) : OutEnv :=
  { ext := noCapture
    hasExtCodec := false
    bt_is_simcom := true
    BT_AP_SCO := false
    probe_out := fun _ i => if i = SND_OUT_SOUND_CARD_BT then some 0 else none
    pcm_open := fun _ => some true
    pcm_is_ready := fun _ => true
    pcm_prepare := fun _ => 0
    pcm_write := wr
    malloc_ok := fun _ => true
    resampler_ok := fun _ => true
    resampled := fun _ => 0
    capture := fun _ => []
    garbage := fun _ => [] }

/-- A stream as `adev_open_output_stream` leaves it: in standby, nothing open,
no device bit set. -/
def streamOpened : stream_out :=
  { pcm := fun _ => false
    standby := true
    device := { speaker := false, wired := false, aux_digital := false, spdif := false,
                sco := false }
    disabled := false
    written := 0
    nframes := 0
    usecase := 0
    usecase_type := 0
    resampler := false
    simcom_buffer := none
    simcom_buffer_used := 0
    simcom_pcm_started := false
    simcom_periods_written := 0 }

/-- One low-latency stream, number 0, at 8 kHz mono. -/
def oneStream8k : Opened :=
  { outputs := fun type => if type = 1 then some 0 else none
    cfg := fun _ =>
      { output_direct := false, output_direct_mode := LPCM, config_rate := 8000,
        config_channels := 1, config_format := PCM_FORMAT_S16_LE } }

/-- One low-latency stream, number 0, at the default 44100 Hz stereo. -/
def oneStream44k : Opened :=
  { outputs := fun type => if type = 1 then some 0 else none
    cfg := fun _ =>
      { output_direct := false, output_direct_mode := LPCM, config_rate := 44100,
        config_channels := 2, config_format := PCM_FORMAT_S16_LE } }

/-- The device after `adev_open` and `adev_set_mode(AUDIO_MODE_IN_CALL)` on the
platform of `noCapture`: the mode is `AUDIO_MODE_IN_CALL` and, the capture path
having failed to start, no voice pipeline is running; every stream is freshly
opened. -/
def halInCall : Hal :=
  { adev := (adev_set_mode noCapture adev_open_init AUDIO_MODE_IN_CALL).adev
    owner := fun _ => none
    dev_out_card := fun _ => SND_OUT_SOUND_CARD_UNKNOWN
    streams := fun _ => streamOpened
    tick := 0 }

/-- The variables of the accumulation loop for a stream that owns the open
modem PCM and holds `used` samples in its accumulator. -/
def downlinkStart (used : Nat) : DownlinkState :=
  { simcom_buffer := List.replicate 320 0
    simcom_buffer_used := used
    simcom_pcm_started := false
    simcom_periods_written := 0
    pcm := true
    owner := some 0
    frames_appended := 0
    ret := 0
    tick := 0
    writes := [] }

/-- The device of `halInCall` after the stream 0 took the modem: it is the
recorded owner and its modem PCM is open. -/
def halModemOpen : Hal :=
  setOwner (setPcm halInCall 0 SND_OUT_SOUND_CARD_BT true) SOUND_CARD_BT (some 0)

/-- The loop of `out_write` over the cards arriving at the BT card with
nothing written so far, on `halModemOpen`. -/
def atModem : WriteState :=
  { hal := halModemOpen, ret := -1, writes := [], stop := false }

/-- The state `atModem` when earlier calls left `used` samples, of value 7, in
the accumulator of the stream 0. -/
def atModemHolding (used : Nat) : WriteState :=
  { atModem with
    hal := setStream halModemOpen 0
      { (halModemOpen.streams 0) with
        simcom_buffer := some (List.replicate used 7 ++ List.replicate (320 - used) 0)
        simcom_buffer_used := used } }

/-- What a downlink call does to the log and the accumulator when it turns the
accumulated samples `acc` followed by the converted input `ws` into whole
periods: `floor((u + w) / 320)` writes carrying the successive periods of that
stream of samples, and the remaining `(u + w) mod 320` samples kept. -/
def WholePeriods (x : Nat) (owner : Option Nat) (acc ws : List Int) (w w2 : WriteState) :
    Prop :=
  w2.writes = w.writes ++
    (List.range ((acc.length + ws.length) / 320)).map (periodOf x owner (acc ++ ws)) ∧
  (w2.hal.streams x).simcom_buffer_used = (acc.length + ws.length) % 320 ∧
  accumulated (w2.hal.streams x) = (acc ++ ws).drop (320 * ((acc.length + ws.length) / 320)) ∧
  (acc.length + ws.length < 320 → w2.writes = w.writes)

/-- The device after `out_write` on the stream 0 of `halInCall` started the
stream. -/
def modemStarted (wr : Nat → WriteOutcome) : Hal :=
  setStream (start_output_stream (modemOnly wr) oneStream8k halInCall 0).1 0
    { ((start_output_stream (modemOnly wr) oneStream8k halInCall 0).1.streams 0) with
      standby := false }

/-- The ownership invariant of the playback side: an owner of the HDMI or
S/PDIF card is recorded only on a platform without external codec and is the
stream of `outputs[OUTPUT_HDMI_MULTI]`; a stream whose BT PCM is open is the
recorded owner of the BT card. -/
def OwnerInv (env : OutEnv) (op : Opened) (hal : Hal) : Prop :=
  (∀ s y, (s = SOUND_CARD_HDMI ∨ s = SOUND_CARD_SPDIF) → hal.owner s = some y →
    env.hasExtCodec = false ∧ op.outputs OUTPUT_HDMI_MULTI = some y) ∧
  (∀ y, (hal.streams y).pcm SND_OUT_SOUND_CARD_BT = true → hal.owner SOUND_CARD_BT = some y)

/-- A `pcm_write` of the stream `x` made while no other stream is the recorded
owner of the card written to, and for the BT card while `x` is its recorded
owner. -/
def OwnWrite (x : Nat) (e : PcmWrite) : Prop :=
  e.stream = x ∧ (∀ y, e.owner = some y → y = x) ∧
    (e.card = SND_OUT_SOUND_CARD_BT → e.owner = some x)

/-- The `pcm_write` calls of an `out_write` that returned. -/
def writesOf : Option OutWriteResult → List PcmWrite
  | some r => r.writes
  | none => []

/-- The state of the loop of `out_write` over the cards of the stream `x`
keeps the ownership invariant and every write made so far was an `OwnWrite`. -/
def GoodWrites (env : OutEnv) (op : Opened) (x : Nat) (w : WriteState) : Prop :=
  OwnerInv env op w.hal ∧ ∀ e ∈ w.writes, OwnWrite x e

/-! ## The modem control port and the sound-card registry

A C string is the list of its characters before the terminating NUL.  The
files under `proc/asound` and the TTY are answers of the outside world
(`ProcFs`, `Tty`).  What `fread` leaves in a character array beyond the bytes
it read is unspecified and supplied by the outside world (`stale`): on the
first use it is whatever the stack held, later what an earlier read left.  A
character array that holds no NUL is read as far as `stale` goes. -/

/-- The NUL character. -/
def NUL : Char := Char.ofNat 0

/-- The line feed character. -/
def LF : Char := Char.ofNat 10

/-- The carriage return character. -/
def CR : Char := Char.ofNat 13

/-- The C string held by a character array: the characters before the first
NUL. -/
def cstr (buf : List Char) : List Char :=
  buf.takeWhile (fun c => c != NUL)

/-- Whether the string `s` begins with the string `p`. -/
def startsWith : List Char → List Char → Bool
  | _, [] => true
  | [], _ :: _ => false
  | a :: s, b :: p => a == b && startsWith s p

/-- `strstr(haystack, needle)`: the rest of `haystack` from the first
occurrence of `needle` on, `none` for `NULL`. -/
def strstr : List Char → List Char → Option (List Char)
  | [], needle => if needle = [] then some [] else none
  | c :: rest, needle =>
    if startsWith (c :: rest) needle then some (c :: rest) else strstr rest needle

/-! ### `simcom_send_at_command` -/

/-- Result of one `write` on the TTY: the number of bytes accepted, `-1` with
`errno == EINTR`, or `-1` with another `errno`. -/
inductive TtyWrite where
  | wrote (n : Nat)
  | eintr
  | failed
  deriving DecidableEq, Repr

/-- The control TTY: whether `open` succeeds, and the result of the `k`-th
`write` given the bytes offered to it. -/
structure Tty where
  open_ok : Bool
  write : Nat → List Char → TtyWrite

/-- Outcome of `simcom_send_at_command`: the return value and the bytes the
TTY accepted, in order. -/
structure AtResult where
  ok : Bool
  sent : List Char
  deriving DecidableEq, Repr

/-- The array `buffer[64]` and `len` after `snprintf(buffer, sizeof(buffer),
"%s\r", cmd)` and the adjustment for an output that did not fit.  The bytes
behind the NUL that `snprintf` stores are never read and are given as NUL. -/
def atBuffer (cmd : List Char) : List Char × Nat :=
  let len := (cmd ++ [CR]).length
  let buffer := ((cmd ++ [CR]).take 63 ++ List.replicate 64 NUL).take 64
  if 64 ≤ len then (buffer.set 63 CR, 63) else (buffer, len)

/-- The loop `while (total < (size_t)len)`; `k` counts the `write` calls.
`none` when the loop is still running after `fuel` passes. -/
def atWriteLoop (tty : Tty) (buffer : List Char) (len : Nat) :
    Nat → Nat → Nat → List Char → Option AtResult
  | 0, _, total, sent => if total < len then none else some { ok := true, sent := sent }
  | fuel + 1, k, total, sent =>
    if total < len then
      match tty.write k ((buffer.drop total).take (len - total)) with
      | TtyWrite.wrote n =>
        atWriteLoop tty buffer len fuel (k + 1) (total + min n (len - total))
          (sent ++ (buffer.drop total).take (min n (len - total)))
      | TtyWrite.eintr => atWriteLoop tty buffer len fuel (k + 1) total sent
      | TtyWrite.failed => some { ok := false, sent := sent }
    else some { ok := true, sent := sent }

/-- `simcom_send_at_command(cmd)` for a command that is not `NULL`.
`snprintf` fails when the output would be longer than `INT_MAX`. -/
def simcom_send_at_command (tty : Tty) (fuel : Nat) (cmd : List Char) : Option AtResult :=
  if tty.open_ok = false then some { ok := false, sent := [] }
  else if 2 ^ 31 ≤ (cmd ++ [CR]).length then some { ok := false, sent := [] }
  else atWriteLoop tty (atBuffer cmd).1 (atBuffer cmd).2 fuel 0 0 []

/-! ### The registry: `name_match`, `dev_id_match`, `get_specified_*_dev` -/

/-- `SNDRV_DEVICES`. -/
def SNDRV_DEVICES : Nat := 8

/-- `SND_OUT_SOUND_CARD_MAX`. -/
def SND_OUT_SOUND_CARD_MAX : Int := 4

/-- `SND_IN_SOUND_CARD_MIC`. -/
def SND_IN_SOUND_CARD_MIC : Nat := 0

/-- `SND_IN_SOUND_CARD_BT`. -/
def SND_IN_SOUND_CARD_BT : Nat := 1

/-- `SND_IN_SOUND_CARD_HDMI`. -/
def SND_IN_SOUND_CARD_HDMI : Nat := 2

/-- `SND_IN_SOUND_CARD_MAX`. -/
def SND_IN_SOUND_CARD_MAX : Int := 3

/-- An entry of a match table, `struct dev_proc_info`, with `cid` not `NULL`. -/
structure dev_proc_info where
  cid : List Char
  did : Option (List Char)
  deriving DecidableEq, Repr

/-- A match table: the entries before the terminating entry (the first whose
`cid` is `NULL`), and the `did` of the terminating entry. -/
structure MatchTable where
  entries : List dev_proc_info
  term_did : Option (List Char)
  deriving DecidableEq, Repr

/-- The members `card` and `device` of `struct dev_info`. -/
structure dev_info where
  card : Int
  device : Int
  deriving DecidableEq, Repr

/-- `name_match(dst, src)`. -/
def name_match (dst src : List Char) : Int :=
  if dst = src then 100 else if (strstr dst src).isSome then 50 else 0

/-- The loop `while (match[i].cid)` of the lookups over the entries from index
`i` on: `better` and `index` at loop exit. -/
def matchLoop (id : List Char) : List dev_proc_info → Nat → Int → Int → Int × Int
  | [], _, better, index => (better, index)
  | e :: rest, i, better, index =>
    if better < name_match id e.cid then matchLoop id rest (i + 1) (name_match id e.cid) i
    else matchLoop id rest (i + 1) better index

/-- `dev_id_match(info, did)` for an `info` that is not `NULL`. -/
def dev_id_match (info : List Char) (did : Option (List Char)) : Bool :=
  match did with
  | none => true
  | some d =>
    match strstr info "id:".toList with
    | none => false
    | some found =>
      (strstr ((found.drop 3).takeWhile (fun c => c != CR && c != LF)) d).isSome

/-- The files of `proc/asound` as the lookups see them.  For a file: `none`
when `access` fails, `some none` when `fopen` fails, otherwise the contents.
* `card_id card`: `proc/asound/card<card>/id`;
* `pcm_p card device`, `pcm_c card device`: `pcm<device>p/info` and
  `pcm<device>c/info` of the card;
* `stale_id`, `stale_p`, `stale_c`: what the array read into holds behind the
  bytes read;
* `id_abs card`: `fopen` and the contents of `/proc/asound/card<card>/id`,
  the absolute path used by the playback code. -/
structure ProcFs where
  card_id : Nat → Option (Option (List Char))
  pcm_p : Int → Nat → Option (Option (List Char))
  pcm_c : Int → Nat → Option (Option (List Char))
  stale_id : Nat → List Char
  stale_p : Int → Nat → List Char
  stale_c : Int → Nat → List Char
  id_abs : Int → Option (List Char)

/-- The string a lookup works on after `len = fread(buf, 1, size, file)` and
the removal of a final line feed: `none` when `len == 0`. -/
def freadText (content stale : List Char) (size : Nat) : Option (List Char) :=
  if (content.take size).length = 0 then none
  else if (content.take size).getLast? = some LF then some (cstr (content.take size).dropLast)
  else some (cstr (content.take size ++ stale))

/-- The loop `for (device = 0; device < SNDRV_DEVICES; device++)` of the
lookups, with `n` turns left: the slot and the return value. -/
def deviceLoop (node : Nat → Option (Option (List Char))) (stale : Nat → List Char)
    (did : Option (List Char)) (card : Int) (devinfo : dev_info) : Nat → Nat → dev_info × Bool
  | 0, _ => (devinfo, false)
  | n + 1, device =>
    match node device with
    | none => (devinfo, false)
    | some none => deviceLoop node stale did card devinfo n (device + 1)
    | some (some content) =>
      match freadText content (stale device) 256 with
      | none => deviceLoop node stale did card devinfo n (device + 1)
      | some info =>
        if dev_id_match info did then ({ card := card, device := device }, true)
        else deviceLoop node stale did card devinfo n (device + 1)

/-- `get_specified_out_dev(devinfo, card, id, match)` for a table that is not
`NULL`: the slot and the return value. -/
def get_specified_out_dev (fs : ProcFs) (devinfo : dev_info) (card : Int) (id : List Char)
    (tbl : MatchTable) : dev_info × Bool :=
  let index := (matchLoop id tbl.entries 0 0 (-1)).2
  if index < 0 then (devinfo, false)
  else
    match tbl.entries[index.toNat]? with
    | none => (devinfo, false)
    | some e =>
      match e.did with
      | none => ({ card := card, device := 0 }, true)
      | some d => deviceLoop (fs.pcm_p card) (fs.stale_p card) (some d) card devinfo
          SNDRV_DEVICES 0

/-- `get_specified_in_dev(devinfo, card, id, match)` for a table that is not
`NULL`.  The device loop passes `match[i].did` to `dev_id_match`, `i` being
the index of the terminating entry. -/
def get_specified_in_dev (fs : ProcFs) (devinfo : dev_info) (card : Int) (id : List Char)
    (tbl : MatchTable) : dev_info × Bool :=
  let index := (matchLoop id tbl.entries 0 0 (-1)).2
  if index < 0 then (devinfo, false)
  else
    match tbl.entries[index.toNat]? with
    | none => (devinfo, false)
    | some e =>
      match e.did with
      | none => ({ card := card, device := 0 }, true)
      | some _ => deviceLoop (fs.pcm_c card) (fs.stale_c card) tbl.term_did card devinfo
          SNDRV_DEVICES 0

/-- A table of card ids with their dai ids, ended by `{NULL, NULL}`. -/
def mkTable (rows : List (String × Option String)) : MatchTable :=
  { entries := rows.map (fun r => { cid := r.1.toList, did := r.2.map String.toList })
    term_did := none }

/-- `SPEAKER_OUT_NAME`. -/
def SPEAKER_OUT_NAME : MatchTable :=
  mkTable
    [("realtekrt5616c", none), ("realtekrt5651co", some "rt5651-aif1"),
     ("realtekrt5670c", none), ("realtekrt5672c", none), ("realtekrt5678co", none),
     ("rkhdmianalogsnd", none), ("rockchipcx2072x", none), ("rockchipes8316c", none),
     ("rockchipes8323c", none), ("rockchipes8388c", none), ("rockchipes8396c", none),
     ("rockchiprk", none), ("rockchiprk809co", none), ("rockchiprk817co", none),
     ("rockchiprt5640c", some "rt5640-aif1"), ("rockchiprt5670c", none),
     ("rockchiprt5672c", none)]

/-- `HDMI_OUT_NAME`. -/
def HDMI_OUT_NAME : MatchTable :=
  mkTable
    [("realtekrt5651co", some "i2s-hifi"), ("realtekrt5670co", some "i2s-hifi"),
     ("rkhdmidpsound", none), ("rockchiphdmi", none), ("rockchiprt5640c", some "i2s-hifi")]

/-- `SPDIF_OUT_NAME`. -/
def SPDIF_OUT_NAME : MatchTable :=
  mkTable [("ROCKCHIPSPDIF", some "dit-hifi"), ("rockchipspdif", none), ("rockchipcdndp", none)]

/-- `BT_OUT_NAME`. -/
def BT_OUT_NAME : MatchTable :=
  mkTable [("SIMCOM", none), ("rockchipbt", none)]

/-- `MIC_IN_NAME`. -/
def MIC_IN_NAME : MatchTable :=
  mkTable
    [("realtekrt5616c", none), ("realtekrt5651co", some "rt5651-aif1"),
     ("realtekrt5670c", none), ("realtekrt5672c", none), ("realtekrt5678co", none),
     ("rockchipes8316c", none), ("rockchipes8323c", none), ("rockchipes8396c", none),
     ("rockchipes7210", none), ("rockchipes7243", none), ("rockchiprk", none),
     ("rockchiprk809co", none), ("rockchiprk817co", none), ("rockchiprt5640c", none),
     ("rockchiprt5670c", none), ("rockchiprt5672c", none)]

/-- `HDMI_IN_NAME`. -/
def HDMI_IN_NAME : MatchTable :=
  mkTable [("realtekrt5651co", some "tc358749x-audio"), ("hdmiin", none)]

/-- `BT_IN_NAME`. -/
def BT_IN_NAME : MatchTable :=
  mkTable [("SIMCOM", none), ("rockchipbt", none)]

/-! ### `read_out_sound_card`, `read_in_sound_card` -/

/-- `set_default_dev_info(info, size, rid)` as far as the card numbers go. -/
def set_default_dev_info (info : Nat → dev_info) (size : Int) : Nat → dev_info :=
  fun i => if (i : Int) < size then { info i with card := SND_OUT_SOUND_CARD_UNKNOWN } else info i

/-- The loop `for (card = 0; card < SNDRV_CARDS; card++)` of
`read_out_sound_card`, with `n` turns left. -/
def outCardLoop (fs : ProcFs) : Nat → Nat → (Nat → dev_info) → (Nat → dev_info)
  | 0, _, dev_out => dev_out
  | n + 1, card, dev_out =>
    match fs.card_id card with
    | none => dev_out
    | some none => outCardLoop fs n (card + 1) dev_out
    | some (some content) =>
      match freadText content (fs.stale_id card) 20 with
      | none => outCardLoop fs n (card + 1) dev_out
      | some id =>
        let d1 := Function.update dev_out SND_OUT_SOUND_CARD_SPEAKER
          (get_specified_out_dev fs (dev_out SND_OUT_SOUND_CARD_SPEAKER) card id
            SPEAKER_OUT_NAME).1
        let d2 := Function.update d1 SND_OUT_SOUND_CARD_HDMI
          (get_specified_out_dev fs (d1 SND_OUT_SOUND_CARD_HDMI) card id HDMI_OUT_NAME).1
        let d3 := Function.update d2 SND_OUT_SOUND_CARD_SPDIF
          (get_specified_out_dev fs (d2 SND_OUT_SOUND_CARD_SPDIF) card id SPDIF_OUT_NAME).1
        let d4 := Function.update d3 SND_OUT_SOUND_CARD_BT
          (get_specified_out_dev fs (d3 SND_OUT_SOUND_CARD_BT) card id BT_OUT_NAME).1
        outCardLoop fs n (card + 1) d4

/-- `read_out_sound_card` on the array `device->dev_out`. -/
def read_out_sound_card_slots (fs : ProcFs) (dev_out : Nat → dev_info) : Nat → dev_info :=
  outCardLoop fs SNDRV_CARDS.toNat 0 (set_default_dev_info dev_out SND_OUT_SOUND_CARD_UNKNOWN)

/-- The loop `for (card = 0; card < SNDRV_CARDS; card++)` of
`read_in_sound_card`, with `n` turns left. -/
def inCardLoop (fs : ProcFs) : Nat → Nat → (Nat → dev_info) → (Nat → dev_info)
  | 0, _, dev_in => dev_in
  | n + 1, card, dev_in =>
    match fs.card_id card with
    | none => dev_in
    | some none => inCardLoop fs n (card + 1) dev_in
    | some (some content) =>
      match freadText content (fs.stale_id card) 20 with
      | none => inCardLoop fs n (card + 1) dev_in
      | some id =>
        let d1 := Function.update dev_in SND_IN_SOUND_CARD_MIC
          (get_specified_in_dev fs (dev_in SND_IN_SOUND_CARD_MIC) card id MIC_IN_NAME).1
        let d2 := Function.update d1 SND_IN_SOUND_CARD_HDMI
          (get_specified_in_dev fs (d1 SND_IN_SOUND_CARD_HDMI) card id HDMI_IN_NAME).1
        let d3 := Function.update d2 SND_IN_SOUND_CARD_BT
          (get_specified_in_dev fs (d2 SND_IN_SOUND_CARD_BT) card id BT_IN_NAME).1
        inCardLoop fs n (card + 1) d3

/-- `read_in_sound_card` on the array `device->dev_in`. -/
def read_in_sound_card_slots (fs : ProcFs) (dev_in : Nat → dev_info) : Nat → dev_info :=
  inCardLoop fs SNDRV_CARDS.toNat 0 (set_default_dev_info dev_in SND_IN_SOUND_CARD_UNKNOWN)

/-! ### The modem detection of `start_output_stream` and `out_write` -/

/-- The string in `simcom_id[20] = {0}` after `fread(simcom_id, 1, 19, file)`
and the removal of a final line feed. -/
def simcom_id_text (content : List Char) : List Char :=
  cstr (if (content.take 19).getLast? = some LF then (content.take 19).dropLast
    else content.take 19)

/-- The flag `is_simcom` of `start_output_stream`, `is_simcom_write` of
`out_write`, from the card number of the BT slot and the id file. -/
def simcom_detect (fs : ProcFs) (bt_card : Int) : Bool :=
  if 0 ≤ bt_card ∧ bt_card < SNDRV_CARDS then
    match fs.id_abs bt_card with
    | some content =>
      (strstr (simcom_id_text content) "SIMCOM".toList).isSome ||
        (strstr (simcom_id_text content) "simcom".toList).isSome
    | none => false
  else false

/-! ### Substrings, in the words of the specification -/

/-- The string `pat` occurs in `s`. -/
def Contains (s pat : List Char) : Prop :=
  ∃ pre post, s = pre ++ pat ++ post

/-- The string `pat` occurs in `s` when the case of letters is ignored. -/
def ContainsNoCase (s pat : List Char) : Prop :=
  ∃ pre mid post, s = pre ++ mid ++ post ∧ mid.map Char.toUpper = pat.map Char.toUpper

/-- The text that follows the first `id:` up to the end of the line. -/
def idLine (info : List Char) : Option (List Char) :=
  (strstr info "id:".toList).map
    (fun found => (found.drop 3).takeWhile (fun c => c != CR && c != LF))

/-! ### Concrete outside worlds -/

/-- A TTY that opens and accepts at most `chunk` bytes in each `write`. -/
def ttyChunks (chunk : Nat) : Tty :=
  { open_ok := true
    write := fun _ offered => TtyWrite.wrote (min chunk offered.length) }

/-- A `proc/asound` without any card. -/
def noCards : ProcFs :=
  { card_id := fun _ => none
    pcm_p := fun _ _ => none
    pcm_c := fun _ _ => none
    stale_id := fun _ => []
    stale_p := fun _ _ => []
    stale_c := fun _ _ => []
    id_abs := fun _ => none }

/-- A `proc/asound` with the one card 0 whose id file holds `id` and a line
feed, and whose playback and capture PCM 0 have the info text `info` and a
line feed. -/
def oneCard (id info : String) : ProcFs :=
  { noCards with
    card_id := fun card => if card = 0 then some (some (id.toList ++ [LF])) else none
    pcm_p := fun card device =>
      if card = 0 ∧ device = 0 then some (some (info.toList ++ [LF])) else none
    pcm_c := fun card device =>
      if card = 0 ∧ device = 0 then some (some (info.toList ++ [LF])) else none
    id_abs := fun card => if card = 0 then some (id.toList ++ [LF]) else none }

/-- The card slots after `adev_open`: every card unknown. -/
def slotsUnknown : Nat → dev_info :=
  fun _ => { card := SND_OUT_SOUND_CARD_UNKNOWN, device := 0 }
/-! ## Ring lemmas -/

theorem memcpy_length (src : List Int) (k : Nat) :
    ∀ (dst : List Int) (d s : Nat), (memcpy dst d src s k).length = dst.length := by
  induction k with
  | zero => intro dst d s; rfl
  | succ k ih => intro dst d s; simp [memcpy, ih]

theorem getD_set_zero (l : List Int) (d i : Nat) (v : Int) (hd : d < l.length) :
    (l.set d v).getD i 0 = if i = d then v else l.getD i 0 := by
  simp only [List.getD_eq_getElem?_getD, List.getElem?_set]
  by_cases h : d = i
  · subst h; simp [hd]
  · have h2 : ¬ i = d := fun e => h e.symm
    simp [h, h2]

theorem memcpy_getD (src : List Int) (k : Nat) :
    ∀ (dst : List Int) (d s i : Nat), d + k ≤ dst.length →
      (memcpy dst d src s k).getD i 0 =
        if d ≤ i ∧ i < d + k then src.getD (s + (i - d)) 0 else dst.getD i 0 := by
  induction k with
  | zero =>
    intro dst d s i _
    have : ¬ (d ≤ i ∧ i < d + 0) := by omega
    rw [if_neg this]; rfl
  | succ k ih =>
    intro dst d s i h
    have hlen : d + 1 + k ≤ (dst.set d (src.getD s 0)).length := by
      rw [List.length_set]; omega
    rw [memcpy, ih _ _ _ _ hlen, getD_set_zero _ _ _ _ (by omega)]
    by_cases h1 : d + 1 ≤ i ∧ i < d + 1 + k
    · have h2 : d ≤ i ∧ i < d + (k + 1) := by omega
      have h3 : s + 1 + (i - (d + 1)) = s + (i - d) := by omega
      simp only [h1, h2, and_self, if_true, h3]
    · by_cases h4 : i = d
      · subst h4
        have h2 : i ≤ i ∧ i < i + (k + 1) := by omega
        simp [h1, h2]
      · have h2 : ¬ (d ≤ i ∧ i < d + (k + 1)) := by omega
        simp only [h1, h2, h4, if_false]

theorem pushLoop_spec (capacity : Nat) (src : List Int) (samples : Nat) (hc : 0 < capacity) :
    ∀ (fuel : Nat) (ring : List Int) (write_pos remaining : Nat),
      write_pos < capacity → remaining ≤ fuel →
      (pushLoop capacity src samples fuel ring write_pos remaining).2.1
          = (write_pos + remaining) % capacity ∧
      (pushLoop capacity src samples fuel ring write_pos remaining).2.2 = 0 ∧
      (pushLoop capacity src samples fuel ring write_pos remaining).1.length = ring.length := by
  intro fuel
  induction fuel with
  | zero =>
    intro ring wp rem hw hr
    have : rem = 0 := by omega
    subst this
    simp [pushLoop, Nat.mod_eq_of_lt hw]
  | succ fuel ih =>
    intro ring wp rem hw hr
    by_cases h0 : 0 < rem
    · simp only [pushLoop, h0, if_true]
      have hlt : (wp + (if rem < capacity - wp then rem else capacity - wp)) % capacity < capacity :=
        Nat.mod_lt _ hc
      have hrem : rem - (if rem < capacity - wp then rem else capacity - wp) ≤ fuel := by
        split <;> omega
      obtain ⟨h1, h2, h3⟩ := ih (memcpy ring wp src (samples - rem)
        (if rem < capacity - wp then rem else capacity - wp)) _ _ hlt hrem
      refine ⟨?_, h2, ?_⟩
      · rw [h1, Nat.mod_add_mod]
        congr 1
        split <;> omega
      · rw [h3, memcpy_length]
    · have : rem = 0 := by omega
      subst this
      simp [pushLoop, Nat.mod_eq_of_lt hw]

theorem ringSlice_length (capacity : Nat) (ring : List Int) (pos n : Nat) :
    (ringSlice capacity ring pos n).length = n := by
  simp [ringSlice]

theorem ringSlice_split (capacity : Nat) (ring : List Int) (pos t n : Nat)
    (ht : t ≤ n) (hpos : pos + t ≤ capacity) :
    ringSlice capacity ring pos n =
      readBlock ring pos t ++ ringSlice capacity ring ((pos + t) % capacity) (n - t) := by
  have hn : n = t + (n - t) := by omega
  unfold ringSlice readBlock
  conv_lhs => rw [hn, List.range_add, List.map_append, List.map_map]
  congr 1
  · apply List.map_congr_left
    intro i hi
    have : i < t := List.mem_range.mp hi
    rw [Nat.mod_eq_of_lt (by omega)]
  · apply List.map_congr_left
    intro i _
    simp only [Function.comp]
    rw [Nat.mod_add_mod, Nat.add_assoc]

theorem popLoop_spec (capacity : Nat) (ring : List Int) (hc : 0 < capacity) :
    ∀ (fuel : Nat) (dst : List Int) (read_pos count remaining : Nat),
      read_pos < capacity → remaining ≤ fuel →
      popLoop capacity ring fuel dst read_pos count remaining =
        (dst ++ ringSlice capacity ring read_pos remaining,
         (read_pos + remaining) % capacity, count + remaining, 0) := by
  intro fuel
  induction fuel with
  | zero =>
    intro dst rp cnt rem hr hrem
    have : rem = 0 := by omega
    subst this
    simp [popLoop, ringSlice, Nat.mod_eq_of_lt hr]
  | succ fuel ih =>
    intro dst rp cnt rem hr hrem
    by_cases h0 : 0 < rem
    · simp only [popLoop, h0, if_true]
      have hlt : (rp + (if rem < capacity - rp then rem else capacity - rp)) % capacity < capacity :=
        Nat.mod_lt _ hc
      have ht1 : (if rem < capacity - rp then rem else capacity - rp) ≤ rem := by
        split <;> omega
      have ht2 : rp + (if rem < capacity - rp then rem else capacity - rp) ≤ capacity := by
        split <;> omega
      have ht3 : 1 ≤ (if rem < capacity - rp then rem else capacity - rp) := by
        split <;> omega
      rw [ih _ _ _ _ hlt (by omega), ringSlice_split capacity ring rp _ rem ht1 ht2]
      refine Prod.ext ?_ (Prod.ext ?_ (Prod.ext ?_ rfl))
      · simp [List.append_assoc]
      · simp only
        rw [Nat.mod_add_mod]
        congr 1
        omega
      · simp only
        omega
    · have : rem = 0 := by omega
      subst this
      simp [popLoop, ringSlice, Nat.mod_eq_of_lt hr]


theorem push_fields (adev : Ring) (src : List Int) (samples : Nat)
    (hc : 0 < adev.simcom_mic_ring_size)
    (hw : adev.simcom_mic_ring_write < adev.simcom_mic_ring_size) (hs : samples ≠ 0) :
    (simcom_ring_push adev src samples).simcom_mic_ring_size = adev.simcom_mic_ring_size ∧
    (simcom_ring_push adev src samples).simcom_mic_ring_write
        = (adev.simcom_mic_ring_write + samples) % adev.simcom_mic_ring_size ∧
    (simcom_ring_push adev src samples).simcom_mic_ring.length = adev.simcom_mic_ring.length ∧
    ((simcom_ring_push adev src samples).simcom_mic_ring_read = adev.simcom_mic_ring_read ∨
     (simcom_ring_push adev src samples).simcom_mic_ring_read
        = (simcom_ring_push adev src samples).simcom_mic_ring_write) := by
  obtain ⟨h1, _, h3⟩ := pushLoop_spec adev.simcom_mic_ring_size src samples hc samples
    adev.simcom_mic_ring adev.simcom_mic_ring_write samples hw (Nat.le_refl _)
  unfold simcom_ring_push
  simp only [hs, if_false]
  split_ifs <;> simp_all

theorem pop_fields (adev : Ring) (samples : Nat)
    (hc : 0 < adev.simcom_mic_ring_size)
    (hr : adev.simcom_mic_ring_read < adev.simcom_mic_ring_size) (hs : samples ≠ 0) :
    simcom_ring_pop adev samples =
      { adev := { adev with
          simcom_mic_ring_read :=
            (adev.simcom_mic_ring_read + min (popAvailable adev) samples)
              % adev.simcom_mic_ring_size
          simcom_mic_ring_full := false }
        count := min (popAvailable adev) samples
        dst := ringSlice adev.simcom_mic_ring_size adev.simcom_mic_ring
          adev.simcom_mic_ring_read (min (popAvailable adev) samples) } := by
  have hmin : (if samples < popAvailable adev then samples else popAvailable adev)
      = min (popAvailable adev) samples := by
    split <;> omega
  unfold simcom_ring_pop
  simp only [hs, if_false, hmin]
  rw [popLoop_spec _ _ hc _ _ _ _ _ hr (Nat.le_refl _)]
  simp


theorem push_eq (adev : Ring) (src : List Int) (samples : Nat)
    (hc : 0 < adev.simcom_mic_ring_size)
    (hw : adev.simcom_mic_ring_write < adev.simcom_mic_ring_size) (hs : samples ≠ 0) :
    simcom_ring_push adev src samples =
      (let w := (adev.simcom_mic_ring_write + samples) % adev.simcom_mic_ring_size
       let a1 : Ring := { adev with
         simcom_mic_ring := (pushLoop adev.simcom_mic_ring_size src samples samples
            adev.simcom_mic_ring adev.simcom_mic_ring_write samples).1
         simcom_mic_ring_write := w }
       let a2 : Ring :=
         if adev.simcom_mic_ring_full then { a1 with simcom_mic_ring_read := w }
         else if w = adev.simcom_mic_ring_read then { a1 with simcom_mic_ring_full := true }
         else a1
       if a2.simcom_mic_ring_full then
         let counter := (adev.ring_overwrite_counter + 1) % 2 ^ 32
         if 100 < counter ∧ counter % 50 = 0 then
           { a2 with
             ring_overwrite_counter := counter
             simcom_mic_ring_read := w
             simcom_mic_ring_full := false
             ring_recovery_counter := (adev.ring_recovery_counter + 1) % 2 ^ 32 }
         else { a2 with ring_overwrite_counter := counter }
       else a2) := by
  obtain ⟨h1, _, _⟩ := pushLoop_spec adev.simcom_mic_ring_size src samples hc samples
    adev.simcom_mic_ring adev.simcom_mic_ring_write samples hw (Nat.le_refl _)
  unfold simcom_ring_push
  simp only [hs, if_false, h1]
  split_ifs <;> simp_all



theorem full_then_partial_pop_strands (adev : Ring) (src : List Int) (k n : Nat)
    (hc : 0 < adev.simcom_mic_ring_size) (hoc : adev.ring_overwrite_counter < 100)
    (hk : 0 < k) (hk2 : k < adev.simcom_mic_ring_size) (hn : n ≠ 0) :
    (simcom_ring_pop (simcom_ring_push (simcom_ring_reset adev) src
        adev.simcom_mic_ring_size) k).count = k ∧
    (simcom_ring_pop (simcom_ring_pop (simcom_ring_push (simcom_ring_reset adev) src
        adev.simcom_mic_ring_size) k).adev n).count = 0 := by
  have hs : adev.simcom_mic_ring_size ≠ 0 := by omega
  rw [push_eq _ _ _ (by simpa [simcom_ring_reset] using hc)
    (by simpa [simcom_ring_reset] using hc) hs]
  have h1 : (adev.ring_overwrite_counter + 1) % 2 ^ 32 = adev.ring_overwrite_counter + 1 :=
    Nat.mod_eq_of_lt (by omega)
  have h2 : ¬ (100 < adev.ring_overwrite_counter + 1) := by omega
  simp only [simcom_ring_reset, h1]
  simp only [Nat.zero_add, Nat.mod_self, Bool.false_eq_true, if_false, if_true, h2, false_and]
  rw [pop_fields _ _ (by simpa using hc) (by simpa using hc) (by omega)]
  have hk3 : min adev.simcom_mic_ring_size k = k := by omega
  simp only [popAvailable, if_true, hk3, Nat.zero_add, Nat.mod_eq_of_lt hk2, true_and]
  rw [pop_fields _ _ (by simpa using hc) (by simpa using hk2) hn]
  have hk4 : ¬ (k < 0) := by omega
  have hk5 : ¬ (k = 0) := by omega
  simp [popAvailable, hk4, hk5]


theorem push_no_land (adev : Ring) (src : List Int) (samples : Nat)
    (hc : 0 < adev.simcom_mic_ring_size)
    (hw : adev.simcom_mic_ring_write < adev.simcom_mic_ring_size) (hs : samples ≠ 0)
    (hf : adev.simcom_mic_ring_full = false)
    (hne : (adev.simcom_mic_ring_write + samples) % adev.simcom_mic_ring_size
      ≠ adev.simcom_mic_ring_read) :
    simcom_ring_push adev src samples =
      { adev with
        simcom_mic_ring := (pushLoop adev.simcom_mic_ring_size src samples samples
            adev.simcom_mic_ring adev.simcom_mic_ring_write samples).1
        simcom_mic_ring_write :=
          (adev.simcom_mic_ring_write + samples) % adev.simcom_mic_ring_size } := by
  rw [push_eq adev src samples hc hw hs]
  simp [hf, hne]

theorem wrap_after_drain_strands (adev : Ring) (src1 src2 : List Int) (a b n : Nat)
    (ha : 0 < a) (ha2 : a < adev.simcom_mic_ring_size) (hb : 0 < b)
    (hb2 : b < adev.simcom_mic_ring_size) (hab : adev.simcom_mic_ring_size ≤ a + b)
    (hn : n ≠ 0) :
    (simcom_ring_pop (simcom_ring_push (simcom_ring_reset adev) src1 a) a).count = a ∧
    (simcom_ring_pop (simcom_ring_push (simcom_ring_pop
        (simcom_ring_push (simcom_ring_reset adev) src1 a) a).adev src2 b) n).count = 0 := by
  have hc : 0 < adev.simcom_mic_ring_size := by omega
  have e1 : (0 + a) % adev.simcom_mic_ring_size = a := by
    rw [Nat.zero_add]; exact Nat.mod_eq_of_lt ha2
  rw [push_no_land _ _ _ (by simpa [simcom_ring_reset] using hc)
    (by simpa [simcom_ring_reset] using hc) (by omega) (by simp [simcom_ring_reset])
    (by simp only [simcom_ring_reset, e1]; omega)]
  simp only [simcom_ring_reset, e1]
  rw [pop_fields _ _ (by simpa using hc) (by simpa using hc) (by omega)]
  have hav : min (a - 0) a = a := by omega
  simp only [popAvailable, Bool.false_eq_true, if_false, ha, if_true, hav, Nat.zero_add,
    Nat.mod_eq_of_lt ha2, true_and]
  have e2 : (a + b) % adev.simcom_mic_ring_size = a + b - adev.simcom_mic_ring_size := by
    rw [Nat.mod_eq_sub_mod hab]; exact Nat.mod_eq_of_lt (by omega)
  rw [push_no_land _ _ _ (by simpa using hc) (by simpa using ha2) (by omega) (by simp)
    (by simp only [e2]; omega)]
  simp only [e2]
  rw [pop_fields _ _ (by simpa using hc) (by simpa using ha2) hn]
  have h3 : ¬ (a < a + b - adev.simcom_mic_ring_size) := by omega
  have h4 : ¬ (a = a + b - adev.simcom_mic_ring_size) := by omega
  simp [popAvailable, h3, h4]


theorem overrun_without_landing (adev : Ring) (src1 src2 : List Int) (a b : Nat)
    (ha : 0 < a) (ha2 : a < adev.simcom_mic_ring_size) (hb : 0 < b)
    (hab : adev.simcom_mic_ring_size < a + b) (hab2 : a + b < 2 * adev.simcom_mic_ring_size) :
    simcom_ring_push (simcom_ring_push (simcom_ring_reset adev) src1 a) src2 b =
      { adev with
        simcom_mic_ring := (pushLoop adev.simcom_mic_ring_size src2 b b
          (pushLoop adev.simcom_mic_ring_size src1 a a adev.simcom_mic_ring 0 a).1 a b).1
        simcom_mic_ring_read := 0
        simcom_mic_ring_write := a + b - adev.simcom_mic_ring_size
        simcom_mic_ring_full := false } := by
  have hc : 0 < adev.simcom_mic_ring_size := by omega
  have e1 : (0 + a) % adev.simcom_mic_ring_size = a := by
    rw [Nat.zero_add]; exact Nat.mod_eq_of_lt ha2
  rw [push_no_land (simcom_ring_reset adev) _ _ (by simpa [simcom_ring_reset] using hc)
    (by simpa [simcom_ring_reset] using hc) (by omega) (by simp [simcom_ring_reset])
    (by simp only [simcom_ring_reset, e1]; omega)]
  simp only [simcom_ring_reset, e1]
  have e2 : (a + b) % adev.simcom_mic_ring_size = a + b - adev.simcom_mic_ring_size := by
    rw [Nat.mod_eq_sub_mod (by omega)]; exact Nat.mod_eq_of_lt (by omega)
  rw [push_no_land _ _ _ (by simpa using hc) (by simpa using ha2) (by omega) (by simp)
    (by simp only [e2]; omega)]
  simp only [e2]

theorem overrun_after_pop (adev : Ring) (src1 src2 : List Int) (a k b : Nat)
    (hk : 0 < k) (hka : k < a) (ha2 : a < adev.simcom_mic_ring_size)
    (hab : adev.simcom_mic_ring_size + k < a + b) (hab2 : a + b < 2 * adev.simcom_mic_ring_size) :
    overtakes (simcom_ring_pop (simcom_ring_push (simcom_ring_reset adev) src1 a) k).adev b ∧
    (simcom_ring_push (simcom_ring_pop (simcom_ring_push (simcom_ring_reset adev)
        src1 a) k).adev src2 b).simcom_mic_ring_read = k ∧
    (simcom_ring_push (simcom_ring_pop (simcom_ring_push (simcom_ring_reset adev)
        src1 a) k).adev src2 b).simcom_mic_ring_write = a + b - adev.simcom_mic_ring_size ∧
    (simcom_ring_push (simcom_ring_pop (simcom_ring_push (simcom_ring_reset adev)
        src1 a) k).adev src2 b).simcom_mic_ring_full = false := by
  have hc : 0 < adev.simcom_mic_ring_size := by omega
  have e1 : (0 + a) % adev.simcom_mic_ring_size = a := by
    rw [Nat.zero_add]; exact Nat.mod_eq_of_lt ha2
  rw [push_no_land (simcom_ring_reset adev) _ _ (by simpa [simcom_ring_reset] using hc)
    (by simpa [simcom_ring_reset] using hc) (by omega) (by simp [simcom_ring_reset])
    (by simp only [simcom_ring_reset, e1]; omega)]
  simp only [simcom_ring_reset, e1]
  rw [pop_fields _ _ (by simpa using hc) (by simpa using hc) (by omega)]
  have ha : 0 < a := by omega
  have hav : min (a - 0) k = k := by omega
  simp only [popAvailable, Bool.false_eq_true, if_false, ha, if_true, hav, Nat.zero_add,
    Nat.mod_eq_of_lt (show k < adev.simcom_mic_ring_size by omega)]
  have e2 : (a + b) % adev.simcom_mic_ring_size = a + b - adev.simcom_mic_ring_size := by
    rw [Nat.mod_eq_sub_mod (by omega)]; exact Nat.mod_eq_of_lt (by omega)
  refine ⟨⟨adev.simcom_mic_ring_size + k - a, by omega, by omega, ?_⟩, ?_⟩
  · simp only
    have : a + (adev.simcom_mic_ring_size + k - a) = k + adev.simcom_mic_ring_size := by omega
    rw [this, Nat.add_mod_right]
    exact Nat.mod_eq_of_lt (by omega)
  · rw [push_no_land _ _ _ (by simpa using hc) (by simpa using ha2) (by omega) (by simp)
      (by simp only [e2]; omega)]
    simp only [e2, and_self]

theorem pushLoop_storage (capacity : Nat) (hc : 0 < capacity) (stream src : List Int)
    (samples : Nat) :
    ∀ (fuel : Nat) (ring : List Int) (write_pos remaining : Nat),
      ring.length = capacity → write_pos < capacity → remaining ≤ fuel →
      remaining ≤ samples →
      write_pos = (stream.length + (samples - remaining)) % capacity →
      (∀ j, j < stream.length + (samples - remaining) →
        stream.length + (samples - remaining) ≤ j + capacity →
        ring.getD (j % capacity) 0 = (stream ++ src).getD j 0) →
      ∀ j, j < stream.length + samples → stream.length + samples ≤ j + capacity →
        (pushLoop capacity src samples fuel ring write_pos remaining).1.getD (j % capacity) 0
          = (stream ++ src).getD j 0 := by
  intro fuel
  induction fuel with
  | zero =>
    intro ring wp rem _ _ hrem _ _ hinv j hj1 hj2
    have h0 : rem = 0 := by omega
    subst h0
    simp only [pushLoop]
    exact hinv j (by omega) (by omega)
  | succ fuel ih =>
    intro ring wp rem hlen hw hrem hrs hwp hinv j hj1 hj2
    by_cases h0 : 0 < rem
    · simp only [pushLoop, h0, if_true]
      generalize ht : (if rem < capacity - wp then rem else capacity - wp) = t
      have ht1 : t ≤ rem := by rw [← ht]; split <;> omega
      have ht2 : wp + t ≤ capacity := by rw [← ht]; split <;> omega
      have ht3 : 1 ≤ t := by rw [← ht]; split <;> omega
      have hm : samples - (rem - t) = samples - rem + t := by omega
      apply ih (memcpy ring wp src (samples - rem) t) ((wp + t) % capacity) (rem - t)
        (by rw [memcpy_length]; exact hlen) (Nat.mod_lt _ hc) (by omega) (by omega)
      · rw [hm, hwp, Nat.mod_add_mod, Nat.add_assoc]
      · intro i hi1 hi2
        rw [hm] at hi1 hi2
        rw [memcpy_getD src t ring wp (samples - rem) (i % capacity) (by omega)]
        by_cases him : stream.length + (samples - rem) ≤ i
        · obtain ⟨a, ha⟩ : ∃ a, i = stream.length + (samples - rem) + a :=
            ⟨i - (stream.length + (samples - rem)), by omega⟩
          have hat : a < t := by omega
          have himod : i % capacity = wp + a := by
            rw [ha, ← Nat.mod_add_mod, ← hwp]
            exact Nat.mod_eq_of_lt (by omega)
          rw [himod, if_pos ⟨by omega, by omega⟩, List.getD_append_right _ _ _ _ (by omega)]
          congr 1
          omega
        · have hnot : ¬ (wp ≤ i % capacity ∧ i % capacity < wp + t) := by
            rintro ⟨h1, h2⟩
            obtain ⟨b, hb⟩ : ∃ b, stream.length + (samples - rem) = i + b :=
              ⟨stream.length + (samples - rem) - i, by omega⟩
            have hwp2 : wp = (i % capacity + b) % capacity := by
              rw [Nat.mod_add_mod, ← hb]; exact hwp
            generalize i % capacity = r at h1 h2 hwp2
            rcases Nat.lt_or_ge (r + b) capacity with h | h
            · rw [Nat.mod_eq_of_lt h] at hwp2; omega
            · rw [Nat.mod_eq_sub_mod h, Nat.mod_eq_of_lt (by omega)] at hwp2; omega
          rw [if_neg hnot]
          exact hinv i (by omega) (by omega)
      · exact hj1
      · exact hj2
    · have h0 : rem = 0 := by omega
      subst h0
      simp only [pushLoop, Nat.lt_irrefl, if_false]
      exact hinv j (by omega) (by omega)

theorem pushedInv_reset (adev : Ring)
    (hlen : adev.simcom_mic_ring.length = adev.simcom_mic_ring_size) :
    PushedInv adev.simcom_mic_ring_size [] (simcom_ring_reset adev) := by
  refine ⟨rfl, hlen, ?_, ?_, ?_, Or.inl rfl⟩
  · simp [simcom_ring_reset]
  · intro j hj; simp at hj
  · intro h; simp [simcom_ring_reset] at h

theorem pushedInv_push (capacity : Nat) (hc : 0 < capacity) (stream src : List Int)
    (adev : Ring) (h : PushedInv capacity stream adev) :
    PushedInv capacity (stream ++ src) (simcom_ring_push adev src src.length) := by
  obtain ⟨hsz, hlen, hw, hst, hfull, hrd⟩ := h
  by_cases hs : src.length = 0
  · have : src = [] := List.length_eq_zero.mp hs
    subst this
    simp only [simcom_ring_push, List.length_nil, if_true, List.append_nil]
    exact ⟨hsz, hlen, hw, hst, hfull, hrd⟩
  · have hc2 : 0 < adev.simcom_mic_ring_size := by rw [hsz]; exact hc
    have hw2 : adev.simcom_mic_ring_write < adev.simcom_mic_ring_size := by
      rw [hw, hsz]; exact Nat.mod_lt _ hc
    have hwn : (adev.simcom_mic_ring_write + src.length) % adev.simcom_mic_ring_size
        = (stream ++ src).length % capacity := by
      rw [hw, hsz, Nat.mod_add_mod, List.length_append]
    have hlen2 := (pushLoop_spec adev.simcom_mic_ring_size src src.length hc2 src.length
      adev.simcom_mic_ring adev.simcom_mic_ring_write src.length hw2 (Nat.le_refl _)).2.2
    have hst2 : ∀ j, j < (stream ++ src).length → (stream ++ src).length ≤ j + capacity →
        (pushLoop adev.simcom_mic_ring_size src src.length src.length
          adev.simcom_mic_ring adev.simcom_mic_ring_write src.length).1.getD (j % capacity) 0
          = (stream ++ src).getD j 0 := by
      intro j hj1 hj2
      rw [List.length_append] at hj1 hj2
      rw [hsz]
      refine pushLoop_storage capacity hc stream src src.length src.length adev.simcom_mic_ring
        adev.simcom_mic_ring_write src.length hlen (by rw [hw]; exact Nat.mod_lt _ hc)
        (Nat.le_refl _) (Nat.le_refl _) (by rw [hw, Nat.sub_self, Nat.add_zero]) ?_ j hj1 hj2
      intro i hi1 hi2
      rw [Nat.sub_self, Nat.add_zero] at hi1 hi2
      rw [hst i hi1 hi2, List.getD_append _ _ _ _ hi1]
    have hgrow : stream.length ≤ (stream ++ src).length := by
      rw [List.length_append]; omega
    have hland : (stream ++ src).length % capacity = 0 → capacity ≤ (stream ++ src).length := by
      intro h0
      have hpos : 0 < (stream ++ src).length := by rw [List.length_append]; omega
      exact Nat.le_of_dvd hpos (Nat.dvd_of_mod_eq_zero h0)
    rw [push_eq adev src src.length hc2 hw2 hs]
    simp only [hwn]
    by_cases hf : adev.simcom_mic_ring_full = true
    · obtain ⟨_, hcap⟩ := hfull hf
      simp only [hf, if_true]
      split_ifs
      · exact ⟨hsz, by simpa using hlen2.trans hlen, rfl, hst2,
          fun h => by simp at h, Or.inr (by omega)⟩
      · exact ⟨hsz, by simpa using hlen2.trans hlen, rfl, hst2,
          fun _ => ⟨rfl, by omega⟩, Or.inr (by omega)⟩
    · have hf2 : adev.simcom_mic_ring_full = false := by
        cases h : adev.simcom_mic_ring_full <;> simp_all
      simp only [hf2, Bool.false_eq_true, if_false]
      by_cases hl : (stream ++ src).length % capacity = adev.simcom_mic_ring_read
      · have hcap : capacity ≤ (stream ++ src).length := by
          rcases hrd with h0 | h0
          · exact hland (by rw [hl, h0])
          · omega
        simp only [hl, if_true]
        split_ifs
        · exact ⟨hsz, by simpa using hlen2.trans hlen, by simpa using hl.symm, by simpa using hst2,
            fun h => by simp at h, Or.inr hcap⟩
        · exact ⟨hsz, by simpa using hlen2.trans hlen, by simpa using hl.symm, by simpa using hst2,
            fun _ => ⟨by simp, hcap⟩, Or.inr hcap⟩
      · simp only [hl, if_false, hf2, Bool.false_eq_true]
        refine ⟨hsz, by simpa using hlen2.trans hlen, rfl, hst2, fun h => by simp [hf2] at h, ?_⟩
        rcases hrd with h0 | h0
        · exact Or.inl h0
        · exact Or.inr (by omega)

theorem pushedInv_pushAll (capacity : Nat) (hc : 0 < capacity) (srcs : List (List Int)) :
    ∀ (stream : List Int) (adev : Ring), PushedInv capacity stream adev →
      PushedInv capacity (stream ++ srcs.flatten) (pushAll adev srcs) := by
  induction srcs with
  | nil => intro stream adev h; simpa [pushAll] using h
  | cons src srcs ih =>
    intro stream adev h
    have h2 := ih (stream ++ src) _ (pushedInv_push capacity hc stream src adev h)
    simpa [pushAll, List.append_assoc] using h2

theorem take_drop_eq_map (l : List Int) (k n : Nat) (h : k + n ≤ l.length) :
    (l.drop k).take n = (List.range n).map (fun i => l.getD (k + i) 0) := by
  apply List.ext_getElem
  · simp; omega
  · intro i h1 h2
    have hi : i < n := by simpa using h2
    simp only [List.getElem_take, List.getElem_drop, List.getElem_map, List.getElem_range]
    rw [List.getD_eq_getElem _ _ (by omega)]

theorem pop_after_pushes_full (adev : Ring) (srcs : List (List Int)) (n : Nat) (hn : 1 ≤ n)
    (hcap : n ≤ adev.simcom_mic_ring_size)
    (hlen : adev.simcom_mic_ring.length = adev.simcom_mic_ring_size)
    (hfull : (pushAll (simcom_ring_reset adev) srcs).simcom_mic_ring_full = true) :
    adev.simcom_mic_ring_size ≤ srcs.flatten.length ∧
    (simcom_ring_pop (pushAll (simcom_ring_reset adev) srcs) n).count = n ∧
    (simcom_ring_pop (pushAll (simcom_ring_reset adev) srcs) n).dst =
      (srcs.flatten.drop (srcs.flatten.length - adev.simcom_mic_ring_size)).take n := by
  have hc : 0 < adev.simcom_mic_ring_size := by omega
  have inv := pushedInv_pushAll adev.simcom_mic_ring_size hc srcs [] (simcom_ring_reset adev)
    (pushedInv_reset adev hlen)
  rw [List.nil_append] at inv
  obtain ⟨hsz, _, hw, hst, hf, _⟩ := inv
  obtain ⟨hrw, hP⟩ := hf hfull
  have hr : (pushAll (simcom_ring_reset adev) srcs).simcom_mic_ring_read
      = srcs.flatten.length % adev.simcom_mic_ring_size := hrw.trans hw
  have hav : popAvailable (pushAll (simcom_ring_reset adev) srcs) = adev.simcom_mic_ring_size := by
    simp [popAvailable, hfull, hsz]
  rw [pop_fields _ n (by rw [hsz]; exact hc) (by rw [hsz, hr]; exact Nat.mod_lt _ hc) (by omega)]
  have hmin : min adev.simcom_mic_ring_size n = n := by omega
  simp only [hav, hmin, hsz, hr]
  refine ⟨hP, trivial, ?_⟩
  rw [take_drop_eq_map _ _ _ (by omega)]
  unfold ringSlice
  apply List.map_congr_left
  intro i hi
  have hi2 : i < n := List.mem_range.mp hi
  have e : (srcs.flatten.length % adev.simcom_mic_ring_size + i) % adev.simcom_mic_ring_size
      = (srcs.flatten.length - adev.simcom_mic_ring_size + i) % adev.simcom_mic_ring_size := by
    rw [Nat.mod_add_mod, ← Nat.add_mod_right (srcs.flatten.length - adev.simcom_mic_ring_size + i)]
    congr 1
    omega
  rw [e]
  exact hst _ (by omega) (by omega)

theorem push_recovery_empties (adev : Ring) (src : List Int) (samples m : Nat)
    (hc : 0 < adev.simcom_mic_ring_size)
    (hw : adev.simcom_mic_ring_write < adev.simcom_mic_ring_size)
    (hrec : (simcom_ring_push adev src samples).ring_recovery_counter
      ≠ adev.ring_recovery_counter) :
    (simcom_ring_pop (simcom_ring_push adev src samples) m).count = 0 := by
  by_cases hs : samples = 0
  · subst hs
    simp [simcom_ring_push] at hrec
  · by_cases hm : m = 0
    · subst hm; simp [simcom_ring_pop]
    · obtain ⟨h1, h2, _, _⟩ := push_fields adev src samples hc hw hs
      have hw2 : (simcom_ring_push adev src samples).simcom_mic_ring_write
          < (simcom_ring_push adev src samples).simcom_mic_ring_size := by
        rw [h1, h2]; exact Nat.mod_lt _ hc
      have key : (simcom_ring_push adev src samples).simcom_mic_ring_full = false ∧
          (simcom_ring_push adev src samples).simcom_mic_ring_read
            = (simcom_ring_push adev src samples).simcom_mic_ring_write := by
        rw [push_eq adev src samples hc hw hs] at hrec ⊢
        revert hrec
        simp only
        split_ifs <;> simp_all
      rw [pop_fields _ m (by rw [h1]; exact hc) (by rw [key.2]; exact hw2) hm]
      simp [popAvailable, key.1, key.2]

/-! ## Ring buffer: the claims -/

/-- C1: the claim says that from a reset ring every interleaving whose pushes
total at most the capacity is returned in order by the pops.  The code loses
samples when the total equals the capacity: a capacity-4 ring is filled with
`1, 2, 3, 4`, the first pop returns `1, 2`, and every later pop returns nothing
because `read = 2 > write = 0` with the full flag cleared is taken as empty.
At the capacity of the device, 48000, after a push of 48000 samples and a pop
of one 320-sample period the next pop returns 0 samples. -/
theorem ring_fifo_lost_after_partial_pop_of_full :
    (runOps (simcom_ring_reset (ensure_ring 4))
        [RingOp.push [1, 2, 3, 4], RingOp.pop 2, RingOp.pop 2, RingOp.pop 4]).2 = [1, 2] ∧
    pushedSamples [RingOp.push [1, 2, 3, 4], RingOp.pop 2, RingOp.pop 2, RingOp.pop 4]
        = [1, 2, 3, 4] ∧
    (simcom_ring_pop (runOps (simcom_ring_reset (ensure_ring 4))
        [RingOp.push [1, 2, 3, 4], RingOp.pop 2]).1 4).count = 0 ∧
    ∀ (ring src : List Int) (rc n : Nat),
      (simcom_ring_pop (simcom_ring_push
        (simcom_ring_reset ⟨ring, 48000, 0, 0, false, 0, rc⟩) src 48000) 320).count = 320 ∧
      (simcom_ring_pop (simcom_ring_pop (simcom_ring_push
        (simcom_ring_reset ⟨ring, 48000, 0, 0, false, 0, rc⟩) src 48000) 320).adev
          (n + 1)).count = 0 := by
  refine ⟨by decide, by decide, by decide, ?_⟩
  intro ring src rc n
  exact full_then_partial_pop_strands ⟨ring, 48000, 0, 0, false, 0, rc⟩ src 320 (n + 1)
    (by show 0 < 48000; omega) (by show 0 < 100; omega) (by omega)
    (by show 320 < 48000; omega) (by omega)

/-- C2: the claim says that pushes that each fit the free space come back in
push order, also when the write index wraps.  The code strands the samples of
a push that wraps: with capacity 4, `1, 2, 3` are pushed and popped, then
`4, 5` are pushed into an empty ring (free space 4); the write index wraps to
1, the read index is 3, and the drain returns nothing.  At capacity 48000 the
same happens for 47900 samples pushed and popped followed by a 320-sample
push. -/
theorem ring_fifo_lost_after_wrap :
    (runOps (simcom_ring_reset (ensure_ring 4))
        [RingOp.push [1, 2, 3], RingOp.pop 3, RingOp.push [4, 5], RingOp.pop 4]).2 = [1, 2, 3] ∧
    pushedSamples [RingOp.push [1, 2, 3], RingOp.pop 3, RingOp.push [4, 5], RingOp.pop 4]
        = [1, 2, 3, 4, 5] ∧
    (simcom_ring_pop (runOps (simcom_ring_reset (ensure_ring 4))
        [RingOp.push [1, 2, 3], RingOp.pop 3, RingOp.push [4, 5]]).1 4).count = 0 ∧
    ∀ (ring src1 src2 : List Int) (oc rc n : Nat),
      (simcom_ring_pop (simcom_ring_push
        (simcom_ring_reset ⟨ring, 48000, 0, 0, false, oc, rc⟩) src1 47900) 47900).count
          = 47900 ∧
      (simcom_ring_pop (simcom_ring_push (simcom_ring_pop (simcom_ring_push
        (simcom_ring_reset ⟨ring, 48000, 0, 0, false, oc, rc⟩) src1 47900) 47900).adev
          src2 320) (n + 1)).count = 0 := by
  refine ⟨by decide, by decide, by decide, ?_⟩
  intro ring src1 src2 oc rc n
  exact wrap_after_drain_strands ⟨ring, 48000, 0, 0, false, oc, rc⟩ src1 src2 47900 320 (n + 1)
    (by omega) (by show 47900 < 48000; omega) (by omega) (by show 320 < 48000; omega)
    (by show 48000 ≤ 47900 + 320; omega) (by omega)

/-- C3: the claim says the full flag is set exactly when the ring holds
`capacity` unread samples.  A push that runs over the read index without
landing on it leaves the flag clear: after 5 samples are pushed into a reset
ring of capacity 4 the ring holds its 4 newest samples unread, the flag is
false and the indices are `read = 0`, `write = 1`.  At capacity 48000 the same
happens after pushes of 47900 and 320 samples. -/
theorem ring_full_flag_clear_after_overrun :
    (runOps (simcom_ring_reset (ensure_ring 4))
        [RingOp.push [1, 2, 3, 4, 5]]).1.simcom_mic_ring_full = false ∧
    unreadAfter 4 (simcom_ring_reset (ensure_ring 4)) 0 [RingOp.push [1, 2, 3, 4, 5]] = 4 ∧
    ∀ (ring : List Int) (oc rc : Nat),
      (runOps (simcom_ring_reset ⟨ring, 48000, 0, 0, false, oc, rc⟩)
        [RingOp.push (List.replicate 47900 1),
         RingOp.push (List.replicate 320 1)]).1.simcom_mic_ring_full = false ∧
      unreadAfter 48000 (simcom_ring_reset ⟨ring, 48000, 0, 0, false, oc, rc⟩) 0
        [RingOp.push (List.replicate 47900 1), RingOp.push (List.replicate 320 1)] = 48000 := by
  refine ⟨by decide, by decide, ?_⟩
  intro ring oc rc
  have key := overrun_without_landing ⟨ring, 48000, 0, 0, false, oc, rc⟩
    (List.replicate 47900 1) (List.replicate 320 1) 47900 320
    (by omega) (by show 47900 < 48000; omega) (by omega)
    (by show 48000 < 47900 + 320; omega) (by show 47900 + 320 < 2 * 48000; omega)
  have k1 := push_no_land (simcom_ring_reset ⟨ring, 48000, 0, 0, false, oc, rc⟩)
    (List.replicate 47900 1) 47900
    (by show 0 < 48000; omega) (by show 0 < 48000; omega) (by omega) rfl
    (by show (0 + 47900) % 48000 ≠ 0; omega)
  constructor
  · simp only [runOps, List.length_replicate]
    rw [key]
  · simp only [unreadAfter, List.length_replicate]
    rw [key, k1]
    simp [simcom_ring_reset]

/-- C4: the claim says that whenever a push makes the write index reach or
pass the read index, the read index equals the new write index afterwards.
The code moves the read index only when the ring was already full, and sets
the flag only when the write index lands exactly on the read index.  With
capacity 10, after `push 3` and `pop 1` the indices are `read = 1`,
`write = 3`; a push of 9 samples writes slots 3 … 9, 0, 1 and leaves
`write = 2`, `read = 1`, flag clear.  At capacity 48000: push 47900, pop 320,
push 500 leaves `read = 320`, `write = 400`. -/
theorem ring_push_overrun_leaves_read_behind :
    (overtakes (runOps (simcom_ring_reset (ensure_ring 10))
        [RingOp.push [1, 2, 3], RingOp.pop 1]).1 9 ∧
     (runOps (simcom_ring_reset (ensure_ring 10))
        [RingOp.push [1, 2, 3], RingOp.pop 1,
         RingOp.push [4, 5, 6, 7, 8, 9, 10, 11, 12]]).1.simcom_mic_ring_read = 1 ∧
     (runOps (simcom_ring_reset (ensure_ring 10))
        [RingOp.push [1, 2, 3], RingOp.pop 1,
         RingOp.push [4, 5, 6, 7, 8, 9, 10, 11, 12]]).1.simcom_mic_ring_write = 2) ∧
    ∀ (ring src1 src2 : List Int) (oc rc : Nat),
      overtakes (simcom_ring_pop (simcom_ring_push
        (simcom_ring_reset ⟨ring, 48000, 0, 0, false, oc, rc⟩) src1 47900) 320).adev 500 ∧
      (simcom_ring_push (simcom_ring_pop (simcom_ring_push
        (simcom_ring_reset ⟨ring, 48000, 0, 0, false, oc, rc⟩) src1 47900) 320).adev
          src2 500).simcom_mic_ring_read = 320 ∧
      (simcom_ring_push (simcom_ring_pop (simcom_ring_push
        (simcom_ring_reset ⟨ring, 48000, 0, 0, false, oc, rc⟩) src1 47900) 320).adev
          src2 500).simcom_mic_ring_write = 400 ∧
      (simcom_ring_push (simcom_ring_pop (simcom_ring_push
        (simcom_ring_reset ⟨ring, 48000, 0, 0, false, oc, rc⟩) src1 47900) 320).adev
          src2 500).simcom_mic_ring_full = false := by
  refine ⟨⟨⟨8, by decide, by decide, by decide⟩, by decide, by decide⟩, ?_⟩
  intro ring src1 src2 oc rc
  obtain ⟨h1, h2, h3, h4⟩ :=
    overrun_after_pop ⟨ring, 48000, 0, 0, false, oc, rc⟩ src1 src2 47900 320 500
      (by omega) (by omega) (by show 47900 < 48000; omega)
      (by show 48000 + 320 < 47900 + 500; omega) (by show 47900 + 500 < 2 * 48000; omega)
  exact ⟨h1, h2, h3.trans (by norm_num), h4⟩

/-- C5: for a capacity `C > 0`, `simcom_ring_reset` leaves both indices below
`C`, and `simcom_ring_push` (any sample count, any overflow or recovery path)
and `simcom_ring_pop` (any request) keep the capacity and keep
`read_index < C` and `write_index < C`. -/
theorem ring_indices_stay_in_range (adev : Ring) (hc : 0 < adev.simcom_mic_ring_size) :
    ((simcom_ring_reset adev).simcom_mic_ring_size = adev.simcom_mic_ring_size ∧
     (simcom_ring_reset adev).simcom_mic_ring_read < adev.simcom_mic_ring_size ∧
     (simcom_ring_reset adev).simcom_mic_ring_write < adev.simcom_mic_ring_size) ∧
    (adev.simcom_mic_ring_read < adev.simcom_mic_ring_size →
     adev.simcom_mic_ring_write < adev.simcom_mic_ring_size →
      (∀ (src : List Int) (samples : Nat),
        (simcom_ring_push adev src samples).simcom_mic_ring_size = adev.simcom_mic_ring_size ∧
        (simcom_ring_push adev src samples).simcom_mic_ring_read < adev.simcom_mic_ring_size ∧
        (simcom_ring_push adev src samples).simcom_mic_ring_write < adev.simcom_mic_ring_size) ∧
      (∀ samples : Nat,
        (simcom_ring_pop adev samples).adev.simcom_mic_ring_size = adev.simcom_mic_ring_size ∧
        (simcom_ring_pop adev samples).adev.simcom_mic_ring_read < adev.simcom_mic_ring_size ∧
        (simcom_ring_pop adev samples).adev.simcom_mic_ring_write
          < adev.simcom_mic_ring_size)) := by
  refine ⟨⟨rfl, hc, hc⟩, fun hr hw => ⟨?_, ?_⟩⟩
  · intro src samples
    by_cases hs : samples = 0
    · subst hs
      have e : simcom_ring_push adev src 0 = adev := by simp [simcom_ring_push]
      rw [e]
      exact ⟨rfl, hr, hw⟩
    · obtain ⟨h1, h2, _, h4⟩ := push_fields adev src samples hc hw hs
      have hw2 : (simcom_ring_push adev src samples).simcom_mic_ring_write
          < adev.simcom_mic_ring_size := by
        rw [h2]; exact Nat.mod_lt _ hc
      refine ⟨h1, ?_, hw2⟩
      rcases h4 with h4 | h4
      · rw [h4]; exact hr
      · rw [h4]; exact hw2
  · intro samples
    by_cases hs : samples = 0
    · subst hs
      have e : (simcom_ring_pop adev 0).adev = adev := by simp [simcom_ring_pop]
      rw [e]
      exact ⟨rfl, hr, hw⟩
    · rw [pop_fields adev samples hc hr hs]
      exact ⟨rfl, Nat.mod_lt _ hc, hw⟩

/-- C5 at a concrete ring: capacity 4, `read = 3`, `write = 1`. -/
theorem ring_indices_stay_in_range_witness :
    (0 < (Ring.mk [5, 2, 3, 4] 4 3 1 false 0 0).simcom_mic_ring_size) ∧
    (simcom_ring_push (Ring.mk [5, 2, 3, 4] 4 3 1 false 0 0) [6, 7, 8, 9, 10, 11] 6
      ).simcom_mic_ring_write < 4 ∧
    (simcom_ring_pop (Ring.mk [5, 2, 3, 4] 4 3 1 false 0 0) 2).adev.simcom_mic_ring_read < 4 :=
  ⟨by decide,
   ((ring_indices_stay_in_range (Ring.mk [5, 2, 3, 4] 4 3 1 false 0 0) (by decide)).2
      (by decide) (by decide)).1 [6, 7, 8, 9, 10, 11] 6 |>.2.2,
   ((ring_indices_stay_in_range (Ring.mk [5, 2, 3, 4] 4 3 1 false 0 0) (by decide)).2
      (by decide) (by decide)).2 2 |>.2.1⟩

/-- C6: for a ring with `read_index < capacity` and a request `n ≥ 1`,
`simcom_ring_pop` returns `k = min(available, n)`, where `available` is the
capacity when full, `write - read` when not full and `read < write`, and 0
otherwise; `dst[i] = storage[(read + i) mod capacity]` for `i < k`; afterwards
`read_index = (read + k) mod capacity`, the full flag is false, and the write
index, the storage and the capacity are unchanged. -/
theorem ring_pop_contract (adev : Ring) (n : Nat) (hn : 1 ≤ n)
    (hc : 0 < adev.simcom_mic_ring_size)
    (hr : adev.simcom_mic_ring_read < adev.simcom_mic_ring_size) :
    (simcom_ring_pop adev n).count =
      min (if adev.simcom_mic_ring_full then adev.simcom_mic_ring_size
           else if adev.simcom_mic_ring_read < adev.simcom_mic_ring_write then
             adev.simcom_mic_ring_write - adev.simcom_mic_ring_read
           else 0) n ∧
    (simcom_ring_pop adev n).dst.length = (simcom_ring_pop adev n).count ∧
    (∀ i, i < (simcom_ring_pop adev n).count →
      (simcom_ring_pop adev n).dst.getD i 0 =
        adev.simcom_mic_ring.getD
          ((adev.simcom_mic_ring_read + i) % adev.simcom_mic_ring_size) 0) ∧
    (simcom_ring_pop adev n).adev.simcom_mic_ring_read =
      (adev.simcom_mic_ring_read + (simcom_ring_pop adev n).count)
        % adev.simcom_mic_ring_size ∧
    (simcom_ring_pop adev n).adev.simcom_mic_ring_full = false ∧
    (simcom_ring_pop adev n).adev.simcom_mic_ring_write = adev.simcom_mic_ring_write ∧
    (simcom_ring_pop adev n).adev.simcom_mic_ring = adev.simcom_mic_ring ∧
    (simcom_ring_pop adev n).adev.simcom_mic_ring_size = adev.simcom_mic_ring_size := by
  have hav : popAvailable adev =
      (if adev.simcom_mic_ring_full then adev.simcom_mic_ring_size
       else if adev.simcom_mic_ring_read < adev.simcom_mic_ring_write then
         adev.simcom_mic_ring_write - adev.simcom_mic_ring_read
       else 0) := by
    unfold popAvailable
    split_ifs <;> rfl
  rw [pop_fields adev n hc hr (by omega), ← hav]
  refine ⟨rfl, ringSlice_length _ _ _ _, ?_, rfl, rfl, rfl, rfl, rfl⟩
  intro i hi
  simp only at hi
  simp only [ringSlice]
  rw [List.getD_eq_getElem _ _ (by simpa using hi)]
  simp

/-- C6 at a concrete full ring of capacity 4 with `read = write = 2`: a pop of
3 samples returns the slots 2, 3, 0. -/
theorem ring_pop_contract_witness :
    (1 ≤ 3 ∧ 0 < (Ring.mk [5, 6, 3, 4] 4 2 2 true 1 0).simcom_mic_ring_size ∧
      (Ring.mk [5, 6, 3, 4] 4 2 2 true 1 0).simcom_mic_ring_read
        < (Ring.mk [5, 6, 3, 4] 4 2 2 true 1 0).simcom_mic_ring_size) ∧
    (simcom_ring_pop (Ring.mk [5, 6, 3, 4] 4 2 2 true 1 0) 3).count = 3 :=
  ⟨⟨by decide, by decide, by decide⟩,
   (ring_pop_contract (Ring.mk [5, 6, 3, 4] 4 2 2 true 1 0) 3 (by decide) (by decide)
      (by decide)).1⟩

/-- C7, as the code has it: after pushes from a reset ring with no pop in
between that leave the full flag set (so at least `capacity` samples were
pushed), the first pop of 320 samples from a ring of capacity at least 320
returns 320 samples, and they are the oldest samples still stored: positions
`P - capacity, …, P - capacity + 319` of the pushed stream of length `P`, not
the last 320.  When a further push runs the recovery, the ring is empty
afterwards and the pop returns no sample. -/
theorem ring_pop_after_overflow_returns_oldest (adev : Ring) (srcs : List (List Int))
    (hcap : 320 ≤ adev.simcom_mic_ring_size)
    (hlen : adev.simcom_mic_ring.length = adev.simcom_mic_ring_size) :
    ((pushAll (simcom_ring_reset adev) srcs).simcom_mic_ring_full = true →
      adev.simcom_mic_ring_size ≤ srcs.flatten.length ∧
      (simcom_ring_pop (pushAll (simcom_ring_reset adev) srcs) 320).count = 320 ∧
      (simcom_ring_pop (pushAll (simcom_ring_reset adev) srcs) 320).dst =
        (srcs.flatten.drop (srcs.flatten.length - adev.simcom_mic_ring_size)).take 320) ∧
    (∀ src : List Int,
      (simcom_ring_push (pushAll (simcom_ring_reset adev) srcs) src src.length
        ).ring_recovery_counter
        ≠ (pushAll (simcom_ring_reset adev) srcs).ring_recovery_counter →
      (simcom_ring_pop (simcom_ring_push (pushAll (simcom_ring_reset adev) srcs) src src.length)
        320).count = 0) := by
  refine ⟨fun hfull => pop_after_pushes_full adev srcs 320 (by omega) hcap hlen hfull, ?_⟩
  intro src hrec
  have hc : 0 < adev.simcom_mic_ring_size := by omega
  obtain ⟨hsz, _, hw, _, _, _⟩ := pushedInv_pushAll adev.simcom_mic_ring_size hc srcs []
    (simcom_ring_reset adev) (pushedInv_reset adev hlen)
  exact push_recovery_empties _ src src.length 320 (by rw [hsz]; exact hc)
    (by rw [hw, hsz]; exact Nat.mod_lt _ hc) hrec

set_option maxRecDepth 100000 in
/-- C7 at a ring of capacity 321 after pushes of 321 samples and of 1 sample,
and at a ring of capacity 320 whose 150th overwriting push runs the
recovery. -/
theorem ring_pop_after_overflow_returns_oldest_witness :
    (320 ≤ (ensure_ring 321).simcom_mic_ring_size ∧
     (ensure_ring 321).simcom_mic_ring.length = (ensure_ring 321).simcom_mic_ring_size ∧
     (pushAll (simcom_ring_reset (ensure_ring 321))
        [(List.range 321).map Int.ofNat, [321]]).simcom_mic_ring_full = true) ∧
    (simcom_ring_pop (pushAll (simcom_ring_reset (ensure_ring 321))
        [(List.range 321).map Int.ofNat, [321]]) 320).count = 320 ∧
    (simcom_ring_push (pushAll (simcom_ring_reset
        (Ring.mk (List.replicate 320 0) 320 0 0 false 149 0)) [])
        (List.replicate 320 1) (List.replicate 320 1).length).ring_recovery_counter
      ≠ (pushAll (simcom_ring_reset
          (Ring.mk (List.replicate 320 0) 320 0 0 false 149 0)) []).ring_recovery_counter ∧
    (simcom_ring_pop (simcom_ring_push (pushAll (simcom_ring_reset
        (Ring.mk (List.replicate 320 0) 320 0 0 false 149 0)) [])
        (List.replicate 320 1) (List.replicate 320 1).length) 320).count = 0 :=
  ⟨⟨by decide, by decide, by decide⟩,
   ((ring_pop_after_overflow_returns_oldest (ensure_ring 321)
      [(List.range 321).map Int.ofNat, [321]] (by decide) (by decide)).1 (by decide)).2.1,
   by decide,
   (ring_pop_after_overflow_returns_oldest
      (Ring.mk (List.replicate 320 0) 320 0 0 false 149 0) [] (by decide) (by decide)).2
      (List.replicate 320 1) (by decide)⟩

set_option maxRecDepth 100000 in
/-- C7 as stated fails: a reset ring of capacity 321 receives the samples
`0, …, 320` and then the sample `321` (322 samples, more than the capacity, no
pop).  The first pop of 320 samples returns `1, …, 320`, which starts with
sample 1, while the 320 most recently pushed samples are `2, …, 321`. -/
theorem ring_pop_after_overflow_not_most_recent :
    (simcom_ring_pop (pushAll (simcom_ring_reset (ensure_ring 321))
        [(List.range 321).map Int.ofNat, [321]]) 320).dst
      ≠ ([(List.range 321).map Int.ofNat, [321]].flatten).drop
          (([(List.range 321).map Int.ofNat, [321]].flatten).length - 320) := by
  decide
/-! ## `double` arithmetic: lemmas -/

theorem roundNearestEven_int (n : Int) : roundNearestEven (n : ℚ) = n := by
  unfold roundNearestEven
  simp

theorem roundNearestEven_err (x : ℚ) : |(roundNearestEven x : ℚ) - x| ≤ 1 / 2 := by
  unfold roundNearestEven
  have h1 := Int.floor_le x
  have h2 := Int.lt_floor_add_one x
  split_ifs with a b c
  · rw [abs_le]; constructor <;> linarith
  · rw [abs_le]; push_cast; constructor <;> linarith
  · rw [abs_le]; constructor <;> linarith
  · rw [abs_le]; push_cast; constructor <;> linarith

theorem roundNearestEven_nonneg (x : ℚ) (h : 0 ≤ x) : 0 ≤ roundNearestEven x := by
  unfold roundNearestEven
  have h1 : 0 ≤ ⌊x⌋ := Int.floor_nonneg.mpr h
  split_ifs <;> omega

theorem log2Fuel_spec : ∀ (fuel n : Nat), 0 < n → n ≤ fuel →
    2 ^ log2Fuel fuel n ≤ n ∧ n < 2 ^ (log2Fuel fuel n + 1)
  | 0, n, h0, hf => by omega
  | fuel + 1, n, h0, hf => by
    unfold log2Fuel
    split_ifs with h
    · have : n = 1 := by omega
      subst this
      simp
    · have ih := log2Fuel_spec fuel (n / 2) (by omega) (by omega)
      rw [pow_succ, pow_succ]
      constructor
      · have := Nat.div_mul_le_self n 2
        nlinarith [ih.1]
      · have : n < (n / 2 + 1) * 2 := by omega
        have h3 : n / 2 + 1 ≤ 2 ^ (log2Fuel fuel (n / 2) + 1) := ih.2
        nlinarith

theorem abs_eq_natAbs_div_den (x : ℚ) : |x| = (x.num.natAbs : ℚ) / (x.den : ℚ) := by
  have h1 : |x| = (|x.num| : ℚ) / (x.den : ℚ) := by
    conv_lhs => rw [← Rat.num_div_den x]
    rw [abs_div, Nat.abs_cast]
  rw [h1, Nat.cast_natAbs, Int.cast_abs]

theorem binExp_le (x : ℚ) (hx : x ≠ 0) : (2 : ℚ) ^ binExp x ≤ |x| := by
  unfold binExp
  dsimp only
  split_ifs with h
  · exact h
  · have hn : 0 < x.num.natAbs := Int.natAbs_pos.mpr (Rat.num_ne_zero.mpr hx)
    have hd : 0 < x.den := x.den_pos
    have sn := (log2Fuel_spec _ _ hn (le_refl _)).1
    have sd := (log2Fuel_spec _ _ hd (le_refl _)).2
    rw [abs_eq_natAbs_div_den x]
    generalize log2Fuel x.num.natAbs x.num.natAbs = a at sn
    generalize log2Fuel x.den x.den = b at sd
    have e : (2 : ℚ) ^ ((a : Int) - (b : Int) - 1) = (2 : ℚ) ^ a / (2 : ℚ) ^ (b + 1) := by
      have : ((a : Int) - (b : Int) - 1) = (a : Int) - ((b + 1 : Nat) : Int) := by push_cast; ring
      rw [this, zpow_sub₀ (by norm_num), zpow_natCast, zpow_natCast]
    rw [e]
    have hdq : (0 : ℚ) < (x.den : ℚ) := by exact_mod_cast hd
    have snq : (2 : ℚ) ^ a ≤ (x.num.natAbs : ℚ) := by exact_mod_cast sn
    have sdq : (x.den : ℚ) ≤ (2 : ℚ) ^ (b + 1) := by exact_mod_cast sd.le
    exact div_le_div₀ (by positivity) snq hdq sdq

theorem roundDouble_zero : roundDouble 0 = 0 := by
  unfold roundDouble
  simp [roundNearestEven]

theorem roundDouble_nonneg (x : ℚ) (h : 0 ≤ x) : 0 ≤ roundDouble x := by
  unfold roundDouble
  have h1 : (0 : ℚ) < 2 ^ ulpExp x := by positivity
  have h2 := roundNearestEven_nonneg (x / 2 ^ ulpExp x) (by positivity)
  have h3 : (0 : ℚ) ≤ (roundNearestEven (x / 2 ^ ulpExp x) : ℚ) := by exact_mod_cast h2
  positivity

/-- The error of one rounding is at most half a unit in the last place. -/
theorem roundDouble_err (x : ℚ) : |roundDouble x - x| ≤ 2 ^ ulpExp x / 2 := by
  unfold roundDouble
  have h1 : (0 : ℚ) < 2 ^ ulpExp x := by positivity
  have h2 := roundNearestEven_err (x / 2 ^ ulpExp x)
  have e : (roundNearestEven (x / 2 ^ ulpExp x) : ℚ) * 2 ^ ulpExp x - x
      = ((roundNearestEven (x / 2 ^ ulpExp x) : ℚ) - x / 2 ^ ulpExp x) * 2 ^ ulpExp x := by
    field_simp
  rw [e, abs_mul, abs_of_pos h1]
  calc |(roundNearestEven (x / 2 ^ ulpExp x) : ℚ) - x / 2 ^ ulpExp x| * 2 ^ ulpExp x
      ≤ 1 / 2 * 2 ^ ulpExp x := mul_le_mul_of_nonneg_right h2 h1.le
    _ = 2 ^ ulpExp x / 2 := by ring

/-- In the normal range the unit in the last place is at most `|x| / 2 ^ 52`. -/
theorem ulp_le (x : ℚ) (hx : (2 : ℚ) ^ (-1022 : Int) ≤ |x|) :
    (2 : ℚ) ^ ulpExp x ≤ |x| / 2 ^ 52 := by
  have hx0 : x ≠ 0 := by
    rintro rfl
    simp at hx
    have : (0 : ℚ) < 2 ^ (-1022 : Int) := by positivity
    linarith
  unfold ulpExp
  rcases le_total (binExp x - 52) (-1074) with h | h
  · rw [max_eq_right h]
    have : (2 : ℚ) ^ (-1074 : Int) = 2 ^ (-1022 : Int) / 2 ^ 52 := by
      rw [show (-1074 : Int) = -1022 - ((52 : Nat) : Int) by norm_num, zpow_sub₀ (by norm_num),
        zpow_natCast]
    rw [this]
    exact div_le_div_of_nonneg_right hx (by positivity)
  · rw [max_eq_left h]
    have : (2 : ℚ) ^ (binExp x - 52) = 2 ^ binExp x / 2 ^ 52 := by
      rw [show binExp x - 52 = binExp x - ((52 : Nat) : Int) by norm_num, zpow_sub₀ (by norm_num),
        zpow_natCast]
    rw [this]
    exact div_le_div_of_nonneg_right (binExp_le x hx0) (by positivity)

/-- Relative error of one rounding in the normal range: at most `2 ^ -53`. -/
theorem roundDouble_rel (x : ℚ) (hx : (2 : ℚ) ^ (-1022 : Int) ≤ |x|) :
    |roundDouble x - x| ≤ |x| / 2 ^ 53 := by
  have h1 := roundDouble_err x
  have h2 := ulp_le x hx
  calc |roundDouble x - x| ≤ 2 ^ ulpExp x / 2 := h1
    _ ≤ |x| / 2 ^ 52 / 2 := by linarith
    _ = |x| / 2 ^ 53 := by ring

/-- A number `m * 2 ^ j` with `|m| < 2 ^ 53` and `j ≥ -1074` is a `double`:
rounding leaves it unchanged. -/
theorem roundDouble_exact (m j : Int) (hm : |m| < 2 ^ 53) (hj : -1074 ≤ j) :
    roundDouble ((m : ℚ) * 2 ^ j) = (m : ℚ) * 2 ^ j := by
  rcases eq_or_ne m 0 with rfl | hm0
  · simp [roundDouble_zero]
  have h2 : (0 : ℚ) < 2 ^ j := by positivity
  have hx0 : (m : ℚ) * 2 ^ j ≠ 0 := mul_ne_zero (by exact_mod_cast hm0) h2.ne'
  have hg : ulpExp ((m : ℚ) * 2 ^ j) ≤ j := by
    unfold ulpExp
    apply max_le _ hj
    have hle := binExp_le _ hx0
    have hlt : |(m : ℚ) * 2 ^ j| < 2 ^ (53 + j) := by
      rw [abs_mul, abs_of_pos h2, zpow_add₀ (by norm_num)]
      apply mul_lt_mul_of_pos_right _ h2
      have : |(m : ℚ)| < 2 ^ 53 := by exact_mod_cast hm
      exact_mod_cast this
    have := lt_of_le_of_lt hle hlt
    have := (zpow_lt_zpow_iff_right₀ (by norm_num : (1 : ℚ) < 2)).mp this
    omega
  unfold roundDouble
  generalize ulpExp ((m : ℚ) * 2 ^ j) = g at hg
  obtain ⟨k, hk⟩ : ∃ k : Nat, j = g + k := ⟨(j - g).toNat, by omega⟩
  have e : (m : ℚ) * 2 ^ j / 2 ^ g = ((m * 2 ^ k : Int) : ℚ) := by
    rw [hk, zpow_add₀ (by norm_num), zpow_natCast]
    push_cast
    have hg0 : (2 : ℚ) ^ g ≠ 0 := by positivity
    generalize (2 : ℚ) ^ g = a at hg0
    field_simp
    ring
  rw [e, roundNearestEven_int, hk, zpow_add₀ (by norm_num), zpow_natCast]
  push_cast
  generalize (2 : ℚ) ^ g = a
  generalize (2 : ℚ) ^ k = b
  ring

theorem roundDouble_natCast (n : Nat) (h : n < 2 ^ 53) : roundDouble (n : ℚ) = n := by
  have := roundDouble_exact (n : Int) 0 (by rw [abs_of_nonneg (by positivity)]; exact_mod_cast h)
    (by norm_num)
  simpa using this

theorem roundDouble_div64 (m : Int) (h : |m| < 2 ^ 53) :
    roundDouble ((m : ℚ) / 64) = (m : ℚ) / 64 := by
  have := roundDouble_exact m (-6) h (by norm_num)
  have e : (2 : ℚ) ^ (-6 : Int) = 1 / 64 := by norm_num [zpow_neg]
  rw [e] at this
  rw [div_eq_mul_one_div]
  exact this

theorem binExp_lt (x : ℚ) : |x| < (2 : ℚ) ^ (binExp x + 1) := by
  unfold binExp
  dsimp only
  split_ifs with h
  · rcases eq_or_ne x 0 with rfl | hx
    · simp only [abs_zero]; positivity
    have hn : 0 < x.num.natAbs := Int.natAbs_pos.mpr (Rat.num_ne_zero.mpr hx)
    have hd : 0 < x.den := x.den_pos
    have sn := (log2Fuel_spec _ _ hn (le_refl _)).2
    have sd := (log2Fuel_spec _ _ hd (le_refl _)).1
    rw [abs_eq_natAbs_div_den x]
    generalize log2Fuel x.num.natAbs x.num.natAbs = a at sn
    generalize log2Fuel x.den x.den = b at sd
    have e : (2 : ℚ) ^ ((a : Int) - (b : Int) + 1) = (2 : ℚ) ^ (a + 1) / (2 : ℚ) ^ b := by
      have : ((a : Int) - (b : Int) + 1) = ((a + 1 : Nat) : Int) - (b : Int) := by push_cast; ring
      rw [this, zpow_sub₀ (by norm_num), zpow_natCast, zpow_natCast]
    rw [e]
    have snq : (x.num.natAbs : ℚ) < (2 : ℚ) ^ (a + 1) := by exact_mod_cast sn
    have sdq : (2 : ℚ) ^ b ≤ (x.den : ℚ) := by exact_mod_cast sd
    exact div_lt_div₀ snq sdq (by positivity) (by positivity)
  · rw [sub_add_cancel]
    exact not_le.mp h

/-- The `double` nearest to one tenth, `0x3FB999999999999A`. -/
theorem roundDouble_tenth : roundDouble (1 / 10) = 3602879701896397 / 2 ^ 55 := by
  decide!

/-- Ties go to the even significand, and below `2 ^ -1022` the spacing of the
`double`s is `2 ^ -1074`. -/
theorem roundDouble_ties :
    roundDouble (2 ^ 53 + 1) = 2 ^ 53 ∧ roundDouble (2 ^ 53 + 3) = 2 ^ 53 + 4 ∧
      roundDouble (3 / 2 ^ 1076) = 1 / 2 ^ 1074 ∧ roundDouble (-5 / 2) = -5 / 2 := by
  decide!

/-- The step of the conversion at 44100 Hz, `5.5125`, is not a `double`: the
nearest one lies above it. -/
theorem roundDouble_step_44100 :
    roundDouble (44100 / 8000) = 6206523236469965 / 2 ^ 50 ∧
      44100 / 8000 < roundDouble (44100 / 8000) := by
  decide!


/-! ## Downmix and rate conversion lemmas -/

theorem wrapS32_eq (x : Int) (h1 : -2 ^ 31 ≤ x) (h2 : x < 2 ^ 31) : wrapS32 x = x := by
  unfold wrapS32
  rw [Int.emod_eq_of_lt (by omega) (by omega)]
  omega

theorem wrapS16_eq (x : Int) (h1 : -2 ^ 15 ≤ x) (h2 : x < 2 ^ 15) : wrapS16 x = x := by
  unfold wrapS16
  rw [Int.emod_eq_of_lt (by omega) (by omega)]
  omega

theorem channelSum_eq (src : List Int) (f channels : Nat)
    (hs : ∀ i, -32768 ≤ src.getD i 0 ∧ src.getD i 0 ≤ 32767) :
    ∀ (k ch : Nat) (sum : Int), ch + k ≤ 65536 →
      -32768 * (ch : Int) ≤ sum → sum ≤ 32767 * (ch : Int) →
      channelSum src f channels k ch sum
          = sum + ∑ c in Finset.range k, src.getD (f * channels + (ch + c)) 0 ∧
      -32768 * ((ch + k : Nat) : Int) ≤ channelSum src f channels k ch sum ∧
      channelSum src f channels k ch sum ≤ 32767 * ((ch + k : Nat) : Int) := by
  intro k
  induction k with
  | zero =>
    intro ch sum _ h1 h2
    simp only [channelSum, Finset.range_zero, Finset.sum_empty, Nat.add_zero]
    exact ⟨by omega, h1, h2⟩
  | succ k ih =>
    intro ch sum hk h1 h2
    obtain ⟨hx1, hx2⟩ := hs (f * channels + ch)
    have hw : wrapS32 (sum + src.getD (f * channels + ch) 0)
        = sum + src.getD (f * channels + ch) 0 :=
      wrapS32_eq _ (by omega) (by omega)
    simp only [channelSum, hw]
    obtain ⟨e, b1, b2⟩ := ih (ch + 1) (sum + src.getD (f * channels + ch) 0) (by omega)
      (by push_cast; omega) (by push_cast; omega)
    refine ⟨?_, ?_, ?_⟩
    · rw [e, Finset.sum_range_succ']
      simp only [Nat.add_zero]
      have : ∀ c, ch + 1 + c = ch + (c + 1) := fun c => by omega
      simp only [this]
      ring
    · have : ch + 1 + k = ch + (k + 1) := by omega
      rw [this] at b1; exact b1
    · have : ch + 1 + k = ch + (k + 1) := by omega
      rw [this] at b2; exact b2

theorem tdiv_bounds (a b : Int) (hb : 0 < b) (h1 : -32768 * b ≤ a) (h2 : a ≤ 32767 * b) :
    -32768 ≤ Int.tdiv a b ∧ Int.tdiv a b ≤ 32767 := by
  rcases Int.le_total 0 a with ha | ha
  · rw [Int.tdiv_eq_ediv ha (Int.le_of_lt hb)]
    have := Int.ediv_nonneg ha (Int.le_of_lt hb)
    have := Int.ediv_le_of_le_mul hb h2
    omega
  · have hneg : 0 ≤ -a := by omega
    have e : Int.tdiv a b = -((-a) / b) := by
      rw [← Int.tdiv_eq_ediv hneg (Int.le_of_lt hb), Int.neg_tdiv, Int.neg_neg]
    have := Int.ediv_nonneg hneg (Int.le_of_lt hb)
    have := Int.ediv_le_of_le_mul (a := -a) (b := 32768) hb (by omega)
    omega

theorem monoSample_eq (src : List Int) (channels f : Nat)
    (hs : ∀ i, -32768 ≤ src.getD i 0 ∧ src.getD i 0 ≤ 32767)
    (h1 : 0 < channels) (hch : channels ≤ 65536) :
    monoSample src channels f =
      Int.tdiv (∑ c in Finset.range channels, src.getD (f * channels + c) 0) channels := by
  obtain ⟨e, b1, b2⟩ := channelSum_eq src f channels hs channels 0 0 (by omega)
    (by simp) (by simp)
  simp only [Nat.zero_add, Int.zero_add] at e b1 b2
  have hc : wrapS32 (channels : Int) = channels := wrapS32_eq _ (by omega) (by omega)
  unfold monoSample
  rw [hc, e]
  rw [e] at b1 b2
  obtain ⟨t1, t2⟩ := tdiv_bounds _ (channels : Int) (by omega) b1 b2
  exact wrapS16_eq _ (by omega) (by omega)

theorem posAfter_shift (step p : ℚ) (k : Nat) :
    posAfter step (roundDouble (p + step)) k = posAfter step p (k + 1) := by
  induction k with
  | zero => rfl
  | succ k ih =>
    show roundDouble (posAfter step (roundDouble (p + step)) k + step) = _
    rw [ih]
    rfl

theorem resampleLoop_stop (mono_src : List Int) (frames max_out : Nat) (step : ℚ)
    (fuel : Nat) (pos : ℚ) (out : List Int) (h : ¬ pos < roundDouble (frames : ℚ)) :
    resampleLoop mono_src frames max_out step fuel pos out = (pos, out) := by
  cases fuel with
  | zero => rfl
  | succ fuel => simp [resampleLoop, h]

theorem resampleLoop_run (mono_src : List Int) (frames max_out : Nat) (step : ℚ) :
    ∀ (n fuel : Nat) (pos : ℚ) (out : List Int), n ≤ fuel → out.length + n ≤ max_out →
      (∀ i : Nat, i < n → posAfter step pos i < roundDouble (frames : ℚ)) →
      resampleLoop mono_src frames max_out step fuel pos out =
        resampleLoop mono_src frames max_out step (fuel - n) (posAfter step pos n)
          (out ++ (List.range n).map
            (fun i : Nat => interpAt mono_src frames (posAfter step pos i))) := by
  intro n
  induction n with
  | zero =>
    intro fuel pos out _ _ _
    simp [posAfter]
  | succ n ih =>
    intro fuel pos out hf hlen hpos
    obtain ⟨fuel', rfl⟩ : ∃ fuel', fuel = fuel' + 1 := ⟨fuel - 1, by omega⟩
    have h0 : pos < roundDouble (frames : ℚ) := hpos 0 (by omega)
    have h1 : out.length < max_out := by omega
    rw [resampleLoop, if_pos ⟨h0, h1⟩]
    rw [ih fuel' (roundDouble (pos + step)) (out ++ [interpAt mono_src frames pos]) (by omega)
      (by simp; omega)
      (fun i hi => by
        rw [posAfter_shift]
        exact hpos (i + 1) (by omega))]
    have e1 : fuel' + 1 - (n + 1) = fuel' - n := by omega
    rw [e1, posAfter_shift, List.range_succ_eq_map, List.map_cons, List.map_map,
      List.append_assoc]
    congr 2
    simp only [List.singleton_append, List.cons.injEq]
    refine ⟨rfl, ?_⟩
    apply List.map_congr_left
    intro i _
    simp only [Function.comp, Nat.succ_eq_add_one, posAfter_shift]

/-- On the grid of multiples of `1 / 64` no addition of the loop rounds. -/
theorem posAfter_grid (a b : Nat) :
    ∀ k : Nat, a + k * b < 2 ^ 53 →
      posAfter ((b : ℚ) / 64) ((a : ℚ) / 64) k = (a : ℚ) / 64 + (k : ℚ) * ((b : ℚ) / 64) := by
  intro k
  induction k with
  | zero => intro _; simp [posAfter]
  | succ k ih =>
    intro h
    have hk : a + k * b < 2 ^ 53 := by
      have : (k + 1) * b = k * b + b := by ring
      omega
    show roundDouble (posAfter ((b : ℚ) / 64) ((a : ℚ) / 64) k + (b : ℚ) / 64) = _
    rw [ih hk]
    have e : (a : ℚ) / 64 + (k : ℚ) * ((b : ℚ) / 64) + (b : ℚ) / 64
        = (((a + (k + 1) * b : Nat) : Int) : ℚ) / 64 := by
      push_cast; ring
    rw [e, roundDouble_div64 _ (by
      rw [abs_of_nonneg (by positivity)]
      exact_mod_cast h)]
    push_cast
    ring

theorem step_exact (q : Nat) (hq : q < 2 ^ 53) :
    roundDouble (((125 * q : Nat) : ℚ) / 8000) = (q : ℚ) / 64 := by
  have e : ((125 * q : Nat) : ℚ) / 8000 = ((q : Int) : ℚ) / 64 := by
    push_cast; ring
  rw [e, roundDouble_div64 _ (by
    rw [abs_of_nonneg (by positivity)]
    exact_mod_cast hq)]
  push_cast
  rfl

theorem roundDouble_mul_div64 (d r : Int) (h : |d * r| < 2 ^ 53) :
    roundDouble ((d : ℚ) * ((r : ℚ) / 64)) = (d : ℚ) * ((r : ℚ) / 64) := by
  have e : (d : ℚ) * ((r : ℚ) / 64) = ((d * r : Int) : ℚ) / 64 := by
    push_cast; ring
  rw [e, roundDouble_div64 _ h]

/-- At a position on the grid of multiples of `1 / 64`, with `int16_t`
samples, the loop body rounds nothing. -/
theorem interpAt_exact (mono : List Int) (frames a : Nat) (ha : a < 2 ^ 53)
    (hs : ∀ i, -32768 ≤ mono.getD i 0 ∧ mono.getD i 0 ≤ 32767) :
    interpAt mono frames ((a : ℚ) / 64) = interpExact mono frames ((a : ℚ) / 64) := by
  have hfl : ⌊(a : ℚ) / 64⌋.toNat = a / 64 := by
    rw [Int.floor_toNat]
    exact_mod_cast Nat.floor_div_eq_div (α := ℚ) a 64
  have e1 : roundDouble ((a / 64 : Nat) : ℚ) = ((a / 64 : Nat) : ℚ) :=
    roundDouble_natCast _ (lt_of_le_of_lt (Nat.div_le_self a 64) ha)
  have e2 : (a : ℚ) / 64 - ((a / 64 : Nat) : ℚ) = (((a % 64 : Nat) : Int) : ℚ) / 64 := by
    have h := Nat.div_add_mod a 64
    have hq : ((64 * (a / 64) + a % 64 : Nat) : ℚ) = (a : ℚ) := by rw [h]
    rw [Nat.cast_add, Nat.cast_mul] at hq
    rw [Int.cast_natCast]
    generalize ((a / 64 : Nat) : ℚ) = x at hq ⊢
    generalize ((a % 64 : Nat) : ℚ) = y at hq ⊢
    rw [← hq]
    push_cast
    ring
  have hr : a % 64 < 64 := Nat.mod_lt _ (by norm_num)
  unfold interpAt interpExact
  simp only [hfl]
  rw [e1, e2, roundDouble_div64 _ (by
    rw [abs_of_nonneg (by positivity)]
    have : a % 64 < 2 ^ 53 := by omega
    exact_mod_cast this)]
  generalize hs1 : (if a / 64 + 1 < frames then mono.getD (a / 64 + 1) 0
    else mono.getD (a / 64) 0) = s1
  have hb1 : -32768 ≤ s1 ∧ s1 ≤ 32767 := by
    rw [← hs1]; split
    · exact hs _
    · exact hs _
  obtain ⟨hb0l, hb0u⟩ := hs (a / 64)
  rw [roundDouble_mul_div64 _ _ (by
    rw [abs_mul, abs_of_nonneg (show (0 : Int) ≤ ((a % 64 : Nat) : Int) by positivity)]
    have h1 : |s1 - mono.getD (a / 64) 0| ≤ 65535 := by
      rw [abs_le]; constructor <;> omega
    have h2 : ((a % 64 : Nat) : Int) ≤ 63 := by omega
    have h3 : (0 : Int) ≤ ((a % 64 : Nat) : Int) := by positivity
    have h4 : (0 : Int) ≤ |s1 - mono.getD (a / 64) 0| := abs_nonneg _
    nlinarith)]

theorem lt_emitCount (frames : Nat) (step p0 : ℚ) (hstep : 0 < step) (i : Nat) :
    i < emitCount frames step p0 ↔ p0 + i * step < (frames : ℚ) := by
  unfold emitCount
  rw [Nat.lt_ceil, lt_div_iff₀ hstep]
  constructor <;> intro h <;> linarith

theorem emitCount_reaches (frames : Nat) (step p0 : ℚ) (hstep : 0 < step) :
    (frames : ℚ) ≤ p0 + (emitCount frames step p0 : ℚ) * step := by
  have h := (lt_emitCount frames step p0 hstep (emitCount frames step p0)).not.mp (lt_irrefl _)
  linarith

theorem emitCount_le_maxOut (frames rate : Nat) (p0 : ℚ) (hr : 0 < rate) (hr32 : rate < 2 ^ 32)
    (hfr : frames < 2 ^ 48) (hp : 0 ≤ p0) :
    emitCount frames ((rate : ℚ) / 8000) p0 ≤ maxOut frames rate := by
  have hstep : (0 : ℚ) < (rate : ℚ) / 8000 := by positivity
  have hx : frames * 8000 + rate - 1 < 2 ^ 64 := by omega
  have hdiv : (frames * 8000 + rate - 1) / rate ≤ frames * 8000 + rate - 1 := Nat.div_le_self _ _
  have hm : maxOut frames rate = (frames * 8000 + rate - 1) / rate + 8 := by
    unfold maxOut
    rw [Nat.mod_eq_of_lt hx, Nat.mod_eq_of_lt (by omega)]
  rw [hm]
  suffices h : emitCount frames ((rate : ℚ) / 8000) p0 ≤ (frames * 8000 + rate - 1) / rate by omega
  rw [Nat.le_div_iff_mul_le hr]
  rcases Nat.eq_zero_or_pos (emitCount frames ((rate : ℚ) / 8000) p0) with h0 | h0
  · rw [h0]; omega
  · obtain ⟨n, hn⟩ : ∃ n, emitCount frames ((rate : ℚ) / 8000) p0 = n + 1 :=
      ⟨emitCount frames ((rate : ℚ) / 8000) p0 - 1, by omega⟩
    have hlt := (lt_emitCount frames ((rate : ℚ) / 8000) p0 hstep n).mp (by omega)
    have h2 : (n : ℚ) * rate < (frames : ℚ) * 8000 := by
      have : (n : ℚ) * ((rate : ℚ) / 8000) < frames := by linarith
      rw [← mul_div_assoc, div_lt_iff₀ (by norm_num)] at this
      exact this
    have h3 : n * rate < frames * 8000 := by exact_mod_cast h2
    rw [hn]
    have : (n + 1) * rate = n * rate + rate := by ring
    omega

theorem grid_bound (frames a q i N : Nat) (hfr : frames < 2 ^ 40) (ha : a < 2 ^ 46)
    (hq : q < 2 ^ 32) (hi : i ≤ N)
    (hN : ∀ j : Nat, j < N → (a : ℚ) / 64 + (j : ℚ) * ((q : ℚ) / 64) < (frames : ℚ)) :
    a + i * q < 2 ^ 53 := by
  rcases Nat.eq_zero_or_pos i with h0 | h0
  · subst h0; omega
  · obtain ⟨j, rfl⟩ : ∃ j, i = j + 1 := ⟨i - 1, by omega⟩
    have h1 := hN j (by omega)
    have h2 : ((a + j * q : Nat) : ℚ) < ((64 * frames : Nat) : ℚ) := by
      push_cast
      linarith
    have h3 : a + j * q < 64 * frames := by exact_mod_cast h2
    have : (j + 1) * q = j * q + q := by ring
    omega

theorem resample_closed (mono_src : List Int) (frames rate q a : Nat)
    (hr : 0 < rate) (hq : rate = 125 * q) (hr32 : rate < 2 ^ 32) (hfr : frames < 2 ^ 40)
    (ha : a < 2 ^ 46)
    (hs : ∀ i, -32768 ≤ mono_src.getD i 0 ∧ mono_src.getD i 0 ≤ 32767) :
    resampleLoop mono_src frames (maxOut frames rate) (roundDouble ((rate : ℚ) / 8000))
        (maxOut frames rate) ((a : ℚ) / 64) [] =
      ((a : ℚ) / 64
          + (emitCount frames ((rate : ℚ) / 8000) ((a : ℚ) / 64) : ℚ) * ((rate : ℚ) / 8000),
       convOut mono_src frames ((rate : ℚ) / 8000) ((a : ℚ) / 64)) := by
  have hq32 : q < 2 ^ 32 := by omega
  have hstepE : (rate : ℚ) / 8000 = (q : ℚ) / 64 := by
    rw [hq]; push_cast; ring
  have hstepR : roundDouble ((rate : ℚ) / 8000) = (q : ℚ) / 64 := by
    rw [hq]; exact step_exact q (by omega)
  have hstep : (0 : ℚ) < (rate : ℚ) / 8000 := by positivity
  have hN := emitCount_le_maxOut frames rate ((a : ℚ) / 64) hr hr32 (by omega) (by positivity)
  have hfrR : roundDouble (frames : ℚ) = (frames : ℚ) := roundDouble_natCast _ (by omega)
  unfold convOut
  rw [hstepR]
  rw [hstepE] at hN hstep ⊢
  generalize hNe : emitCount frames ((q : ℚ) / 64) ((a : ℚ) / 64) = N at hN ⊢
  have hlt : ∀ j : Nat, j < N → (a : ℚ) / 64 + (j : ℚ) * ((q : ℚ) / 64) < (frames : ℚ) := by
    intro j hj
    rw [← hNe] at hj
    exact (lt_emitCount frames _ _ hstep j).mp hj
  have hpos : ∀ i : Nat, i ≤ N →
      posAfter ((q : ℚ) / 64) ((a : ℚ) / 64) i = (a : ℚ) / 64 + (i : ℚ) * ((q : ℚ) / 64) :=
    fun i hi => posAfter_grid a q i (grid_bound frames a q i N hfr ha hq32 hi hlt)
  rw [resampleLoop_run mono_src frames (maxOut frames rate) ((q : ℚ) / 64) N
    (maxOut frames rate) ((a : ℚ) / 64) [] hN (by simpa using hN)
    (fun i hi => by rw [hpos i (by omega), hfrR]; exact hlt i hi)]
  rw [resampleLoop_stop _ _ _ _ _ _ _ (by
    rw [hpos N (le_refl _), hfrR, not_lt, ← hNe]
    exact emitCount_reaches frames _ _ hstep)]
  rw [hpos N (le_refl _), List.nil_append]
  congr 1
  apply List.map_congr_left
  intro i hi
  have hi2 : i ≤ N := by have := List.mem_range.mp hi; omega
  rw [hpos i hi2]
  have e : (a : ℚ) / 64 + (i : ℚ) * ((q : ℚ) / 64) = ((a + i * q : Nat) : ℚ) / 64 := by
    push_cast; ring
  rw [e]
  exact interpAt_exact mono_src frames _ (grid_bound frames a q i N hfr ha hq32 hi2 hlt) hs

theorem truncQ_bounds (d : Int) (frac : ℚ) (h0 : 0 ≤ frac) (h1 : frac < 1) :
    (0 ≤ d → 0 ≤ truncQ ((d : ℚ) * frac) ∧ truncQ ((d : ℚ) * frac) ≤ d) ∧
    (d ≤ 0 → d ≤ truncQ ((d : ℚ) * frac) ∧ truncQ ((d : ℚ) * frac) ≤ 0) := by
  constructor
  · intro hd
    have hdq : (0 : ℚ) ≤ (d : ℚ) := by exact_mod_cast hd
    have hx : 0 ≤ (d : ℚ) * frac := mul_nonneg hdq h0
    have hx2 : (d : ℚ) * frac ≤ d := by nlinarith
    unfold truncQ
    rw [if_pos hx]
    refine ⟨Int.floor_nonneg.mpr hx, ?_⟩
    have : ((⌊(d : ℚ) * frac⌋ : Int) : ℚ) ≤ (d : ℚ) := le_trans (Int.floor_le _) hx2
    exact_mod_cast this
  · intro hd
    have hdq : (d : ℚ) ≤ 0 := by exact_mod_cast hd
    have hx : (d : ℚ) * frac ≤ 0 := mul_nonpos_of_nonpos_of_nonneg hdq h0
    have hx2 : (d : ℚ) ≤ (d : ℚ) * frac := by nlinarith
    unfold truncQ
    by_cases hz : 0 ≤ (d : ℚ) * frac
    · have hz0 : (d : ℚ) * frac = 0 := le_antisymm hx hz
      rw [if_pos hz, hz0]
      simp [hd]
    · rw [if_neg hz]
      constructor
      · have : (d : ℚ) ≤ ((⌈(d : ℚ) * frac⌉ : Int) : ℚ) := le_trans hx2 (Int.le_ceil _)
        exact_mod_cast this
      · exact Int.ceil_le.mpr (by simpa using hx)

theorem interpExact_eq_lerpAt (mono : List Int) (frames : Nat) (pos : ℚ)
    (hs : ∀ i, -32768 ≤ mono.getD i 0 ∧ mono.getD i 0 ≤ 32767) (hp : 0 ≤ pos) :
    interpExact mono frames pos = lerpAt mono frames pos := by
  unfold interpExact lerpAt lerp
  simp only [Int.floor_toNat]
  generalize hidx : ⌊pos⌋₊ = idx
  have hf0 : 0 ≤ pos - (idx : ℚ) := by
    rw [← hidx]; linarith [Nat.floor_le hp]
  have hf1 : pos - (idx : ℚ) < 1 := by
    rw [← hidx]; linarith [Nat.lt_floor_add_one pos]
  generalize hs1 : (if idx + 1 < frames then mono.getD (idx + 1) 0 else mono.getD idx 0) = s1
  have hb1 : -32768 ≤ s1 ∧ s1 ≤ 32767 := by
    rw [← hs1]; split
    · exact hs _
    · exact hs _
  obtain ⟨hb0l, hb0u⟩ := hs idx
  obtain ⟨tp, tn⟩ := truncQ_bounds (s1 - mono.getD idx 0) (pos - (idx : ℚ)) hf0 hf1
  have hw1 : wrapS32 (truncQ (((s1 - mono.getD idx 0 : Int) : ℚ) * (pos - (idx : ℚ))))
      = truncQ (((s1 - mono.getD idx 0 : Int) : ℚ) * (pos - (idx : ℚ))) := by
    apply wrapS32_eq
    · rcases Int.le_total 0 (s1 - mono.getD idx 0) with h | h
      · have := (tp h).1; omega
      · have := (tn h).1; omega
    · rcases Int.le_total 0 (s1 - mono.getD idx 0) with h | h
      · have := (tp h).2; omega
      · have := (tn h).2; omega
  rw [hw1]
  have hrange : -32768 ≤ mono.getD idx 0
        + truncQ (((s1 - mono.getD idx 0 : Int) : ℚ) * (pos - (idx : ℚ))) ∧
      mono.getD idx 0 + truncQ (((s1 - mono.getD idx 0 : Int) : ℚ) * (pos - (idx : ℚ)))
        ≤ 32767 := by
    rcases Int.le_total 0 (s1 - mono.getD idx 0) with h | h
    · have := tp h; omega
    · have := tn h; omega
  rw [wrapS32_eq _ (by omega) (by omega), wrapS16_eq _ (by omega) (by omega)]

theorem wrapS16_range (x : Int) : -32768 ≤ wrapS16 x ∧ wrapS16 x ≤ 32767 := by
  unfold wrapS16
  have h1 := Int.emod_nonneg (x + 2 ^ 15) (show (2 : Int) ^ 16 ≠ 0 by norm_num)
  have h2 := Int.emod_lt_of_pos (x + 2 ^ 15) (show (0 : Int) < 2 ^ 16 by norm_num)
  omega

theorem monoStage_int16 (mono_ok : Bool) (src : List Int) (frames channels : Nat)
    (hs : ∀ i, -32768 ≤ src.getD i 0 ∧ src.getD i 0 ≤ 32767) :
    ∀ i, -32768 ≤ (monoStage mono_ok src frames channels).getD i 0 ∧
      (monoStage mono_ok src frames channels).getD i 0 ≤ 32767 := by
  intro i
  unfold monoStage
  split
  · unfold downmix
    by_cases hi : i < frames
    · rw [List.getD_eq_getElem _ _ (by simpa using hi)]
      simp only [List.getElem_map, List.getElem_range]
      unfold monoSample
      exact wrapS16_range _
    · rw [List.getD_eq_default _ _ (by simpa using hi)]
      omega
  · exact hs i

theorem readBlock_self (l : List Int) : readBlock l 0 l.length = l := by
  apply List.ext_getElem
  · simp [readBlock]
  · intro i h1 h2
    simp only [readBlock, List.getElem_map, List.getElem_range, Nat.zero_add]
    exact List.getD_eq_getElem _ _ h2

theorem getD_drop_zero (l : List Int) (k i : Nat) : (l.drop k).getD i 0 = l.getD (k + i) 0 := by
  simp only [List.getD_eq_getElem?_getD, List.getElem?_drop]

theorem channelSum_drop (src : List Int) (k f channels : Nat) :
    ∀ (n ch : Nat) (sum : Int),
      channelSum (src.drop (k * channels)) f channels n ch sum
        = channelSum src (k + f) channels n ch sum := by
  intro n
  induction n with
  | zero => intro ch sum; rfl
  | succ n ih =>
    intro ch sum
    simp only [channelSum, getD_drop_zero]
    have : k * channels + (f * channels + ch) = (k + f) * channels + ch := by ring
    rw [this, ih]

theorem monoStage_shift (src : List Int) (k frames total channels f : Nat)
    (hch : 0 < channels) (hf : f < frames) (hk : k + f < total) :
    (monoStage true (src.drop (k * channels)) frames channels).getD f 0
      = (monoStage true src total channels).getD (k + f) 0 := by
  unfold monoStage
  by_cases h1 : 1 < channels
  · simp only [h1, and_self, if_true]
    unfold downmix
    rw [List.getD_eq_getElem _ _ (by simpa using hf), List.getD_eq_getElem _ _ (by simpa using hk)]
    simp only [List.getElem_map, List.getElem_range]
    unfold monoSample
    rw [channelSum_drop]
  · have hc1 : channels = 1 := by omega
    subst hc1
    simp [getD_drop_zero]

theorem floor_add_nat_toNat (pos : ℚ) (k : Nat) (hp : 0 ≤ pos) :
    ⌊pos + (k : ℚ)⌋.toNat = ⌊pos⌋.toNat + k := by
  rw [Int.floor_add_nat]
  have h := Int.floor_nonneg.mpr hp
  omega

theorem interpExact_shift (mono mono2 : List Int) (frames k : Nat) (pos : ℚ)
    (hp : 0 ≤ pos) (hlt : pos < (frames : ℚ))
    (hm : ∀ i, i < frames → mono.getD i 0 = mono2.getD (k + i) 0) :
    interpExact mono frames pos = interpExact mono2 (k + frames) (pos + (k : ℚ)) := by
  have hidx : ⌊pos⌋.toNat < frames := by
    rw [Int.floor_toNat]
    exact (Nat.floor_lt hp).mpr hlt
  unfold interpExact
  simp only [floor_add_nat_toNat pos k hp]
  generalize ⌊pos⌋.toNat = idx at hidx
  have e0 : mono2.getD (idx + k) 0 = mono.getD idx 0 := by
    rw [Nat.add_comm, hm idx hidx]
  have efrac : pos + (k : ℚ) - ((idx + k : Nat) : ℚ) = pos - (idx : ℚ) := by
    push_cast; ring
  rw [e0, efrac]
  by_cases h1 : idx + 1 < frames
  · have h2 : idx + k + 1 < k + frames := by omega
    have e1 : mono2.getD (idx + k + 1) 0 = mono.getD (idx + 1) 0 := by
      rw [hm (idx + 1) h1]; congr 1; omega
    simp only [h1, h2, if_true, e1]
  · have h2 : ¬ (idx + k + 1 < k + frames) := by omega
    simp only [h1, h2, if_false]

theorem interpExact_clamp (mono : List Int) (frames frames2 : Nat) (pos : ℚ)
    (hp : 0 ≤ pos) (h1 : pos + 1 < (frames : ℚ)) (h2 : frames ≤ frames2) :
    interpExact mono frames pos = interpExact mono frames2 pos := by
  have hidx : ⌊pos⌋.toNat + 1 < frames := by
    rw [Int.floor_toNat]
    have : ⌊pos⌋₊ + 1 = ⌊pos + 1⌋₊ := (Nat.floor_add_one hp).symm
    rw [this]
    exact (Nat.floor_lt (by linarith)).mpr (by exact_mod_cast h1)
  unfold interpExact
  have hidx2 : ⌊pos⌋.toNat + 1 < frames2 := by omega
  simp only [hidx, hidx2, if_true]

theorem diffCount_self (l : List Int) : diffCount l l = 0 := by
  unfold diffCount
  rw [List.length_eq_zero, List.filter_eq_nil_iff]
  intro p hp
  have := List.of_mem_zip hp
  induction l with
  | nil => simp at hp
  | cons a l ih =>
    simp only [List.zip_cons_cons, List.mem_cons] at hp
    rcases hp with rfl | hp
    · simp
    · exact ih hp (List.of_mem_zip hp)

theorem diffCount_append (a a2 b b2 : List Int) (h : a.length = a2.length) :
    diffCount (a ++ b) (a2 ++ b2) = diffCount a a2 + diffCount b b2 := by
  unfold diffCount
  rw [List.zip_append h, List.filter_append, List.length_append]

theorem diffCount_singleton_le (x y : Int) : diffCount [x] [y] ≤ 1 := by
  unfold diffCount
  simp only [List.zip_cons_cons, List.zip_nil_right]
  exact le_trans (List.length_filter_le _ _) (by simp)

theorem diffCount_map_range_le_one (f g : Nat → Int) (n : Nat)
    (h : ∀ i, i + 1 < n → f i = g i) :
    diffCount ((List.range n).map f) ((List.range n).map g) ≤ 1 := by
  cases n with
  | zero => simp [diffCount]
  | succ n =>
    have e : (List.range n).map f = (List.range n).map g :=
      List.map_congr_left (fun i hi => h i (by have := List.mem_range.mp hi; omega))
    rw [List.range_succ, List.map_append, List.map_append,
      diffCount_append _ _ _ _ (by simp), e, diffCount_self, Nat.zero_add]
    exact diffCount_singleton_le _ _

theorem emitCount_split (L K : Nat) (step p : ℚ) (hstep : 0 < step) :
    emitCount (L + K) step p =
      emitCount L step p
        + emitCount K step (p + (emitCount L step p : ℚ) * step - (L : ℚ)) := by
  have hreach := emitCount_reaches L step p hstep
  have key : ∀ i : Nat, i < emitCount (L + K) step p ↔
      i < emitCount L step p
        + emitCount K step (p + (emitCount L step p : ℚ) * step - (L : ℚ)) := by
    intro i
    rw [lt_emitCount _ _ _ hstep]
    by_cases hi : i < emitCount L step p
    · have h1 := (lt_emitCount L step p hstep i).mp hi
      constructor
      · intro _; omega
      · intro _; push_cast; have : (0 : ℚ) ≤ (K : ℚ) := Nat.cast_nonneg K; linarith
    · obtain ⟨j, rfl⟩ : ∃ j, i = emitCount L step p + j := ⟨i - emitCount L step p, by omega⟩
      rw [Nat.add_lt_add_iff_left, lt_emitCount _ _ _ hstep]
      push_cast
      constructor <;> intro h <;> linarith
  apply Nat.le_antisymm
  · by_contra hlt
    have := (key _).mp (Nat.lt_of_not_le hlt)
    omega
  · by_contra hlt
    have := (key _).mpr (Nat.lt_of_not_le hlt)
    omega

theorem convOut_length (mono : List Int) (frames : Nat) (step p : ℚ) :
    (convOut mono frames step p).length = emitCount frames step p := by
  simp [convOut]

theorem convOut_split (monoBig monoB : List Int) (L K : Nat) (step p : ℚ)
    (hstep : 0 < step)
    (hB : ∀ i, i < K → monoB.getD i 0 = monoBig.getD (L + i) 0) :
    convOut monoBig (L + K) step p =
      (List.range (emitCount L step p)).map
          (fun i : Nat => interpExact monoBig (L + K) (p + i * step))
        ++ convOut monoB K step (p + (emitCount L step p : ℚ) * step - (L : ℚ)) := by
  have hreach := emitCount_reaches L step p hstep
  unfold convOut
  rw [emitCount_split L K step p hstep, List.range_add, List.map_append, List.map_map]
  congr 1
  apply List.map_congr_left
  intro j hj
  have hj2 := (lt_emitCount K step _ hstep j).mp (List.mem_range.mp hj)
  have hj0 : (0 : ℚ) ≤ (j : ℚ) * step := by positivity
  simp only [Function.comp]
  rw [interpExact_shift monoB monoBig K L _ (by linarith) hj2 hB]
  congr 1
  push_cast
  ring

theorem convOut_head_diff (monoBig monoA : List Int) (L K : Nat) (step p : ℚ)
    (hstep : 1 ≤ step) (hp : 0 ≤ p)
    (hA : ∀ i, i < L → monoA.getD i 0 = monoBig.getD i 0) :
    diffCount
      ((List.range (emitCount L step p)).map
        (fun i : Nat => interpExact monoBig (L + K) (p + i * step)))
      (convOut monoA L step p) ≤ 1 := by
  have hs0 : (0 : ℚ) < step := by linarith
  unfold convOut
  apply diffCount_map_range_le_one
  intro i hi
  have h1 := (lt_emitCount L step p hs0 (i + 1)).mp hi
  push_cast at h1
  have hi0 : (0 : ℚ) ≤ (i : ℚ) * step := by positivity
  have hpos : (0 : ℚ) ≤ p + i * step := by linarith
  have hlt1 : p + i * step + 1 < (L : ℚ) := by linarith
  have hA2 : ∀ j, j < L → monoA.getD j 0 = monoBig.getD (0 + j) 0 := by
    intro j hj; rw [Nat.zero_add]; exact hA j hj
  have e1 := interpExact_shift monoA monoBig L 0 (p + i * step) hpos (by linarith) hA2
  simp only [Nat.zero_add, Nat.cast_zero, add_zero] at e1
  rw [e1]
  exact (interpExact_clamp monoBig L (L + K) (p + i * step) hpos hlt1 (by omega)).symm

theorem phase_onGrid (frames q a : Nat) (hq : q < 2 ^ 32) (hq0 : 0 < q) (ha : a < 2 ^ 46) :
    ∃ a2 : Nat, a2 < 2 ^ 46 ∧
      (a : ℚ) / 64 + (emitCount frames ((q : ℚ) / 64) ((a : ℚ) / 64) : ℚ) * ((q : ℚ) / 64)
        - (frames : ℚ) = (a2 : ℚ) / 64 := by
  have hstep : (0 : ℚ) < (q : ℚ) / 64 := by positivity
  have hreach := emitCount_reaches frames ((q : ℚ) / 64) ((a : ℚ) / 64) hstep
  generalize hNe : emitCount frames ((q : ℚ) / 64) ((a : ℚ) / 64) = N at hreach
  have h1 : ((64 * frames : Nat) : ℚ) ≤ ((a + N * q : Nat) : ℚ) := by
    push_cast; linarith
  have h2 : 64 * frames ≤ a + N * q := by exact_mod_cast h1
  refine ⟨a + N * q - 64 * frames, ?_, ?_⟩
  · rcases Nat.eq_zero_or_pos N with h0 | h0
    · subst h0; omega
    · obtain ⟨j, rfl⟩ : ∃ j, N = j + 1 := ⟨N - 1, by omega⟩
      have hlt := (lt_emitCount frames ((q : ℚ) / 64) ((a : ℚ) / 64) hstep j).mp (by omega)
      have h3 : ((a + j * q : Nat) : ℚ) < ((64 * frames : Nat) : ℚ) := by
        push_cast; linarith
      have h4 : a + j * q < 64 * frames := by exact_mod_cast h3
      have : (j + 1) * q = j * q + q := by ring
      omega
  · rw [Nat.cast_sub h2]
    push_cast
    ring

theorem process_resample (adev : Ring) (src : List Int) (frames channels rate q : Nat) (p : ℚ)
    (hf : 0 < frames) (hfr : frames < 2 ^ 40) (hch : 0 < channels)
    (hr0 : rate ≠ 0) (hr8 : rate ≠ 8000) (hr32 : rate < 2 ^ 32) (hq : rate = 125 * q)
    (hp : OnGrid p) (hs : ∀ i, -32768 ≤ src.getD i 0 ∧ src.getD i 0 ≤ 32767) :
    (simcom_voice_process_and_push true true true adev ⟨p, rate, channels⟩ src frames
        channels rate).pushed
      = convOut (monoStage true src frames channels) frames ((rate : ℚ) / 8000) p ∧
    (simcom_voice_process_and_push true true true adev ⟨p, rate, channels⟩ src frames
        channels rate).st
      = ⟨p + (emitCount frames ((rate : ℚ) / 8000) p : ℚ) * ((rate : ℚ) / 8000) - (frames : ℚ),
         rate, channels⟩ := by
  obtain ⟨a, ha, rfl⟩ := hp
  have hstep : (0 : ℚ) < (rate : ℚ) / 8000 := by
    have : 0 < rate := by omega
    positivity
  have hstepE : (rate : ℚ) / 8000 = (q : ℚ) / 64 := by
    rw [hq]; push_cast; ring
  have her : effective_rate rate = rate := by simp [effective_rate, hr0]
  have huc : usedChannels channels = channels := by
    unfold usedChannels; rw [if_neg (by omega)]
  have hf0 : frames ≠ 0 := by omega
  have hcl := resample_closed (monoStage true src frames channels) frames rate q a
    (by omega) hq hr32 hfr ha (monoStage_int16 true src frames channels hs)
  have hfrR : roundDouble (frames : ℚ) = (frames : ℚ) := roundDouble_natCast _ (by omega)
  have hreach := emitCount_reaches frames ((rate : ℚ) / 8000) ((a : ℚ) / 64) hstep
  have hph : roundDouble ((a : ℚ) / 64
      + (emitCount frames ((rate : ℚ) / 8000) ((a : ℚ) / 64) : ℚ) * ((rate : ℚ) / 8000)
      - (frames : ℚ))
      = (a : ℚ) / 64
        + (emitCount frames ((rate : ℚ) / 8000) ((a : ℚ) / 64) : ℚ) * ((rate : ℚ) / 8000)
        - (frames : ℚ) := by
    rw [hstepE]
    obtain ⟨a2, ha2, e⟩ := phase_onGrid frames q a (by omega) (by omega) ha
    rw [e]
    have := roundDouble_div64 (a2 : Int) (by
      rw [abs_of_nonneg (by positivity)]
      have : a2 < 2 ^ 53 := by omega
      exact_mod_cast this)
    simpa using this
  unfold ProcResult.pushed
  simp only [simcom_voice_process_and_push, hf0, her, huc, hr8, hcl, hfrR, hreach, hph,
    Bool.true_eq_false, false_or, if_false, ne_eq, not_false_eq_true, if_true,
    List.length_map, List.length_range, not_true_eq_false, or_self]
  refine ⟨?_, trivial⟩
  exact readBlock_self (convOut (monoStage true src frames channels) frames
    ((rate : ℚ) / 8000) ((a : ℚ) / 64))

theorem drop_int16 (src : List Int) (k : Nat)
    (hs : ∀ i, -32768 ≤ src.getD i 0 ∧ src.getD i 0 ≤ 32767) :
    ∀ i, -32768 ≤ (src.drop k).getD i 0 ∧ (src.drop k).getD i 0 ≤ 32767 := by
  intro i
  rw [getD_drop_zero]
  exact hs _

theorem chunks_resample (L channels rate q : Nat) (hL : 0 < L) (hch : 0 < channels)
    (hr : 8000 < rate) (hr32 : rate < 2 ^ 32) (hq : rate = 125 * q) :
    ∀ (M : Nat) (src : List Int) (adev adev2 : Ring) (p : ℚ), OnGrid p →
      (∀ i, -32768 ≤ src.getD i 0 ∧ src.getD i 0 ≤ 32767) →
      (M + 1) * L < 2 ^ 40 →
      (simcom_voice_process_and_push true true true adev ⟨p, rate, channels⟩ src
          ((M + 1) * L) channels rate).pushed.length
        = (processChunks true true true L channels rate (M + 1) adev2 ⟨p, rate, channels⟩
            src).2.2.length ∧
      diffCount
        (simcom_voice_process_and_push true true true adev ⟨p, rate, channels⟩ src
          ((M + 1) * L) channels rate).pushed
        (processChunks true true true L channels rate (M + 1) adev2 ⟨p, rate, channels⟩
          src).2.2 ≤ M ∧
      (simcom_voice_process_and_push true true true adev ⟨p, rate, channels⟩ src
          ((M + 1) * L) channels rate).st
        = (processChunks true true true L channels rate (M + 1) adev2 ⟨p, rate, channels⟩
            src).1 := by
  have hstep1 : (1 : ℚ) ≤ (rate : ℚ) / 8000 := by
    rw [le_div_iff₀ (by norm_num)]
    have : (8000 : ℚ) ≤ (rate : ℚ) := by exact_mod_cast (Nat.le_of_lt hr)
    linarith
  have hstep : (0 : ℚ) < (rate : ℚ) / 8000 := by linarith
  have huc : usedChannels channels = channels := by
    unfold usedChannels; rw [if_neg (by omega)]
  intro M
  induction M with
  | zero =>
    intro src adev adev2 p hg hs hfr
    have h1 := process_resample adev src ((0 + 1) * L) channels rate q p (by omega) hfr hch
      (by omega) (by omega) hr32 hq hg hs
    have h2 := process_resample adev2 src L channels rate q p hL (by omega) hch (by omega)
      (by omega) hr32 hq hg hs
    have e : (0 + 1) * L = L := by omega
    rw [e] at h1
    simp only [processChunks, e, h1.1, h1.2, h2.1, h2.2, List.append_nil, diffCount_self,
      Nat.le_refl, and_self]
  | succ M ih =>
    intro src adev adev2 p hg hs hfr
    have hp : (0 : ℚ) ≤ p := by
      obtain ⟨a, _, rfl⟩ := hg
      positivity
    have hstepE : (rate : ℚ) / 8000 = (q : ℚ) / 64 := by
      rw [hq]; push_cast; ring
    have hg1 : OnGrid (p + (emitCount L ((rate : ℚ) / 8000) p : ℚ) * ((rate : ℚ) / 8000)
        - (L : ℚ)) := by
      obtain ⟨a, ha, rfl⟩ := hg
      rw [hstepE]
      obtain ⟨a2, ha2, e⟩ := phase_onGrid L q a (by omega) (by omega) ha
      exact ⟨a2, ha2, e⟩
    have eML : (M + 1 + 1) * L = L + (M + 1) * L := by ring
    have hfrB : (M + 1) * L < 2 ^ 40 := by omega
    have hS := process_resample adev src (L + (M + 1) * L) channels rate q p (by omega)
      (by omega) hch (by omega) (by omega) hr32 hq hg hs
    have hA := process_resample adev2 src L channels rate q p hL (by omega) hch (by omega)
      (by omega) hr32 hq hg hs
    have hreach := emitCount_reaches L ((rate : ℚ) / 8000) p hstep
    have hp1 : (0 : ℚ) ≤ p + (emitCount L ((rate : ℚ) / 8000) p : ℚ) * ((rate : ℚ) / 8000)
        - (L : ℚ) := by linarith
    have hBm : ∀ i, i < (M + 1) * L →
        (monoStage true (src.drop (L * channels)) ((M + 1) * L) channels).getD i 0
          = (monoStage true src (L + (M + 1) * L) channels).getD (L + i) 0 :=
      fun i hi => monoStage_shift src L ((M + 1) * L) (L + (M + 1) * L) channels i hch hi
        (by omega)
    have hAm : ∀ i, i < L →
        (monoStage true src L channels).getD i 0
          = (monoStage true src (L + (M + 1) * L) channels).getD i 0 := by
      intro i hi
      have := monoStage_shift src 0 L (L + (M + 1) * L) channels i hch hi (by omega)
      simpa using this
    have hsplit := convOut_split (monoStage true src (L + (M + 1) * L) channels)
      (monoStage true (src.drop (L * channels)) ((M + 1) * L) channels) L ((M + 1) * L)
      ((rate : ℚ) / 8000) p hstep hBm
    have hhead := convOut_head_diff (monoStage true src (L + (M + 1) * L) channels)
      (monoStage true src L channels) L ((M + 1) * L) ((rate : ℚ) / 8000) p hstep1 hp hAm
    obtain ⟨ih1, ih2, ih3⟩ := ih (src.drop (L * channels))
      (simcom_voice_process_and_push true true true adev2 ⟨p, rate, channels⟩ src L
        channels rate).adev
      (simcom_voice_process_and_push true true true adev2 ⟨p, rate, channels⟩ src L
        channels rate).adev
      _ hg1 (drop_int16 src _ hs) hfrB
    have hB := process_resample
      (simcom_voice_process_and_push true true true adev2 ⟨p, rate, channels⟩ src L
        channels rate).adev
      (src.drop (L * channels)) ((M + 1) * L) channels rate q _ (Nat.mul_pos (by omega) hL)
      hfrB hch (by omega) (by omega) hr32 hq hg1 (drop_int16 src _ hs)
    rw [hB.1] at ih1 ih2
    rw [hB.2] at ih3
    rw [eML]
    rw [processChunks]
    simp only [hS.1, hS.2, hA.1, hA.2, huc]
    rw [hsplit]
    refine ⟨?_, ?_, ?_⟩
    · simp only [List.length_append, List.length_map, List.length_range, convOut_length]
      rw [← ih1, convOut_length]
    · rw [diffCount_append _ _ _ _ (by simp [convOut_length])]
      omega
    · rw [← ih3]
      congr 1
      rw [emitCount_split L ((M + 1) * L) ((rate : ℚ) / 8000) p hstep]
      push_cast
      ring

theorem readBlock_split (monoBig monoA monoB : List Int) (L K : Nat)
    (hA : ∀ i, i < L → monoA.getD i 0 = monoBig.getD i 0)
    (hB : ∀ i, i < K → monoB.getD i 0 = monoBig.getD (L + i) 0) :
    readBlock monoBig 0 (L + K) = readBlock monoA 0 L ++ readBlock monoB 0 K := by
  unfold readBlock
  rw [List.range_add, List.map_append, List.map_map]
  congr 1
  · apply List.map_congr_left
    intro i hi
    simp only [Nat.zero_add]
    exact (hA i (List.mem_range.mp hi)).symm
  · apply List.map_congr_left
    intro i hi
    simp only [Function.comp, Nat.zero_add]
    exact (hB i (List.mem_range.mp hi)).symm

theorem process_passthrough (adev : Ring) (src : List Int) (frames channels rate : Nat)
    (p : ℚ) (hf : 0 < frames) (hch : 0 < channels) (her : effective_rate rate = 8000) :
    (simcom_voice_process_and_push true true true adev ⟨p, 8000, channels⟩ src frames
        channels rate).pushed
      = readBlock (monoStage true src frames channels) 0 frames ∧
    (simcom_voice_process_and_push true true true adev ⟨p, 8000, channels⟩ src frames
        channels rate).st = ⟨p, 8000, channels⟩ := by
  have huc : usedChannels channels = channels := by
    unfold usedChannels; rw [if_neg (by omega)]
  have hf0 : frames ≠ 0 := by omega
  unfold ProcResult.pushed
  simp [simcom_voice_process_and_push, hf0, her, huc]

theorem chunks_passthrough (L channels rate : Nat) (hL : 0 < L) (hch : 0 < channels)
    (her : effective_rate rate = 8000) :
    ∀ (M : Nat) (src : List Int) (adev adev2 : Ring) (p : ℚ),
      (simcom_voice_process_and_push true true true adev ⟨p, 8000, channels⟩ src
          ((M + 1) * L) channels rate).pushed
        = (processChunks true true true L channels rate (M + 1) adev2 ⟨p, 8000, channels⟩
            src).2.2 ∧
      (simcom_voice_process_and_push true true true adev ⟨p, 8000, channels⟩ src
          ((M + 1) * L) channels rate).st
        = (processChunks true true true L channels rate (M + 1) adev2 ⟨p, 8000, channels⟩
            src).1 := by
  have huc : usedChannels channels = channels := by
    unfold usedChannels; rw [if_neg (by omega)]
  intro M
  induction M with
  | zero =>
    intro src adev adev2 p
    have e : (0 + 1) * L = L := by omega
    have h1 := process_passthrough adev src L channels rate p hL hch her
    have h2 := process_passthrough adev2 src L channels rate p hL hch her
    simp only [processChunks, e, h1.1, h1.2, h2.1, h2.2, List.append_nil, and_self]
  | succ M ih =>
    intro src adev adev2 p
    have eML : (M + 1 + 1) * L = L + (M + 1) * L := by ring
    have hS := process_passthrough adev src (L + (M + 1) * L) channels rate p (by omega) hch her
    have hA := process_passthrough adev2 src L channels rate p hL hch her
    have hBm : ∀ i, i < (M + 1) * L →
        (monoStage true (src.drop (L * channels)) ((M + 1) * L) channels).getD i 0
          = (monoStage true src (L + (M + 1) * L) channels).getD (L + i) 0 :=
      fun i hi => monoStage_shift src L ((M + 1) * L) (L + (M + 1) * L) channels i hch hi
        (by omega)
    have hAm : ∀ i, i < L →
        (monoStage true src L channels).getD i 0
          = (monoStage true src (L + (M + 1) * L) channels).getD i 0 := by
      intro i hi
      have := monoStage_shift src 0 L (L + (M + 1) * L) channels i hch hi (by omega)
      simpa using this
    obtain ⟨ih1, ih2⟩ := ih (src.drop (L * channels))
      (simcom_voice_process_and_push true true true adev2 ⟨p, 8000, channels⟩ src L
        channels rate).adev
      (simcom_voice_process_and_push true true true adev2 ⟨p, 8000, channels⟩ src L
        channels rate).adev p
    have hB := process_passthrough
      (simcom_voice_process_and_push true true true adev2 ⟨p, 8000, channels⟩ src L
        channels rate).adev
      (src.drop (L * channels)) ((M + 1) * L) channels rate p (Nat.mul_pos (by omega) hL) hch her
    rw [hB.1] at ih1
    rw [hB.2] at ih2
    rw [eML, processChunks]
    simp only [hS.1, hS.2, hA.1, hA.2, huc]
    rw [← ih1, ← ih2]
    exact ⟨readBlock_split _ _ _ L ((M + 1) * L) hAm hBm, rfl⟩

theorem process_normalize (adev : Ring) (st : VoiceState) (src : List Int)
    (frames channels rate : Nat) (hf : 0 < frames) (hch : 0 < channels)
    (hst : st.resample_pos = 0) :
    simcom_voice_process_and_push true true true adev st src frames channels rate =
      simcom_voice_process_and_push true true true adev ⟨0, effective_rate rate, channels⟩ src
        frames channels rate := by
  have huc : usedChannels channels = channels := by
    unfold usedChannels; rw [if_neg (by omega)]
  have hf0 : frames ≠ 0 := by omega
  have hst1 : (if effective_rate rate ≠ st.last_rate ∨ channels ≠ st.last_channels then
        ({ resample_pos := 0, last_rate := effective_rate rate, last_channels := channels }
          : VoiceState)
      else st) = ⟨0, effective_rate rate, channels⟩ := by
    split
    · rfl
    · rename_i h
      have h1 : effective_rate rate = st.last_rate := by
        by_contra hc; exact h (Or.inl hc)
      have h2 : channels = st.last_channels := by
        by_contra hc; exact h (Or.inr hc)
      cases st
      simp_all
  unfold simcom_voice_process_and_push
  simp only [hf0, huc, hst1, Bool.true_eq_false, false_or, if_false, ne_eq, not_true_eq_false,
    or_self]

theorem processChunks_zero_frames (channels rate : Nat) :
    ∀ (M : Nat) (adev : Ring) (st : VoiceState) (src : List Int),
      (processChunks true true true 0 channels rate M adev st src).2.2 = [] := by
  intro M
  induction M with
  | zero => intro adev st src; rfl
  | succ M ih =>
    intro adev st src
    rw [processChunks]
    simp only [ih, List.append_nil]
    simp [simcom_voice_process_and_push, ProcResult.pushed, readBlock]

theorem processChunks_normalize (L channels rate : Nat) (hL : 0 < L) (hch : 0 < channels)
    (M : Nat) (adev : Ring) (st : VoiceState) (src : List Int) (hst : st.resample_pos = 0) :
    processChunks true true true L channels rate (M + 1) adev st src =
      processChunks true true true L channels rate (M + 1) adev
        ⟨0, effective_rate rate, channels⟩ src := by
  rw [processChunks, processChunks, process_normalize adev st src L channels rate hL hch hst]

theorem process_channels_zero (adev : Ring) (st : VoiceState) (src : List Int)
    (frames rate : Nat) :
    simcom_voice_process_and_push true true true adev st src frames 0 rate =
      simcom_voice_process_and_push true true true adev st src frames 1 rate := rfl

theorem processChunks_channels_zero (L rate : Nat) :
    ∀ (M : Nat) (adev : Ring) (st : VoiceState) (src : List Int),
      processChunks true true true L 0 rate M adev st src =
        processChunks true true true L 1 rate M adev st src := by
  intro M
  induction M with
  | zero => intro adev st src; rfl
  | succ M ih =>
    intro adev st src
    rw [processChunks, processChunks, process_channels_zero, ih]
    rfl

theorem chunked_vs_single (adev : Ring) (st : VoiceState) (src : List Int)
    (L M channels rate : Nat) (hch : 0 < channels)
    (hr : 8000 ≤ effective_rate rate) (h125 : 125 ∣ rate) (hr32 : rate < 2 ^ 32)
    (hfr : M * L < 2 ^ 40) (hst : st.resample_pos = 0)
    (hs : ∀ i, -32768 ≤ src.getD i 0 ∧ src.getD i 0 ≤ 32767) :
    (simcom_voice_process_and_push true true true adev st src (M * L) channels rate
        ).pushed.length
      = (processChunks true true true L channels rate M adev st src).2.2.length ∧
    diffCount
      (simcom_voice_process_and_push true true true adev st src (M * L) channels rate).pushed
      (processChunks true true true L channels rate M adev st src).2.2 ≤ M - 1 := by
  have hempty : ∀ frames, frames = 0 →
      (simcom_voice_process_and_push true true true adev st src frames channels rate).pushed
        = [] := by
    intro frames h0
    subst h0
    simp [simcom_voice_process_and_push, ProcResult.pushed, readBlock]
  rcases Nat.eq_zero_or_pos M with hM | hM
  · subst hM
    rw [hempty _ (by omega)]
    simp [processChunks, diffCount]
  rcases Nat.eq_zero_or_pos L with hL | hL
  · subst hL
    rw [hempty _ (by omega), processChunks_zero_frames]
    simp [diffCount]
  obtain ⟨M, rfl⟩ : ∃ M', M = M' + 1 := ⟨M - 1, by omega⟩
  rw [process_normalize adev st src _ channels rate (Nat.mul_pos (by omega) hL) hch hst,
    processChunks_normalize L channels rate hL hch M adev st src hst]
  by_cases h8 : effective_rate rate = 8000
  · obtain ⟨h1, _⟩ := chunks_passthrough L channels rate hL hch h8 M src adev adev 0
    rw [h8, h1, diffCount_self]
    exact ⟨rfl, Nat.zero_le _⟩
  · have hr0 : rate ≠ 0 := by
      intro h0; apply h8; simp [effective_rate, h0]
    have her : effective_rate rate = rate := by simp [effective_rate, hr0]
    rw [her] at hr h8 ⊢
    obtain ⟨q, hq⟩ := h125
    obtain ⟨h1, h2, _⟩ := chunks_resample L channels rate q hL hch (by omega) hr32 hq M src
      adev adev 0 ⟨0, by norm_num, by norm_num⟩ hs hfr
    exact ⟨h1, by simpa using h2⟩


/-! ### Rounding error of the conversion loops -/

theorem ulp_le_gen (x : ℚ) (hx0 : x ≠ 0) :
    (2 : ℚ) ^ ulpExp x ≤ |x| / 2 ^ 52 + 2 ^ (-1074 : Int) := by
  have hpos : (0 : ℚ) < 2 ^ (-1074 : Int) := by positivity
  unfold ulpExp
  rcases le_total (binExp x - 52) (-1074) with h | h
  · rw [max_eq_right h]
    have : (0 : ℚ) ≤ |x| / 2 ^ 52 := by positivity
    linarith
  · rw [max_eq_left h]
    have : (2 : ℚ) ^ (binExp x - 52) = 2 ^ binExp x / 2 ^ 52 := by
      rw [show binExp x - 52 = binExp x - ((52 : Nat) : Int) by norm_num,
        zpow_sub₀ (by norm_num), zpow_natCast]
    rw [this]
    have := div_le_div_of_nonneg_right (binExp_le x hx0) (show (0 : ℚ) ≤ 2 ^ 52 by positivity)
    linarith

theorem roundDouble_upper (x : ℚ) (hx : 0 ≤ x) :
    roundDouble x ≤ x + x / 2 ^ 53 + 2 ^ (-1075 : Int) := by
  rcases eq_or_ne x 0 with rfl | hx0
  · rw [roundDouble_zero]
    positivity
  have h1 := roundDouble_err x
  have h2 := ulp_le_gen x hx0
  rw [abs_of_nonneg hx] at h2
  have h3 := (abs_le.mp h1).2
  have e : (2 : ℚ) ^ (-1074 : Int) / 2 = 2 ^ (-1075 : Int) := by
    rw [show (-1075 : Int) = -1074 - 1 by norm_num, zpow_sub₀ (by norm_num)]
    norm_num
  have : (2 : ℚ) ^ ulpExp x / 2 ≤ x / 2 ^ 53 + 2 ^ (-1075 : Int) := by
    rw [← e]
    have : x / 2 ^ 53 = x / 2 ^ 52 / 2 := by ring
    rw [this]
    linarith
  linarith

theorem roundDouble_lower (x : ℚ) (hx : 1 / 2 ^ 14 ≤ x) : x - x / 2 ^ 53 ≤ roundDouble x := by
  have hx0 : 0 ≤ x := le_trans (by positivity) hx
  have hn : (2 : ℚ) ^ (-1022 : Int) ≤ |x| := by
    rw [abs_of_nonneg hx0]
    refine le_trans ?_ hx
    have : (1 : ℚ) / 2 ^ 14 = 2 ^ (-14 : Int) := by norm_num [zpow_neg]
    rw [this]
    exact zpow_le_zpow_right₀ (by norm_num) (by norm_num)
  have h1 := roundDouble_rel x hn
  rw [abs_of_nonneg hx0] at h1
  have h3 := (abs_le.mp h1).1
  linarith

theorem posAfter_nonneg (s p : ℚ) (hs : 0 ≤ s) (hp : 0 ≤ p) : ∀ k, 0 ≤ posAfter s p k
  | 0 => hp
  | k + 1 => roundDouble_nonneg _ (add_nonneg (posAfter_nonneg s p hs hp k) hs)

/-- While the positions stay below `F`, every pass advances the position by
at least `s - (F + s) / 2 ^ 53`. -/
theorem posAfter_growth (s p F : ℚ) (hs : 1 / 2 ^ 14 ≤ s) (hp : 0 ≤ p) :
    ∀ k : Nat, (∀ j : Nat, j < k → posAfter s p j < F) →
      p + (k : ℚ) * (s - (F + s) / 2 ^ 53) ≤ posAfter s p k := by
  have hs0 : 0 ≤ s := le_trans (by positivity) hs
  intro k
  induction k with
  | zero => intro _; simp [posAfter]
  | succ k ih =>
    intro h
    have ih2 := ih (fun j hj => h j (by omega))
    have hk := h k (by omega)
    have h0 := posAfter_nonneg s p hs0 hp k
    have hl := roundDouble_lower (posAfter s p k + s) (by linarith)
    show _ ≤ roundDouble (posAfter s p k + s)
    push_cast
    have : (posAfter s p k + s) / 2 ^ 53 ≤ (F + s) / 2 ^ 53 :=
      div_le_div_of_nonneg_right (by linarith) (by positivity)
    linarith

/-- The step computed by the code, `(double)rate / 8000.0`, against the exact
quotient. -/
theorem step_bounds (rate : Nat) (hr : 1 ≤ rate) :
    (rate : ℚ) / 8000 - (rate : ℚ) / 8000 / 2 ^ 53 ≤ roundDouble ((rate : ℚ) / 8000) ∧
    roundDouble ((rate : ℚ) / 8000) ≤ (rate : ℚ) / 8000 + (rate : ℚ) / 8000 / 2 ^ 53 := by
  have hr1 : (1 : ℚ) ≤ (rate : ℚ) := by exact_mod_cast hr
  have hse : (1 : ℚ) / 2 ^ 14 ≤ (rate : ℚ) / 8000 := by
    rw [le_div_iff₀ (by norm_num)]
    norm_num
    linarith
  have hse0 : (0 : ℚ) ≤ (rate : ℚ) / 8000 := by positivity
  have hn : (2 : ℚ) ^ (-1022 : Int) ≤ |(rate : ℚ) / 8000| := by
    rw [abs_of_nonneg hse0]
    refine le_trans ?_ hse
    have : (1 : ℚ) / 2 ^ 14 = 2 ^ (-14 : Int) := by norm_num [zpow_neg]
    rw [this]
    exact zpow_le_zpow_right₀ (by norm_num) (by norm_num)
  have h1 := roundDouble_rel _ hn
  rw [abs_of_nonneg hse0] at h1
  have h3 := abs_le.mp h1
  constructor <;> linarith [h3.1, h3.2]

/-- With at most `2 ^ 24` output samples, a loop that has made `k` passes
below `frames` has made at most `ceil(frames * 8000 / rate) + 1` of them. -/
theorem count_bound (rate frames : Nat) (p : ℚ) (hr : 1 ≤ rate)
    (hF : frames * 8000 ≤ 2 ^ 24 * rate) (hp : 0 ≤ p) (k : Nat)
    (hk : ∀ j : Nat, j < k → posAfter (roundDouble ((rate : ℚ) / 8000)) p j < (frames : ℚ)) :
    k ≤ ⌈((frames : ℚ) * 8000) / (rate : ℚ)⌉₊ + 1 := by
  by_contra hcon
  have hr1 : (1 : ℚ) ≤ (rate : ℚ) := by exact_mod_cast hr
  have hrpos : (0 : ℚ) < (rate : ℚ) := by linarith
  obtain ⟨hlo, hhi⟩ := step_bounds rate hr
  generalize hs : roundDouble ((rate : ℚ) / 8000) = s at hk hlo hhi
  have hsepos : (0 : ℚ) < (rate : ℚ) / 8000 := by positivity
  have hse : (1 : ℚ) / 2 ^ 14 ≤ (rate : ℚ) / 8000 := by
    rw [le_div_iff₀ (by norm_num)]
    norm_num
    linarith
  generalize hsee : (rate : ℚ) / 8000 = se at hlo hhi hsepos hse
  have hFq : (frames : ℚ) ≤ 2 ^ 24 * se := by
    rw [← hsee]
    have : ((frames * 8000 : Nat) : ℚ) ≤ ((2 ^ 24 * rate : Nat) : ℚ) := by exact_mod_cast hF
    push_cast at this
    rw [mul_div_assoc']
    rw [le_div_iff₀ (by norm_num)]
    linarith
  have hs14 : (1 : ℚ) / 2 ^ 14 ≤ s := by
    have h8 : (1 : ℚ) / 8000 ≤ se := by
      rw [← hsee, div_le_div_iff_of_pos_right (by norm_num)]
      exact hr1
    have : se / 2 ^ 53 ≤ se / 2 := by
      apply div_le_div_of_nonneg_left hsepos.le (by norm_num) (by norm_num)
    have : se / 2 ≤ s := by linarith
    have : (1 : ℚ) / 2 ^ 14 ≤ (1 / 8000) / 2 := by norm_num
    linarith
  -- the guaranteed advance of one pass
  have hdelta : se * (1 - 1 / 2 ^ 28) ≤ s - ((frames : ℚ) + s) / 2 ^ 53 := by
    have e : s - ((frames : ℚ) + s) / 2 ^ 53 = s * (1 - 1 / 2 ^ 53) - (frames : ℚ) / 2 ^ 53 := by
      ring
    rw [e]
    have h1 : (se - se / 2 ^ 53) * (1 - 1 / 2 ^ 53) ≤ s * (1 - 1 / 2 ^ 53) :=
      mul_le_mul_of_nonneg_right hlo (by norm_num)
    have h2 : (frames : ℚ) / 2 ^ 53 ≤ 2 ^ 24 * se / 2 ^ 53 :=
      div_le_div_of_nonneg_right hFq (by positivity)
    have h3 : se * (1 - 1 / 2 ^ 28) ≤
        (se - se / 2 ^ 53) * (1 - 1 / 2 ^ 53) - 2 ^ 24 * se / 2 ^ 53 := by
      have : (se - se / 2 ^ 53) * (1 - 1 / 2 ^ 53) - 2 ^ 24 * se / 2 ^ 53 - se * (1 - 1 / 2 ^ 28)
          = se * ((1 - 1 / 2 ^ 53) * (1 - 1 / 2 ^ 53) - 2 ^ 24 / 2 ^ 53 - (1 - 1 / 2 ^ 28)) := by
        ring
      have h4 : (0 : ℚ) ≤ (1 - 1 / 2 ^ 53) * (1 - 1 / 2 ^ 53) - 2 ^ 24 / 2 ^ 53
          - (1 - 1 / 2 ^ 28) := by norm_num
      nlinarith [mul_nonneg hsepos.le h4]
    linarith
  obtain ⟨j, rfl⟩ : ∃ j, k = j + 1 := ⟨k - 1, by omega⟩
  have hj : ⌈((frames : ℚ) * 8000) / (rate : ℚ)⌉₊ + 1 ≤ j := by omega
  have hgrow := posAfter_growth s p (frames : ℚ) hs14 hp j (fun i hi => hk i (by omega))
  have hlt := hk j (by omega)
  have hceil : ((frames : ℚ) * 8000) / (rate : ℚ) ≤ (⌈((frames : ℚ) * 8000) / (rate : ℚ)⌉₊ : ℚ) :=
    Nat.le_ceil _
  have hjq : ((frames : ℚ) * 8000) / (rate : ℚ) + 1 ≤ (j : ℚ) := by
    have : ((⌈((frames : ℚ) * 8000) / (rate : ℚ)⌉₊ + 1 : Nat) : ℚ) ≤ (j : ℚ) := by
      exact_mod_cast hj
    push_cast at this
    linarith
  have hfse : ((frames : ℚ) * 8000) / (rate : ℚ) = (frames : ℚ) / se := by
    rw [← hsee]
    field_simp
  rw [hfse] at hjq
  have hj0 : (0 : ℚ) ≤ (j : ℚ) := by positivity
  have hdpos : (0 : ℚ) ≤ se * (1 - 1 / 2 ^ 28) := by
    apply mul_nonneg hsepos.le
    norm_num
  have h5 : ((frames : ℚ) / se + 1) * (se * (1 - 1 / 2 ^ 28))
      ≤ (j : ℚ) * (s - ((frames : ℚ) + s) / 2 ^ 53) :=
    mul_le_mul hjq hdelta hdpos hj0
  have h6 : ((frames : ℚ) / se + 1) * (se * (1 - 1 / 2 ^ 28))
      = ((frames : ℚ) + se) * (1 - 1 / 2 ^ 28) := by
    have hne : se ≠ 0 := hsepos.ne'
    field_simp
    ring
  have h7 : (frames : ℚ) ≤ ((frames : ℚ) + se) * (1 - 1 / 2 ^ 28) := by
    have : ((frames : ℚ) + se) * (1 - 1 / 2 ^ 28) - (frames : ℚ)
        = se * (1 - 1 / 2 ^ 28) - (frames : ℚ) / 2 ^ 28 := by ring
    have h8 : (frames : ℚ) / 2 ^ 28 ≤ 2 ^ 24 * se / 2 ^ 28 :=
      div_le_div_of_nonneg_right hFq (by positivity)
    have h9 : 2 ^ 24 * se / 2 ^ 28 ≤ se * (1 - 1 / 2 ^ 28) := by
      have : se * (1 - 1 / 2 ^ 28) - 2 ^ 24 * se / 2 ^ 28
          = se * (1 - 1 / 2 ^ 28 - 2 ^ 24 / 2 ^ 28) := by ring
      have h10 : (0 : ℚ) ≤ 1 - 1 / 2 ^ 28 - 2 ^ 24 / 2 ^ 28 := by norm_num
      nlinarith [mul_nonneg hsepos.le h10]
    linarith
  linarith

/-- The loop position reaches `frames` after at most
`ceil(frames * 8000 / rate) + 1` passes. -/
theorem loop_exit (rate frames : Nat) (p : ℚ) (hr : 1 ≤ rate)
    (hF : frames * 8000 ≤ 2 ^ 24 * rate) (hp : 0 ≤ p) :
    ∃ N : Nat, N ≤ ⌈((frames : ℚ) * 8000) / (rate : ℚ)⌉₊ + 1 ∧
      (∀ j : Nat, j < N → posAfter (roundDouble ((rate : ℚ) / 8000)) p j < (frames : ℚ)) ∧
      (frames : ℚ) ≤ posAfter (roundDouble ((rate : ℚ) / 8000)) p N := by
  have hex : ∃ k : Nat, ¬ posAfter (roundDouble ((rate : ℚ) / 8000)) p k < (frames : ℚ) := by
    by_contra h
    push_neg at h
    have := count_bound rate frames p hr hF hp
      (⌈((frames : ℚ) * 8000) / (rate : ℚ)⌉₊ + 2) (fun j _ => h j)
    omega
  refine ⟨Nat.find hex, ?_, ?_, ?_⟩
  · exact count_bound rate frames p hr hF hp _
      (fun j hj => not_not.mp (Nat.find_min hex hj))
  · exact fun j hj => not_not.mp (Nat.find_min hex hj)
  · exact not_lt.mp (Nat.find_spec hex)

theorem resampleLoop_general (mono_src : List Int) (frames max_out : Nat) (step p : ℚ)
    (N : Nat) (hfr : frames < 2 ^ 53) (hN : N ≤ max_out)
    (hlt : ∀ j : Nat, j < N → posAfter step p j < (frames : ℚ))
    (hge : (frames : ℚ) ≤ posAfter step p N) :
    resampleLoop mono_src frames max_out step max_out p [] =
      (posAfter step p N,
       (List.range N).map (fun i : Nat => interpAt mono_src frames (posAfter step p i))) := by
  have hfrR : roundDouble (frames : ℚ) = (frames : ℚ) := roundDouble_natCast _ hfr
  rw [resampleLoop_run mono_src frames max_out step N max_out p [] hN (by simpa using hN)
    (fun i hi => by rw [hfrR]; exact hlt i hi)]
  rw [resampleLoop_stop _ _ _ _ _ _ _ (by rw [hfrR]; exact not_lt.mpr hge)]
  rw [List.nil_append]

theorem step_upper (rate : Nat) (hr : 1 ≤ rate) (hr32 : rate < 2 ^ 32) :
    1 / 2 ^ 14 ≤ roundDouble ((rate : ℚ) / 8000) ∧ roundDouble ((rate : ℚ) / 8000) ≤ 2 ^ 20 := by
  obtain ⟨hlo, hhi⟩ := step_bounds rate hr
  have hr1 : (1 : ℚ) ≤ (rate : ℚ) := by exact_mod_cast hr
  have hr2 : (rate : ℚ) ≤ 2 ^ 32 := by exact_mod_cast hr32.le
  have h1 : (1 : ℚ) / 8000 ≤ (rate : ℚ) / 8000 := by
    rw [div_le_div_iff_of_pos_right (by norm_num)]; exact hr1
  have h2 : (rate : ℚ) / 8000 ≤ 2 ^ 32 / 8000 := by
    rw [div_le_div_iff_of_pos_right (by norm_num)]; exact hr2
  generalize (rate : ℚ) / 8000 = se at hlo hhi h1 h2
  generalize roundDouble se = s at hlo hhi
  have e1 : se / 2 ^ 53 = se * (1 / 2 ^ 53) := by ring
  rw [e1] at hlo hhi
  constructor
  · have : (1 : ℚ) / 2 ^ 14 ≤ (1 / 8000) * (1 - 1 / 2 ^ 53) := by norm_num
    nlinarith
  · have : (2 ^ 32 / 8000 : ℚ) * (1 + 1 / 2 ^ 53) ≤ 2 ^ 20 := by norm_num
    nlinarith

/-- The phase saved after the loop. -/
theorem phase_bound (rate frames : Nat) (p : ℚ) (N : Nat) (hr : 1 ≤ rate)
    (hr32 : rate < 2 ^ 32) (hf : 1 ≤ frames) (hF : frames * 8000 ≤ 2 ^ 24 * rate)
    (hp0 : 0 ≤ p) (hp1 : p ≤ roundDouble ((rate : ℚ) / 8000) * (1 + 1 / 2 ^ 20))
    (hlt : ∀ j : Nat, j < N → posAfter (roundDouble ((rate : ℚ) / 8000)) p j < (frames : ℚ))
    (hge : (frames : ℚ) ≤ posAfter (roundDouble ((rate : ℚ) / 8000)) p N) :
    0 ≤ roundDouble (posAfter (roundDouble ((rate : ℚ) / 8000)) p N - (frames : ℚ)) ∧
      roundDouble (posAfter (roundDouble ((rate : ℚ) / 8000)) p N - (frames : ℚ))
        ≤ roundDouble ((rate : ℚ) / 8000) * (1 + 1 / 2 ^ 20) := by
  obtain ⟨hlo, hhi⟩ := step_bounds rate hr
  obtain ⟨hs14, hs20⟩ := step_upper rate hr hr32
  have hr1 : (1 : ℚ) ≤ (rate : ℚ) := by exact_mod_cast hr
  have hFq : (frames : ℚ) ≤ 2 ^ 24 * ((rate : ℚ) / 8000) := by
    have : ((frames * 8000 : Nat) : ℚ) ≤ ((2 ^ 24 * rate : Nat) : ℚ) := by exact_mod_cast hF
    push_cast at this
    rw [mul_div_assoc', le_div_iff₀ (by norm_num)]
    linarith
  have hf1 : (1 : ℚ) ≤ (frames : ℚ) := by exact_mod_cast hf
  generalize (rate : ℚ) / 8000 = se at hlo hhi hFq hs14 hs20 hp1 hlt hge ⊢
  generalize roundDouble se = s at hlo hhi hs14 hs20 hp1 hlt hge ⊢
  have hs0 : (0 : ℚ) ≤ s := le_trans (by positivity) hs14
  have htiny : (2 : ℚ) ^ (-1075 : Int) ≤ s / 2 ^ 60 := by
    have h1 : (2 : ℚ) ^ (-1075 : Int) ≤ 2 ^ (-74 : Int) :=
      zpow_le_zpow_right₀ (by norm_num) (by norm_num)
    have h2 : (2 : ℚ) ^ (-74 : Int) = 1 / 2 ^ 14 / 2 ^ 60 := by norm_num [zpow_neg]
    have h3 : (1 : ℚ) / 2 ^ 14 / 2 ^ 60 ≤ s / 2 ^ 60 :=
      div_le_div_of_nonneg_right hs14 (by positivity)
    linarith
  have hd0 : 0 ≤ posAfter s p N - (frames : ℚ) := by linarith
  refine ⟨roundDouble_nonneg _ hd0, ?_⟩
  have hup := roundDouble_upper _ hd0
  have hse2 : se ≤ 2 * s := by
    have : se / 2 ^ 53 ≤ se / 2 := by
      apply div_le_div_of_nonneg_left _ (by norm_num) (by norm_num)
      linarith
    linarith
  rcases Nat.eq_zero_or_pos N with h0 | h0
  · subst h0
    have e : posAfter s p 0 = p := rfl
    rw [e] at hup hd0 ⊢
    have e2 : (p - (frames : ℚ)) / 2 ^ 53 = (p - (frames : ℚ)) * (1 / 2 ^ 53) := by ring
    rw [e2] at hup
    have e3 : s / 2 ^ 60 = s * (1 / 2 ^ 60) := by ring
    rw [e3] at htiny
    norm_num at hup htiny hp1 ⊢
    linarith
  · obtain ⟨j, rfl⟩ : ∃ j, N = j + 1 := ⟨N - 1, by omega⟩
    have hj := hlt j (by omega)
    have hj0 := posAfter_nonneg s p hs0 hp0 j
    have hup2 := roundDouble_upper (posAfter s p j + s) (by linarith)
    have e : posAfter s p (j + 1) = roundDouble (posAfter s p j + s) := rfl
    rw [e] at hup hd0 ⊢
    generalize roundDouble (posAfter s p j + s) = P1 at hup hup2 hd0 ⊢
    generalize roundDouble (P1 - (frames : ℚ)) = R at hup ⊢
    generalize posAfter s p j = P0 at hj hj0 hup2
    generalize (frames : ℚ) = F at hFq hf1 hj hup hd0
    generalize (2 : ℚ) ^ (-1075 : Int) = t at htiny hup hup2
    have e2 : (P1 - F) / 2 ^ 53 = (P1 - F) * (1 / 2 ^ 53) := by ring
    have e3 : s / 2 ^ 60 = s * (1 / 2 ^ 60) := by ring
    have e4 : (P0 + s) / 2 ^ 53 = (P0 + s) * (1 / 2 ^ 53) := by ring
    rw [e2] at hup
    rw [e3] at htiny
    rw [e4] at hup2
    norm_num at hup hup2 htiny hFq ⊢
    linarith

/-! ## Downmix and rate conversion: the claims -/

/-- C8, as the code has it: for a constant source rate that is a multiple of
125 Hz and at least 8000 Hz (or 0, which the code replaces by 8000), any
channel count, `int16_t` samples, voice active and the scratch buffers
allocated, converting `M` consecutive chunks of `L` frames (fewer than
`2 ^ 40` in all) with the phase carried between the calls, starting from phase
0, pushes as many 8 kHz mono samples as one call on all `M * L` frames, and
the two output sequences differ in at most `M - 1` positions: at most one
sample per chunk boundary.  At these rates the step is a multiple of `1 / 64`
and no `double` operation of the loop rounds. -/
theorem chunked_conversion_matches_single_call (adev : Ring) (st : VoiceState)
    (src : List Int) (L M channels rate : Nat)
    (hr : 8000 ≤ effective_rate rate) (h125 : 125 ∣ rate) (hr32 : rate < 2 ^ 32)
    (hfr : M * L < 2 ^ 40) (hst : st.resample_pos = 0)
    (hs : ∀ i, -32768 ≤ src.getD i 0 ∧ src.getD i 0 ≤ 32767) :
    (simcom_voice_process_and_push true true true adev st src (M * L) channels rate
        ).pushed.length
      = (processChunks true true true L channels rate M adev st src).2.2.length ∧
    diffCount
      (simcom_voice_process_and_push true true true adev st src (M * L) channels rate).pushed
      (processChunks true true true L channels rate M adev st src).2.2 ≤ M - 1 := by
  rcases Nat.eq_zero_or_pos channels with h0 | h0
  · subst h0
    rw [process_channels_zero, processChunks_channels_zero]
    exact chunked_vs_single adev st src L M 1 rate (by omega) hr h125 hr32 hfr hst hs
  · exact chunked_vs_single adev st src L M channels rate h0 hr h125 hr32 hfr hst hs

/-- C8 at a mono buffer of four frames at 16 kHz cut into two chunks of two
frames. -/
theorem chunked_conversion_matches_single_call_witness :
    (8000 ≤ effective_rate 16000 ∧ 125 ∣ 16000 ∧ 16000 < 2 ^ 32 ∧ 2 * 2 < 2 ^ 40 ∧
      (VoiceState.mk 0 16000 1).resample_pos = 0 ∧
      (∀ i, -32768 ≤ ([0, 100, 200, 300] : List Int).getD i 0 ∧
        ([0, 100, 200, 300] : List Int).getD i 0 ≤ 32767)) ∧
    (simcom_voice_process_and_push true true true (ensure_ring 16) (VoiceState.mk 0 16000 1)
        [0, 100, 200, 300] (2 * 2) 1 16000).pushed.length
      = (processChunks true true true 2 1 16000 2 (ensure_ring 16) (VoiceState.mk 0 16000 1)
          [0, 100, 200, 300]).2.2.length ∧
    diffCount
      (simcom_voice_process_and_push true true true (ensure_ring 16) (VoiceState.mk 0 16000 1)
        [0, 100, 200, 300] (2 * 2) 1 16000).pushed
      (processChunks true true true 2 1 16000 2 (ensure_ring 16) (VoiceState.mk 0 16000 1)
        [0, 100, 200, 300]).2.2 ≤ 2 - 1 :=
  have hs : ∀ i, -32768 ≤ ([0, 100, 200, 300] : List Int).getD i 0 ∧
      ([0, 100, 200, 300] : List Int).getD i 0 ≤ 32767 := by
    intro i
    rcases i with _ | _ | _ | _ | i <;> simp
  ⟨⟨by decide, by decide, by norm_num, by norm_num, rfl, hs⟩,
   chunked_conversion_matches_single_call (ensure_ring 16) (VoiceState.mk 0 16000 1)
     [0, 100, 200, 300] 2 2 1 16000 (by decide) (by decide) (by norm_num) (by norm_num)
     rfl hs⟩

/-- C8 as stated fails in two ways.  Below 8000 Hz: at 2000 Hz (`step = 1 / 4`)
the mono input `0, 100` converted in one call of two frames gives
`0, 25, 50, 75, 100, 100, 100, 100`, while two calls of one frame each give
`0, 0, 0, 0, 100, 100, 100, 100`, because a call cannot look past its own last
frame: three samples differ at the single chunk boundary.  At a rate whose
step is not a `double`: at 44100 Hz the sums `pos += step` round, two calls
of 441 frames push 81 and 80 samples, 161 in all, and one call on the 882
frames pushes 160. -/
theorem chunked_conversion_differs :
    (simcom_voice_process_and_push true true true (ensure_ring 16) (VoiceState.mk 0 2000 1)
        [0, 100] (2 * 1) 1 2000).pushed = [0, 25, 50, 75, 100, 100, 100, 100] ∧
    (processChunks true true true 1 1 2000 2 (ensure_ring 16) (VoiceState.mk 0 2000 1)
        [0, 100]).2.2 = [0, 0, 0, 0, 100, 100, 100, 100] ∧
    ¬ diffCount
        (simcom_voice_process_and_push true true true (ensure_ring 16) (VoiceState.mk 0 2000 1)
          [0, 100] (2 * 1) 1 2000).pushed
        (processChunks true true true 1 1 2000 2 (ensure_ring 16) (VoiceState.mk 0 2000 1)
          [0, 100]).2.2 ≤ 2 - 1 ∧
    (simcom_voice_process_and_push true true true (ensure_ring 16) (VoiceState.mk 0 44100 1)
        (List.replicate 882 0) (2 * 441) 1 44100).pushed.length = 160 ∧
    (processChunks true true true 441 1 44100 2 (ensure_ring 16) (VoiceState.mk 0 44100 1)
        (List.replicate 882 0)).2.2.length = 161 := by
  decide!

/-- C10: for `int16_t` input samples and a channel count `channels > 1` (up
to 65536, beyond which the `int32_t` accumulator can overflow), every frame
`f` of the mono sequence is the sum of `src[f * channels + c]` over
`c < channels` divided by `channels` with the truncating integer division of
C; for one channel the mono sequence is the input itself.  At 8 kHz the mono
sequence is what `simcom_voice_process_and_push` pushes, `frames` samples
of it. -/
theorem downmix_is_channel_average (mono_ok down_ok : Bool) (adev : Ring) (st : VoiceState)
    (src : List Int) (frames channels : Nat)
    (hs : ∀ i, -32768 ≤ src.getD i 0 ∧ src.getD i 0 ≤ 32767)
    (hch : channels ≤ 65536) :
    (1 < channels → ∀ f, f < frames →
      (monoStage true src frames channels).getD f 0 =
        Int.tdiv (∑ c in Finset.range channels, src.getD (f * channels + c) 0) channels) ∧
    monoStage mono_ok src frames 1 = src ∧
    (0 < frames →
      (simcom_voice_process_and_push true true down_ok adev st src frames channels 8000
        ).push_samples = monoStage true src frames (usedChannels channels) ∧
      (simcom_voice_process_and_push true true down_ok adev st src frames channels 8000
        ).push_frames = frames) := by
  refine ⟨?_, ?_, ?_⟩
  · intro h1 f hf
    have hm : monoStage true src frames channels = downmix src frames channels := by
      simp [monoStage, h1]
    rw [hm]
    unfold downmix
    rw [List.getD_eq_getElem _ _ (by simpa using hf)]
    simp only [List.getElem_map, List.getElem_range]
    exact monoSample_eq src channels f hs (by omega) hch
  · simp [monoStage]
  · intro hf
    have hf0 : frames ≠ 0 := by omega
    simp [simcom_voice_process_and_push, hf0, effective_rate]

/-- C10 at a stereo buffer of two frames: `(3 + 4) / 2 = 3` and
`(-3 + -4) / 2 = -3`. -/
theorem downmix_is_channel_average_witness :
    ((∀ i, -32768 ≤ ([3, 4, -3, -4] : List Int).getD i 0 ∧
        ([3, 4, -3, -4] : List Int).getD i 0 ≤ 32767) ∧ 2 ≤ 65536) ∧
    (monoStage true [3, 4, -3, -4] 2 2).getD 1 0 =
      Int.tdiv (∑ c in Finset.range 2, ([3, 4, -3, -4] : List Int).getD (1 * 2 + c) 0)
        ((2 : Nat) : Int) :=
  have hs : ∀ i, -32768 ≤ ([3, 4, -3, -4] : List Int).getD i 0 ∧
      ([3, 4, -3, -4] : List Int).getD i 0 ≤ 32767 := by
    intro i
    rcases i with _ | _ | _ | _ | i <;> simp
  ⟨⟨hs, by decide⟩,
   (downmix_is_channel_average true true (ensure_ring 4) ⟨0, 8000, 2⟩ [3, 4, -3, -4] 2 2 hs
      (by decide)).1 (by decide) 1 (by decide)⟩

/-- The call in closed form at a rate that is a multiple of 125 Hz. -/
theorem process_resample_gen (mono_ok : Bool) (adev : Ring) (st : VoiceState)
    (src : List Int) (frames channels rate q : Nat) (p0 : ℚ)
    (hf : 0 < frames) (hfr : frames < 2 ^ 40)
    (hr0 : rate ≠ 0) (hr8 : rate ≠ 8000) (hr32 : rate < 2 ^ 32) (hq : rate = 125 * q)
    (hp0 : p0 = (if rate ≠ st.last_rate ∨ usedChannels channels ≠ st.last_channels then 0
      else st.resample_pos))
    (hp : OnGrid p0) (hs : ∀ i, -32768 ≤ src.getD i 0 ∧ src.getD i 0 ≤ 32767) :
    (simcom_voice_process_and_push true mono_ok true adev st src frames channels rate).pushed
      = convOut (monoStage mono_ok src frames (usedChannels channels)) frames
          ((rate : ℚ) / 8000) p0 ∧
    (simcom_voice_process_and_push true mono_ok true adev st src frames channels rate
      ).push_frames = emitCount frames ((rate : ℚ) / 8000) p0 ∧
    (simcom_voice_process_and_push true mono_ok true adev st src frames channels rate
      ).st.resample_pos
      = p0 + (emitCount frames ((rate : ℚ) / 8000) p0 : ℚ) * ((rate : ℚ) / 8000)
          - (frames : ℚ) := by
  obtain ⟨a, ha, hpa⟩ := hp
  have hstep : (0 : ℚ) < (rate : ℚ) / 8000 := by
    have : 0 < rate := Nat.pos_of_ne_zero hr0
    positivity
  have hstepE : (rate : ℚ) / 8000 = (q : ℚ) / 64 := by
    rw [hq]; push_cast; ring
  have her : effective_rate rate = rate := by simp [effective_rate, hr0]
  have hf0 : frames ≠ 0 := by omega
  have hcl := resample_closed (monoStage mono_ok src frames (usedChannels channels)) frames
    rate q a (by omega) hq hr32 hfr ha (monoStage_int16 mono_ok src frames _ hs)
  have hfrR : roundDouble (frames : ℚ) = (frames : ℚ) := roundDouble_natCast _ (by omega)
  have hreach := emitCount_reaches frames ((rate : ℚ) / 8000) ((a : ℚ) / 64) hstep
  have hph : roundDouble ((a : ℚ) / 64
      + (emitCount frames ((rate : ℚ) / 8000) ((a : ℚ) / 64) : ℚ) * ((rate : ℚ) / 8000)
      - (frames : ℚ))
      = (a : ℚ) / 64
        + (emitCount frames ((rate : ℚ) / 8000) ((a : ℚ) / 64) : ℚ) * ((rate : ℚ) / 8000)
        - (frames : ℚ) := by
    rw [hstepE]
    obtain ⟨a2, ha2, e⟩ := phase_onGrid frames q a (by omega) (by omega) ha
    rw [e]
    have := roundDouble_div64 (a2 : Int) (by
      rw [abs_of_nonneg (by positivity)]
      have : a2 < 2 ^ 53 := by omega
      exact_mod_cast this)
    simpa using this
  have hpos1 : (if rate ≠ st.last_rate ∨ usedChannels channels ≠ st.last_channels then
        ({ resample_pos := 0, last_rate := rate, last_channels := usedChannels channels }
          : VoiceState)
      else st).resample_pos = (a : ℚ) / 64 := by
    rw [← hpa, hp0]
    split <;> rfl
  rw [hpa]
  unfold ProcResult.pushed
  simp only [simcom_voice_process_and_push, hf0, her, hr8, hpos1, hcl, hfrR, hreach, hph,
    Bool.true_eq_false, false_or, if_false, ne_eq, not_false_eq_true, if_true,
    convOut_length]
  refine ⟨?_, trivial, trivial⟩
  have hrb := readBlock_self (convOut (monoStage mono_ok src frames (usedChannels channels))
    frames ((rate : ℚ) / 8000) ((a : ℚ) / 64))
  rw [convOut_length] at hrb
  exact hrb

/-- C9, as the code has it: for a call with voice active, at least one frame
(fewer than `2 ^ 40`), `int16_t` samples, the downsample buffer allocated, a
source rate `r` that is a multiple of 125 Hz other than 0 and 8000, and a
starting phase `p0` (the saved phase, or 0 when the rate or channel count
changed) that is a non-negative multiple of `1 / 64` below `2 ^ 40` (as every
phase saved at such a rate is), the samples pushed are exactly one per
position `p0 + k * step`, `step = r / 8000`, that lies below `frames`, in
order; each is the linear interpolation of `mono[⌊pos⌋]` and
`mono[⌊pos⌋ + 1]` (the last frame held) at the fraction `pos - ⌊pos⌋`; the
phase saved for the next call is the first position not emitted minus
`frames`, again a multiple of `1 / 64`.  At these rates no `double` operation
of the loop rounds. -/
theorem resample_emits_one_sample_per_position (mono_ok : Bool) (adev : Ring)
    (st : VoiceState) (src : List Int) (frames channels rate : Nat)
    (hf : 0 < frames) (hfr : frames < 2 ^ 40)
    (hr0 : rate ≠ 0) (hr8 : rate ≠ 8000) (hr32 : rate < 2 ^ 32) (h125 : 125 ∣ rate)
    (hs : ∀ i, -32768 ≤ src.getD i 0 ∧ src.getD i 0 ≤ 32767)
    (hp : OnGrid (if rate ≠ st.last_rate ∨ usedChannels channels ≠ st.last_channels then 0
      else st.resample_pos)) :
    ∃ (N : Nat) (p0 : ℚ),
      p0 = (if rate ≠ st.last_rate ∨ usedChannels channels ≠ st.last_channels then 0
            else st.resample_pos) ∧
      (∀ i : Nat, i < N ↔ p0 + i * ((rate : ℚ) / 8000) < (frames : ℚ)) ∧
      (simcom_voice_process_and_push true mono_ok true adev st src frames channels rate).pushed
        = (List.range N).map (fun k : Nat =>
            lerpAt (monoStage mono_ok src frames (usedChannels channels)) frames
              (p0 + k * ((rate : ℚ) / 8000))) ∧
      (simcom_voice_process_and_push true mono_ok true adev st src frames channels rate
        ).push_frames = N ∧
      (simcom_voice_process_and_push true mono_ok true adev st src frames channels rate
        ).st.resample_pos = p0 + N * ((rate : ℚ) / 8000) - frames ∧
      OnGrid (simcom_voice_process_and_push true mono_ok true adev st src frames channels rate
        ).st.resample_pos := by
  obtain ⟨q, hq⟩ := h125
  have hstep : (0 : ℚ) < (rate : ℚ) / 8000 := by
    have : 0 < rate := Nat.pos_of_ne_zero hr0
    positivity
  have hstepE : (rate : ℚ) / 8000 = (q : ℚ) / 64 := by
    rw [hq]; push_cast; ring
  have hg := hp
  obtain ⟨h1, h2, h3⟩ := process_resample_gen mono_ok adev st src frames channels rate q _
    hf hfr hr0 hr8 hr32 hq rfl hg hs
  refine ⟨emitCount frames ((rate : ℚ) / 8000)
      (if rate ≠ st.last_rate ∨ usedChannels channels ≠ st.last_channels then 0
       else st.resample_pos), _, rfl, ?_, ?_, h2, h3, ?_⟩
  · intro i
    exact lt_emitCount frames _ _ hstep i
  · rw [h1]
    unfold convOut
    apply List.map_congr_left
    intro k _
    apply interpExact_eq_lerpAt _ _ _ (monoStage_int16 mono_ok src frames _ hs)
    have h0 : (0 : ℚ) ≤ (if rate ≠ st.last_rate ∨ usedChannels channels ≠ st.last_channels
        then 0 else st.resample_pos) := by
      obtain ⟨a, _, e⟩ := hg
      rw [e]; positivity
    have : (0 : ℚ) ≤ (k : ℚ) * ((rate : ℚ) / 8000) := by positivity
    linarith
  · rw [h3]
    obtain ⟨a, ha, e⟩ := hg
    rw [e, hstepE]
    obtain ⟨a2, ha2, e2⟩ := phase_onGrid frames q a (by omega) (by omega) ha
    exact ⟨a2, ha2, e2⟩

/-- C9 at a mono buffer of six frames captured at 12 kHz (`step = 3 / 2`). -/
theorem resample_emits_one_sample_per_position_witness :
    (0 < 6 ∧ 6 < 2 ^ 40 ∧ 12000 ≠ 0 ∧ 12000 ≠ 8000 ∧ 12000 < 2 ^ 32 ∧ 125 ∣ 12000 ∧
      (∀ i, -32768 ≤ ([0, 100, -200, 300, 7, 8] : List Int).getD i 0 ∧
        ([0, 100, -200, 300, 7, 8] : List Int).getD i 0 ≤ 32767) ∧
      OnGrid (if 12000 ≠ (VoiceState.mk (1 / 2) 12000 1).last_rate ∨
          usedChannels 1 ≠ (VoiceState.mk (1 / 2) 12000 1).last_channels then 0
        else (VoiceState.mk (1 / 2) 12000 1).resample_pos)) ∧
    ∃ (N : Nat) (p0 : ℚ),
      p0 = (if 12000 ≠ (VoiceState.mk (1 / 2) 12000 1).last_rate ∨
              usedChannels 1 ≠ (VoiceState.mk (1 / 2) 12000 1).last_channels then 0
            else (VoiceState.mk (1 / 2) 12000 1).resample_pos) ∧
      (∀ i : Nat, i < N ↔ p0 + i * (((12000 : Nat) : ℚ) / 8000) < ((6 : Nat) : ℚ)) ∧
      (simcom_voice_process_and_push true true true (ensure_ring 16)
        (VoiceState.mk (1 / 2) 12000 1) [0, 100, -200, 300, 7, 8] 6 1 12000).pushed
        = (List.range N).map (fun k : Nat =>
            lerpAt (monoStage true [0, 100, -200, 300, 7, 8] 6 (usedChannels 1)) 6
              (p0 + k * (((12000 : Nat) : ℚ) / 8000))) ∧
      (simcom_voice_process_and_push true true true (ensure_ring 16)
        (VoiceState.mk (1 / 2) 12000 1) [0, 100, -200, 300, 7, 8] 6 1 12000).push_frames = N ∧
      (simcom_voice_process_and_push true true true (ensure_ring 16)
        (VoiceState.mk (1 / 2) 12000 1) [0, 100, -200, 300, 7, 8] 6 1 12000).st.resample_pos
        = p0 + N * (((12000 : Nat) : ℚ) / 8000) - ((6 : Nat) : ℚ) ∧
      OnGrid (simcom_voice_process_and_push true true true (ensure_ring 16)
        (VoiceState.mk (1 / 2) 12000 1) [0, 100, -200, 300, 7, 8] 6 1 12000).st.resample_pos :=
  have hs : ∀ i, -32768 ≤ ([0, 100, -200, 300, 7, 8] : List Int).getD i 0 ∧
      ([0, 100, -200, 300, 7, 8] : List Int).getD i 0 ≤ 32767 := by
    intro i
    rcases i with _ | _ | _ | _ | _ | _ | i <;> simp
  have hg : OnGrid (if 12000 ≠ (VoiceState.mk (1 / 2) 12000 1).last_rate ∨
      usedChannels 1 ≠ (VoiceState.mk (1 / 2) 12000 1).last_channels then 0
    else (VoiceState.mk (1 / 2) 12000 1).resample_pos) :=
    ⟨32, by norm_num, by norm_num [usedChannels]⟩
  ⟨⟨by decide, by norm_num, by decide, by decide, by norm_num, by decide, hs, hg⟩,
   resample_emits_one_sample_per_position true (ensure_ring 16) (VoiceState.mk (1 / 2) 12000 1)
     [0, 100, -200, 300, 7, 8] 6 1 12000 (by decide) (by norm_num) (by decide) (by decide)
     (by norm_num) (by decide) hs hg⟩

/-- C9 as stated fails in two ways.  At 8800 Hz the step `1.1` is not a
`double` and the sums `pos += step` round: of eleven mono frames
`0, 100, …, 1000` the code pushes eleven samples, the last at frame 10, where
the positions `k * 1.1` below 11 are only ten (`10 * 1.1 = 11`), and the
samples at the positions 6.6 to 9.9 come out as 659, 769, 879, 989 instead
of 660, 770, 880, 990; the phase saved is not 0.  A source rate of 0 differs
from 8000, but the code replaces it by 8000 and passes the mono samples
`10, 20` through unchanged, while every sequence of samples taken at positions
`0 + k * step` with `step = 0 / 8000` repeats the value 10. -/
theorem resample_rounds_and_rate_zero_passes_through :
    (simcom_voice_process_and_push true true true (ensure_ring 16) (VoiceState.mk 0 8800 1)
        [0, 100, 200, 300, 400, 500, 600, 700, 800, 900, 1000] 11 1 8800).pushed
      = [0, 110, 220, 330, 440, 550, 659, 769, 879, 989, 1000] ∧
    (List.range 10).map (fun k : Nat =>
        lerpAt [0, 100, 200, 300, 400, 500, 600, 700, 800, 900, 1000] 11
          (0 + (k : ℚ) * (((8800 : Nat) : ℚ) / 8000)))
      = [0, 110, 220, 330, 440, 550, 660, 770, 880, 990] ∧
    ¬ (0 + ((10 : Nat) : ℚ) * (((8800 : Nat) : ℚ) / 8000) < ((11 : Nat) : ℚ)) ∧
    (1 : ℚ) < (simcom_voice_process_and_push true true true (ensure_ring 16)
        (VoiceState.mk 0 8800 1)
        [0, 100, 200, 300, 400, 500, 600, 700, 800, 900, 1000] 11 1 8800).st.resample_pos ∧
    (simcom_voice_process_and_push true true true (ensure_ring 16) (VoiceState.mk 0 8000 1)
        [10, 20] 2 1 0).pushed = [10, 20] ∧
    ∀ N : Nat,
      (simcom_voice_process_and_push true true true (ensure_ring 16) (VoiceState.mk 0 8000 1)
        [10, 20] 2 1 0).pushed
        ≠ (List.range N).map (fun k : Nat =>
            lerpAt (monoStage true [10, 20] 2 (usedChannels 1)) 2
              (0 + k * (((0 : Nat) : ℚ) / 8000))) := by
  have h1 : (simcom_voice_process_and_push true true true (ensure_ring 16)
      (VoiceState.mk 0 8000 1) [10, 20] 2 1 0).pushed = [10, 20] := by
    simp [simcom_voice_process_and_push, ProcResult.pushed, effective_rate, usedChannels,
      monoStage, readBlock, List.range_succ]
  refine ⟨by decide!, by decide!, by norm_num, by decide!, h1, ?_⟩
  intro N h
  rw [h1] at h
  have hlen := congrArg List.length h
  simp only [List.length_cons, List.length_nil, List.length_map, List.length_range] at hlen
  have hN : N = 2 := by omega
  subst hN
  simp [lerpAt, lerp, truncQ, monoStage, usedChannels, List.range_succ] at h

/-! ## Call-mode control lemmas -/

theorem call_mode_mod (X : Int) (h1 : -(2 : Int) ^ 31 ≤ X) (h2 : X < (2 : Int) ^ 31) :
    (X % 2 ^ 32 = AUDIO_MODE_IN_CALL ∨ X % 2 ^ 32 = AUDIO_MODE_IN_COMMUNICATION) ↔
      (X = AUDIO_MODE_IN_CALL ∨ X = AUDIO_MODE_IN_COMMUNICATION) := by
  unfold AUDIO_MODE_IN_CALL AUDIO_MODE_IN_COMMUNICATION
  norm_num at h1 h2 ⊢
  omega

theorem set_mode_guard (ext : Externals) (adev : AudioDevice) (mode : Int)
    (hcur : adev.mode = AUDIO_MODE_IN_CALL ∨ adev.mode = AUDIO_MODE_IN_COMMUNICATION)
    (hmode : ¬ (mode = AUDIO_MODE_IN_CALL ∨ mode = AUDIO_MODE_IN_COMMUNICATION))
    (hact : adev.simcom_voice_active = true ∨ adev.simcom_voice_thread_started = true ∨
      adev.simcom_mic_route_active = true ∨ adev.simcom_voice_pcm.isSome = true) :
    adev_set_mode ext adev mode = { adev := adev, ret := 0, at_commands := [] } := by
  unfold adev_set_mode
  simp only [hcur, hmode, decide_True, decide_False, Bool.false_eq_true, false_and, if_false,
    and_self, if_true, hact]

theorem set_mode_same_class (ext : Externals) (adev : AudioDevice) (mode : Int)
    (h : (adev.mode = AUDIO_MODE_IN_CALL ∨ adev.mode = AUDIO_MODE_IN_COMMUNICATION) ↔
      (mode = AUDIO_MODE_IN_CALL ∨ mode = AUDIO_MODE_IN_COMMUNICATION)) :
    adev_set_mode ext adev mode =
      { adev := { adev with mode := mode % 2 ^ 32 }, ret := 0, at_commands := [] } := by
  unfold adev_set_mode
  by_cases hm : mode = AUDIO_MODE_IN_CALL ∨ mode = AUDIO_MODE_IN_COMMUNICATION
  · have hc := h.mpr hm
    simp only [hc, hm, decide_True, Bool.true_eq_false, and_false, if_false,
      Bool.false_eq_true, false_and]
  · have hc : ¬ (adev.mode = AUDIO_MODE_IN_CALL ∨ adev.mode = AUDIO_MODE_IN_COMMUNICATION) :=
      fun x => hm (h.mp x)
    simp only [hc, hm, decide_False, Bool.false_eq_true, false_and, if_false, and_false]

theorem set_mode_cases (ext : Externals) (adev : AudioDevice) (mode : Int) :
    adev_set_mode ext adev mode = { adev := adev, ret := 0, at_commands := [] } ∨
      (adev_set_mode ext adev mode).adev.mode = mode % 2 ^ 32 := by
  simp only [adev_set_mode]
  split_ifs
  · exact Or.inr rfl
  · exact Or.inl rfl
  · exact Or.inr rfl
  · exact Or.inr rfl

theorem set_mode_stuck (ext : Externals) (adev : AudioDevice)
    (hcur : adev.mode = AUDIO_MODE_IN_CALL ∨ adev.mode = AUDIO_MODE_IN_COMMUNICATION)
    (hact : adev.simcom_voice_active = true ∨ adev.simcom_voice_thread_started = true ∨
      adev.simcom_mic_route_active = true ∨ adev.simcom_voice_pcm.isSome = true) :
    ∀ modes : List Int,
      (∀ m ∈ modes, ¬ (m = AUDIO_MODE_IN_CALL ∨ m = AUDIO_MODE_IN_COMMUNICATION)) →
      setModes ext adev modes = (adev, []) := by
  intro modes
  induction modes with
  | nil => intro _; rfl
  | cons m rest ih =>
    intro h
    have h1 := set_mode_guard ext adev m hcur (h m (List.mem_cons_self _ _)) hact
    have h2 := ih (fun x hx => h x (List.mem_cons_of_mem _ hx))
    simp only [setModes, h1, h2, List.append_nil]

theorem probeMic_known (ext : Externals) (c d : Int) :
    (probeMic ext c d).1 ≠ SND_IN_SOUND_CARD_UNKNOWN := by
  unfold probeMic
  dsimp only
  split_ifs with h
  all_goals first
    | exact h
    | exact (by decide : (2 : Int) ≠ -1)

theorem start_capture_ok (ext : Externals) (adev : AudioDevice) (pcm : Nat) (final_device : Int)
    (hth : adev.simcom_voice_thread_started = false)
    (hopen : openCapture ext (probeMic ext adev.mic_card adev.mic_device).1
        (probeMic ext adev.mic_card adev.mic_device).2
        [(0, (probeMic ext adev.mic_card adev.mic_device).2), (1, 0), (2, 1)]
      = some (pcm, final_device))
    (hprep : ext.pcm_prepare_ok = true) (hstart : ext.pcm_start_ok = true)
    (hthr : ext.pthread_create_ok = true) :
    (simcom_voice_start_capture ext adev).2 = 0 ∧
    (simcom_voice_start_capture ext adev).1.simcom_voice_thread_started = true ∧
    (simcom_voice_start_capture ext adev).1.simcom_mic_route_active = true ∧
    (simcom_voice_start_capture ext adev).1.simcom_voice_pcm = some pcm ∧
    (simcom_voice_start_capture ext adev).1.simcom_voice_active = adev.simcom_voice_active ∧
    (simcom_voice_start_capture ext adev).1.simcom_cpcmreg_state = adev.simcom_cpcmreg_state ∧
    (simcom_voice_start_capture ext adev).1.mode = adev.mode ∧
    (simcom_voice_start_capture ext adev).1.usecase_list = adev.usecase_list := by
  unfold simcom_voice_start_capture
  rw [if_neg (by rw [hth]; decide)]
  dsimp only
  rw [if_neg (probeMic_known ext _ _)]
  rw [hopen]
  dsimp only
  rw [if_neg (by rw [hprep]; decide), if_neg (by rw [hstart]; decide),
    if_neg (by rw [hthr]; decide)]
  exact ⟨rfl, rfl, rfl, rfl, rfl, rfl, rfl, rfl⟩

theorem start_usecase_ok (ext : Externals) (adev : AudioDevice) (pcm : Nat) (final_device : Int)
    (hva : adev.simcom_voice_active = false)
    (hth : adev.simcom_voice_thread_started = false)
    (hring : ext.ring_calloc_ok = true) (huc : ext.usecase_calloc_ok = true)
    (hopen : openCapture ext (probeMic ext adev.mic_card adev.mic_device).1
        (probeMic ext adev.mic_card adev.mic_device).2
        [(0, (probeMic ext adev.mic_card adev.mic_device).2), (1, 0), (2, 1)]
      = some (pcm, final_device))
    (hprep : ext.pcm_prepare_ok = true) (hstart : ext.pcm_start_ok = true)
    (hthr : ext.pthread_create_ok = true) :
    (simcom_voice_start_usecase ext adev).simcom_voice_thread_started = true ∧
    (simcom_voice_start_usecase ext adev).simcom_mic_route_active = true ∧
    (simcom_voice_start_usecase ext adev).simcom_voice_pcm = some pcm ∧
    (simcom_voice_start_usecase ext adev).simcom_voice_active = true ∧
    (simcom_voice_start_usecase ext adev).simcom_cpcmreg_state = adev.simcom_cpcmreg_state ∧
    (simcom_voice_start_usecase ext adev).mode = adev.mode ∧
    (simcom_voice_start_usecase ext adev).usecase_list =
      if simcom_voice_usecase_present adev = false then
        adev.usecase_list ++
          [{ id := USECASE_SIMCOM_VOICE_CALL, type := USECASE_TYPE_VOICE_CALL }]
      else adev.usecase_list := by
  have he : (simcom_voice_ensure_ring ext adev).2 = 0 := by
    unfold simcom_voice_ensure_ring
    dsimp only
    rw [if_neg (by rw [hring]; simp)]
  obtain ⟨c0, c1, c2, c3, c4, c5, c6, c7⟩ := start_capture_ok ext
    { simcom_ring_reset_dev (simcom_voice_ensure_ring ext adev).1 with
      simcom_stats := simcom_stats_zero
      simcom_mixer_configured := false
      simcom_mixer_card := -1
      simcom_voice_active := true } pcm final_device hth hopen hprep hstart hthr
  have hp : simcom_voice_usecase_present (simcom_voice_start_capture ext
      { simcom_ring_reset_dev (simcom_voice_ensure_ring ext adev).1 with
        simcom_stats := simcom_stats_zero
        simcom_mixer_configured := false
        simcom_mixer_card := -1
        simcom_voice_active := true }).1 = simcom_voice_usecase_present adev := by
    unfold simcom_voice_usecase_present
    rw [c7]
    rfl
  unfold simcom_voice_start_usecase
  rw [if_neg (by rw [hva]; decide)]
  dsimp only
  rw [if_neg (by rw [he]; decide), if_neg (by rw [c0]; decide), hp]
  by_cases hpres : simcom_voice_usecase_present adev = false
  · rw [if_pos hpres, if_pos huc, if_pos hpres]
    exact ⟨c1, c2, c3, c4, c5, c6, by rw [c7]; rfl⟩
  · rw [if_neg hpres, if_neg hpres]
    exact ⟨c1, c2, c3, c4, c5, c6, c7⟩

theorem activation_state (ext : Externals) (pcm : Nat) (final_device : Int)
    (hat : ext.simcom_send_at_command "AT+CPCMREG=1" = true)
    (hring : ext.ring_calloc_ok = true) (huc : ext.usecase_calloc_ok = true)
    (hopen : openCapture ext (probeMic ext SND_IN_SOUND_CARD_UNKNOWN 0).1
        (probeMic ext SND_IN_SOUND_CARD_UNKNOWN 0).2
        [(0, (probeMic ext SND_IN_SOUND_CARD_UNKNOWN 0).2), (1, 0), (2, 1)]
      = some (pcm, final_device))
    (hprep : ext.pcm_prepare_ok = true) (hstart : ext.pcm_start_ok = true)
    (hthr : ext.pthread_create_ok = true) :
    (adev_set_mode ext adev_open_init AUDIO_MODE_IN_CALL).ret = 0 ∧
    (adev_set_mode ext adev_open_init AUDIO_MODE_IN_CALL).at_commands = ["AT+CPCMREG=1"] ∧
    (adev_set_mode ext adev_open_init AUDIO_MODE_IN_CALL).adev.simcom_voice_active = true ∧
    (adev_set_mode ext adev_open_init AUDIO_MODE_IN_CALL).adev.simcom_voice_thread_started
      = true ∧
    (adev_set_mode ext adev_open_init AUDIO_MODE_IN_CALL).adev.simcom_mic_route_active = true ∧
    (adev_set_mode ext adev_open_init AUDIO_MODE_IN_CALL).adev.simcom_voice_pcm = some pcm ∧
    (adev_set_mode ext adev_open_init AUDIO_MODE_IN_CALL).adev.simcom_cpcmreg_state = true ∧
    (adev_set_mode ext adev_open_init AUDIO_MODE_IN_CALL).adev.mode = AUDIO_MODE_IN_CALL ∧
    (adev_set_mode ext adev_open_init AUDIO_MODE_IN_CALL).adev.usecase_list =
      [{ id := USECASE_SIMCOM_VOICE_CALL, type := USECASE_TYPE_VOICE_CALL }] := by
  have hu : simcom_update_cpcmreg ext adev_open_init true =
      ({ adev_open_init with simcom_cpcmreg_state := true }, true, ["AT+CPCMREG=1"]) := by
    unfold simcom_update_cpcmreg
    rw [if_neg (by decide)]
    dsimp only
    rw [if_pos rfl, hat, if_pos rfl]
  obtain ⟨c1, c2, c3, c4, c5, c6, c7⟩ := start_usecase_ok ext
    { adev_open_init with simcom_cpcmreg_state := true } pcm final_device rfl rfl hring huc
    hopen hprep hstart hthr
  have h : adev_set_mode ext adev_open_init AUDIO_MODE_IN_CALL =
      { adev := { simcom_voice_start_usecase ext
            { adev_open_init with simcom_cpcmreg_state := true } with
          mode := AUDIO_MODE_IN_CALL % 2 ^ 32 }
        ret := 0
        at_commands := ["AT+CPCMREG=1"] } := by
    unfold adev_set_mode
    dsimp only
    rw [if_pos (by decide), hu]
  rw [h]
  exact ⟨rfl, rfl, c4, c1, c2, c3, c5, (by decide : AUDIO_MODE_IN_CALL % 2 ^ 32 = AUDIO_MODE_IN_CALL),
    by rw [c7]; rfl⟩

/-! ## Call-mode control: the claims -/

/-- C17: from the device as `adev_open` leaves it (mode Normal),
`adev_set_mode(AUDIO_MODE_IN_CALL)` in which the AT command is accepted, the
allocations succeed and the capture start succeeds (one of the candidate
devices opens ready, `pcm_prepare`, `pcm_start` and `pthread_create` succeed)
returns 0, hands `AT+CPCMREG=1` to the modem exactly once and nothing else, and
ends with `simcom_voice_active`, `simcom_voice_thread_started` and
`simcom_mic_route_active` set, the capture PCM open, the mode stored as
`AUDIO_MODE_IN_CALL`, and exactly one usecase in the list, the
`USECASE_SIMCOM_VOICE_CALL` one. -/
theorem set_mode_in_call_activates (ext : Externals) (pcm : Nat) (final_device : Int)
    (hat : ext.simcom_send_at_command "AT+CPCMREG=1" = true)
    (hring : ext.ring_calloc_ok = true) (huc : ext.usecase_calloc_ok = true)
    (hopen : openCapture ext (probeMic ext SND_IN_SOUND_CARD_UNKNOWN 0).1
        (probeMic ext SND_IN_SOUND_CARD_UNKNOWN 0).2
        [(0, (probeMic ext SND_IN_SOUND_CARD_UNKNOWN 0).2), (1, 0), (2, 1)]
      = some (pcm, final_device))
    (hprep : ext.pcm_prepare_ok = true) (hstart : ext.pcm_start_ok = true)
    (hthr : ext.pthread_create_ok = true) :
    adev_open_init.mode = AUDIO_MODE_NORMAL ∧
    (adev_set_mode ext adev_open_init AUDIO_MODE_IN_CALL).ret = 0 ∧
    (adev_set_mode ext adev_open_init AUDIO_MODE_IN_CALL).at_commands = ["AT+CPCMREG=1"] ∧
    (adev_set_mode ext adev_open_init AUDIO_MODE_IN_CALL).adev.simcom_voice_active = true ∧
    (adev_set_mode ext adev_open_init AUDIO_MODE_IN_CALL).adev.simcom_voice_thread_started
      = true ∧
    (adev_set_mode ext adev_open_init AUDIO_MODE_IN_CALL).adev.simcom_mic_route_active = true ∧
    (adev_set_mode ext adev_open_init AUDIO_MODE_IN_CALL).adev.simcom_voice_pcm = some pcm ∧
    (adev_set_mode ext adev_open_init AUDIO_MODE_IN_CALL).adev.mode = AUDIO_MODE_IN_CALL ∧
    (adev_set_mode ext adev_open_init AUDIO_MODE_IN_CALL).adev.usecase_list =
      [{ id := USECASE_SIMCOM_VOICE_CALL, type := USECASE_TYPE_VOICE_CALL }] := by
  obtain ⟨a1, a2, a3, a4, a5, a6, _, a8, a9⟩ :=
    activation_state ext pcm final_device hat hring huc hopen hprep hstart hthr
  exact ⟨rfl, a1, a2, a3, a4, a5, a6, a8, a9⟩

/-- C17 in an outside world where everything succeeds: the microphone is
found as card 2, device 0, and opens as handle 1. -/
theorem set_mode_in_call_activates_witness :
    (allOk.simcom_send_at_command "AT+CPCMREG=1" = true ∧ allOk.ring_calloc_ok = true ∧
      allOk.usecase_calloc_ok = true ∧
      openCapture allOk (probeMic allOk SND_IN_SOUND_CARD_UNKNOWN 0).1
        (probeMic allOk SND_IN_SOUND_CARD_UNKNOWN 0).2
        [(0, (probeMic allOk SND_IN_SOUND_CARD_UNKNOWN 0).2), (1, 0), (2, 1)] = some (1, 0) ∧
      allOk.pcm_prepare_ok = true ∧ allOk.pcm_start_ok = true ∧
      allOk.pthread_create_ok = true) ∧
    (adev_set_mode allOk adev_open_init AUDIO_MODE_IN_CALL).at_commands = ["AT+CPCMREG=1"] ∧
    (adev_set_mode allOk adev_open_init AUDIO_MODE_IN_CALL).adev.simcom_voice_active = true ∧
    (adev_set_mode allOk adev_open_init AUDIO_MODE_IN_CALL).adev.usecase_list =
      [{ id := USECASE_SIMCOM_VOICE_CALL, type := USECASE_TYPE_VOICE_CALL }] :=
  ⟨⟨rfl, rfl, rfl, by decide, rfl, rfl, rfl⟩,
   (set_mode_in_call_activates allOk 1 0 rfl rfl rfl (by decide) rfl rfl rfl).2.2.1,
   (set_mode_in_call_activates allOk 1 0 rfl rfl rfl (by decide) rfl rfl rfl).2.2.2.1,
   (set_mode_in_call_activates allOk 1 0 rfl rfl rfl (by decide) rfl rfl rfl).2.2.2.2.2.2.2.2⟩

/-- C18, on the code: after the successful `adev_set_mode(AUDIO_MODE_IN_CALL)`
on a freshly opened device (everything outside succeeds), the pipeline is
active and any number of `adev_set_mode(AUDIO_MODE_NORMAL)` calls that follow
change nothing and send nothing: `AT+CPCMREG=0` is never sent,
`simcom_voice_active` and `simcom_voice_thread_started` stay true, the capture
PCM stays open, the usecase stays in the list and the stored mode stays
`AUDIO_MODE_IN_CALL`. -/
theorem set_mode_normal_never_tears_down :
    (adev_set_mode allOk adev_open_init AUDIO_MODE_IN_CALL).adev.simcom_voice_active = true ∧
    (adev_set_mode allOk adev_open_init AUDIO_MODE_IN_CALL).adev.simcom_voice_thread_started
      = true ∧
    (adev_set_mode allOk adev_open_init AUDIO_MODE_IN_CALL).adev.simcom_voice_pcm = some 1 ∧
    (adev_set_mode allOk adev_open_init AUDIO_MODE_IN_CALL).adev.mode = AUDIO_MODE_IN_CALL ∧
    (adev_set_mode allOk adev_open_init AUDIO_MODE_IN_CALL).adev.usecase_list =
      [{ id := USECASE_SIMCOM_VOICE_CALL, type := USECASE_TYPE_VOICE_CALL }] ∧
    ∀ n : Nat,
      setModes allOk (adev_set_mode allOk adev_open_init AUDIO_MODE_IN_CALL).adev
          (List.replicate n AUDIO_MODE_NORMAL)
        = ((adev_set_mode allOk adev_open_init AUDIO_MODE_IN_CALL).adev, []) := by
  obtain ⟨_, _, a3, a4, _, a6, _, a8, a9⟩ :=
    activation_state allOk 1 0 rfl rfl rfl (by decide) rfl rfl rfl
  refine ⟨a3, a4, a6, a8, a9, fun n => ?_⟩
  apply set_mode_stuck allOk _ (Or.inl a8) (Or.inl a3)
  intro m hm
  rw [List.eq_of_mem_replicate hm]
  decide

/-- C19: for every device whose stored mode is `AUDIO_MODE_IN_CALL` or
`AUDIO_MODE_IN_COMMUNICATION` and in which `simcom_voice_active`,
`simcom_voice_thread_started`, `simcom_mic_route_active` or a non-null
`simcom_voice_pcm` holds, `adev_set_mode` with a mode that is neither of the
two returns 0, hands no command to the modem and leaves the device, the stored
mode included, exactly as it was. -/
theorem set_mode_ignored_while_pipeline_active (ext : Externals) (adev : AudioDevice)
    (mode : Int)
    (hcur : adev.mode = AUDIO_MODE_IN_CALL ∨ adev.mode = AUDIO_MODE_IN_COMMUNICATION)
    (hmode : mode ≠ AUDIO_MODE_IN_CALL ∧ mode ≠ AUDIO_MODE_IN_COMMUNICATION)
    (hact : adev.simcom_voice_active = true ∨ adev.simcom_voice_thread_started = true ∨
      adev.simcom_mic_route_active = true ∨ adev.simcom_voice_pcm ≠ none) :
    (adev_set_mode ext adev mode).ret = 0 ∧
    (adev_set_mode ext adev mode).at_commands = [] ∧
    (adev_set_mode ext adev mode).adev = adev := by
  have hact2 : adev.simcom_voice_active = true ∨ adev.simcom_voice_thread_started = true ∨
      adev.simcom_mic_route_active = true ∨ adev.simcom_voice_pcm.isSome = true := by
    rcases hact with h | h | h | h
    · exact Or.inl h
    · exact Or.inr (Or.inl h)
    · exact Or.inr (Or.inr (Or.inl h))
    · exact Or.inr (Or.inr (Or.inr (Option.isSome_iff_ne_none.mpr h)))
  rw [set_mode_guard ext adev mode hcur (fun h => h.elim hmode.1 hmode.2) hact2]
  exact ⟨rfl, rfl, rfl⟩

/-- C19 at a device in `AUDIO_MODE_IN_COMMUNICATION` where only the mic route
is still active, asked for `AUDIO_MODE_NORMAL`. -/
theorem set_mode_ignored_while_pipeline_active_witness :
    (({ adev_open_init with mode := 3, simcom_mic_route_active := true } : AudioDevice).mode
        = AUDIO_MODE_IN_CALL ∨
      ({ adev_open_init with mode := 3, simcom_mic_route_active := true } : AudioDevice).mode
        = AUDIO_MODE_IN_COMMUNICATION) ∧
    (AUDIO_MODE_NORMAL ≠ AUDIO_MODE_IN_CALL ∧ AUDIO_MODE_NORMAL ≠ AUDIO_MODE_IN_COMMUNICATION) ∧
    (adev_set_mode allOk { adev_open_init with mode := 3, simcom_mic_route_active := true }
      AUDIO_MODE_NORMAL).adev
      = { adev_open_init with mode := 3, simcom_mic_route_active := true } :=
  ⟨Or.inr rfl, by decide,
   (set_mode_ignored_while_pipeline_active allOk
      { adev_open_init with mode := 3, simcom_mic_route_active := true } AUDIO_MODE_NORMAL
      (Or.inr rfl) (by decide) (Or.inr (Or.inr (Or.inl rfl)))).2.2⟩

/-- C20: for every device, every mode `X` (an `audio_mode_t` value, in the
range of `int`) and every fixed outside world, the device after
`adev_set_mode(X); adev_set_mode(X)` equals the device after one
`adev_set_mode(X)`, and the second call hands no command to the modem. -/
theorem set_mode_twice_is_once (ext : Externals) (adev : AudioDevice) (X : Int)
    (h1 : -(2 : Int) ^ 31 ≤ X) (h2 : X < (2 : Int) ^ 31) :
    (adev_set_mode ext (adev_set_mode ext adev X).adev X).adev
      = (adev_set_mode ext adev X).adev ∧
    (adev_set_mode ext (adev_set_mode ext adev X).adev X).at_commands = [] := by
  rcases set_mode_cases ext adev X with h | h
  · rw [h]
    dsimp only
    rw [h]
    exact ⟨rfl, rfl⟩
  · have hs := set_mode_same_class ext (adev_set_mode ext adev X).adev X
      (by rw [h]; exact call_mode_mod X h1 h2)
    rw [hs]
    refine ⟨?_, rfl⟩
    dsimp only
    rw [← h]

/-- C20 on the fresh device with `X = AUDIO_MODE_IN_CALL`: the second call
finds the pipeline active, sends nothing and changes nothing. -/
theorem set_mode_twice_is_once_witness :
    (-(2 : Int) ^ 31 ≤ AUDIO_MODE_IN_CALL ∧ AUDIO_MODE_IN_CALL < (2 : Int) ^ 31) ∧
    (adev_set_mode allOk (adev_set_mode allOk adev_open_init AUDIO_MODE_IN_CALL).adev
      AUDIO_MODE_IN_CALL).at_commands = [] :=
  ⟨by decide,
   (set_mode_twice_is_once allOk adev_open_init AUDIO_MODE_IN_CALL (by decide) (by decide)).2⟩

/-! ## Conversion phase across format changes: the claim -/

/-- C11: in every call of `simcom_voice_process_and_push` that does work
(voice active, at least one frame), when the effective rate or the channel
count differs from the last-seen values, the last-seen values become the new
ones, the conversion loop starts at position 0, and the whole outcome is the
one of a call whose saved phase is 0: the saved phase plays no part.  When both
are unchanged, the last-seen values stay and the loop starts at the saved
phase. -/
theorem phase_reset_on_format_change (mono_ok down_ok : Bool) (adev : Ring) (st : VoiceState)
    (src : List Int) (frames channels rate : Nat) (hf : frames ≠ 0) :
    ((effective_rate rate ≠ st.last_rate ∨ usedChannels channels ≠ st.last_channels) →
      (simcom_voice_process_and_push true mono_ok down_ok adev st src frames channels rate
        ).st.last_rate = effective_rate rate ∧
      (simcom_voice_process_and_push true mono_ok down_ok adev st src frames channels rate
        ).st.last_channels = usedChannels channels ∧
      (effective_rate rate ≠ 8000 → down_ok = true →
        (simcom_voice_process_and_push true mono_ok down_ok adev st src frames channels rate
          ).push_samples =
          (resampleLoop (monoStage mono_ok src frames (usedChannels channels)) frames
            (maxOut frames (effective_rate rate))
            (roundDouble ((effective_rate rate : ℚ) / 8000))
            (maxOut frames (effective_rate rate)) 0 []).2) ∧
      simcom_voice_process_and_push true mono_ok down_ok adev st src frames channels rate =
        simcom_voice_process_and_push true mono_ok down_ok adev
          ⟨0, effective_rate rate, usedChannels channels⟩ src frames channels rate) ∧
    ((effective_rate rate = st.last_rate ∧ usedChannels channels = st.last_channels) →
      (simcom_voice_process_and_push true mono_ok down_ok adev st src frames channels rate
        ).st.last_rate = st.last_rate ∧
      (simcom_voice_process_and_push true mono_ok down_ok adev st src frames channels rate
        ).st.last_channels = st.last_channels ∧
      (effective_rate rate ≠ 8000 → down_ok = true →
        (simcom_voice_process_and_push true mono_ok down_ok adev st src frames channels rate
          ).push_samples =
          (resampleLoop (monoStage mono_ok src frames (usedChannels channels)) frames
            (maxOut frames (effective_rate rate))
            (roundDouble ((effective_rate rate : ℚ) / 8000))
            (maxOut frames (effective_rate rate)) st.resample_pos []).2)) := by
  constructor
  · intro hch
    have key : simcom_voice_process_and_push true mono_ok down_ok adev st src frames channels
        rate = simcom_voice_process_and_push true mono_ok down_ok adev
          ⟨0, effective_rate rate, usedChannels channels⟩ src frames channels rate := by
      simp only [simcom_voice_process_and_push, hf, hch, Bool.true_eq_false, false_or, if_false,
        ne_eq, not_true_eq_false, or_self, if_true]
    refine ⟨?_, ?_, ?_, key⟩
    · rw [key]
      simp only [simcom_voice_process_and_push, hf, Bool.true_eq_false, false_or, if_false,
        ne_eq, not_true_eq_false, or_self]
      split_ifs <;> rfl
    · rw [key]
      simp only [simcom_voice_process_and_push, hf, Bool.true_eq_false, false_or, if_false,
        ne_eq, not_true_eq_false, or_self]
      split_ifs <;> rfl
    · intro h8 hd
      rw [key]
      simp only [simcom_voice_process_and_push, hf, Bool.true_eq_false, false_or, if_false,
        ne_eq, not_true_eq_false, or_self, h8, hd, not_false_eq_true, if_true]
  · rintro ⟨hr, hc⟩
    refine ⟨?_, ?_, ?_⟩
    · simp only [simcom_voice_process_and_push, hf, Bool.true_eq_false, false_or, if_false,
        ne_eq, hr, hc, not_true_eq_false, or_self]
      split_ifs <;> rfl
    · simp only [simcom_voice_process_and_push, hf, Bool.true_eq_false, false_or, if_false,
        ne_eq, hr, hc, not_true_eq_false, or_self]
      split_ifs <;> rfl
    · intro h8 hd
      have h8' : ¬ st.last_rate = 8000 := by rw [← hr]; exact h8
      simp only [simcom_voice_process_and_push, hf, Bool.true_eq_false, false_or, if_false,
        ne_eq, hr, hc, not_true_eq_false, or_self, h8', hd, not_false_eq_true, if_true]

/-- C11 at a call at 16 kHz mono whose saved state is phase 1/2 at 8 kHz mono:
the rate changed, and the last-seen rate becomes 16000. -/
theorem phase_reset_on_format_change_witness :
    ((2 : Nat) ≠ 0 ∧
      (effective_rate 16000 ≠ (VoiceState.mk (1 / 2) 8000 1).last_rate ∨
        usedChannels 1 ≠ (VoiceState.mk (1 / 2) 8000 1).last_channels)) ∧
    (simcom_voice_process_and_push true true true (ensure_ring 8) (VoiceState.mk (1 / 2) 8000 1)
      [10, 20] 2 1 16000).st.last_rate = effective_rate 16000 :=
  ⟨⟨by decide, Or.inl (by decide)⟩,
   ((phase_reset_on_format_change true true (ensure_ring 8) (VoiceState.mk (1 / 2) 8000 1)
      [10, 20] 2 1 16000 (by decide)).1 (Or.inl (by decide))).1⟩

/-! ## Modem period lemmas -/

theorem readBlock_length (ring : List Int) (pos n : Nat) : (readBlock ring pos n).length = n := by
  simp [readBlock]

theorem popLoop_length (capacity : Nat) (ring : List Int) :
    ∀ (fuel : Nat) (dst : List Int) (read_pos count remaining : Nat),
      (popLoop capacity ring fuel dst read_pos count remaining).1.length + count
        = dst.length + (popLoop capacity ring fuel dst read_pos count remaining).2.2.1 ∧
      (popLoop capacity ring fuel dst read_pos count remaining).2.2.1 ≤ count + remaining := by
  intro fuel
  induction fuel with
  | zero => intro dst read_pos count remaining; simp [popLoop]
  | succ fuel ih =>
    intro dst read_pos count remaining
    unfold popLoop
    split_ifs with h
    · dsimp only
      split_ifs with h2
      · obtain ⟨a, b⟩ := ih (dst ++ readBlock ring read_pos remaining)
          ((read_pos + remaining) % capacity) (count + remaining) (remaining - remaining)
        rw [List.length_append, readBlock_length] at a
        constructor <;> omega
      · obtain ⟨a, b⟩ := ih (dst ++ readBlock ring read_pos (capacity - read_pos))
          ((read_pos + (capacity - read_pos)) % capacity) (count + (capacity - read_pos))
          (remaining - (capacity - read_pos))
        rw [List.length_append, readBlock_length] at a
        constructor <;> omega
    · simp

theorem pop_dst_length (adev : Ring) (n : Nat) :
    (simcom_ring_pop adev n).dst.length = (simcom_ring_pop adev n).count ∧
      (simcom_ring_pop adev n).count ≤ n := by
  unfold simcom_ring_pop
  split_ifs with h
  · simp
  · dsimp only
    obtain ⟨a, b⟩ := popLoop_length adev.simcom_mic_ring_size adev.simcom_mic_ring
      (if n < popAvailable adev then n else popAvailable adev) [] adev.simcom_mic_ring_read 0
      (if n < popAvailable adev then n else popAvailable adev)
    simp only [List.length_nil, Nat.add_zero, Nat.zero_add] at a b
    refine ⟨a, le_trans b ?_⟩
    split_ifs <;> omega

theorem uplinkFetch_spec (env : OutEnv) (s : UplinkState) :
    (uplinkFetch env s).fetched.length = (uplinkFetch env s).fetched_total ∧
    (uplinkFetch env s).fetched_total ≤ 320 ∧
    (uplinkFetch env s).uplink_buffer.take (uplinkFetch env s).fetched_total
      = (uplinkFetch env s).fetched := by
  unfold uplinkFetch
  dsimp only
  split_ifs with h
  · obtain ⟨a, b⟩ := pop_dst_length
      (simcom_ring_push (simcom_ring_pop s.adev 320).adev (env.capture s.tick)
        (env.capture s.tick).length) 320
    refine ⟨a, b, ?_⟩
    dsimp only
    rw [← a]
    simp [fillFront]
  · obtain ⟨a, b⟩ := pop_dst_length s.adev 320
    refine ⟨a, b, ?_⟩
    dsimp only
    rw [← a]
    simp [fillFront]

theorem padded_take (buf fetched : List Int) (k : Nat) (hk : fetched.length = k)
    (h320 : k ≤ 320) (hb : buf.take k = fetched) :
    (if k < 320 then zeroRange buf k 320 else buf).take 320
      = fetched ++ List.replicate (320 - fetched.length) 0 := by
  split_ifs with h
  · unfold zeroRange
    rw [hb, hk, List.take_append_of_le_length (by simp [hk]; omega)]
    rw [List.take_of_length_le (by simp [hk]; omega)]
  · have h3 : k = 320 := by omega
    subst h3
    rw [hb, hk]
    simp

theorem uplinkPeriod_adds (env : OutEnv) (x : Nat) (owner : Option Nat) (s : UplinkState) :
    UplinkAdds x owner s (uplinkPeriod env x owner s).1 2 := by
  obtain ⟨f1, f2, f3⟩ := uplinkFetch_spec env s
  have hp := padded_take (uplinkFetch env s).uplink_buffer (uplinkFetch env s).fetched
    (uplinkFetch env s).fetched_total f1 f2 f3
  have hP : PaddedPeriod
      { stream := x, card := SND_OUT_SOUND_CARD_BT, owner := owner, bytes := 640, simcom := true,
        samples := (if (uplinkFetch env s).fetched_total < 320 then
            zeroRange (uplinkFetch env s).uplink_buffer (uplinkFetch env s).fetched_total 320
          else (uplinkFetch env s).uplink_buffer).take 320 }
      (uplinkFetch env s).fetched := by
    refine ⟨rfl, ?_, by omega, hp⟩
    show ((if (uplinkFetch env s).fetched_total < 320 then
            zeroRange (uplinkFetch env s).uplink_buffer (uplinkFetch env s).fetched_total 320
          else (uplinkFetch env s).uplink_buffer).take 320).length = 320
    rw [hp]
    simp
    omega
  unfold uplinkPeriod
  dsimp only
  generalize (if (uplinkFetch env s).fetched_total < 320 then
      zeroRange (uplinkFetch env s).uplink_buffer (uplinkFetch env s).fetched_total 320
    else (uplinkFetch env s).uplink_buffer) = buf at hP ⊢
  generalize (if env.pcm_is_ready (uplinkFetch env s).tick = true then
      (uplinkFetch env s).tick + 1 else (uplinkFetch env s).tick + 2) = t
  split_ifs
  · exact ⟨[], [], by simp, by simp, List.Forall₂.nil, by simp, by simp⟩
  · exact ⟨[], [], by simp, by simp, List.Forall₂.nil, by simp, by simp⟩
  · exact ⟨[_], [_], rfl, rfl, List.Forall₂.cons hP List.Forall₂.nil, by simp, by simp⟩
  · exact ⟨[_, _], [_, _], by simp, by simp,
      List.Forall₂.cons hP (List.Forall₂.cons hP List.Forall₂.nil), by simp, by simp⟩
  · exact ⟨[_, _], [_, _], by simp, by simp,
      List.Forall₂.cons hP (List.Forall₂.cons hP List.Forall₂.nil), by simp, by simp⟩
  · exact ⟨[_], [_], rfl, rfl, List.Forall₂.cons hP List.Forall₂.nil, by simp, by simp⟩

theorem uplinkAdds_trans (x : Nat) (owner : Option Nat) (s s2 s3 : UplinkState) (a b : Nat)
    (h1 : UplinkAdds x owner s s2 a) (h2 : UplinkAdds x owner s2 s3 b) :
    UplinkAdds x owner s s3 (a + b) := by
  obtain ⟨ws, fs, e1, e2, e3, e4, e5⟩ := h1
  obtain ⟨ws2, fs2, g1, g2, g3, g4, g5⟩ := h2
  refine ⟨ws ++ ws2, fs ++ fs2, by rw [g1, e1, List.append_assoc],
    by rw [g2, e2, List.append_assoc], ?_, by rw [List.length_append]; omega, ?_⟩
  · exact List.rel_append e3 g3
  · intro w hw
    rcases List.mem_append.mp hw with h | h
    · exact e5 w h
    · exact g5 w h

theorem uplinkLoop_adds (env : OutEnv) (x : Nat) (owner : Option Nat) :
    ∀ (fuel : Nat) (s : UplinkState),
      UplinkAdds x owner s (uplinkLoop env x owner fuel s) (2 * fuel) := by
  intro fuel
  induction fuel with
  | zero =>
    intro s
    exact ⟨[], [], by simp [uplinkLoop], by simp [uplinkLoop], List.Forall₂.nil, by simp,
      by simp⟩
  | succ fuel ih =>
    intro s
    unfold uplinkLoop
    by_cases h1 : s.iteration < 4
    · rw [if_pos h1]
      dsimp only
      by_cases h2 : (uplinkPeriod env x owner s).2 = true
      · rw [if_pos h2]
        have := uplinkAdds_trans x owner s _ _ 2 (2 * fuel) (uplinkPeriod_adds env x owner s)
          (ih (uplinkPeriod env x owner s).1)
        rw [show 2 * (fuel + 1) = 2 + 2 * fuel by ring]
        exact this
      · rw [if_neg h2]
        obtain ⟨ws, fs, e1, e2, e3, e4, e5⟩ := uplinkPeriod_adds env x owner s
        exact ⟨ws, fs, e1, e2, e3, by omega, e5⟩
    · rw [if_neg h1]
      exact ⟨[], [], by simp, by simp, List.Forall₂.nil, by simp, by simp⟩

theorem ext_getD (l1 l2 : List Int) (h : l1.length = l2.length)
    (hi : ∀ i, i < l1.length → l1.getD i 0 = l2.getD i 0) : l1 = l2 := by
  apply List.ext_getElem h
  intro i h1 h2
  have := hi i h1
  rwa [List.getD_eq_getElem _ _ h1, List.getD_eq_getElem _ _ h2] at this

theorem memcpy_take (src : List Int) (k : Nat) (dst : List Int) (d s : Nat)
    (h : d + k ≤ dst.length) :
    (memcpy dst d src s k).take (d + k) = dst.take d ++ readBlock src s k := by
  apply ext_getD
  · simp [memcpy_length, readBlock_length]
    omega
  · intro i hi
    have hi2 : i < d + k := by
      simp [memcpy_length] at hi
      omega
    have hml := memcpy_length src k dst d s
    rw [List.getD_eq_getElem?_getD, List.getElem?_take_of_lt hi2, ← List.getD_eq_getElem?_getD,
      memcpy_getD src k dst d s i h]
    by_cases hd : i < d
    · rw [if_neg (by omega)]
      rw [List.getD_eq_getElem?_getD, List.getD_eq_getElem?_getD,
        List.getElem?_append_left (by simp; omega), List.getElem?_take_of_lt hd]
    · rw [if_pos (by omega)]
      rw [List.getD_eq_getElem?_getD (l := dst.take d ++ readBlock src s k),
        List.getElem?_append_right (by simp; omega)]
      have hlen : (dst.take d).length = d := by simp; omega
      rw [hlen]
      unfold readBlock
      rw [List.getElem?_map, List.getElem?_range (by omega)]
      simp

theorem readBlock_eq_take_drop (l : List Int) (k n : Nat) (h : k + n ≤ l.length) :
    readBlock l k n = (l.drop k).take n := by
  rw [take_drop_eq_map l k n h]
  rfl

theorem memcpy_zero (dst src : List Int) (d s : Nat) : memcpy dst d src s 0 = dst := rfl

theorem downlinkPeriod_fill (env : OutEnv) (x : Nat) (ws : List Int) (s : DownlinkState)
    (h : s.simcom_buffer_used + (ws.length - s.frames_appended) < 320) :
    downlinkPeriod env x ws ws.length s =
      ({ s with
          simcom_buffer := memcpy s.simcom_buffer s.simcom_buffer_used ws s.frames_appended
            (ws.length - s.frames_appended)
          simcom_buffer_used := s.simcom_buffer_used + (ws.length - s.frames_appended)
          frames_appended := s.frames_appended + (ws.length - s.frames_appended) }, true) := by
  have hcopy : (if 320 - s.simcom_buffer_used < ws.length - s.frames_appended then
      320 - s.simcom_buffer_used else ws.length - s.frames_appended)
      = ws.length - s.frames_appended := if_neg (by omega)
  unfold downlinkPeriod
  dsimp only
  rw [hcopy, if_pos h]

theorem downlinkPeriod_write (env : OutEnv) (x : Nat) (ws : List Int) (s : DownlinkState)
    (hready : ∀ t, env.pcm_is_ready t = true) (hwrite : ∀ t, (env.pcm_write t).ret = 0)
    (hu : s.simcom_buffer_used < 320) (hpcm : s.pcm = true)
    (h : 320 ≤ s.simcom_buffer_used + (ws.length - s.frames_appended)) :
    downlinkPeriod env x ws ws.length s =
      ({ s with
          simcom_buffer := memcpy s.simcom_buffer s.simcom_buffer_used ws s.frames_appended
            (320 - s.simcom_buffer_used)
          simcom_buffer_used := 0
          frames_appended := s.frames_appended + (320 - s.simcom_buffer_used)
          simcom_pcm_started := true
          ret := 0
          tick := s.tick + 2
          writes := s.writes ++
            [{ stream := x, card := SND_OUT_SOUND_CARD_BT, owner := s.owner, bytes := 640,
               simcom := true
               samples := (memcpy s.simcom_buffer s.simcom_buffer_used ws s.frames_appended
                 (320 - s.simcom_buffer_used)).take 320 }] }, true) := by
  have h1 : 320 - s.simcom_buffer_used < ws.length - s.frames_appended ∨
      320 - s.simcom_buffer_used = ws.length - s.frames_appended := by omega
  have hcopy : (if 320 - s.simcom_buffer_used < ws.length - s.frames_appended then
      320 - s.simcom_buffer_used else ws.length - s.frames_appended)
      = 320 - s.simcom_buffer_used := by
    rcases h1 with h1 | h1
    · rw [if_pos h1]
    · rw [if_neg (by omega), h1]
  unfold downlinkPeriod
  dsimp only
  rw [hcopy]
  have hfull : s.simcom_buffer_used + (320 - s.simcom_buffer_used) = 320 := by omega
  rw [if_neg (by omega), if_neg (by rw [hpcm]; decide), if_neg (by rw [hready]; simp)]
  rw [if_pos (hwrite _)]
  simp only [hready, if_true, hwrite, periodDone, hfull, Nat.sub_self, memcpy_zero]

theorem acc_take (buf ws : List Int) (u a : Nat) (hlen : buf.length = 320) (hu : u < 320)
    (h : 320 ≤ u + (ws.length - a)) :
    (memcpy buf u ws a (320 - u)).take 320 = (buf.take u ++ ws.drop a).take 320 := by
  have h1 := memcpy_take ws (320 - u) buf u a (by omega)
  rw [show u + (320 - u) = 320 by omega] at h1
  rw [h1, readBlock_eq_take_drop ws a (320 - u) (by omega)]
  rw [List.take_append_eq_append_take]
  have hl : (buf.take u).length = u := by simp; omega
  have ht : (buf.take u).take 320 = buf.take u := List.take_of_length_le (by rw [hl]; omega)
  rw [hl, ht]

theorem acc_drop (buf ws : List Int) (u a : Nat) (hlen : buf.length = 320) (hu : u < 320) :
    (buf.take u ++ ws.drop a).drop 320 = ws.drop (a + (320 - u)) := by
  have hl : (buf.take u).length = u := by simp; omega
  rw [List.drop_append_eq_append_drop, hl, List.drop_of_length_le (by omega), List.nil_append,
    List.drop_drop]

theorem acc_fill (buf ws : List Int) (u a : Nat) (hlen : buf.length = 320) (ha : a ≤ ws.length)
    (h : u + (ws.length - a) < 320) :
    (memcpy buf u ws a (ws.length - a)).take (u + (ws.length - a)) = buf.take u ++ ws.drop a := by
  rw [memcpy_take ws (ws.length - a) buf u a (by omega),
    readBlock_eq_take_drop ws a (ws.length - a) (by omega)]
  have ht : (ws.drop a).take (ws.length - a) = ws.drop a :=
    List.take_of_length_le (by simp)
  rw [ht]

theorem downlinkLoop_ok (env : OutEnv) (x : Nat) (ws : List Int)
    (hready : ∀ t, env.pcm_is_ready t = true) (hwrite : ∀ t, (env.pcm_write t).ret = 0) :
    ∀ (fuel : Nat) (s : DownlinkState), s.simcom_buffer.length = 320 →
      s.simcom_buffer_used < 320 → s.pcm = true → s.frames_appended ≤ ws.length →
      ws.length - s.frames_appended ≤ fuel →
      (downlinkLoop env x ws ws.length fuel s).2 = true ∧
      (downlinkLoop env x ws ws.length fuel s).1.writes = s.writes ++
        (List.range ((s.simcom_buffer_used + (ws.length - s.frames_appended)) / 320)).map
          (periodOf x s.owner (s.simcom_buffer.take s.simcom_buffer_used
            ++ ws.drop s.frames_appended)) ∧
      (downlinkLoop env x ws ws.length fuel s).1.simcom_buffer_used
        = (s.simcom_buffer_used + (ws.length - s.frames_appended)) % 320 ∧
      (downlinkLoop env x ws ws.length fuel s).1.simcom_buffer.take
          (downlinkLoop env x ws ws.length fuel s).1.simcom_buffer_used
        = (s.simcom_buffer.take s.simcom_buffer_used ++ ws.drop s.frames_appended).drop
            (320 * ((s.simcom_buffer_used + (ws.length - s.frames_appended)) / 320)) ∧
      (downlinkLoop env x ws ws.length fuel s).1.simcom_buffer.length = 320 ∧
      (downlinkLoop env x ws ws.length fuel s).1.owner = s.owner ∧
      (downlinkLoop env x ws ws.length fuel s).1.pcm = true := by
  have stop : ∀ (fuel : Nat) (s : DownlinkState), s.simcom_buffer.length = 320 →
      s.simcom_buffer_used < 320 → s.pcm = true → ¬ s.frames_appended < ws.length →
      s.frames_appended ≤ ws.length →
      downlinkLoop env x ws ws.length fuel s = (s, true) ∧
      (s.simcom_buffer_used + (ws.length - s.frames_appended)) / 320 = 0 ∧
      (s.simcom_buffer_used + (ws.length - s.frames_appended)) % 320 = s.simcom_buffer_used ∧
      ws.drop s.frames_appended = [] := by
    intro fuel s _ hu _ hnot hle
    refine ⟨?_, by omega, by omega, List.drop_of_length_le (by omega)⟩
    cases fuel with
    | zero => simp [downlinkLoop, hnot]
    | succ fuel => simp [downlinkLoop, hnot]
  intro fuel
  induction fuel with
  | zero =>
    intro s hlen hu hpcm hle hfuel
    obtain ⟨e1, e2, e3, e4⟩ := stop 0 s hlen hu hpcm (by omega) hle
    rw [e1, e2, e3, e4]
    simp [hlen, hpcm]
  | succ fuel ih =>
    intro s hlen hu hpcm hle hfuel
    by_cases hlt : s.frames_appended < ws.length
    · unfold downlinkLoop
      rw [if_pos hlt]
      dsimp only
      by_cases hA : s.simcom_buffer_used + (ws.length - s.frames_appended) < 320
      · rw [downlinkPeriod_fill env x ws s hA]
        dsimp only
        rw [if_pos rfl]
        have hl1 := memcpy_length ws (ws.length - s.frames_appended) s.simcom_buffer
          s.simcom_buffer_used s.frames_appended
        obtain ⟨e1, e2, e3, e4⟩ := stop fuel
          { s with
            simcom_buffer := memcpy s.simcom_buffer s.simcom_buffer_used ws s.frames_appended
              (ws.length - s.frames_appended)
            simcom_buffer_used := s.simcom_buffer_used + (ws.length - s.frames_appended)
            frames_appended := s.frames_appended + (ws.length - s.frames_appended) }
          (by rw [hl1]; exact hlen) hA hpcm (by dsimp only; omega) (by dsimp only; omega)
        rw [e1]
        dsimp only
        have h0 : (s.simcom_buffer_used + (ws.length - s.frames_appended)) / 320 = 0 := by omega
        have hm : (s.simcom_buffer_used + (ws.length - s.frames_appended)) % 320
            = s.simcom_buffer_used + (ws.length - s.frames_appended) := by omega
        rw [h0, hm, acc_fill s.simcom_buffer ws _ _ hlen hle hA]
        simp [hl1, hlen, hpcm]
      · have hB : 320 ≤ s.simcom_buffer_used + (ws.length - s.frames_appended) := by omega
        rw [downlinkPeriod_write env x ws s hready hwrite hu hpcm hB]
        dsimp only
        rw [if_pos rfl]
        have hl1 := memcpy_length ws (320 - s.simcom_buffer_used) s.simcom_buffer
          s.simcom_buffer_used s.frames_appended
        obtain ⟨i1, i2, i3, i4, i5, i6, i7⟩ := ih
          { s with
            simcom_buffer := memcpy s.simcom_buffer s.simcom_buffer_used ws s.frames_appended
              (320 - s.simcom_buffer_used)
            simcom_buffer_used := 0
            frames_appended := s.frames_appended + (320 - s.simcom_buffer_used)
            simcom_pcm_started := true
            ret := 0
            tick := s.tick + 2
            writes := s.writes ++
              [{ stream := x, card := SND_OUT_SOUND_CARD_BT, owner := s.owner, bytes := 640,
                 simcom := true
                 samples := (memcpy s.simcom_buffer s.simcom_buffer_used ws s.frames_appended
                   (320 - s.simcom_buffer_used)).take 320 }] }
          (by rw [hl1]; exact hlen) (by dsimp only; omega) hpcm (by dsimp only; omega)
          (by dsimp only; omega)
        dsimp only at i1 i2 i3 i4 i5 i6 i7
        have hn : (s.simcom_buffer_used + (ws.length - s.frames_appended)) / 320
            = (0 + (ws.length - (s.frames_appended + (320 - s.simcom_buffer_used)))) / 320 + 1 := by
          omega
        have hm : (s.simcom_buffer_used + (ws.length - s.frames_appended)) % 320
            = (0 + (ws.length - (s.frames_appended + (320 - s.simcom_buffer_used)))) % 320 := by
          omega
        refine ⟨i1, ?_, by rw [i3, hm], ?_, i5, i6, i7⟩
        · rw [i2, hn, List.range_succ_eq_map, List.map_cons, List.map_map, List.append_assoc]
          congr 1
          rw [List.singleton_append]
          congr 1
          · unfold periodOf
            rw [acc_take s.simcom_buffer ws _ _ hlen hu hB]
            simp
          · apply List.map_congr_left
            intro i _
            unfold periodOf
            simp only [Function.comp, List.take_zero, List.nil_append]
            rw [← acc_drop s.simcom_buffer ws _ _ hlen hu, List.drop_drop]
            congr 3
            rw [Nat.succ_eq_add_one]
            ring
        · rw [i4, hn, List.take_zero, List.nil_append,
            ← acc_drop s.simcom_buffer ws _ _ hlen hu, List.drop_drop]
          congr 1
          ring
    · obtain ⟨e1, e2, e3, e4⟩ := stop (fuel + 1) s hlen hu hpcm hlt hle
      rw [e1, e2, e3, e4]
      simp [hlen, hpcm]

theorem setStream_same (hal : Hal) (x : Nat) (out : stream_out) :
    (setStream hal x out).streams x = out := by
  simp [setStream]

theorem setOwner_streams (hal : Hal) (s : Nat) (o : Option Nat) :
    (setOwner hal s o).streams = hal.streams := rfl

theorem simcomDownlink_ok (env : OutEnv) (op : Opened) (x : Nat) (buffer : List Int)
    (bytes fuel : Nat) (w : WriteState)
    (hready : ∀ t, env.pcm_is_ready t = true) (hwrite : ∀ t, (env.pcm_write t).ret = 0)
    (hmalloc : ∀ t, env.malloc_ok t = true)
    (hpcm : (w.hal.streams x).pcm SND_OUT_SOUND_CARD_BT = true)
    (hacc : ∀ b, (w.hal.streams x).simcom_buffer = some b →
      b.length = 320 ∧ (w.hal.streams x).simcom_buffer_used < 320)
    (hfuel : (downlinkSamples buffer bytes (op.cfg x).config_rate
      (op.cfg x).config_channels).length ≤ fuel) :
    ∃ w2, simcomDownlink env op fuel x buffer bytes w = some w2 ∧
      (w2.hal.streams x).simcom_buffer.isSome = true ∧
      w2.writes = w.writes ++
        (List.range (((accumulated (w.hal.streams x)).length +
            (downlinkSamples buffer bytes (op.cfg x).config_rate
              (op.cfg x).config_channels).length) / 320)).map
          (periodOf x (w.hal.owner SOUND_CARD_BT)
            (accumulated (w.hal.streams x) ++
              downlinkSamples buffer bytes (op.cfg x).config_rate (op.cfg x).config_channels)) ∧
      (w2.hal.streams x).simcom_buffer_used =
        ((accumulated (w.hal.streams x)).length +
          (downlinkSamples buffer bytes (op.cfg x).config_rate
            (op.cfg x).config_channels).length) % 320 ∧
      accumulated (w2.hal.streams x) =
        (accumulated (w.hal.streams x) ++
          downlinkSamples buffer bytes (op.cfg x).config_rate (op.cfg x).config_channels).drop
          (320 * (((accumulated (w.hal.streams x)).length +
            (downlinkSamples buffer bytes (op.cfg x).config_rate
              (op.cfg x).config_channels).length) / 320)) := by
  generalize hws : downlinkSamples buffer bytes (op.cfg x).config_rate
    (op.cfg x).config_channels = ws at hfuel ⊢
  -- the buffer and the fill level the loop starts with
  obtain ⟨buf, used, hbuf, hused, hlen, hu, hacc2⟩ : ∃ (buf : List Int) (used : Nat),
      (w.hal.streams x).simcom_buffer.getD
        ((env.garbage (w.hal.tick + 1) ++ List.replicate 320 0).take 320) = buf ∧
      (if (w.hal.streams x).simcom_buffer.isNone then 0
        else (w.hal.streams x).simcom_buffer_used) = used ∧
      buf.length = 320 ∧ used < 320 ∧ accumulated (w.hal.streams x) = buf.take used := by
    cases hb : (w.hal.streams x).simcom_buffer with
    | none =>
      refine ⟨_, _, rfl, rfl, ?_, ?_, ?_⟩
      · rw [Option.getD_none, List.length_take, List.length_append, List.length_replicate]
        omega
      · show (0 : Nat) < 320
        omega
      · show accumulated (w.hal.streams x) = List.take 0 _
        simp only [accumulated, hb, List.take_zero]
    | some b =>
      obtain ⟨h1, h2⟩ := hacc b hb
      refine ⟨_, _, rfl, rfl, h1, ?_, ?_⟩
      · rw [if_neg (by simp)]
        exact h2
      · rw [if_neg (by simp)]
        simp only [accumulated, hb, Option.getD_some]
  have hal : (accumulated (w.hal.streams x)).length = used := by
    rw [hacc2]
    simp
    omega
  obtain ⟨l1, l2, l3, l4, l5, l6, l7⟩ := downlinkLoop_ok env x ws hready hwrite fuel
    { simcom_buffer := buf
      simcom_buffer_used := used
      simcom_pcm_started := (w.hal.streams x).simcom_pcm_started
      simcom_periods_written := (w.hal.streams x).simcom_periods_written
      pcm := (w.hal.streams x).pcm SND_OUT_SOUND_CARD_BT
      owner := w.hal.owner SOUND_CARD_BT
      frames_appended := 0
      ret := w.ret
      tick := if (!(decide ((op.cfg x).config_rate = 8000) &&
            decide ((op.cfg x).config_channels = 1))) = true then
          (if (w.hal.streams x).simcom_buffer.isNone = true then w.hal.tick + 2
            else w.hal.tick) + 1
        else (if (w.hal.streams x).simcom_buffer.isNone = true then w.hal.tick + 2
            else w.hal.tick)
      writes := w.writes } hlen hu hpcm (Nat.zero_le _) (by simpa using hfuel)
  dsimp only at l1 l2 l3 l4 l5 l6 l7
  simp only [Nat.sub_zero, List.drop_zero] at l2 l3 l4
  unfold simcomDownlink
  dsimp only
  have hm : ∀ (c : Prop) (t : Nat), ¬ (c ∧ env.malloc_ok t = false) := by
    intro c t h
    rw [hmalloc] at h
    exact absurd h.2 (by decide)
  rw [if_neg (hm _ _), if_neg (hm _ _), hws, hbuf, hused]
  rw [if_neg (by rw [l1]; decide)]
  refine ⟨_, rfl, ?_, ?_, ?_, ?_⟩
  · dsimp only
    rw [setOwner_streams, setStream_same]
    rfl
  · dsimp only
    rw [l2, hal, hacc2]
  · dsimp only
    rw [setOwner_streams, setStream_same]
    dsimp only
    rw [l3, hal]
  · rw [hal, hacc2]
    dsimp only
    rw [setOwner_streams, setStream_same]
    unfold accumulated
    dsimp only
    exact l4

theorem downlinkPeriod_epipe (env : OutEnv) (x : Nat) (ws : List Int) (wf : Nat)
    (s : DownlinkState)
    (hready : ∀ t, env.pcm_is_ready t = true)
    (hwrite : ∀ t, env.pcm_write t = { ret := -EPIPE, errno := EPIPE })
    (hpcm : s.pcm = true) (hrem : 320 - s.simcom_buffer_used < wf - s.frames_appended) :
    (downlinkPeriod env x ws wf s).2 = true ∧
    (downlinkPeriod env x ws wf s).1.pcm = true ∧
    (downlinkPeriod env x ws wf s).1.simcom_buffer_used
      = s.simcom_buffer_used + (320 - s.simcom_buffer_used) ∧
    (downlinkPeriod env x ws wf s).1.frames_appended
      = s.frames_appended + (320 - s.simcom_buffer_used) ∧
    s.writes.length + 1 ≤ (downlinkPeriod env x ws wf s).1.writes.length ∧
    (downlinkPeriod env x ws wf s).1.ret = -EPIPE ∧
    (downlinkPeriod env x ws wf s).1.owner = s.owner ∧
    (downlinkPeriod env x ws wf s).1.simcom_buffer
      = memcpy s.simcom_buffer s.simcom_buffer_used ws s.frames_appended
          (320 - s.simcom_buffer_used) ∧
    ∀ w ∈ (downlinkPeriod env x ws wf s).1.writes, w ∈ s.writes ∨
      w = { stream := x, card := SND_OUT_SOUND_CARD_BT, owner := s.owner, bytes := 640,
            simcom := true
            samples := (memcpy s.simcom_buffer s.simcom_buffer_used ws s.frames_appended
              (320 - s.simcom_buffer_used)).take 320 } := by
  unfold downlinkPeriod
  dsimp only
  rw [if_pos hrem]
  by_cases hfull : s.simcom_buffer_used + (320 - s.simcom_buffer_used) < 320
  · exfalso
    omega
  · rw [if_neg hfull, if_neg (by rw [hpcm]; decide), if_neg (by rw [hready]; simp)]
    simp only [hready, hwrite, if_true]
    have hne : ¬ (-EPIPE : Int) = 0 := by decide
    rw [if_neg hne]
    by_cases hst : s.simcom_pcm_started = true
    · simp [hst, hpcm, EPIPE, EIO, EBUSY, EAGAIN]
    · simp [hst, hpcm, EPIPE, EIO, EBUSY, EAGAIN]

theorem downlinkLoop_epipe (env : OutEnv) (x : Nat) (ws : List Int) (wf : Nat)
    (hready : ∀ t, env.pcm_is_ready t = true)
    (hwrite : ∀ t, env.pcm_write t = { ret := -EPIPE, errno := EPIPE }) :
    ∀ (fuel : Nat) (s : DownlinkState), s.pcm = true → s.simcom_buffer_used ≤ 320 →
      320 - s.simcom_buffer_used < wf - s.frames_appended →
      (downlinkLoop env x ws wf fuel s).2 = false ∧
      s.writes.length + fuel ≤ (downlinkLoop env x ws wf fuel s).1.writes.length ∧
      ∀ w ∈ (downlinkLoop env x ws wf fuel s).1.writes, w ∈ s.writes ∨
        w = { stream := x, card := SND_OUT_SOUND_CARD_BT, owner := s.owner, bytes := 640,
              simcom := true
              samples := (memcpy s.simcom_buffer s.simcom_buffer_used ws s.frames_appended
                (320 - s.simcom_buffer_used)).take 320 } := by
  intro fuel
  induction fuel with
  | zero =>
    intro s _ _ hrem
    have : s.frames_appended < wf := by omega
    simp only [downlinkLoop, this, not_true_eq_false, decide_False, Nat.add_zero, le_refl,
      true_and]
    exact fun w hw => Or.inl hw
  | succ fuel ih =>
    intro s hpcm hle hrem
    have hlt : s.frames_appended < wf := by omega
    obtain ⟨p1, p2, p3, p4, p5, _, p7, p8, p9⟩ :=
      downlinkPeriod_epipe env x ws wf s hready hwrite hpcm hrem
    obtain ⟨i1, i2, i3⟩ := ih (downlinkPeriod env x ws wf s).1 p2 (by rw [p3]; omega)
      (by rw [p3, p4]; omega)
    unfold downlinkLoop
    rw [if_pos hlt]
    dsimp only
    rw [if_pos p1]
    refine ⟨i1, by omega, ?_⟩
    intro w hw
    rcases i3 w hw with h | h
    · exact p9 w h
    · right
      rw [h, p7, p8, p3, show 320 - (s.simcom_buffer_used + (320 - s.simcom_buffer_used)) = 0 by
        omega, memcpy_zero]

theorem periodDone_keeps (d : DownlinkState) :
    (periodDone d).writes = d.writes ∧ (periodDone d).owner = d.owner ∧
      (periodDone d).pcm = d.pcm := by
  unfold periodDone
  exact ⟨rfl, rfl, rfl⟩

theorem uplinkPeriod_pass (env : OutEnv) (x : Nat) (owner : Option Nat) (s : UplinkState) :
    ∃ (p : PcmWrite) (n : Nat), n ≤ 2 ∧ p.bytes = 640 ∧
      (uplinkPeriod env x owner s).1.writes = s.writes ++ List.replicate n p ∧
      ((uplinkPeriod env x owner s).2 = true →
        (uplinkPeriod env x owner s).1.iteration = s.iteration + 1) := by
  generalize hr : uplinkPeriod env x owner s = r
  unfold uplinkPeriod at hr
  lift_lets at hr
  extract_lets f fetched fetched_total buf s1 period ready t w1 s2 w2 s3 at hr
  have hp : period.bytes = 640 := rfl
  have h1 : s1.writes = s.writes ∧ s1.iteration = s.iteration := ⟨rfl, rfl⟩
  have h2 : s2.writes = s.writes ++ [period] ∧ s2.iteration = s.iteration := ⟨rfl, rfl⟩
  have h3 : s3.writes = s.writes ++ [period, period] ∧ s3.iteration = s.iteration :=
    ⟨by show s.writes ++ [period] ++ [period] = _; rw [List.append_assoc]; rfl, rfl⟩
  clear_value period s1 s2 s3
  split_ifs at hr <;> subst hr
  · exact ⟨period, 0, by omega, hp, by simp, fun h => Bool.noConfusion h⟩
  · exact ⟨period, 0, by omega, hp, by simp [h1.1], fun h => Bool.noConfusion h⟩
  · exact ⟨period, 1, by omega, hp, by simp [h2.1], fun _ => by simp [h2.2]⟩
  · exact ⟨period, 2, by omega, hp, by simp [h3.1], fun _ => by simp [h3.2]⟩
  · exact ⟨period, 2, by omega, hp, by simp [h3.1], fun h => Bool.noConfusion h⟩
  · exact ⟨period, 1, by omega, hp, by simp [h2.1], fun h => Bool.noConfusion h⟩

theorem uplinkLoop_finished (env : OutEnv) (x : Nat) (owner : Option Nat) (k : Nat) :
    ∀ (fuel : Nat) (s : UplinkState), 4 ≤ s.iteration + fuel →
      uplinkLoop env x owner (fuel + k) s = uplinkLoop env x owner fuel s := by
  intro fuel
  induction fuel with
  | zero =>
    intro s hs
    cases k with
    | zero => rfl
    | succ k =>
      rw [Nat.zero_add]
      unfold uplinkLoop
      rw [if_neg (by omega)]
  | succ n ih =>
    intro s hs
    rw [show n + 1 + k = (n + k) + 1 by omega]
    unfold uplinkLoop
    dsimp only
    split_ifs with h1 h2
    · obtain ⟨_, _, _, _, _, hi⟩ := uplinkPeriod_pass env x owner s
      exact ih _ (by rw [hi h2]; omega)
    · rfl
    · rfl

theorem periodDone_fields (d : DownlinkState) :
    (periodDone d).simcom_buffer_used = d.simcom_buffer_used - 320 ∧
      (periodDone d).frames_appended = d.frames_appended ∧ (periodDone d).ret = d.ret := by
  unfold periodDone
  exact ⟨rfl, rfl, rfl⟩

theorem downlinkPeriod_pass (env : OutEnv) (x : Nat) (ws : List Int) (wf : Nat)
    (s : DownlinkState) :
    ∃ (p : PcmWrite) (n : Nat), n ≤ 3 ∧ p.bytes = 640 ∧
      (downlinkPeriod env x ws wf s).1.writes = s.writes ++ List.replicate n p ∧
      (s.simcom_buffer_used ≤ 320 → s.frames_appended < wf →
        (downlinkPeriod env x ws wf s).2 = true →
        (∃ t, (env.pcm_write t).ret = -EPIPE) ∨
        ((downlinkPeriod env x ws wf s).1.simcom_buffer_used < 320 ∧
          (downlinkPeriod env x ws wf s).1.frames_appended ≤ wf ∧
          (0 < n → (downlinkPeriod env x ws wf s).1.ret = 0) ∧
          (s.frames_appended < (downlinkPeriod env x ws wf s).1.frames_appended ∨
            ((downlinkPeriod env x ws wf s).1.frames_appended = s.frames_appended ∧
              s.simcom_buffer_used = 320)))) := by
  generalize hr : downlinkPeriod env x ws wf s = r
  unfold downlinkPeriod at hr
  lift_lets at hr
  extract_lets space ftc s1 ready t period w1 s2 first_try w2 s3 e3 io w3 s4 e4 at hr
  have hp : period.bytes = 640 := rfl
  have hftc : ftc ≤ 320 - s.simcom_buffer_used ∧ ftc ≤ wf - s.frames_appended ∧
      (s.simcom_buffer_used < 320 → s.frames_appended < wf → 0 < ftc) := by
    show (if 320 - s.simcom_buffer_used < wf - s.frames_appended then
        320 - s.simcom_buffer_used else wf - s.frames_appended) ≤ _ ∧
      (if 320 - s.simcom_buffer_used < wf - s.frames_appended then
        320 - s.simcom_buffer_used else wf - s.frames_appended) ≤ _ ∧
      (_ → _ → 0 < (if 320 - s.simcom_buffer_used < wf - s.frames_appended then
        320 - s.simcom_buffer_used else wf - s.frames_appended))
    split_ifs <;> omega
  have f1 : s1.writes = s.writes ∧ s1.simcom_buffer_used = s.simcom_buffer_used + ftc ∧
      s1.frames_appended = s.frames_appended + ftc := ⟨rfl, rfl, rfl⟩
  have f2 : ∃ n t, 1 ≤ n ∧ n ≤ 1 ∧ s2.writes = s.writes ++ List.replicate n period ∧
      s2.simcom_buffer_used = s1.simcom_buffer_used ∧
      s2.frames_appended = s1.frames_appended ∧ s2.ret = (env.pcm_write t).ret :=
    ⟨1, t, le_refl _, le_refl _, rfl, rfl, rfl, rfl⟩
  have hw1 : w1.ret = s2.ret := rfl
  clear_value period ftc s1
  have f3 : ∃ n t, 1 ≤ n ∧ n ≤ 2 ∧ s3.writes = s.writes ++ List.replicate n period ∧
      s3.simcom_buffer_used = s1.simcom_buffer_used ∧
      s3.frames_appended = s1.frames_appended ∧ s3.ret = (env.pcm_write t).ret := by
    obtain ⟨n, t, a1, a2, a3, a4, a5, a6⟩ := f2
    show ∃ n t, 1 ≤ n ∧ n ≤ 2 ∧
      (if first_try = true then _ else s2).writes = s.writes ++ List.replicate n period ∧
      (if first_try = true then _ else s2).simcom_buffer_used = s1.simcom_buffer_used ∧
      (if first_try = true then _ else s2).frames_appended = s1.frames_appended ∧
      (if first_try = true then _ else s2).ret = (env.pcm_write t).ret
    split_ifs
    · refine ⟨n + 1, s2.tick, by omega, by omega, ?_, a4, a5, rfl⟩
      show s2.writes ++ [period] = _
      rw [a3, List.append_assoc, List.replicate_succ']
    · exact ⟨n, t, a1, by omega, a3, a4, a5, a6⟩
  clear_value s2
  have f4 : ∃ n t, 1 ≤ n ∧ n ≤ 3 ∧ s4.writes = s.writes ++ List.replicate n period ∧
      s4.simcom_buffer_used = s1.simcom_buffer_used ∧
      s4.frames_appended = s1.frames_appended ∧ s4.ret = (env.pcm_write t).ret := by
    obtain ⟨n, t, a1, a2, a3, a4, a5, a6⟩ := f3
    show ∃ n t, 1 ≤ n ∧ n ≤ 3 ∧
      (if io = true then _ else s3).writes = s.writes ++ List.replicate n period ∧
      (if io = true then _ else s3).simcom_buffer_used = s1.simcom_buffer_used ∧
      (if io = true then _ else s3).frames_appended = s1.frames_appended ∧
      (if io = true then _ else s3).ret = (env.pcm_write t).ret
    split_ifs
    · refine ⟨n + 1, s3.tick + 1, by omega, by omega, ?_, a4, a5, rfl⟩
      show s3.writes ++ [period] = _
      rw [a3, List.append_assoc, List.replicate_succ']
    · exact ⟨n, t, a1, by omega, a3, a4, a5, a6⟩
  clear_value s3 s4 e4 io e3 first_try
  obtain ⟨g1, g2, g3⟩ := f1
  obtain ⟨g4, g5, g6⟩ := hftc
  have done : ∀ (d : DownlinkState) (n : Nat), n ≤ 3 →
      d.writes = s.writes ++ List.replicate n period →
      d.simcom_buffer_used = s1.simcom_buffer_used →
      d.frames_appended = s1.frames_appended → d.ret = 0 → ¬ s1.simcom_buffer_used < 320 →
      ∃ (p : PcmWrite) (n : Nat), n ≤ 3 ∧ p.bytes = 640 ∧
      (periodDone d, true).1.writes = s.writes ++ List.replicate n p ∧
      (s.simcom_buffer_used ≤ 320 → s.frames_appended < wf →
        (periodDone d, true).2 = true →
        (∃ t, (env.pcm_write t).ret = -EPIPE) ∨
        ((periodDone d, true).1.simcom_buffer_used < 320 ∧
          (periodDone d, true).1.frames_appended ≤ wf ∧
          (0 < n → (periodDone d, true).1.ret = 0) ∧
          (s.frames_appended < (periodDone d, true).1.frames_appended ∨
            ((periodDone d, true).1.frames_appended = s.frames_appended ∧
              s.simcom_buffer_used = 320)))) := by
    intro d n hn hw hu ha hret hge
    refine ⟨period, n, hn, hp, ?_, fun b1 b2 _ => Or.inr ?_⟩
    · show (periodDone d).writes = _
      rw [(periodDone_keeps d).1, hw]
    · show (periodDone d).simcom_buffer_used < 320 ∧ (periodDone d).frames_appended ≤ wf ∧
        (0 < n → (periodDone d).ret = 0) ∧
        (s.frames_appended < (periodDone d).frames_appended ∨
          ((periodDone d).frames_appended = s.frames_appended ∧ s.simcom_buffer_used = 320))
      rw [(periodDone_fields d).1, (periodDone_fields d).2.1, (periodDone_fields d).2.2, hu, ha,
        g2, g3]
      rw [g2] at hge
      refine ⟨by omega, by omega, fun _ => hret, by omega⟩
  split_ifs at hr with c1 c2 c3 c4 c5 c6 c7 c8 <;> subst hr
  · refine ⟨period, 0, by omega, hp, by simp [g1], fun b1 b2 _ => Or.inr ?_⟩
    dsimp only
    rw [g2] at c1
    rw [g2, g3]
    refine ⟨by omega, by omega, fun h => absurd h (by omega), Or.inl ?_⟩
    have := g6 (by omega) b2
    omega
  · exact ⟨period, 0, by omega, hp, by simp [g1], fun _ _ h => Bool.noConfusion h⟩
  · exact ⟨period, 0, by omega, hp, by simp [g1], fun _ _ h => Bool.noConfusion h⟩
  · obtain ⟨n, t, a1, a2, a3, a4, a5, a6⟩ := f2
    exact done _ n (by omega) a3 a4 a5 (by rw [← hw1]; exact c4) c1
  · obtain ⟨n, t, a1, a2, a3, a4, a5, a6⟩ := f3
    exact done _ n (by omega) a3 a4 a5 c5.2 c1
  · obtain ⟨n, t, a1, a2, a3, a4, a5, a6⟩ := f3
    refine ⟨period, n, by omega, hp, a3, fun _ _ _ => Or.inl ⟨t, ?_⟩⟩
    rw [← a6]
    exact c6
  · obtain ⟨n, t, a1, a2, a3, a4, a5, a6⟩ := f4
    exact done _ n (by omega) a3 a4 a5 c7.2 c1
  · obtain ⟨n, t, a1, a2, a3, a4, a5, a6⟩ := f4
    exact ⟨period, n, by omega, hp, a3, fun _ _ h => Bool.noConfusion h⟩
  · obtain ⟨n, t, a1, a2, a3, a4, a5, a6⟩ := f4
    exact ⟨period, n, by omega, hp, a3, fun _ _ h => Bool.noConfusion h⟩

theorem downlinkLoop_terminates (env : OutEnv) (x : Nat) (ws : List Int) (wf : Nat)
    (hne : ∀ t, (env.pcm_write t).ret ≠ -EPIPE) :
    ∀ (fuel : Nat) (s : DownlinkState), s.simcom_buffer_used ≤ 320 →
      2 * (wf - s.frames_appended) + (if 320 ≤ s.simcom_buffer_used then 1 else 0) ≤ fuel →
      (downlinkLoop env x ws wf fuel s).2 = true := by
  intro fuel
  induction fuel with
  | zero =>
    intro s _ hm
    unfold downlinkLoop
    have : ¬ s.frames_appended < wf := by
      split_ifs at hm <;> omega
    simp [this]
  | succ n ih =>
    intro s hu hm
    unfold downlinkLoop
    dsimp only
    split_ifs with c1 c2
    · obtain ⟨_, _, _, _, _, hp⟩ := downlinkPeriod_pass env x ws wf s
      rcases hp hu c1 c2 with ⟨t, ht⟩ | ⟨a1, a2, _, a4⟩
      · exact absurd ht (hne t)
      · apply ih _ (by omega)
        rw [if_neg (by omega)]
        rcases a4 with a4 | ⟨a4, a5⟩
        · split_ifs at hm <;> omega
        · rw [if_pos (by omega)] at hm
          omega
    · rfl
    · rfl

/-- C13: in the downlink path of `out_write` (the stream owns the open modem
PCM, no voice call active), when the PCM is ready, every modem write succeeds
and the allocations succeed, a call whose input converts to `w` samples while
the accumulator holds `u < 320` samples returns, issues exactly
`floor((u + w) / 320)` modem writes of 640 bytes, the `i`-th carrying samples
`320 i .. 320 i + 319` of the accumulated samples followed by the converted
input, and leaves the last `(u + w) mod 320` samples of that stream in the
accumulator; no write is issued while `u + w < 320`. -/
theorem downlink_writes_whole_periods (env : OutEnv) (op : Opened) (x : Nat)
    (buffer : List Int) (bytes fuel : Nat) (w : WriteState)
    (hready : ∀ t, env.pcm_is_ready t = true) (hwrite : ∀ t, (env.pcm_write t).ret = 0)
    (hmalloc : ∀ t, env.malloc_ok t = true)
    (hpcm : (w.hal.streams x).pcm SND_OUT_SOUND_CARD_BT = true)
    (hacc : ∀ b, (w.hal.streams x).simcom_buffer = some b →
      b.length = 320 ∧ (w.hal.streams x).simcom_buffer_used < 320)
    (hfuel : (downlinkSamples buffer bytes (op.cfg x).config_rate
      (op.cfg x).config_channels).length ≤ fuel) :
    ∃ w2, simcomDownlink env op fuel x buffer bytes w = some w2 ∧
      WholePeriods x (w.hal.owner SOUND_CARD_BT) (accumulated (w.hal.streams x))
        (downlinkSamples buffer bytes (op.cfg x).config_rate (op.cfg x).config_channels)
        w w2 := by
  obtain ⟨w2, h1, _, h3, h4, h5⟩ :=
    simcomDownlink_ok env op x buffer bytes fuel w hready hwrite hmalloc hpcm hacc hfuel
  refine ⟨w2, h1, h3, h4, h5, ?_⟩
  intro hlt
  rw [h3, Nat.div_eq_of_lt hlt]
  simp

/-- C13 on a stream at 44100 Hz stereo that owns the open modem PCM and holds
239 samples in its accumulator, with a write of 441 frames: the input converts
to 81 samples, the call returns, and the one period that the 320 samples make
is written. -/
theorem downlink_writes_whole_periods_witness :
    ((∀ t, (modemOnly fun _ => WriteOutcome.mk 0 0).pcm_is_ready t = true) ∧
      (∀ t, ((modemOnly fun _ => WriteOutcome.mk 0 0).pcm_write t).ret = 0) ∧
      (∀ t, (modemOnly fun _ => WriteOutcome.mk 0 0).malloc_ok t = true) ∧
      ((atModemHolding 239).hal.streams 0).pcm SND_OUT_SOUND_CARD_BT = true ∧
      (∀ b, ((atModemHolding 239).hal.streams 0).simcom_buffer = some b →
        b.length = 320 ∧ ((atModemHolding 239).hal.streams 0).simcom_buffer_used < 320) ∧
      (downlinkSamples (List.replicate 882 1) 1764 (oneStream44k.cfg 0).config_rate
        (oneStream44k.cfg 0).config_channels).length ≤ 81) ∧
    ((accumulated ((atModemHolding 239).hal.streams 0)).length +
      (downlinkSamples (List.replicate 882 1) 1764 (oneStream44k.cfg 0).config_rate
        (oneStream44k.cfg 0).config_channels).length) / 320 = 1 ∧
    ∃ w2, simcomDownlink (modemOnly fun _ => WriteOutcome.mk 0 0) oneStream44k 81 0
        (List.replicate 882 1) 1764 (atModemHolding 239) = some w2 ∧
      WholePeriods 0 ((atModemHolding 239).hal.owner SOUND_CARD_BT)
        (accumulated ((atModemHolding 239).hal.streams 0))
        (downlinkSamples (List.replicate 882 1) 1764 (oneStream44k.cfg 0).config_rate
          (oneStream44k.cfg 0).config_channels) (atModemHolding 239) w2 :=
  have hb : ((atModemHolding 239).hal.streams 0).simcom_buffer
      = some (List.replicate 239 7 ++ List.replicate (320 - 239) 0) := rfl
  have hacc : ∀ b, ((atModemHolding 239).hal.streams 0).simcom_buffer = some b →
      b.length = 320 ∧ ((atModemHolding 239).hal.streams 0).simcom_buffer_used < 320 := by
    intro b h
    rw [hb] at h
    cases h
    exact ⟨by decide!, by decide!⟩
  have hlen : (downlinkSamples (List.replicate 882 1) 1764 (oneStream44k.cfg 0).config_rate
      (oneStream44k.cfg 0).config_channels).length ≤ 81 := by decide!
  ⟨⟨fun _ => rfl, fun _ => rfl, fun _ => rfl, by decide, hacc, hlen⟩, by decide!,
   downlink_writes_whole_periods (modemOnly fun _ => WriteOutcome.mk 0 0) oneStream44k 0
     (List.replicate 882 1) 1764 81 (atModemHolding 239) (fun _ => rfl) (fun _ => rfl)
     (fun _ => rfl) (by decide) hacc hlen⟩

/-- C15 as stated fails in the downlink path, which has two recovery stages:
with `EIO` on every write, a modem PCM that was not started yet and one
sample completing a period, the one pass of the accumulation loop hands the
period to `pcm_write` three times (the write, the retry after the start
ioctl, the retry after prepare and start), not two, and the loop is left. -/
theorem downlink_eio_attempts_period_thrice :
    (downlinkLoop (modemOnly fun _ => WriteOutcome.mk (- EIO) EIO) 0 [7] 1 1
      (downlinkStart 319)).2 = true ∧
    (downlinkLoop (modemOnly fun _ => WriteOutcome.mk (- EIO) EIO) 0 [7] 1 1
      (downlinkStart 319)).1.writes.length = 3 ∧
    (∀ w ∈ (downlinkLoop (modemOnly fun _ => WriteOutcome.mk (- EIO) EIO) 0 [7] 1 1
        (downlinkStart 319)).1.writes,
      w = periodOf 0 (some 0) (List.replicate 319 0 ++ [7]) 0) ∧
    (periodOf 0 (some 0) (List.replicate 319 0 ++ [7]) 0).bytes = 640 := by
  decide!

/-- The unbounded retry of the downlink path: with the accumulator empty, an
input of 321 samples and a modem PCM whose every `pcm_write` returns `-EPIPE`,
the accumulation loop is never left, however many passes it is given, and it
hands the same period to `pcm_write` again on every pass (twice on the
first). -/
theorem downlink_epipe_retries_without_bound :
    ∀ fuel : Nat,
      (downlinkLoop (modemOnly fun _ => WriteOutcome.mk (-EPIPE) EPIPE) 0
        (List.replicate 321 1) 321 fuel (downlinkStart 0)).2 = false ∧
      fuel ≤ (downlinkLoop (modemOnly fun _ => WriteOutcome.mk (-EPIPE) EPIPE) 0
        (List.replicate 321 1) 321 fuel (downlinkStart 0)).1.writes.length ∧
      ∀ w ∈ (downlinkLoop (modemOnly fun _ => WriteOutcome.mk (-EPIPE) EPIPE) 0
          (List.replicate 321 1) 321 fuel (downlinkStart 0)).1.writes,
        w = periodOf 0 (some 0) (List.replicate 321 1) 0 := by
  intro fuel
  obtain ⟨h1, h2, h3⟩ := downlinkLoop_epipe (modemOnly fun _ => WriteOutcome.mk (-EPIPE) EPIPE) 0
    (List.replicate 321 1) 321 (fun _ => rfl) (fun _ => rfl) fuel (downlinkStart 0) rfl
    (by decide) (by decide)
  have e : (downlinkStart 0).writes = [] := rfl
  rw [e, List.length_nil, Nat.zero_add] at h2
  refine ⟨h1, h2, ?_⟩
  intro w hw
  rcases h3 w hw with h | h
  · rw [e] at h
    cases h
  · rw [h]
    unfold periodOf
    have := acc_take (List.replicate 320 0) (List.replicate 321 1) 0 0
      (by rw [List.length_replicate]) (by omega) (by rw [List.length_replicate]; omega)
    simp only [List.take_zero, List.nil_append, List.drop_zero, Nat.sub_zero] at this
    show PcmWrite.mk 0 SND_OUT_SOUND_CARD_BT (some 0) 640 true
      ((memcpy (List.replicate 320 0) 0 (List.replicate 321 1) 0 (320 - 0)).take 320) = _
    rw [Nat.sub_zero, this]
    rfl

/-- C15, as the code has it.  For every sequence of results of the modem
`pcm_write`: a pass of the uplink loop attempts its 640-byte period at most
twice, and the loop is over within four passes (more passes change nothing);
a pass of the downlink accumulation loop attempts its 640-byte period at most
three times; and when no write returns `-EPIPE`, a pass of the downlink loop
that attempted a period and goes on has written it and shifted it out of the
accumulator, and the loop is left within `2 * remaining + 1` passes, `remaining`
being the input samples not yet appended. -/
theorem modem_period_attempts (env : OutEnv) (x : Nat) (owner : Option Nat) (ws : List Int)
    (wf : Nat) :
    (∀ s : UplinkState, ∃ (p : PcmWrite) (n : Nat), n ≤ 2 ∧ p.bytes = 640 ∧
      (uplinkPeriod env x owner s).1.writes = s.writes ++ List.replicate n p) ∧
    (∀ (s : UplinkState) (k : Nat), s.iteration = 0 →
      uplinkLoop env x owner (4 + k) s = uplinkLoop env x owner 4 s) ∧
    (∀ s : DownlinkState, ∃ (p : PcmWrite) (n : Nat), n ≤ 3 ∧ p.bytes = 640 ∧
      (downlinkPeriod env x ws wf s).1.writes = s.writes ++ List.replicate n p ∧
      ((∀ t, (env.pcm_write t).ret ≠ -EPIPE) → s.simcom_buffer_used ≤ 320 →
        s.frames_appended < wf → (downlinkPeriod env x ws wf s).2 = true → 0 < n →
        (downlinkPeriod env x ws wf s).1.ret = 0 ∧
          (downlinkPeriod env x ws wf s).1.simcom_buffer_used < 320)) ∧
    ((∀ t, (env.pcm_write t).ret ≠ -EPIPE) → ∀ (s : DownlinkState) (fuel : Nat),
      s.simcom_buffer_used ≤ 320 → 2 * (wf - s.frames_appended) + 1 ≤ fuel →
      (downlinkLoop env x ws wf fuel s).2 = true) := by
  refine ⟨fun s => ?_, fun s k hs => ?_, fun s => ?_, fun hne s fuel hu hf => ?_⟩
  · obtain ⟨p, n, h1, h2, h3, _⟩ := uplinkPeriod_pass env x owner s
    exact ⟨p, n, h1, h2, h3⟩
  · exact uplinkLoop_finished env x owner k 4 s (by omega)
  · obtain ⟨p, n, h1, h2, h3, h4⟩ := downlinkPeriod_pass env x ws wf s
    refine ⟨p, n, h1, h2, h3, fun hne hu ha hc hn => ?_⟩
    rcases h4 hu ha hc with ⟨t, ht⟩ | ⟨a1, _, a3, _⟩
    · exact absurd ht (hne t)
    · exact ⟨a3 hn, a1⟩
  · apply downlinkLoop_terminates env x ws wf hne fuel s hu
    split_ifs <;> omega

/-- C15 as the code has it, with `EIO` on every write and one sample
completing a period: the accumulation loop is left. -/
theorem modem_period_attempts_witness :
    (∀ t, ((modemOnly fun _ => WriteOutcome.mk (- EIO) EIO).pcm_write t).ret ≠ -EPIPE) ∧
    (downlinkStart 319).simcom_buffer_used ≤ 320 ∧
    2 * (1 - (downlinkStart 319).frames_appended) + 1 ≤ 3 ∧
    (downlinkLoop (modemOnly fun _ => WriteOutcome.mk (- EIO) EIO) 0 [7] 1 3
      (downlinkStart 319)).2 = true :=
  ⟨fun _ => (by decide : (- EIO) ≠ -EPIPE), by decide, by decide,
    (modem_period_attempts (modemOnly fun _ => WriteOutcome.mk (- EIO) EIO) 0 none [7] 1).2.2.2
      (fun _ => (by decide : (- EIO) ≠ -EPIPE)) (downlinkStart 319) 3 (by decide) (by decide)⟩

/-! ## `out_write`: the return value -/

/-- The state `halInCall`: in a call, with no voice pipeline. -/
theorem halInCall_state :
    halInCall.adev.mode = AUDIO_MODE_IN_CALL ∧ halInCall.adev.simcom_voice_active = false ∧
      halInCall.adev.simcom_voice_pcm = none := by
  decide

theorem finalExit_returned (op : Opened) (x bytes : Nat) (w : WriteState) :
    (finalExit op x bytes w).returned = bytes ∧
    ((finalExit op x bytes w).hal.streams x).written =
      ((w.hal.streams x).written + bytes / ((op.cfg x).config_channels * 2)) % 2 ^ 64 := by
  unfold finalExit setStream
  simp

/-- Whenever `out_write` returns, it returns `bytes`. -/
theorem out_write_returns_bytes (env : OutEnv) (op : Opened) (fuel : Nat) (hal : Hal) (x : Nat)
    (buffer : List Int) (bytes : Nat) (r : OutWriteResult)
    (h : out_write env op fuel hal x buffer bytes = some r) : r.returned = bytes := by
  unfold out_write at h
  dsimp only at h
  split_ifs at h
  all_goals first
    | (cases h; rfl)
    | (rw [Option.map_eq_some'] at h
       obtain ⟨a, _, rfl⟩ := h
       rfl)

theorem simcomDownlink_stuck (env : OutEnv) (op : Opened) (x : Nat) (buffer : List Int)
    (bytes : Nat) (w : WriteState)
    (hready : ∀ t, env.pcm_is_ready t = true)
    (hwrite : ∀ t, env.pcm_write t = { ret := -EPIPE, errno := EPIPE })
    (hmalloc : ∀ t, env.malloc_ok t = true)
    (hpcm : (w.hal.streams x).pcm SND_OUT_SOUND_CARD_BT = true)
    (hbuf : (w.hal.streams x).simcom_buffer = none)
    (hlen : 320 < (downlinkSamples buffer bytes (op.cfg x).config_rate
      (op.cfg x).config_channels).length) (fuel : Nat) :
    simcomDownlink env op fuel x buffer bytes w = none := by
  have hm : ∀ (c : Prop) (t : Nat), ¬ (c ∧ env.malloc_ok t = false) := by
    intro c t h
    rw [hmalloc t] at h
    exact Bool.noConfusion h.2
  have key : ∀ s : DownlinkState, s.pcm = true → s.simcom_buffer_used = 0 →
      s.frames_appended = 0 →
      (downlinkLoop env x
        (downlinkSamples buffer bytes (op.cfg x).config_rate (op.cfg x).config_channels)
        (downlinkSamples buffer bytes (op.cfg x).config_rate (op.cfg x).config_channels).length
        fuel s).2 = false := by
    intro s h1 h2 h3
    apply (downlinkLoop_epipe env x _ _ hready hwrite fuel s h1 _ _).1
    · omega
    · omega
  unfold simcomDownlink
  dsimp only
  rw [if_neg (hm _ _), if_neg (hm _ _), hbuf, if_pos (key _ hpcm rfl rfl)]

theorem out_write_epipe_stuck (fuel : Nat) :
    out_write (modemOnly fun _ => WriteOutcome.mk (-EPIPE) EPIPE) oneStream8k fuel halInCall 0
      (List.replicate 321 1) 642 = none := by
  have h : out_write (modemOnly fun _ => WriteOutcome.mk (-EPIPE) EPIPE) oneStream8k fuel
      halInCall 0 (List.replicate 321 1) 642 =
      (simcomDownlink (modemOnly fun _ => WriteOutcome.mk (-EPIPE) EPIPE) oneStream8k fuel 0
        (List.replicate 321 1) 642
        { hal := setStream (modemStarted fun _ => WriteOutcome.mk (-EPIPE) EPIPE) 0
            { (modemStarted fun _ => WriteOutcome.mk (-EPIPE) EPIPE).streams 0 with
              usecase := USECASE_PRIMARY_PLAYBACK
              usecase_type := USECASE_TYPE_PCM_PLAYBACK }
          ret := -1, writes := [], stop := false }).map (finalExit oneStream8k 0 642) := by
    rfl
  rw [h, simcomDownlink_stuck _ _ _ _ _ _ (fun _ => rfl) (fun _ => rfl) (fun _ => rfl) rfl rfl]
  · rfl
  · show 320 < (readBlock (List.replicate 321 1) 0 321).length
    rw [readBlock_length]
    omega

/-! ## Ownership of the exclusive sinks -/

theorem inv_frame (env : OutEnv) (op : Opened) (hal hal2 : Hal) (h : OwnerInv env op hal)
    (ho : hal2.owner = hal.owner)
    (hp : ∀ y, (hal2.streams y).pcm SND_OUT_SOUND_CARD_BT =
      (hal.streams y).pcm SND_OUT_SOUND_CARD_BT) : OwnerInv env op hal2 := by
  refine ⟨fun s y hs hy => h.1 s y hs (by rw [← ho]; exact hy), fun y hy => ?_⟩
  rw [ho]
  exact h.2 y (by rw [← hp]; exact hy)

theorem setStream_pcm_bt (hal : Hal) (x : Nat) (out : stream_out) (c : Nat)
    (h : out.pcm c = (hal.streams x).pcm c) (y : Nat) :
    ((setStream hal x out).streams y).pcm c = (hal.streams y).pcm c := by
  unfold setStream
  by_cases hy : y = x
  · subst hy
    simp [h]
  · simp [Function.update, hy]

theorem setStream_inv (env : OutEnv) (op : Opened) (hal : Hal) (x : Nat) (out : stream_out)
    (h : OwnerInv env op hal)
    (hp : out.pcm SND_OUT_SOUND_CARD_BT = (hal.streams x).pcm SND_OUT_SOUND_CARD_BT) :
    OwnerInv env op (setStream hal x out) :=
  inv_frame env op hal _ h rfl (setStream_pcm_bt hal x out _ hp)

theorem setPcm_inv (env : OutEnv) (op : Opened) (hal : Hal) (x c : Nat) (b : Bool)
    (h : OwnerInv env op hal) (hc : c ≠ SND_OUT_SOUND_CARD_BT) :
    OwnerInv env op (setPcm hal x c b) := by
  unfold setPcm
  apply setStream_inv env op hal x _ h
  simp [Function.update, Ne.symm hc]

theorem setPcm_bt_inv (env : OutEnv) (op : Opened) (hal : Hal) (x : Nat) (b : Bool)
    (h : OwnerInv env op hal) (ho : b = true → hal.owner SOUND_CARD_BT = some x) :
    OwnerInv env op (setPcm hal x SND_OUT_SOUND_CARD_BT b) := by
  refine ⟨h.1, fun y hy => ?_⟩
  by_cases hyx : y = x
  · subst hyx
    apply ho
    simpa [setPcm, setStream] using hy
  · apply h.2 y
    simpa [setPcm, setStream, Function.update, hyx] using hy

theorem tick_inv (env : OutEnv) (op : Opened) (hal : Hal) (t : Nat) (h : OwnerInv env op hal) :
    OwnerInv env op { hal with tick := t } := h

/-- Clearing the owner of the BT card together with the BT PCM of the owner. -/
theorem release_bt_inv (env : OutEnv) (op : Opened) (hal : Hal) (x : Nat)
    (h : OwnerInv env op hal) (ho : hal.owner SOUND_CARD_BT = some x) :
    OwnerInv env op
      (setOwner (setPcm hal x SND_OUT_SOUND_CARD_BT false) SOUND_CARD_BT none) := by
  refine ⟨fun s y hs hy => h.1 s y hs ?_, fun y hy => ?_⟩
  · rcases hs with rfl | rfl <;>
      simpa [setOwner, setPcm, setStream, Function.update, SOUND_CARD_BT, SOUND_CARD_HDMI,
        SOUND_CARD_SPDIF] using hy
  · exfalso
    by_cases hyx : y = x
    · subst hyx
      simp [setOwner, setPcm, setStream] at hy
    · have := h.2 y (by simpa [setOwner, setPcm, setStream, Function.update, hyx] using hy)
      rw [ho] at this
      exact hyx (Option.some.inj this).symm

/-- Taking the free BT card. -/
theorem take_bt_inv (env : OutEnv) (op : Opened) (hal : Hal) (x : Nat)
    (h : OwnerInv env op hal) (ho : hal.owner SOUND_CARD_BT = none) :
    OwnerInv env op (setOwner hal SOUND_CARD_BT (some x)) := by
  refine ⟨fun s y hs hy => h.1 s y hs ?_, fun y hy => ?_⟩
  · rcases hs with rfl | rfl <;>
      simpa [setOwner, Function.update, SOUND_CARD_BT, SOUND_CARD_HDMI,
        SOUND_CARD_SPDIF] using hy
  · have := h.2 y hy
    rw [ho] at this
    exact Option.noConfusion this

/-- Taking the free HDMI or S/PDIF card by a direct stream. -/
theorem take_direct_inv (env : OutEnv) (op : Opened) (hal : Hal) (x s : Nat)
    (h : OwnerInv env op hal) (hs : s = SOUND_CARD_HDMI ∨ s = SOUND_CARD_SPDIF)
    (hx : env.hasExtCodec = false ∧ op.outputs OUTPUT_HDMI_MULTI = some x) :
    OwnerInv env op (setOwner hal s (some x)) := by
  refine ⟨fun s2 y hs2 hy => ?_, fun y hy => ?_⟩
  · by_cases e : s2 = s
    · subst e
      have : y = x := by simpa [setOwner] using hy.symm
      rw [this]
      exact hx
    · exact h.1 s2 y hs2 (by simpa [setOwner, Function.update, e] using hy)
  · have := h.2 y hy
    rcases hs with rfl | rfl <;>
      simpa [setOwner, Function.update, SOUND_CARD_BT, SOUND_CARD_HDMI, SOUND_CARD_SPDIF]
        using this

theorem standbyBody_inv (env : OutEnv) (op : Opened) (hal : Hal) (x : Nat)
    (h : OwnerInv env op hal) : OwnerInv env op (standbyBody env hal x) := by
  unfold standbyBody
  refine ⟨fun s y hs hy => h.1 s y hs ?_, fun y hy => ?_⟩
  · dsimp only [setStream] at hy
    rw [if_pos hs] at hy
    split_ifs at hy with hc
    exact hy
  · dsimp only [setStream] at hy ⊢
    rw [if_neg (by decide), if_pos rfl]
    by_cases hyx : y = x
    · subst hyx
      simp at hy
    · have hy2 : (hal.streams y).pcm SND_OUT_SOUND_CARD_BT = true := by
        simpa [Function.update, hyx] using hy
      have := h.2 y hy2
      rw [if_neg, this]
      rw [this]
      intro e
      exact hyx (Option.some.inj e)

theorem standbyOther_inv (env : OutEnv) (op : Opened) (hal : Hal) (x : Nat)
    (h : OwnerInv env op hal) : OwnerInv env op (standbyOther env hal x) := by
  unfold standbyOther
  split_ifs
  · exact standbyBody_inv env op hal x h
  · exact h

theorem force_inv (env : OutEnv) (op : Opened) (hal : Hal)
    (h : OwnerInv env op hal) : OwnerInv env op (force_non_hdmi_out_standby env op hal) := by
  have step : ∀ (h1 : Hal) (type : Nat), OwnerInv env op h1 →
      OwnerInv env op (match op.outputs type with
        | some y => standbyOther env h1 y
        | none => h1) := by
    intro h1 type hh
    cases op.outputs type with
    | none => exact hh
    | some y => exact standbyOther_inv env op h1 y hh
  unfold force_non_hdmi_out_standby
  simp only [List.foldl]
  exact step _ _ (step _ _ (step _ _ h))

theorem do_out_standby_inv (env : OutEnv) (op : Opened) (hal : Hal) (x : Nat)
    (h : OwnerInv env op hal) : OwnerInv env op (do_out_standby env op hal x) := by
  unfold do_out_standby
  split_ifs
  · exact standbyBody_inv env op _ x (force_inv env op hal h)
  · exact standbyBody_inv env op hal x h
  · exact h

theorem read_out_sound_card_inv (env : OutEnv) (op : Opened) (hal : Hal)
    (h : OwnerInv env op hal) : OwnerInv env op (read_out_sound_card env hal) := h

theorem open_sound_card_policy_inv (env : OutEnv) (op : Opened) (hal : Hal) (x : Nat)
    (h : OwnerInv env op hal) : OwnerInv env op (open_sound_card_policy op hal x) := by
  unfold open_sound_card_policy
  dsimp only
  split_ifs <;> first | exact h | exact setStream_inv env op hal x _ h rfl

theorem reactivateMicRoute_inv (env : OutEnv) (op : Opened) (hal : Hal)
    (h : OwnerInv env op hal) : OwnerInv env op (reactivateMicRoute hal) := h

theorem direct_is_multi (op : Opened)
    (hop : ∀ y, (op.cfg y).output_direct = true → op.outputs OUTPUT_HDMI_MULTI = some y)
    (x : Nat) (h : is_multi_pcm (op.cfg x) = true ∨ is_bitstream (op.cfg x) = true) :
    op.outputs OUTPUT_HDMI_MULTI = some x := by
  apply hop
  rcases h with h | h
  · unfold is_multi_pcm at h
    simp only [Bool.and_eq_true] at h
    exact h.1.1
  · unfold is_bitstream at h
    simp only [Bool.and_eq_true] at h
    exact h.1

theorem openHdmi_inv (env : OutEnv) (op : Opened)
    (hop : ∀ y, (op.cfg y).output_direct = true → op.outputs OUTPUT_HDMI_MULTI = some y)
    (hal : Hal) (x : Nat) (h : OwnerInv env op hal) :
    OwnerInv env op (openHdmi env op hal x).1 := by
  unfold openHdmi
  dsimp only
  have hp : OwnerInv env op (setPcm { hal with tick := hal.tick + 1 } x SND_OUT_SOUND_CARD_HDMI
      (env.pcm_open hal.tick).isSome) :=
    setPcm_inv env op _ x _ _ h (by decide)
  split_ifs with h1 h2 h3 h4 h5
  · exact hp
  · exact take_direct_inv env op _ x _ hp (Or.inl rfl) ⟨h5.1, direct_is_multi op hop x h5.2⟩
  · exact hp
  · exact h
  · exact setStream_inv env op hal x _ h rfl
  · exact h

theorem openSpdif_inv (env : OutEnv) (op : Opened)
    (hop : ∀ y, (op.cfg y).output_direct = true → op.outputs OUTPUT_HDMI_MULTI = some y)
    (hal : Hal) (x : Nat) (h : OwnerInv env op hal) :
    OwnerInv env op (openSpdif env op hal x).1 := by
  unfold openSpdif
  dsimp only
  have hp : OwnerInv env op (setPcm { hal with tick := hal.tick + 1 } x
      SND_OUT_SOUND_CARD_SPDIF (env.pcm_open hal.tick).isSome) :=
    setPcm_inv env op _ x _ _ h (by decide)
  split_ifs with h1 h2 h3 h4 h5
  · exact hp
  · exact take_direct_inv env op _ x _ hp (Or.inr rfl) ⟨h5.1, direct_is_multi op hop x h5.2⟩
  · exact hp
  · exact h
  · exact h
  · exact h

theorem openSpeaker_inv (env : OutEnv) (op : Opened) (hal : Hal) (x : Nat)
    (h : OwnerInv env op hal) : OwnerInv env op (openSpeaker env hal x).1 := by
  unfold openSpeaker
  dsimp only
  have hp : OwnerInv env op (setPcm { hal with tick := hal.tick + 1 } x
      SND_OUT_SOUND_CARD_SPEAKER (env.pcm_open hal.tick).isSome) :=
    setPcm_inv env op _ x _ _ h (by decide)
  split_ifs
  · exact hp
  · exact hp
  · exact h
  · exact h

theorem ite_both {α : Type} (P : α → Prop) (c : Prop) [Decidable c] (a b : α)
    (ha : P a) (hb : P b) : P (if c then a else b) := by
  split_ifs
  · exact ha
  · exact hb

theorem openModemPcm_inv (env : OutEnv) (op : Opened) (hal : Hal) (x : Nat)
    (h : OwnerInv env op hal) (ho : hal.owner SOUND_CARD_BT = some x) :
    OwnerInv env op (openModemPcm env hal x) := by
  have h1 : OwnerInv env op (setPcm { hal with tick := hal.tick + 1 } x SND_OUT_SOUND_CARD_BT
      (env.pcm_open hal.tick).isSome) :=
    setPcm_bt_inv env op { hal with tick := hal.tick + 1 } x _ h (fun _ => ho)
  have h2 : OwnerInv env op { (setPcm { hal with tick := hal.tick + 1 } x SND_OUT_SOUND_CARD_BT
      (env.pcm_open hal.tick).isSome) with tick := hal.tick + 1 + 1 } := h1
  unfold openModemPcm
  dsimp only
  cases hp : env.pcm_open hal.tick with
  | none =>
    rw [hp] at h1
    exact h1
  | some b =>
    rw [hp] at h1 h2
    cases b with
    | false => exact release_bt_inv env op _ x h1 ho
    | true =>
      dsimp only
      split_ifs
      · exact release_bt_inv env op _ x h2 ho
      · exact h2

theorem openSimcom_inv (env : OutEnv) (op : Opened) (hal : Hal) (x : Nat)
    (h : OwnerInv env op hal) : OwnerInv env op (openSimcom env hal x) := by
  unfold openSimcom
  split_ifs with h1 h2 h3 h4 h5
  · exact openModemPcm_inv env op _ x (take_bt_inv env op hal x h h2) (by simp [setOwner])
  · exact openModemPcm_inv env op hal x h h3
  · exact setPcm_bt_inv env op { hal with tick := hal.tick + 1 } x false h
      (fun e => Bool.noConfusion e)
  · exact h
  · exact h
  · exact h

theorem openSco_inv (env : OutEnv) (op : Opened) (hal : Hal) (x : Nat)
    (h : OwnerInv env op hal) : OwnerInv env op (openSco env hal x) := by
  unfold openSco
  dsimp only
  split_ifs with h1 h2 h3 h4
  · exact h
  · exact h
  · have ho : hal.owner SOUND_CARD_BT = none := not_not.mp h4
    have hf : OwnerInv env op (setPcm { hal with tick := hal.tick + 1 } x SND_OUT_SOUND_CARD_BT
        false) :=
      setPcm_bt_inv env op { hal with tick := hal.tick + 1 } x false h
        (fun e => Bool.noConfusion e)
    cases hp : env.pcm_open hal.tick with
    | none => exact hf
    | some b =>
      cases b with
      | false =>
        dsimp only
        have e : setPcm (setPcm { hal with tick := hal.tick + 1 } x SND_OUT_SOUND_CARD_BT
            (some false).isSome) x SND_OUT_SOUND_CARD_BT false =
            setPcm { hal with tick := hal.tick + 1 } x SND_OUT_SOUND_CARD_BT false := by
          simp [setPcm, setStream]
        rw [e]
        exact hf
      | true =>
        dsimp only
        apply setStream_inv
        · have t := take_bt_inv env op { hal with tick := hal.tick + 1 + 1 + 1 } x h ho
          have := setPcm_bt_inv env op _ x true t (fun _ => by simp [setOwner])
          refine inv_frame env op _ _ this ?_ ?_
          · rfl
          · intro y
            rfl
        · rfl
  · exact h
  · exact h

theorem start_output_stream_inv (env : OutEnv) (op : Opened)
    (hop : ∀ y, (op.cfg y).output_direct = true → op.outputs OUTPUT_HDMI_MULTI = some y)
    (hal : Hal) (x : Nat) (h : OwnerInv env op hal) :
    OwnerInv env op (start_output_stream env op hal x).1 := by
  unfold start_output_stream
  dsimp only
  generalize hh0 : (if op.outputs OUTPUT_HDMI_MULTI = some x then
    force_non_hdmi_out_standby env op hal else hal) = h0
  have i0 : OwnerInv env op h0 := by
    rw [← hh0]
    split_ifs
    · exact force_inv env op hal h
    · exact h
  refine ite_both (fun r : Hal × Int => OwnerInv env op r.1) _ _ _ ?_ ?_
  · exact setStream_inv env op h0 x _ i0 rfl
  · have i1 : OwnerInv env op (setStream h0 x { h0.streams x with disabled := false }) :=
      setStream_inv env op h0 x _ i0 rfl
    generalize setStream h0 x { h0.streams x with disabled := false } = g1 at i1 ⊢
    have i2 := read_out_sound_card_inv env op g1 i1
    generalize read_out_sound_card env g1 = g2 at i2 ⊢
    have i3 : OwnerInv env op
        (if env.hasExtCodec = false then open_sound_card_policy op g2 x else g2) := by
      split_ifs
      · exact open_sound_card_policy_inv env op g2 x i2
      · exact i2
    generalize (if env.hasExtCodec = false then open_sound_card_policy op g2 x else g2) = g3
      at i3 ⊢
    have i4 := reactivateMicRoute_inv env op g3 i3
    generalize reactivateMicRoute g3 = g4 at i4 ⊢
    have ia := openHdmi_inv env op hop g4 x i4
    generalize openHdmi env op g4 x = a at ia ⊢
    rcases a with ⟨a1, _ | r⟩
    · have ib := openSpeaker_inv env op a1 x ia
      generalize openSpeaker env a1 x = b at ib ⊢
      rcases b with ⟨b1, _ | r⟩
      · have i5 := openSimcom_inv env op b1 x ib
        generalize openSimcom env b1 x = g5 at i5 ⊢
        have ic := openSpdif_inv env op hop g5 x i5
        generalize openSpdif env op g5 x = c at ic ⊢
        rcases c with ⟨c1, _ | r⟩
        · exact openSco_inv env op c1 x ic
        · exact ic
      · exact ib
    · exact ia

theorem own_keep (x : Nat) (s d d2 : DownlinkState) (b : Bool)
    (h : (∀ e ∈ d.writes, e ∈ s.writes ∨
      (e.stream = x ∧ e.card = SND_OUT_SOUND_CARD_BT ∧ e.owner = s.owner)) ∧
      d.owner = s.owner ∧ d.pcm = s.pcm)
    (hw : d2.writes = d.writes) (ho : d2.owner = d.owner) (hp : d2.pcm = d.pcm) :
    (∀ e ∈ (d2, b).1.writes, e ∈ s.writes ∨
      (e.stream = x ∧ e.card = SND_OUT_SOUND_CARD_BT ∧ e.owner = s.owner)) ∧
    (((d2, b).1.owner = s.owner ∧ (d2, b).1.pcm = s.pcm) ∨
      ((d2, b).2 = false ∧ (d2, b).1.pcm = false ∧ (d2, b).1.owner = none)) := by
  dsimp only
  rw [hw, ho, hp]
  exact ⟨h.1, Or.inl h.2⟩

theorem own_release (x : Nat) (s d d2 : DownlinkState)
    (h : (∀ e ∈ d.writes, e ∈ s.writes ∨
      (e.stream = x ∧ e.card = SND_OUT_SOUND_CARD_BT ∧ e.owner = s.owner)) ∧
      d.owner = s.owner ∧ d.pcm = s.pcm)
    (hw : d2.writes = d.writes) (ho : d2.owner = none) (hp : d2.pcm = false) :
    (∀ e ∈ (d2, false).1.writes, e ∈ s.writes ∨
      (e.stream = x ∧ e.card = SND_OUT_SOUND_CARD_BT ∧ e.owner = s.owner)) ∧
    (((d2, false).1.owner = s.owner ∧ (d2, false).1.pcm = s.pcm) ∨
      ((d2, false).2 = false ∧ (d2, false).1.pcm = false ∧ (d2, false).1.owner = none)) := by
  dsimp only
  rw [hw]
  exact ⟨h.1, Or.inr ⟨rfl, hp, ho⟩⟩

theorem downlinkPeriod_own (env : OutEnv) (x : Nat) (ws : List Int) (wf : Nat)
    (s : DownlinkState) :
    (∀ e ∈ (downlinkPeriod env x ws wf s).1.writes, e ∈ s.writes ∨
      (e.stream = x ∧ e.card = SND_OUT_SOUND_CARD_BT ∧ e.owner = s.owner)) ∧
    (((downlinkPeriod env x ws wf s).1.owner = s.owner ∧
        (downlinkPeriod env x ws wf s).1.pcm = s.pcm) ∨
      ((downlinkPeriod env x ws wf s).2 = false ∧ (downlinkPeriod env x ws wf s).1.pcm = false ∧
        (downlinkPeriod env x ws wf s).1.owner = none)) := by
  generalize hr : downlinkPeriod env x ws wf s = r
  unfold downlinkPeriod at hr
  lift_lets at hr
  extract_lets space ftc s1 ready t period w1 s2 first_try w2 s3 e3 io w3 s4 e4 at hr
  have hper : period.stream = x ∧ period.card = SND_OUT_SOUND_CARD_BT ∧ period.owner = s.owner :=
    ⟨rfl, rfl, rfl⟩
  have app : ∀ (l : List PcmWrite) (e : PcmWrite),
      (∀ e ∈ l, e ∈ s.writes ∨
        (e.stream = x ∧ e.card = SND_OUT_SOUND_CARD_BT ∧ e.owner = s.owner)) →
      e ∈ l ++ [period] → e ∈ s.writes ∨
        (e.stream = x ∧ e.card = SND_OUT_SOUND_CARD_BT ∧ e.owner = s.owner) := by
    intro l e hl he
    rcases List.mem_append.mp he with h | h
    · exact hl e h
    · rw [List.mem_singleton.mp h]
      exact Or.inr hper
  clear_value period
  have f1 : (∀ e ∈ s1.writes, e ∈ s.writes ∨
      (e.stream = x ∧ e.card = SND_OUT_SOUND_CARD_BT ∧ e.owner = s.owner)) ∧
      s1.owner = s.owner ∧ s1.pcm = s.pcm :=
    ⟨fun _ h => Or.inl h, rfl, rfl⟩
  have f2 : (∀ e ∈ s2.writes, e ∈ s.writes ∨
      (e.stream = x ∧ e.card = SND_OUT_SOUND_CARD_BT ∧ e.owner = s.owner)) ∧
      s2.owner = s.owner ∧ s2.pcm = s.pcm :=
    ⟨fun e he => app s1.writes e f1.1 he, rfl, rfl⟩
  clear_value s1
  have f3 : (∀ e ∈ s3.writes, e ∈ s.writes ∨
      (e.stream = x ∧ e.card = SND_OUT_SOUND_CARD_BT ∧ e.owner = s.owner)) ∧
      s3.owner = s.owner ∧ s3.pcm = s.pcm := by
    show (∀ e ∈ (if first_try = true then _ else s2).writes, _) ∧
      (if first_try = true then _ else s2).owner = _ ∧
      (if first_try = true then _ else s2).pcm = _
    split_ifs
    · exact ⟨fun e he => app s2.writes e f2.1 he, f2.2.1, f2.2.2⟩
    · exact f2
  clear_value s2
  have f4 : (∀ e ∈ s4.writes, e ∈ s.writes ∨
      (e.stream = x ∧ e.card = SND_OUT_SOUND_CARD_BT ∧ e.owner = s.owner)) ∧
      s4.owner = s.owner ∧ s4.pcm = s.pcm := by
    show (∀ e ∈ (if io = true then _ else s3).writes, _) ∧
      (if io = true then _ else s3).owner = _ ∧
      (if io = true then _ else s3).pcm = _
    split_ifs
    · exact ⟨fun e he => app s3.writes e f3.1 he, f3.2.1, f3.2.2⟩
    · exact f3
  clear_value s3 s4 e4 io e3 first_try
  split_ifs at hr <;> subst hr
  · exact own_keep x s s1 _ _ f1 rfl rfl rfl
  · exact own_keep x s s1 _ _ f1 rfl rfl rfl
  · exact own_keep x s s1 _ _ f1 rfl rfl rfl
  · exact own_keep x s s2 _ _ f2 (periodDone_keeps _).1 (periodDone_keeps _).2.1
      (periodDone_keeps _).2.2
  · exact own_keep x s s3 _ _ f3 (periodDone_keeps _).1 (periodDone_keeps _).2.1
      (periodDone_keeps _).2.2
  · exact own_keep x s s3 _ _ f3 rfl rfl rfl
  · exact own_keep x s s4 _ _ f4 (periodDone_keeps _).1 (periodDone_keeps _).2.1
      (periodDone_keeps _).2.2
  · exact own_release x s s4 _ f4 rfl rfl rfl
  · exact own_keep x s s4 _ _ f4 rfl rfl rfl

theorem downlinkLoop_own (env : OutEnv) (x : Nat) (ws : List Int) (wf : Nat) :
    ∀ (fuel : Nat) (s : DownlinkState),
      (∀ e ∈ (downlinkLoop env x ws wf fuel s).1.writes, e ∈ s.writes ∨
        (e.stream = x ∧ e.card = SND_OUT_SOUND_CARD_BT ∧ e.owner = s.owner)) ∧
      (((downlinkLoop env x ws wf fuel s).1.owner = s.owner ∧
          (downlinkLoop env x ws wf fuel s).1.pcm = s.pcm) ∨
        ((downlinkLoop env x ws wf fuel s).1.pcm = false ∧
          (downlinkLoop env x ws wf fuel s).1.owner = none)) := by
  intro fuel
  induction fuel with
  | zero =>
    intro s
    exact ⟨fun e he => Or.inl he, Or.inl ⟨rfl, rfl⟩⟩
  | succ n ih =>
    intro s
    unfold downlinkLoop
    have hp := downlinkPeriod_own env x ws wf s
    generalize downlinkPeriod env x ws wf s = r at hp ⊢
    dsimp only
    split_ifs with h1 h2
    · rcases hp.2 with ⟨ho, hc⟩ | ⟨hf, _⟩
      · have := ih r.1
        rw [ho, hc] at this
        refine ⟨fun e he => ?_, this.2⟩
        rcases this.1 e he with h | h
        · exact hp.1 e h
        · exact Or.inr h
      · rw [h2] at hf
        exact Bool.noConfusion hf
    · refine ⟨hp.1, ?_⟩
      rcases hp.2 with h | ⟨_, h⟩
      · exact Or.inl h
      · exact Or.inr h
    · exact ⟨fun e he => Or.inl he, Or.inl ⟨rfl, rfl⟩⟩

theorem plainWrite_good (env : OutEnv) (op : Opened) (x card bytes : Nat) (w : WriteState)
    (h : GoodWrites env op x w)
    (h1 : ∀ y, ownerAt w.hal card = some y → y = x)
    (h2 : card = SND_OUT_SOUND_CARD_BT → ownerAt w.hal card = some x) :
    GoodWrites env op x (plainWrite env x card bytes w) := by
  refine ⟨h.1, fun e he => ?_⟩
  unfold plainWrite at he
  rcases List.mem_append.mp he with h3 | h3
  · exact h.2 e h3
  · rw [List.mem_singleton.mp h3]
    exact ⟨rfl, h1, h2⟩

theorem good_of_eq (env : OutEnv) (op : Opened) (x : Nat) (w w2 : WriteState)
    (h : GoodWrites env op x w) (hh : w2.hal = w.hal) (hw : w2.writes = w.writes) :
    GoodWrites env op x w2 := by
  unfold GoodWrites
  rw [hh, hw]
  exact h

theorem cardStep_good (env : OutEnv) (op : Opened) (x card bytes : Nat) (w : WriteState)
    (h : GoodWrites env op x w)
    (hc : card = SND_OUT_SOUND_CARD_SPEAKER ∨ card = SND_OUT_SOUND_CARD_HDMI ∨
      card = SND_OUT_SOUND_CARD_SPDIF) :
    GoodWrites env op x (cardStep env x card bytes w) := by
  unfold cardStep
  split_ifs with hg
  · exact h
  · apply plainWrite_good env op x card bytes w h
    · intro y hy
      rcases hc with rfl | rfl | rfl
      · exact Option.noConfusion hy
      · have hy2 : w.hal.owner SOUND_CARD_HDMI = some y := hy
        have := h.1.1 _ y (Or.inl rfl) hy2
        by_contra hne
        apply hg
        refine ⟨this.1, Or.inl ⟨rfl, ?_, ?_⟩⟩
        · rw [hy2]
          intro e
          exact hne (Option.some.inj e)
        · rw [hy2]
          exact Option.noConfusion
      · have hy2 : w.hal.owner SOUND_CARD_SPDIF = some y := hy
        have := h.1.1 _ y (Or.inr rfl) hy2
        by_contra hne
        apply hg
        refine ⟨this.1, Or.inr ⟨rfl, ?_, ?_⟩⟩
        · rw [hy2]
          intro e
          exact hne (Option.some.inj e)
        · rw [hy2]
          exact Option.noConfusion
    · intro e
      rcases hc with rfl | rfl | rfl <;> exact absurd e (by decide)

theorem writeCard_good (env : OutEnv) (op : Opened) (x card bytes : Nat) (w : WriteState)
    (h : GoodWrites env op x w)
    (hc : card = SND_OUT_SOUND_CARD_SPEAKER ∨ card = SND_OUT_SOUND_CARD_HDMI ∨
      card = SND_OUT_SOUND_CARD_SPDIF) :
    GoodWrites env op x (writeCard env x bytes w card) := by
  unfold writeCard
  split_ifs
  · exact h
  · exact h
  · exact cardStep_good env op x card bytes w h hc

theorem bitstream_write_data_good (env : OutEnv) (op : Opened)
    (hop : ∀ y, (op.cfg y).output_direct = true → op.outputs OUTPUT_HDMI_MULTI = some y)
    (x bytes : Nat) (w : WriteState) (h : GoodWrites env op x w) :
    GoodWrites env op x (bitstream_write_data env op x bytes w) := by
  have key : ∀ n, (is_multi_pcm (op.cfg x) = true ∨ is_bitstream (op.cfg x) = true) →
      GoodWrites env op x (plainWrite env x SND_OUT_SOUND_CARD_HDMI n w) := by
    intro n hd
    apply plainWrite_good env op x _ n w h
    · intro y hy
      have hy2 : w.hal.owner SOUND_CARD_HDMI = some y := hy
      have h1 := (h.1.1 _ y (Or.inl rfl) hy2).2
      rw [direct_is_multi op hop x hd] at h1
      exact (Option.some.inj h1).symm
    · intro e
      exact absurd e (by decide)
  unfold bitstream_write_data
  split_ifs with h1 h2 h3 h4 h5
  · exact good_of_eq env op x w _ h rfl rfl
  · exact good_of_eq env op x _ _ (key bytes h2.2) rfl rfl
  · exact good_of_eq env op x _ _ (key (2 * bytes) h2.2) rfl rfl
  · exact good_of_eq env op x w _ h rfl rfl
  · exact good_of_eq env op x w _ h rfl rfl
  · exact good_of_eq env op x w _ h rfl rfl

theorem simcomUplink_good (env : OutEnv) (op : Opened) (x : Nat) (w : WriteState)
    (h : GoodWrites env op x w) (ho : w.hal.owner SOUND_CARD_BT = some x) :
    GoodWrites env op x (simcomUplink env x w) := by
  unfold simcomUplink
  dsimp only
  split_ifs with h1
  · obtain ⟨ws, fs, e1, _, _, _, e5⟩ := uplinkLoop_adds env x (w.hal.owner SOUND_CARD_BT) 4
      { adev := (simcom_voice_ensure_ring env.ext w.hal.adev).1.ring
        uplink_buffer := uplinkStack env w.hal.tick
        simcom_pcm_started := (w.hal.streams x).simcom_pcm_started
        ret := w.ret
        iteration := 0
        total_processed := 0
        tick := w.hal.tick + 1
        writes := w.writes
        fetched_log := [] }
    refine ⟨?_, fun e he => ?_⟩
    · exact setStream_inv env op _ x _ h.1 rfl
    · have he2 : e ∈ w.writes ++ ws := by
        rw [← e1]
        exact he
      rcases List.mem_append.mp he2 with h3 | h3
      · exact h.2 e h3
      · obtain ⟨a1, a2, a3, _⟩ := e5 e h3
        refine ⟨a1, fun y hy => ?_, fun _ => ?_⟩
        · rw [a3, ho] at hy
          exact (Option.some.inj hy).symm
        · rw [a3, ho]
  · exact ⟨h.1, h.2⟩

theorem simcomDownlink_good (env : OutEnv) (op : Opened) (fuel x : Nat) (buffer : List Int)
    (bytes : Nat) (w w2 : WriteState) (h : GoodWrites env op x w)
    (ho : w.hal.owner SOUND_CARD_BT = some x)
    (hr : simcomDownlink env op fuel x buffer bytes w = some w2) :
    GoodWrites env op x w2 := by
  unfold simcomDownlink at hr
  lift_lets at hr
  extract_lets out alloc src t1 buf used in_rate in_channels needs t2 ws r d at hr
  have hown : (∀ e ∈ d.writes, e ∈ w.writes ∨
        (e.stream = x ∧ e.card = SND_OUT_SOUND_CARD_BT ∧ e.owner = w.hal.owner SOUND_CARD_BT)) ∧
      ((d.owner = w.hal.owner SOUND_CARD_BT ∧ d.pcm = out.pcm SND_OUT_SOUND_CARD_BT) ∨
        (d.pcm = false ∧ d.owner = none)) :=
    downlinkLoop_own env x ws ws.length fuel
      { simcom_buffer := buf, simcom_buffer_used := used
        simcom_pcm_started := out.simcom_pcm_started
        simcom_periods_written := out.simcom_periods_written
        pcm := out.pcm SND_OUT_SOUND_CARD_BT
        owner := w.hal.owner SOUND_CARD_BT, frames_appended := 0, ret := w.ret
        tick := t2, writes := w.writes }
  have hout : out = w.hal.streams x := rfl
  have hsrc : src = w.hal := rfl
  clear_value d r ws buf used t1 t2 out src
  subst hsrc
  split_ifs at hr
  · cases hr
    exact ⟨h.1, h.2⟩
  · cases hr
    refine ⟨setStream_inv env op _ x _ h.1 ?_, h.2⟩
    rw [hout]
  · cases hr
    refine ⟨?_, fun e he => ?_⟩
    · dsimp only
      rcases hown.2 with ⟨a1, a2⟩ | ⟨a1, a2⟩
      · rw [a1, ho, a2, hout]
        have e1 : Function.update (w.hal.streams x).pcm SND_OUT_SOUND_CARD_BT
            ((w.hal.streams x).pcm SND_OUT_SOUND_CARD_BT) = (w.hal.streams x).pcm :=
          Function.update_eq_self _ _
        rw [e1]
        refine inv_frame env op w.hal _ h.1 ?_ ?_
        · show Function.update w.hal.owner SOUND_CARD_BT (some x) = w.hal.owner
          rw [← ho]
          exact Function.update_eq_self _ _
        · intro y
          exact setStream_pcm_bt _ x _ SND_OUT_SOUND_CARD_BT (by rfl) y
      · rw [a1, a2, hout]
        have := release_bt_inv env op { w.hal with tick := d.tick } x h.1 ho
        refine inv_frame env op _ _ this rfl ?_
        intro y
        by_cases hyx : y = x
        · subst hyx
          simp [setOwner, setPcm, setStream]
        · simp [setOwner, setPcm, setStream, Function.update, hyx]
    · rcases hown.1 e he with h3 | ⟨a1, a2, a3⟩
      · exact h.2 e h3
      · rw [ho] at a3
        refine ⟨a1, fun y hy => ?_, fun _ => a3⟩
        rw [a3] at hy
        exact (Option.some.inj hy).symm

theorem btStep_good (env : OutEnv) (op : Opened) (fuel x : Nat) (buffer : List Int)
    (bytes : Nat) (w w2 : WriteState) (h : GoodWrites env op x w)
    (hp : (w.hal.streams x).pcm SND_OUT_SOUND_CARD_BT = true)
    (hr : btStep env op fuel x buffer bytes w = some w2) :
    GoodWrites env op x w2 := by
  have ho : w.hal.owner SOUND_CARD_BT = some x := h.1.2 x hp
  unfold btStep at hr
  lift_lets at hr
  extract_lets out w1 at hr
  have g1 : GoodWrites env op x w1 := ⟨setStream_inv env op w.hal x _ h.1 rfl, h.2⟩
  have ho1 : w1.hal.owner SOUND_CARD_BT = some x := ho
  have key : ∀ (n : Nat) (v : WriteState), GoodWrites env op x v →
      v.hal.owner SOUND_CARD_BT = some x →
      GoodWrites env op x (plainWrite env x SND_OUT_SOUND_CARD_BT n v) := by
    intro n v gv hv
    apply plainWrite_good env op x _ n v gv
    · intro y hy
      have hy2 : v.hal.owner SOUND_CARD_BT = some y := hy
      rw [hv] at hy2
      exact (Option.some.inj hy2).symm
    · intro _
      exact hv
  clear_value w1 out
  split_ifs at hr with c1 c2 c3 c4
  · cases hr
    exact g1
  · cases hr
    exact simcomUplink_good env op x w1 g1 ho1
  · exact simcomDownlink_good env op fuel x buffer bytes w1 w2 g1 ho1 hr
  · cases hr
    exact key _ _ ⟨h.1, h.2⟩ ho
  · cases hr
    exact key _ _ h ho

theorem writeBt_good (env : OutEnv) (op : Opened) (fuel x : Nat) (buffer : List Int)
    (bytes : Nat) (w w2 : WriteState) (h : GoodWrites env op x w)
    (hr : writeBt env op fuel x buffer bytes w = some w2) :
    GoodWrites env op x w2 := by
  unfold writeBt at hr
  split_ifs at hr with c1 c2
  · cases hr
    exact h
  · cases hr
    exact h
  · exact btStep_good env op fuel x buffer bytes w w2 h (by simpa using c2) hr

theorem finalExit_good (env : OutEnv) (op : Opened) (x bytes : Nat) (w : WriteState)
    (h : GoodWrites env op x w) :
    OwnerInv env op (finalExit op x bytes w).hal ∧
      ∀ e ∈ (finalExit op x bytes w).writes, OwnWrite x e :=
  ⟨setStream_inv env op w.hal x _ h.1 rfl, h.2⟩

theorem out_write_good (env : OutEnv) (op : Opened)
    (hop : ∀ y, (op.cfg y).output_direct = true → op.outputs OUTPUT_HDMI_MULTI = some y)
    (fuel : Nat) (hal : Hal) (x : Nat) (buffer : List Int) (bytes : Nat) (r : OutWriteResult)
    (h : OwnerInv env op hal) (hr : out_write env op fuel hal x buffer bytes = some r) :
    OwnerInv env op r.hal ∧ ∀ e ∈ r.writes, OwnWrite x e := by
  unfold out_write at hr
  lift_lets at hr
  extract_lets started src h1 w0 w1 w2 at hr
  have is : OwnerInv env op started.1 := by
    show OwnerInv env op (if (hal.streams x).standby = true then _ else (hal, 0)).1
    split_ifs
    · exact start_output_stream_inv env op hop hal x h
    · exact h
  have i1 : OwnerInv env op h1 := by
    show OwnerInv env op (if (hal.streams x).standby = true then _ else hal)
    split_ifs
    · exact setStream_inv env op _ x _ is rfl
    · exact h
  have g0 : GoodWrites env op x w0 := ⟨i1, fun e he => by cases he⟩
  have g1 : GoodWrites env op x w1 := ⟨i1, fun e he => by cases he⟩
  have g2 : GoodWrites env op x w2 := by
    show GoodWrites env op x (List.foldl _ w1 _)
    simp only [List.foldl]
    exact writeCard_good env op x _ bytes _
      (writeCard_good env op x _ bytes _
        (writeCard_good env op x _ bytes _ g1 (Or.inl rfl)) (Or.inr (Or.inl rfl)))
      (Or.inr (Or.inr rfl))
  clear_value w2 w1 w0 h1 src started
  split_ifs at hr
  · cases hr
    exact finalExit_good env op x bytes _ ⟨is, fun e he => by cases he⟩
  · cases hr
    exact finalExit_good env op x bytes _ ⟨g0.1, g0.2⟩
  · cases hr
    exact finalExit_good env op x bytes _ (bitstream_write_data_good env op hop x bytes w0 g0)
  · cases hr
    exact finalExit_good env op x bytes _ g0
  · rw [Option.map_eq_some'] at hr
    obtain ⟨a, ha, rfl⟩ := hr
    exact finalExit_good env op x bytes _ (writeBt_good env op fuel x buffer bytes w2 a g2 ha)

theorem applyOutOp_inv (env : OutEnv) (op : Opened)
    (hop : ∀ y, (op.cfg y).output_direct = true → op.outputs OUTPUT_HDMI_MULTI = some y)
    (hal : Hal) (o : OutOp) (h : OwnerInv env op hal) :
    OwnerInv env op (applyOutOp env op hal o) := by
  cases o with
  | start x => exact start_output_stream_inv env op hop hal x h
  | write x buffer bytes fuel =>
    show OwnerInv env op (match out_write env op fuel hal x buffer bytes with
      | some r => r.hal
      | none => hal)
    cases hr : out_write env op fuel hal x buffer bytes with
    | none => exact h
    | some r => exact (out_write_good env op hop fuel hal x buffer bytes r h hr).1
  | standby x => exact do_out_standby_inv env op hal x h

theorem runOutOps_inv (env : OutEnv) (op : Opened)
    (hop : ∀ y, (op.cfg y).output_direct = true → op.outputs OUTPUT_HDMI_MULTI = some y)
    (ops : List OutOp) : ∀ hal : Hal, OwnerInv env op hal →
      OwnerInv env op (runOutOps env op hal ops) := by
  induction ops with
  | nil =>
    intro hal h
    exact h
  | cons o rest ih =>
    intro hal h
    exact ih _ (applyOutOp_inv env op hop hal o h)

/-! ## Playback: the claims -/

set_option maxRecDepth 100000 in
/-- C14, on the code: on the modem-only set-up, `out_write` of 642 bytes (321
samples at 8 kHz mono) on the freshly opened stream 0 during a call, with every
modem `pcm_write` returning `-EPIPE`, does not return: the accumulation loop is
still running after any number of passes.  With the writes succeeding the same
call returns 642, the frame counter has grown by `642 / (1 * 2) = 321` and one
period was written. -/
theorem out_write_hangs_on_epipe :
    (∀ fuel : Nat,
      out_write (modemOnly fun _ => WriteOutcome.mk (-EPIPE) EPIPE) oneStream8k fuel halInCall 0
        (List.replicate 321 1) 642 = none) ∧
    (out_write (modemOnly fun _ => WriteOutcome.mk 0 0) oneStream8k 2 halInCall 0
      (List.replicate 321 1) 642).map
        (fun r => (r.returned, (r.hal.streams 0).written, r.writes.length)) =
      some (642, 321, 1) :=
  ⟨out_write_epipe_stuck, by decide⟩

/-- C16: start from a device on which no sink has a recorded owner and no
stream has its BT PCM open, with each direct stream being the stream of
`outputs[OUTPUT_HDMI_MULTI]` as `adev_open_output_stream` arranges it.  After
any run of `start_output_stream`, `out_write` and `do_out_standby` calls on any
streams, with any answers of the outside world, every `pcm_write` that an
`out_write` on a stream `x` issues is made by `x` at a moment when no other
stream is the recorded owner of the card written to (HDMI, S/PDIF or BT), and
every write to the BT card, which the modem sits on, is made while `x` itself
is the recorded owner. -/
theorem only_the_owner_writes (env : OutEnv) (op : Opened)
    (hop : ∀ y, (op.cfg y).output_direct = true → op.outputs OUTPUT_HDMI_MULTI = some y)
    (hal0 : Hal) (h0 : ∀ s, hal0.owner s = none)
    (hp : ∀ y, (hal0.streams y).pcm SND_OUT_SOUND_CARD_BT = false)
    (ops : List OutOp) (fuel x : Nat) (buffer : List Int) (bytes : Nat) :
    ∀ e ∈ writesOf (out_write env op fuel (runOutOps env op hal0 ops) x buffer bytes),
      e.stream = x ∧ (∀ y, e.owner = some y → y = x) ∧
        (e.card = SND_OUT_SOUND_CARD_BT → e.owner = some x) := by
  have i0 : OwnerInv env op hal0 := by
    refine ⟨fun s y _ hy => ?_, fun y hy => ?_⟩
    · rw [h0 s] at hy
      exact Option.noConfusion hy
    · rw [hp y] at hy
      exact Bool.noConfusion hy
  have i1 := runOutOps_inv env op hop ops hal0 i0
  intro e he
  cases hr : out_write env op fuel (runOutOps env op hal0 ops) x buffer bytes with
  | none =>
    rw [hr] at he
    cases he
  | some r =>
    rw [hr] at he
    exact (out_write_good env op hop fuel _ x buffer bytes r i1 hr).2 e he

set_option maxRecDepth 100000 in
/-- C16 on the modem-only set-up: once the stream 0 was started and owns the
modem, its `out_write` of one period issues one modem write, and `out_write`
on the stream 1 issues none. -/
theorem only_the_owner_writes_witness :
    ((∀ y, (oneStream8k.cfg y).output_direct = true →
        oneStream8k.outputs OUTPUT_HDMI_MULTI = some y) ∧
      (∀ s, halInCall.owner s = none) ∧
      (∀ y, (halInCall.streams y).pcm SND_OUT_SOUND_CARD_BT = false)) ∧
    (writesOf (out_write (modemOnly fun _ => WriteOutcome.mk 0 0) oneStream8k 2
      (runOutOps (modemOnly fun _ => WriteOutcome.mk 0 0) oneStream8k halInCall [OutOp.start 0])
      0 (List.replicate 320 5) 640)).length = 1 ∧
    writesOf (out_write (modemOnly fun _ => WriteOutcome.mk 0 0) oneStream8k 2
      (runOutOps (modemOnly fun _ => WriteOutcome.mk 0 0) oneStream8k halInCall [OutOp.start 0])
      1 (List.replicate 320 5) 640) = [] ∧
    ∀ e ∈ writesOf (out_write (modemOnly fun _ => WriteOutcome.mk 0 0) oneStream8k 2
        (runOutOps (modemOnly fun _ => WriteOutcome.mk 0 0) oneStream8k halInCall
          [OutOp.start 0]) 0 (List.replicate 320 5) 640),
      e.stream = 0 ∧ (∀ y, e.owner = some y → y = 0) ∧
        (e.card = SND_OUT_SOUND_CARD_BT → e.owner = some 0) :=
  ⟨⟨fun _ h => Bool.noConfusion h, fun _ => rfl, fun _ => rfl⟩, by decide, by decide,
    only_the_owner_writes (modemOnly fun _ => WriteOutcome.mk 0 0) oneStream8k
      (fun _ h => Bool.noConfusion h) halInCall (fun _ => rfl) (fun _ => rfl) [OutOp.start 0]
      2 0 (List.replicate 320 5) 640⟩

/-! ## The modem control port: lemmas -/

theorem startsWith_iff (s p : List Char) :
    startsWith s p = true ↔ ∃ post, s = p ++ post := by
  induction p generalizing s with
  | nil => simp [startsWith]
  | cons b p ih =>
    cases s with
    | nil => simp [startsWith]
    | cons a s =>
      simp only [startsWith, Bool.and_eq_true, beq_iff_eq, ih, List.cons_append,
        List.cons.injEq]
      constructor
      · rintro ⟨rfl, post, rfl⟩
        exact ⟨post, rfl, rfl⟩
      · rintro ⟨post, rfl, rfl⟩
        exact ⟨rfl, post, rfl⟩

theorem strstr_some (h n : List Char) :
    ∀ found, strstr h n = some found → ∃ pre post, h = pre ++ found ∧ found = n ++ post := by
  induction h with
  | nil =>
    intro found hf
    unfold strstr at hf
    split_ifs at hf with hn
    cases hf
    exact ⟨[], [], rfl, by rw [hn]; rfl⟩
  | cons c rest ih =>
    intro found hf
    unfold strstr at hf
    split_ifs at hf with hs
    · cases hf
      obtain ⟨post, hp⟩ := (startsWith_iff _ _).mp hs
      exact ⟨[], post, rfl, hp⟩
    · obtain ⟨pre, post, h1, h2⟩ := ih found hf
      exact ⟨c :: pre, post, by rw [h1]; rfl, h2⟩

theorem strstr_isSome_iff (h n : List Char) :
    (strstr h n).isSome = true ↔ Contains h n := by
  constructor
  · intro hs
    obtain ⟨found, hf⟩ := Option.isSome_iff_exists.mp hs
    obtain ⟨pre, post, h1, h2⟩ := strstr_some h n found hf
    exact ⟨pre, post, by rw [h1, h2, List.append_assoc]⟩
  · rintro ⟨pre, post, rfl⟩
    induction pre with
    | nil =>
      cases n with
      | nil =>
        cases post with
        | nil => simp [strstr]
        | cons a post => simp [strstr, startsWith]
      | cons b n =>
        have : startsWith (b :: n ++ post) (b :: n) = true :=
          (startsWith_iff _ _).mpr ⟨post, rfl⟩
        simp only [List.nil_append, List.cons_append] at this ⊢
        unfold strstr
        rw [if_pos this]
        rfl
    | cons a pre ih =>
      simp only [List.cons_append, List.append_assoc] at ih ⊢
      unfold strstr
      split_ifs
      · rfl
      · exact ih

theorem atWriteLoop_ok (tty : Tty) (buffer : List Char) (len : Nat)
    (hw : ∀ k offered, offered ≠ [] → ∃ n, tty.write k offered = TtyWrite.wrote n ∧ 1 ≤ n)
    (hlen : len ≤ buffer.length) :
    ∀ (fuel k total : Nat) (sent : List Char), total ≤ len → len - total ≤ fuel →
      sent = buffer.take total →
      atWriteLoop tty buffer len fuel k total sent = some { ok := true, sent := buffer.take len } := by
  intro fuel
  induction fuel with
  | zero =>
    intro k total sent h1 h2 h3
    have : total = len := by omega
    unfold atWriteLoop
    rw [if_neg (by omega), h3, this]
  | succ fuel ih =>
    intro k total sent h1 h2 h3
    unfold atWriteLoop
    by_cases hlt : total < len
    · rw [if_pos hlt]
      have hne : (buffer.drop total).take (len - total) ≠ [] := by
        intro h
        have := congrArg List.length h
        rw [List.length_take, List.length_drop, List.length_nil] at this
        omega
      obtain ⟨n, hn, hn1⟩ := hw k _ hne
      rw [hn]
      dsimp only
      apply ih
      · omega
      · omega
      · rw [h3, List.take_add]
    · rw [if_neg hlt, h3]
      have : total = len := by omega
      rw [this]

theorem atBuffer_short (cmd : List Char) (h : cmd.length ≤ 62) :
    (atBuffer cmd).2 ≤ (atBuffer cmd).1.length ∧ (atBuffer cmd).2 ≤ 64 ∧
      (atBuffer cmd).1.take (atBuffer cmd).2 = cmd ++ [CR] := by
  unfold atBuffer
  have hl : (cmd ++ [CR]).length = cmd.length + 1 := by simp
  have ht : (cmd ++ [CR]).take 63 = cmd ++ [CR] := List.take_of_length_le (by omega)
  dsimp only
  rw [if_neg (by omega), ht]
  have e : ((cmd ++ [CR]) ++ List.replicate 64 NUL).take 64 =
      (cmd ++ [CR]) ++ (List.replicate 64 NUL).take (64 - (cmd ++ [CR]).length) := by
    rw [List.take_append_eq_append_take, List.take_of_length_le (by omega)]
  rw [e]
  refine ⟨?_, by omega, ?_⟩
  · show (cmd ++ [CR]).length ≤ ((cmd ++ [CR]) ++ _).length
    rw [List.length_append ((cmd ++ [CR]))]
    omega
  · show ((cmd ++ [CR]) ++ _).take (cmd ++ [CR]).length = _
    rw [List.take_append_eq_append_take, List.take_of_length_le (le_refl _), Nat.sub_self,
      List.take_zero, List.append_nil]

theorem atBuffer_long (cmd : List Char) (h : 63 ≤ cmd.length) :
    (atBuffer cmd).2 ≤ (atBuffer cmd).1.length ∧ (atBuffer cmd).2 ≤ 64 ∧
      (atBuffer cmd).1.take (atBuffer cmd).2 = cmd.take 63 := by
  unfold atBuffer
  have hl : (cmd ++ [CR]).length = cmd.length + 1 := by simp
  have ht : (cmd ++ [CR]).take 63 = cmd.take 63 := by
    rw [List.take_append_eq_append_take, show 63 - cmd.length = 0 by omega, List.take_zero,
      List.append_nil]
  have hl2 : (cmd.take 63).length = 63 := by rw [List.length_take]; omega
  dsimp only
  rw [if_pos (by omega), ht]
  dsimp only
  have e : (cmd.take 63 ++ List.replicate 64 NUL).take 64 = cmd.take 63 ++ [NUL] := by
    rw [List.take_append_eq_append_take, hl2, List.take_of_length_le (by omega)]
    rfl
  rw [e]
  refine ⟨by rw [List.length_set, List.length_append, hl2]; simp, by omega, ?_⟩
  have e2 : (cmd.take 63 ++ [NUL]).set 63 CR = cmd.take 63 ++ [CR] := by
    rw [List.set_append_right _ _ (by omega), hl2]
    rfl
  rw [e2, List.take_append_eq_append_take, hl2, List.take_of_length_le (by omega)]
  simp

/-! ## The registry: lemmas -/

theorem name_match_cases (dst src : List Char) :
    (dst = src → name_match dst src = 100) ∧
    (dst ≠ src → Contains dst src → name_match dst src = 50) ∧
    (¬ Contains dst src → name_match dst src = 0) ∧
    0 ≤ name_match dst src := by
  unfold name_match
  refine ⟨fun h => by rw [if_pos h], fun h hc => ?_, fun hc => ?_, ?_⟩
  · rw [if_neg h, if_pos ((strstr_isSome_iff dst src).mpr hc)]
  · have hne : dst ≠ src := by
      intro h
      exact hc ⟨[], [], by rw [h]; simp⟩
    rw [if_neg hne, if_neg (fun h => hc ((strstr_isSome_iff dst src).mp h))]
  · split_ifs <;> decide

/-- The selection loop: either nothing scored above `better`, or the index
returned is the first entry with the highest score, which is above
`better`. -/
theorem matchLoop_spec (id : List Char) :
    ∀ (l : List dev_proc_info) (i : Nat) (better index : Int),
      ((∀ e ∈ l, name_match id e.cid ≤ better) ∧
        matchLoop id l i better index = (better, index)) ∨
      (∃ j e, l[j]? = some e ∧ better < name_match id e.cid ∧
        matchLoop id l i better index = (name_match id e.cid, ((i + j : Nat) : Int)) ∧
        (∀ (k : Nat) (e2 : dev_proc_info), l[k]? = some e2 → name_match id e2.cid ≤ name_match id e.cid) ∧
        (∀ (k : Nat) (e2 : dev_proc_info), k < j → l[k]? = some e2 → name_match id e2.cid < name_match id e.cid)) := by
  intro l
  induction l with
  | nil =>
    intro i better index
    exact Or.inl ⟨fun e he => (by cases he), rfl⟩
  | cons a rest ih =>
    intro i better index
    unfold matchLoop
    by_cases h : better < name_match id a.cid
    · rw [if_pos h]
      rcases ih (i + 1) (name_match id a.cid) i with ⟨h1, h2⟩ | ⟨j, e, h1, h2, h3, h4, h5⟩
      · refine Or.inr ⟨0, a, List.getElem?_cons_zero, h, (by rw [h2]; simp), ?_, ?_⟩
        · intro k e2 hk
          cases k with
          | zero =>
            simp only [List.getElem?_cons_zero, Option.some.injEq] at hk
            rw [← hk]
          | succ k =>
            simp only [List.getElem?_cons_succ] at hk
            exact h1 e2 (List.getElem?_mem hk)
        · intro k e2 hk
          omega
      · refine Or.inr ⟨j + 1, e, (by simpa using h1), (by omega), ?_, ?_, ?_⟩
        · rw [h3]
          congr 1
          push_cast
          ring
        · intro k e2 hk
          cases k with
          | zero =>
            simp only [List.getElem?_cons_zero, Option.some.injEq] at hk
            rw [← hk]
            omega
          | succ k =>
            simp only [List.getElem?_cons_succ] at hk
            exact h4 k e2 hk
        · intro k e2 hkj hk
          cases k with
          | zero =>
            simp only [List.getElem?_cons_zero, Option.some.injEq] at hk
            rw [← hk]
            exact h2
          | succ k =>
            simp only [List.getElem?_cons_succ] at hk
            exact h5 k e2 (by omega) hk
    · rw [if_neg h]
      rcases ih (i + 1) better index with ⟨h1, h2⟩ | ⟨j, e, h1, h2, h3, h4, h5⟩
      · refine Or.inl ⟨?_, h2⟩
        intro e he
        rcases List.mem_cons.mp he with rfl | he
        · omega
        · exact h1 e he
      · refine Or.inr ⟨j + 1, e, (by simpa using h1), h2, ?_, ?_, ?_⟩
        · rw [h3]
          congr 1
          push_cast
          ring
        · intro k e2 hk
          cases k with
          | zero =>
            simp only [List.getElem?_cons_zero, Option.some.injEq] at hk
            rw [← hk]
            omega
          | succ k =>
            simp only [List.getElem?_cons_succ] at hk
            exact h4 k e2 hk
        · intro k e2 hkj hk
          cases k with
          | zero =>
            simp only [List.getElem?_cons_zero, Option.some.injEq] at hk
            rw [← hk]
            omega
          | succ k =>
            simp only [List.getElem?_cons_succ] at hk
            exact h5 k e2 (by omega) hk

/-- The index the lookups select is determined by the scores: an entry that
scores above 0, at least as high as every entry and higher than every entry
before it, is the one selected. -/
theorem matchLoop_selects (id : List Char) (l : List dev_proc_info) (i : Nat)
    (e : dev_proc_info) (hi : l[i]? = some e) (hpos : 0 < name_match id e.cid)
    (hmax : ∀ (k : Nat) (e2 : dev_proc_info), l[k]? = some e2 → name_match id e2.cid ≤ name_match id e.cid)
    (hfirst : ∀ (k : Nat) (e2 : dev_proc_info), k < i → l[k]? = some e2 → name_match id e2.cid < name_match id e.cid) :
    (matchLoop id l 0 0 (-1)).2 = (i : Int) := by
  rcases matchLoop_spec id l 0 0 (-1) with ⟨h1, _⟩ | ⟨j, e2, h1, h2, h3, h4, h5⟩
  · have := h1 e (List.getElem?_mem hi)
    omega
  · rw [h3]
    show ((0 + j : Nat) : Int) = i
    rw [Nat.zero_add]
    congr 1
    rcases Nat.lt_trichotomy j i with hlt | heq | hgt
    · have a := hfirst j e2 hlt h1
      have b := h4 i e hi
      omega
    · exact heq
    · have a := h5 i e hgt hi
      have b := hmax j e2 h1
      omega

theorem matchLoop_none (id : List Char) (l : List dev_proc_info)
    (h : ∀ e ∈ l, name_match id e.cid = 0) : (matchLoop id l 0 0 (-1)).2 = -1 := by
  rcases matchLoop_spec id l 0 0 (-1) with ⟨_, h2⟩ | ⟨j, e2, h1, h2, _⟩
  · rw [h2]
  · have := h e2 (List.getElem?_mem h1)
    omega

theorem get_specified_unmatched (fs : ProcFs) (devinfo : dev_info) (card : Int)
    (id : List Char) (tbl : MatchTable) (h : (matchLoop id tbl.entries 0 0 (-1)).2 = -1) :
    get_specified_out_dev fs devinfo card id tbl = (devinfo, false) ∧
    get_specified_in_dev fs devinfo card id tbl = (devinfo, false) := by
  unfold get_specified_out_dev get_specified_in_dev
  dsimp only
  rw [h]
  exact ⟨rfl, rfl⟩

theorem get_specified_no_dai (fs : ProcFs) (devinfo : dev_info) (card : Int)
    (id : List Char) (tbl : MatchTable) (i : Nat) (e : dev_proc_info)
    (h : (matchLoop id tbl.entries 0 0 (-1)).2 = (i : Int)) (hi : tbl.entries[i]? = some e)
    (hd : e.did = none) :
    get_specified_out_dev fs devinfo card id tbl = ({ card := card, device := 0 }, true) ∧
    get_specified_in_dev fs devinfo card id tbl = ({ card := card, device := 0 }, true) := by
  unfold get_specified_out_dev get_specified_in_dev
  dsimp only
  rw [h, if_neg (by omega), Int.toNat_ofNat, hi]
  dsimp only
  rw [hd]
  exact ⟨rfl, rfl⟩

theorem dev_id_match_some (info d : List Char) :
    dev_id_match info (some d) = true ↔ ∃ line, idLine info = some line ∧ Contains line d := by
  unfold dev_id_match idLine
  cases h : strstr info "id:".toList with
  | none => simp
  | some found =>
    simp only [Option.map_some', Option.some.injEq, exists_eq_left']
    exact strstr_isSome_iff _ _

theorem deviceLoop_true (node : Nat → Option (Option (List Char))) (stale : Nat → List Char)
    (did : Option (List Char)) (card : Int) (devinfo : dev_info) :
    ∀ (n device : Nat),
      (deviceLoop node stale did card devinfo n device).2 = true →
      ∃ k content info, node k = some (some content) ∧
        freadText content (stale k) 256 = some info ∧ dev_id_match info did = true ∧
        (deviceLoop node stale did card devinfo n device).1 = { card := card, device := k } := by
  intro n
  induction n with
  | zero =>
    intro device h
    exact Bool.noConfusion h
  | succ n ih =>
    intro device h
    unfold deviceLoop at h ⊢
    cases hn : node device with
    | none =>
      rw [hn] at h
      exact Bool.noConfusion h
    | some o =>
      rw [hn] at h
      cases o with
      | none => exact ih (device + 1) h
      | some content =>
        dsimp only at h ⊢
        cases hf : freadText content (stale device) 256 with
        | none =>
          rw [hf] at h
          exact ih (device + 1) h
        | some info =>
          rw [hf] at h
          dsimp only at h ⊢
          by_cases hm : dev_id_match info did = true
          · rw [if_pos hm]
            exact ⟨device, content, info, hn, hf, hm, rfl⟩
          · rw [if_neg hm] at h ⊢
            exact ih (device + 1) h

/-- The playback lookup checks the dai id of the selected entry: when it
populates the slot for an entry with a dai id, the id line of the PCM chosen
contains that dai id. -/
theorem out_dev_dai_checked (fs : ProcFs) (devinfo : dev_info) (card : Int) (id : List Char)
    (tbl : MatchTable) (i : Nat) (e : dev_proc_info) (d : List Char)
    (hsel : (matchLoop id tbl.entries 0 0 (-1)).2 = (i : Int)) (hi : tbl.entries[i]? = some e)
    (hd : e.did = some d)
    (hret : (get_specified_out_dev fs devinfo card id tbl).2 = true) :
    ∃ (k : Nat) (content info line : List Char), fs.pcm_p card k = some (some content) ∧
      freadText content (fs.stale_p card k) 256 = some info ∧
      idLine info = some line ∧ Contains line d ∧
      (get_specified_out_dev fs devinfo card id tbl).1 = { card := card, device := k } := by
  unfold get_specified_out_dev at hret ⊢
  dsimp only at hret ⊢
  rw [hsel, if_neg (by omega), Int.toNat_ofNat, hi] at hret ⊢
  dsimp only at hret ⊢
  rw [hd] at hret ⊢
  dsimp only at hret ⊢
  obtain ⟨k, content, info, h1, h2, h3, h4⟩ := deviceLoop_true _ _ _ _ _ _ _ hret
  obtain ⟨line, h5, h6⟩ := (dev_id_match_some info d).mp h3
  exact ⟨k, content, info, line, h1, h2, h5, h6, h4⟩

/-! ## The modem control port: the claims -/

/-- C21: for every device state and flag `e`, `simcom_update_cpcmreg` sends
nothing, leaves the device as it is and returns true when the cached state
equals `e`; otherwise it hands exactly one command to
`simcom_send_at_command`, `AT+CPCMREG=1` for `e` true and `AT+CPCMREG=0` for
`e` false, returns what the send returned, and the cached state is `e`
afterwards exactly when the send succeeded (nothing else of the device
changes). -/
theorem cpcmreg_sends_once_and_caches (ext : Externals) (adev : AudioDevice) (e : Bool) :
    (adev.simcom_cpcmreg_state = e →
      simcom_update_cpcmreg ext adev e = (adev, true, [])) ∧
    (adev.simcom_cpcmreg_state ≠ e →
      (simcom_update_cpcmreg ext adev e).2.2
        = [if e then "AT+CPCMREG=1" else "AT+CPCMREG=0"] ∧
      (simcom_update_cpcmreg ext adev e).2.1
        = ext.simcom_send_at_command (if e then "AT+CPCMREG=1" else "AT+CPCMREG=0") ∧
      ((simcom_update_cpcmreg ext adev e).1.simcom_cpcmreg_state = e ↔
        ext.simcom_send_at_command (if e then "AT+CPCMREG=1" else "AT+CPCMREG=0") = true) ∧
      (simcom_update_cpcmreg ext adev e).1
        = { adev with
            simcom_cpcmreg_state := (simcom_update_cpcmreg ext adev e).1.simcom_cpcmreg_state }) := by
  constructor
  · intro h
    unfold simcom_update_cpcmreg
    rw [if_pos h]
  · intro h
    unfold simcom_update_cpcmreg
    rw [if_neg h]
    dsimp only
    refine ⟨rfl, rfl, ?_, ?_⟩
    · cases hs : ext.simcom_send_at_command (if e then "AT+CPCMREG=1" else "AT+CPCMREG=0")
      · simp only [Bool.false_eq_true, if_false, iff_false]
        exact h
      · simp
    · cases hs : ext.simcom_send_at_command (if e then "AT+CPCMREG=1" else "AT+CPCMREG=0")
      · simp
      · simp

/-- C21 on the freshly opened device (cached state false) with a modem that
accepts every command: enabling sends `AT+CPCMREG=1` and caches true. -/
theorem cpcmreg_sends_once_and_caches_witness :
    adev_open_init.simcom_cpcmreg_state ≠ true ∧
    (simcom_update_cpcmreg allOk adev_open_init true).2.2 = ["AT+CPCMREG=1"] ∧
    (simcom_update_cpcmreg allOk adev_open_init true).2.1 = true ∧
    (simcom_update_cpcmreg allOk adev_open_init true).1.simcom_cpcmreg_state = true :=
  ⟨by decide,
   ((cpcmreg_sends_once_and_caches allOk adev_open_init true).2 (by decide)).1,
   ((cpcmreg_sends_once_and_caches allOk adev_open_init true).2 (by decide)).2.1,
   ((cpcmreg_sends_once_and_caches allOk adev_open_init true).2 (by decide)).2.2.1.mpr rfl⟩

/-- The bytes `simcom_send_at_command` writes: when the TTY opens and every
`write` accepts at least one byte (in any split into partial writes), the
function returns true after at most 64 writes, and the bytes written are the
bytes of `cmd` followed by one carriage return when `cmd` has at most 62
characters, and the first 63 bytes of `cmd` with no carriage return when it
is longer (up to the `INT_MAX` limit of `snprintf`). -/
theorem at_command_bytes_written (tty : Tty) (cmd : List Char) (fuel : Nat)
    (hopen : tty.open_ok = true)
    (hw : ∀ k offered, offered ≠ [] → ∃ n, tty.write k offered = TtyWrite.wrote n ∧ 1 ≤ n)
    (hlen : cmd.length + 1 < 2 ^ 31) (hfuel : 64 ≤ fuel) :
    simcom_send_at_command tty fuel cmd =
      some { ok := true, sent := if cmd.length ≤ 62 then cmd ++ [CR] else cmd.take 63 } := by
  unfold simcom_send_at_command
  rw [if_neg (by rw [hopen]; exact Bool.noConfusion), if_neg (by rw [List.length_append, List.length_singleton]; omega)]
  by_cases h : cmd.length ≤ 62
  · obtain ⟨h1, h2, h3⟩ := atBuffer_short cmd h
    rw [atWriteLoop_ok tty _ _ hw h1 fuel 0 0 [] (by omega) (by omega) rfl, h3, if_pos h]
  · obtain ⟨h1, h2, h3⟩ := atBuffer_long cmd (by omega)
    rw [atWriteLoop_ok tty _ _ hw h1 fuel 0 0 [] (by omega) (by omega) rfl, h3, if_neg h]

/-- The command `AT+CPCMREG=1` of the callers on a TTY that accepts five bytes
per `write`: the twelve characters of the command and the carriage return are
written. -/
theorem at_command_bytes_written_witness :
    ((ttyChunks 5).open_ok = true ∧
      (∀ k offered, offered ≠ [] →
        ∃ n, (ttyChunks 5).write k offered = TtyWrite.wrote n ∧ 1 ≤ n) ∧
      "AT+CPCMREG=1".toList.length + 1 < 2 ^ 31 ∧ 64 ≤ 64) ∧
    simcom_send_at_command (ttyChunks 5) 64 "AT+CPCMREG=1".toList =
      some { ok := true
             sent := if "AT+CPCMREG=1".toList.length ≤ 62 then "AT+CPCMREG=1".toList ++ [CR]
               else "AT+CPCMREG=1".toList.take 63 } :=
  have hw : ∀ (k : Nat) (offered : List Char), offered ≠ [] →
      ∃ n, (ttyChunks 5).write k offered = TtyWrite.wrote n ∧ 1 ≤ n := by
    intro k offered ho
    refine ⟨min 5 offered.length, rfl, ?_⟩
    have : 0 < offered.length := List.length_pos.mpr ho
    omega
  ⟨⟨rfl, hw, by decide, le_refl _⟩,
   at_command_bytes_written (ttyChunks 5) "AT+CPCMREG=1".toList 64 rfl hw (by decide)
     (le_refl _)⟩

/-- C23: for every card id and every match table, in `get_specified_out_dev`
and in `get_specified_in_dev` alike: `name_match` scores 100 for equality, 50
when the card id of the table occurs in the card id, 0 otherwise; when no
entry scores above 0 the lookup returns false and leaves the slot as it was;
an entry that scores above 0, at least as high as every entry and higher than
every entry before it, is the one selected, such an entry exists as soon as
one entry scores above 0, and when the selected entry has no dai id the slot
becomes `(card, 0)` and the lookup returns true. -/
theorem lookup_selects_first_best_score (fs : ProcFs) (devinfo : dev_info) (card : Int)
    (id : List Char) (tbl : MatchTable) :
    (∀ c : List Char, (id = c → name_match id c = 100) ∧
      (id ≠ c → Contains id c → name_match id c = 50) ∧
      (¬ Contains id c → name_match id c = 0)) ∧
    ((∀ e ∈ tbl.entries, name_match id e.cid = 0) →
      get_specified_out_dev fs devinfo card id tbl = (devinfo, false) ∧
      get_specified_in_dev fs devinfo card id tbl = (devinfo, false)) ∧
    ((∃ e ∈ tbl.entries, 0 < name_match id e.cid) →
      ∃ (i : Nat) (e : dev_proc_info), tbl.entries[i]? = some e ∧ 0 < name_match id e.cid ∧
        (∀ (k : Nat) (e2 : dev_proc_info), tbl.entries[k]? = some e2 →
          name_match id e2.cid ≤ name_match id e.cid) ∧
        (∀ (k : Nat) (e2 : dev_proc_info), k < i → tbl.entries[k]? = some e2 →
          name_match id e2.cid < name_match id e.cid)) ∧
    (∀ (i : Nat) (e : dev_proc_info), tbl.entries[i]? = some e → 0 < name_match id e.cid →
      (∀ (k : Nat) (e2 : dev_proc_info), tbl.entries[k]? = some e2 →
        name_match id e2.cid ≤ name_match id e.cid) →
      (∀ (k : Nat) (e2 : dev_proc_info), k < i → tbl.entries[k]? = some e2 →
        name_match id e2.cid < name_match id e.cid) →
      (matchLoop id tbl.entries 0 0 (-1)).2 = (i : Int) ∧
      (e.did = none →
        get_specified_out_dev fs devinfo card id tbl = ({ card := card, device := 0 }, true) ∧
        get_specified_in_dev fs devinfo card id tbl = ({ card := card, device := 0 }, true))) := by
  refine ⟨fun c => ?_, fun h => ?_, ?_, ?_⟩
  · obtain ⟨h1, h2, h3, _⟩ := name_match_cases id c
    exact ⟨h1, h2, h3⟩
  · exact get_specified_unmatched fs devinfo card id tbl (matchLoop_none id tbl.entries h)
  · rintro ⟨e0, he0, hpos⟩
    rcases matchLoop_spec id tbl.entries 0 0 (-1) with ⟨h1, _⟩ | ⟨j, e, h1, h2, _, h4, h5⟩
    · have := h1 e0 he0
      omega
    · exact ⟨j, e, h1, h2, h4, h5⟩
  · intro i e hi hpos hmax hfirst
    have hsel := matchLoop_selects id tbl.entries i e hi hpos hmax hfirst
    exact ⟨hsel, fun hd => get_specified_no_dai fs devinfo card id tbl i e hsel hi hd⟩

/-- C23 on a table with the entries `rk` and `rk809`, neither with a dai id,
for the card 5 with id `rk809`: the second entry scores 100 against 50 for the
first, is selected, and the slot becomes `(5, 0)`. -/
theorem lookup_selects_first_best_score_witness :
    ((mkTable [("rk", none), ("rk809", none)]).entries[1]?
        = some { cid := "rk809".toList, did := none } ∧
      0 < name_match "rk809".toList "rk809".toList ∧
      (∀ (k : Nat) (e2 : dev_proc_info),
        (mkTable [("rk", none), ("rk809", none)]).entries[k]? = some e2 →
        name_match "rk809".toList e2.cid ≤ name_match "rk809".toList "rk809".toList) ∧
      (∀ (k : Nat) (e2 : dev_proc_info), k < 1 →
        (mkTable [("rk", none), ("rk809", none)]).entries[k]? = some e2 →
        name_match "rk809".toList e2.cid < name_match "rk809".toList "rk809".toList)) ∧
    (matchLoop "rk809".toList (mkTable [("rk", none), ("rk809", none)]).entries 0 0 (-1)).2
      = ((1 : Nat) : Int) ∧
    get_specified_out_dev noCards (slotsUnknown 0) 5 "rk809".toList
      (mkTable [("rk", none), ("rk809", none)]) = ({ card := 5, device := 0 }, true) ∧
    get_specified_in_dev noCards (slotsUnknown 0) 5 "rk809".toList
      (mkTable [("rk", none), ("rk809", none)]) = ({ card := 5, device := 0 }, true) :=
  have hmax : ∀ (k : Nat) (e2 : dev_proc_info),
      (mkTable [("rk", none), ("rk809", none)]).entries[k]? = some e2 →
      name_match "rk809".toList e2.cid ≤ name_match "rk809".toList "rk809".toList := by
    intro k e2 h
    rcases k with _ | _ | k
    · cases h
      decide
    · cases h
      decide
    · cases h
  have hfirst : ∀ (k : Nat) (e2 : dev_proc_info), k < 1 →
      (mkTable [("rk", none), ("rk809", none)]).entries[k]? = some e2 →
      name_match "rk809".toList e2.cid < name_match "rk809".toList "rk809".toList := by
    intro k e2 hk h
    rcases k with _ | k
    · cases h
      decide
    · omega
  ⟨⟨rfl, (by decide), hmax, hfirst⟩,
   ((lookup_selects_first_best_score noCards (slotsUnknown 0) 5 "rk809".toList
      (mkTable [("rk", none), ("rk809", none)])).2.2.2 1
      { cid := "rk809".toList, did := none } rfl (by decide) hmax hfirst).1,
   ((lookup_selects_first_best_score noCards (slotsUnknown 0) 5 "rk809".toList
      (mkTable [("rk", none), ("rk809", none)])).2.2.2 1
      { cid := "rk809".toList, did := none } rfl (by decide) hmax hfirst).2 rfl⟩

/-- C24, on the code: on a board whose card 0 has the id `realtekrt5651co` and
whose capture PCM 0 is the codec interface `rt5651-aif1`, the capture lookup
with the table `HDMI_IN_NAME` selects the entry with the dai id
`tc358749x-audio` and populates the slot with device 0, although the id line
of that PCM does not contain `tc358749x-audio`: the device loop of
`get_specified_in_dev` hands the dai id of the terminating entry, `NULL`, to
`dev_id_match`, which accepts everything.  The playback lookup on the same
files and table rejects the PCM and leaves the slot alone. -/
theorem capture_lookup_ignores_dai_id :
    (matchLoop "realtekrt5651co".toList HDMI_IN_NAME.entries 0 0 (-1)).2 = 0 ∧
    HDMI_IN_NAME.entries[0]? =
      some { cid := "realtekrt5651co".toList, did := some "tc358749x-audio".toList } ∧
    get_specified_in_dev
      (oneCard "realtekrt5651co" "id: ff880000.i2s-rt5651-aif1 rt5651-aif1-0")
      (slotsUnknown SND_IN_SOUND_CARD_HDMI) 0 "realtekrt5651co".toList HDMI_IN_NAME
      = ({ card := 0, device := 0 }, true) ∧
    idLine ("id: ff880000.i2s-rt5651-aif1 rt5651-aif1-0".toList)
      = some " ff880000.i2s-rt5651-aif1 rt5651-aif1-0".toList ∧
    ¬ Contains " ff880000.i2s-rt5651-aif1 rt5651-aif1-0".toList "tc358749x-audio".toList ∧
    get_specified_out_dev
      (oneCard "realtekrt5651co" "id: ff880000.i2s-rt5651-aif1 rt5651-aif1-0")
      (slotsUnknown SND_IN_SOUND_CARD_HDMI) 0 "realtekrt5651co".toList HDMI_IN_NAME
      = (slotsUnknown SND_IN_SOUND_CARD_HDMI, false) := by
  refine ⟨by decide, by decide, by decide, by decide, ?_, by decide⟩
  rw [← strstr_isSome_iff]
  decide

/-- C25, on the code: `read_out_sound_card` and `read_in_sound_card` pass
`SND_OUT_SOUND_CARD_UNKNOWN`, that is `-1`, as the size to
`set_default_dev_info`, so no slot is reset; when no card is enumerated every
slot keeps what it held.  After an enumeration that found the modem as card 0
and a second one that finds no card at all, the BT slot still names card 0. -/
theorem stale_slot_survives_enumeration :
    (∀ info : Nat → dev_info, set_default_dev_info info SND_OUT_SOUND_CARD_UNKNOWN = info) ∧
    (∀ dev_out : Nat → dev_info, read_out_sound_card_slots noCards dev_out = dev_out) ∧
    (∀ dev_in : Nat → dev_info, read_in_sound_card_slots noCards dev_in = dev_in) ∧
    read_out_sound_card_slots (oneCard "SIMCOM" "id: USB Audio") slotsUnknown
      SND_OUT_SOUND_CARD_BT = { card := 0, device := 0 } ∧
    read_out_sound_card_slots noCards
      (read_out_sound_card_slots (oneCard "SIMCOM" "id: USB Audio") slotsUnknown)
      SND_OUT_SOUND_CARD_BT = { card := 0, device := 0 } ∧
    read_in_sound_card_slots noCards
      (read_in_sound_card_slots (oneCard "SIMCOM" "id: USB Audio") slotsUnknown)
      SND_IN_SOUND_CARD_BT = { card := 0, device := 0 } ∧
    set_default_dev_info
      (read_out_sound_card_slots (oneCard "SIMCOM" "id: USB Audio") slotsUnknown)
      SND_OUT_SOUND_CARD_MAX SND_OUT_SOUND_CARD_BT = { card := -1, device := 0 } := by
  have h0 : ∀ info : Nat → dev_info,
      set_default_dev_info info SND_OUT_SOUND_CARD_UNKNOWN = info := by
    intro info
    funext i
    unfold set_default_dev_info
    rw [if_neg]
    show ¬ ((i : Int) < -1)
    omega
  refine ⟨h0, fun dev_out => ?_, fun dev_in => ?_, by decide, ?_, ?_, by decide⟩
  · unfold read_out_sound_card_slots
    rw [h0]
    rfl
  · unfold read_in_sound_card_slots
    show inCardLoop noCards SNDRV_CARDS.toNat 0
      (set_default_dev_info dev_in SND_OUT_SOUND_CARD_UNKNOWN) = dev_in
    rw [h0]
    rfl
  · unfold read_out_sound_card_slots
    rw [h0, h0]
    decide
  · unfold read_in_sound_card_slots
    show inCardLoop noCards SNDRV_CARDS.toNat 0
      (set_default_dev_info (inCardLoop (oneCard "SIMCOM" "id: USB Audio") SNDRV_CARDS.toNat 0
        (set_default_dev_info slotsUnknown SND_OUT_SOUND_CARD_UNKNOWN))
        SND_OUT_SOUND_CARD_UNKNOWN) SND_IN_SOUND_CARD_BT = _
    rw [h0, h0]
    decide

/-- C26, as the code has it: the modem detection is true exactly when the
card number of the BT slot is a card index, its id file opens, and the id read
(at most 19 bytes, a final line feed removed) contains `SIMCOM` or contains
`simcom`, letter for letter. -/
theorem simcom_detected_by_two_spellings (fs : ProcFs) (bt_card : Int) :
    simcom_detect fs bt_card = true ↔
      (0 ≤ bt_card ∧ bt_card < SNDRV_CARDS ∧
        ∃ content, fs.id_abs bt_card = some content ∧
          (Contains (simcom_id_text content) "SIMCOM".toList ∨
            Contains (simcom_id_text content) "simcom".toList)) := by
  unfold simcom_detect
  by_cases hr : 0 ≤ bt_card ∧ bt_card < SNDRV_CARDS
  · rw [if_pos hr]
    cases hf : fs.id_abs bt_card with
    | none => simp
    | some content =>
      simp only [Bool.or_eq_true, strstr_isSome_iff, Option.some.injEq, exists_eq_left']
      exact ⟨fun h => ⟨hr.1, hr.2, h⟩, fun h => h.2.2⟩
  · rw [if_neg hr]
    constructor
    · intro h
      exact Bool.noConfusion h
    · rintro ⟨h1, h2, _⟩
      exact absurd ⟨h1, h2⟩ hr

/-- C26 as the code has it, on the card 0 with the id `SIMCOM`. -/
theorem simcom_detected_by_two_spellings_witness :
    simcom_detect (oneCard "SIMCOM" "id: USB Audio") 0 = true :=
  (simcom_detected_by_two_spellings (oneCard "SIMCOM" "id: USB Audio") 0).mpr
    ⟨by decide, by decide, "SIMCOM".toList ++ [LF], rfl, Or.inl ⟨[], [], by decide⟩⟩

/-- C26 as stated fails for the id `Simcom`: it contains `SIMCOM` when the
case of letters is ignored, and the detection is false. -/
theorem simcom_mixed_case_not_detected :
    ContainsNoCase (simcom_id_text ("Simcom".toList ++ [LF])) "SIMCOM".toList ∧
    simcom_detect (oneCard "Simcom" "id: USB Audio") 0 = false :=
  ⟨⟨[], "Simcom".toList, [], by decide, by decide⟩, by decide⟩

/-! ## The ring seen from the uplink writer: lemmas -/

theorem pop_read_ahead_zero (adev : Ring) (n : Nat) (hf : adev.simcom_mic_ring_full = false)
    (h : adev.simcom_mic_ring_write < adev.simcom_mic_ring_read) :
    (simcom_ring_pop adev n).count = 0 := by
  have ha : popAvailable adev = 0 := by
    unfold popAvailable
    rw [hf]
    simp only [Bool.false_eq_true, if_false]
    split_ifs <;> first | rfl | omega
  unfold simcom_ring_pop
  by_cases hn : n = 0
  · rw [if_pos hn]
  · rw [if_neg hn]
    dsimp only
    rw [ha]
    have : (if n < 0 then n else 0) = 0 := by
      split_ifs
      · omega
      · rfl
    rw [this]
    rfl

/-- Where the read index is not ahead of the write index with the flag clear,
the count of the uplink writer is what a pop of at least that many samples
returns. -/
theorem uplinkAvailable_eq_pop (adev : Ring) (n : Nat) (hc : 0 < adev.simcom_mic_ring_size)
    (hr : adev.simcom_mic_ring_read < adev.simcom_mic_ring_size) (hn0 : n ≠ 0)
    (hn : uplinkAvailable adev ≤ n)
    (h : adev.simcom_mic_ring_full = true ∨
      adev.simcom_mic_ring_read ≤ adev.simcom_mic_ring_write) :
    (simcom_ring_pop adev n).count = uplinkAvailable adev := by
  rw [pop_fields adev n hc hr hn0]
  show min (popAvailable adev) n = uplinkAvailable adev
  have e : popAvailable adev = uplinkAvailable adev := by
    unfold popAvailable uplinkAvailable
    rcases h with h | h
    · rw [h]
      rfl
    · split_ifs <;> first | rfl | omega
  rw [e]
  omega

/-! ## The ring seen from the uplink writer: the claims -/

/-- C27, on the code: a ring of capacity 4 is reset, receives `1, 2, 3, 4` and
gives back `1, 2`.  The state reached has the full flag clear and
`read_index = 2 > write_index = 0`, two samples were pushed and neither popped
nor overwritten, they are still in the storage at the read index, and every
pop returns nothing.  The same holds after `1, 2, 3` pushed and popped and
`4, 5` pushed: `read_index = 3 > write_index = 1` with two unread samples. -/
theorem read_ahead_state_holds_unread_samples :
    (runOps (simcom_ring_reset (ensure_ring 4)) [RingOp.push [1, 2, 3, 4], RingOp.pop 2]).1
      = { simcom_mic_ring := [1, 2, 3, 4], simcom_mic_ring_size := 4, simcom_mic_ring_read := 2,
          simcom_mic_ring_write := 0, simcom_mic_ring_full := false,
          ring_overwrite_counter := 1, ring_recovery_counter := 0 } ∧
    unreadAfter 4 (simcom_ring_reset (ensure_ring 4)) 0
      [RingOp.push [1, 2, 3, 4], RingOp.pop 2] = 2 ∧
    ringSlice 4 [1, 2, 3, 4] 2 2 = [3, 4] ∧
    (∀ n, (simcom_ring_pop (runOps (simcom_ring_reset (ensure_ring 4))
      [RingOp.push [1, 2, 3, 4], RingOp.pop 2]).1 n).count = 0) ∧
    (runOps (simcom_ring_reset (ensure_ring 4))
        [RingOp.push [1, 2, 3], RingOp.pop 3, RingOp.push [4, 5]]).1
      = { simcom_mic_ring := [5, 2, 3, 4], simcom_mic_ring_size := 4, simcom_mic_ring_read := 3,
          simcom_mic_ring_write := 1, simcom_mic_ring_full := false,
          ring_overwrite_counter := 0, ring_recovery_counter := 0 } ∧
    unreadAfter 4 (simcom_ring_reset (ensure_ring 4)) 0
      [RingOp.push [1, 2, 3], RingOp.pop 3, RingOp.push [4, 5]] = 2 ∧
    (∀ n, (simcom_ring_pop (runOps (simcom_ring_reset (ensure_ring 4))
      [RingOp.push [1, 2, 3], RingOp.pop 3, RingOp.push [4, 5]]).1 n).count = 0) := by
  have e1 : (runOps (simcom_ring_reset (ensure_ring 4))
      [RingOp.push [1, 2, 3, 4], RingOp.pop 2]).1
      = { simcom_mic_ring := [1, 2, 3, 4], simcom_mic_ring_size := 4, simcom_mic_ring_read := 2,
          simcom_mic_ring_write := 0, simcom_mic_ring_full := false,
          ring_overwrite_counter := 1, ring_recovery_counter := 0 } := by decide
  have e2 : (runOps (simcom_ring_reset (ensure_ring 4))
      [RingOp.push [1, 2, 3], RingOp.pop 3, RingOp.push [4, 5]]).1
      = { simcom_mic_ring := [5, 2, 3, 4], simcom_mic_ring_size := 4, simcom_mic_ring_read := 3,
          simcom_mic_ring_write := 1, simcom_mic_ring_full := false,
          ring_overwrite_counter := 0, ring_recovery_counter := 0 } := by decide
  refine ⟨e1, by decide, by decide, fun n => ?_, e2, by decide, fun n => ?_⟩
  · rw [e1]
    exact pop_read_ahead_zero _ n rfl (by decide)
  · rw [e2]
    exact pop_read_ahead_zero _ n rfl (by decide)

/-- C30, on the code: in the state a ring of capacity 4 reaches from reset by
a push of `1, 2, 3`, a pop of 3 and a push of `4, 5` (`read_index = 3`,
`write_index = 1`, full flag clear) the uplink path of `out_write` computes 2
available samples, `size - read + write`, while `simcom_ring_pop` returns 0
samples for every request. -/
theorem uplink_count_differs_from_pop :
    uplinkAvailable (runOps (simcom_ring_reset (ensure_ring 4))
      [RingOp.push [1, 2, 3], RingOp.pop 3, RingOp.push [4, 5]]).1 = 2 ∧
    (∀ n, (simcom_ring_pop (runOps (simcom_ring_reset (ensure_ring 4))
      [RingOp.push [1, 2, 3], RingOp.pop 3, RingOp.push [4, 5]]).1 n).count = 0) ∧
    ∀ (ring : List Int) (size read write oc rc n : Nat), write < read →
      uplinkAvailable ⟨ring, size, read, write, false, oc, rc⟩ = size - read + write ∧
      (simcom_ring_pop ⟨ring, size, read, write, false, oc, rc⟩ n).count = 0 := by
  refine ⟨by decide, fun n => ?_, ?_⟩
  · exact pop_read_ahead_zero _ n (by decide) (by decide)
  · intro ring size read write oc rc n h
    refine ⟨?_, pop_read_ahead_zero _ n rfl h⟩
    unfold uplinkAvailable
    simp only [Bool.false_eq_true, if_false]
    rw [if_neg (by omega), if_pos h]

/-! ## The conversion loops: lemmas -/

theorem emitCount_le_ceil (frames rate : Nat) (p0 : ℚ) (hr : 0 < rate) (hp : 0 ≤ p0) :
    emitCount frames ((rate : ℚ) / 8000) p0 ≤ ⌈((frames : ℚ) * 8000) / (rate : ℚ)⌉₊ := by
  have hstep : (0 : ℚ) < (rate : ℚ) / 8000 := by positivity
  have hrq : (0 : ℚ) < (rate : ℚ) := by exact_mod_cast hr
  unfold emitCount
  apply Nat.ceil_le_ceil
  rw [div_le_iff₀ hstep]
  have : ((frames : ℚ) * 8000) / (rate : ℚ) * ((rate : ℚ) / 8000) = frames := by
    field_simp
  rw [this]
  linarith

theorem ceil_add8_le_maxOut (frames rate : Nat) (hr : 0 < rate) (hr32 : rate < 2 ^ 32)
    (hfr : frames < 2 ^ 48) :
    ⌈((frames : ℚ) * 8000) / (rate : ℚ)⌉₊ + 8 ≤ maxOut frames rate := by
  have hx : frames * 8000 + rate - 1 < 2 ^ 64 := by omega
  have hdiv : (frames * 8000 + rate - 1) / rate ≤ frames * 8000 + rate - 1 := Nat.div_le_self _ _
  have hm : maxOut frames rate = (frames * 8000 + rate - 1) / rate + 8 := by
    unfold maxOut
    rw [Nat.mod_eq_of_lt hx, Nat.mod_eq_of_lt (by omega)]
  rw [hm]
  have hrq : (0 : ℚ) < (rate : ℚ) := by exact_mod_cast hr
  suffices h : ⌈((frames : ℚ) * 8000) / (rate : ℚ)⌉₊ ≤ (frames * 8000 + rate - 1) / rate by omega
  rw [Nat.ceil_le, div_le_iff₀ hrq]
  have h1 : frames * 8000 ≤ (frames * 8000 + rate - 1) / rate * rate := by
    have := Nat.div_add_mod (frames * 8000 + rate - 1) rate
    have hlt := Nat.mod_lt (frames * 8000 + rate - 1) hr
    have hcomm : rate * ((frames * 8000 + rate - 1) / rate)
        = (frames * 8000 + rate - 1) / rate * rate := Nat.mul_comm _ _
    omega
  exact_mod_cast h1

theorem phase_after_loop (frames : Nat) (step p : ℚ) (hstep : 0 < step) (hf : 0 < frames)
    (hp1 : p < step) :
    0 ≤ p + (emitCount frames step p : ℚ) * step - (frames : ℚ) ∧
      p + (emitCount frames step p : ℚ) * step - (frames : ℚ) < step := by
  have hreach := emitCount_reaches frames step p hstep
  refine ⟨by linarith, ?_⟩
  rcases Nat.eq_zero_or_pos (emitCount frames step p) with h0 | h0
  · rw [h0]
    have : (0 : ℚ) < (frames : ℚ) := by exact_mod_cast hf
    simp only [Nat.cast_zero, zero_mul, add_zero]
    linarith
  · obtain ⟨n, hn⟩ : ∃ n, emitCount frames step p = n + 1 :=
      ⟨emitCount frames step p - 1, by omega⟩
    have hlt := (lt_emitCount frames step p hstep n).mp (by omega)
    rw [hn]
    push_cast
    linarith

theorem downlinkConvLoop_stop (in16 : List Int) (frames channels : Nat) (step : ℚ)
    (fuel : Nat) (pos : ℚ) (conv : List Int) (h : ¬ ⌊pos⌋₊ < frames) :
    downlinkConvLoop in16 frames channels step fuel pos conv = conv := by
  cases fuel with
  | zero => rfl
  | succ fuel =>
    unfold downlinkConvLoop
    rw [if_neg h]

theorem downlinkConvLoop_run (in16 : List Int) (frames channels : Nat) (step : ℚ) :
    ∀ (n fuel : Nat) (pos : ℚ) (conv : List Int), n ≤ fuel →
      (∀ i : Nat, i < n → ⌊posAfter step pos i⌋₊ < frames) →
      downlinkConvLoop in16 frames channels step fuel pos conv =
        downlinkConvLoop in16 frames channels step (fuel - n) (posAfter step pos n)
          (conv ++ (List.range n).map (fun i : Nat =>
            if channels = 1 then in16.getD ⌊posAfter step pos i⌋₊ 0
            else wrapS16 (Int.tdiv (in16.getD (⌊posAfter step pos i⌋₊ * channels) 0
              + in16.getD (⌊posAfter step pos i⌋₊ * channels + 1) 0) 2))) := by
  intro n
  induction n with
  | zero =>
    intro fuel pos conv _ _
    simp [posAfter]
  | succ n ih =>
    intro fuel pos conv hf hpos
    obtain ⟨fuel2, rfl⟩ : ∃ fuel2, fuel = fuel2 + 1 := ⟨fuel - 1, by omega⟩
    have h0 : ⌊pos⌋₊ < frames := hpos 0 (by omega)
    rw [downlinkConvLoop, if_pos h0]
    dsimp only
    rw [ih fuel2 (roundDouble (pos + step)) _ (by omega)
      (fun i hi => by
        rw [posAfter_shift]
        exact hpos (i + 1) (by omega))]
    have e1 : fuel2 + 1 - (n + 1) = fuel2 - n := by omega
    rw [e1, posAfter_shift, List.range_succ_eq_map, List.map_cons, List.map_map,
      List.append_assoc]
    congr 2
    simp only [List.singleton_append, List.cons.injEq]
    refine ⟨rfl, ?_⟩
    apply List.map_congr_left
    intro i _
    simp only [Function.comp, Nat.succ_eq_add_one, posAfter_shift]

theorem succ_le_downlinkMaxOut (frames rate : Nat) (hr : 0 < rate)
    (hF : frames * 8000 ≤ 2 ^ 24 * rate) (hr32 : rate < 2 ^ 32) :
    ⌈((frames : ℚ) * 8000) / (rate : ℚ)⌉₊ + 1 ≤ downlinkMaxOut frames rate := by
  have hx : frames * 8000 < 2 ^ 64 := by omega
  have hdiv : frames * 8000 / rate ≤ frames * 8000 := Nat.div_le_self _ _
  have hm : downlinkMaxOut frames rate = frames * 8000 / rate + 16 := by
    unfold downlinkMaxOut
    rw [if_pos (by omega), Nat.mod_eq_of_lt hx, Nat.mod_eq_of_lt (by omega)]
  rw [hm]
  have hrq : (0 : ℚ) < (rate : ℚ) := by exact_mod_cast hr
  suffices h : ⌈((frames : ℚ) * 8000) / (rate : ℚ)⌉₊ ≤ frames * 8000 / rate + 1 by omega
  rw [Nat.ceil_le, div_le_iff₀ hrq]
  have h1 : frames * 8000 ≤ (frames * 8000 / rate + 1) * rate := by
    have := Nat.div_add_mod (frames * 8000) rate
    have hlt := Nat.mod_lt (frames * 8000) hr
    have hcomm : rate * (frames * 8000 / rate) = frames * 8000 / rate * rate :=
      Nat.mul_comm _ _
    have : (frames * 8000 / rate + 1) * rate = frames * 8000 / rate * rate + rate := by ring
    omega
  exact_mod_cast h1

/-- The conversion of the downlink path: one sample per pass, until the
position reaches the frame count. -/
theorem downlink_general (in16 : List Int) (bytes rate channels N : Nat)
    (hr : 1 ≤ rate) (hr32 : rate < 2 ^ 32)
    (hF : downlinkFrames bytes channels * 8000 ≤ 2 ^ 24 * rate)
    (hn : ¬ (rate = 8000 ∧ channels = 1))
    (hN : N ≤ ⌈((downlinkFrames bytes channels : ℚ) * 8000) / (rate : ℚ)⌉₊ + 1)
    (hlt : ∀ j : Nat, j < N →
      posAfter (roundDouble ((rate : ℚ) / 8000)) 0 j < (downlinkFrames bytes channels : ℚ))
    (hge : (downlinkFrames bytes channels : ℚ)
      ≤ posAfter (roundDouble ((rate : ℚ) / 8000)) 0 N) :
    downlinkSamples in16 bytes rate channels =
      (List.range N).map (fun k : Nat =>
        if channels = 1 then
          in16.getD ⌊posAfter (roundDouble ((rate : ℚ) / 8000)) 0 k⌋₊ 0
        else wrapS16 (Int.tdiv
          (in16.getD (⌊posAfter (roundDouble ((rate : ℚ) / 8000)) 0 k⌋₊ * channels) 0
            + in16.getD (⌊posAfter (roundDouble ((rate : ℚ) / 8000)) 0 k⌋₊ * channels + 1) 0)
          2)) := by
  have hs0 : (0 : ℚ) ≤ roundDouble ((rate : ℚ) / 8000) :=
    roundDouble_nonneg _ (by positivity)
  have hnn := posAfter_nonneg (roundDouble ((rate : ℚ) / 8000)) 0 hs0 (le_refl _)
  have hmax := le_trans hN (succ_le_downlinkMaxOut _ rate (by omega) hF hr32)
  unfold downlinkSamples
  rw [if_neg hn]
  rw [downlinkConvLoop_run in16 _ channels _ N _ 0 [] hmax
    (fun i hi => (Nat.floor_lt (hnn i)).mpr (hlt i hi))]
  rw [downlinkConvLoop_stop _ _ _ _ _ _ _ (by
    rw [Nat.floor_lt (hnn N)]
    exact not_lt.mpr hge)]
  rw [List.nil_append]

/-- At a rate that is a multiple of 125 Hz the positions of a loop that starts
at 0 are the exact multiples of the step. -/
theorem posAfter_exact (rate k : Nat) (h125 : 125 ∣ rate) (hk : k * rate < 2 ^ 59) :
    posAfter (roundDouble ((rate : ℚ) / 8000)) 0 k = (k : ℚ) * ((rate : ℚ) / 8000) := by
  obtain ⟨q, hq⟩ := h125
  rcases Nat.eq_zero_or_pos k with h0 | h0
  · subst h0
    simp [posAfter]
  have hkq : k * q < 2 ^ 53 := by
    rw [hq] at hk
    have : k * (125 * q) = 125 * (k * q) := by ring
    omega
  have hq53 : q < 2 ^ 53 := lt_of_le_of_lt (Nat.le_mul_of_pos_left q h0) hkq
  have hstepR : roundDouble ((rate : ℚ) / 8000) = (q : ℚ) / 64 := by
    rw [hq]; exact step_exact q hq53
  have hstepE : (rate : ℚ) / 8000 = (q : ℚ) / 64 := by
    rw [hq]; push_cast; ring
  rw [hstepR, hstepE]
  have := posAfter_grid 0 q k (by omega)
  simpa using this

/-- At a rate that is a multiple of 125 Hz, from a phase on the grid, the loop
of `simcom_voice_process_and_push` makes `emitCount` passes and ends at the
exact position. -/
theorem resample_exact_pos (mono_src : List Int) (frames rate : Nat) (p : ℚ)
    (hr : 0 < rate) (h125 : 125 ∣ rate) (hr32 : rate < 2 ^ 32) (hfr : frames < 2 ^ 40)
    (hp : OnGrid p) :
    roundDouble ((rate : ℚ) / 8000) = (rate : ℚ) / 8000 ∧
    (resampleLoop mono_src frames (maxOut frames rate) (roundDouble ((rate : ℚ) / 8000))
        (maxOut frames rate) p []).1
      = p + (emitCount frames ((rate : ℚ) / 8000) p : ℚ) * ((rate : ℚ) / 8000) ∧
    (resampleLoop mono_src frames (maxOut frames rate) (roundDouble ((rate : ℚ) / 8000))
        (maxOut frames rate) p []).2.length = emitCount frames ((rate : ℚ) / 8000) p ∧
    roundDouble (p + (emitCount frames ((rate : ℚ) / 8000) p : ℚ) * ((rate : ℚ) / 8000)
        - (frames : ℚ))
      = p + (emitCount frames ((rate : ℚ) / 8000) p : ℚ) * ((rate : ℚ) / 8000)
        - (frames : ℚ) := by
  obtain ⟨q, hq⟩ := h125
  obtain ⟨a, ha, rfl⟩ := hp
  have hq32 : q < 2 ^ 32 := by omega
  have hstepE : (rate : ℚ) / 8000 = (q : ℚ) / 64 := by
    rw [hq]; push_cast; ring
  have hstepR : roundDouble ((rate : ℚ) / 8000) = (q : ℚ) / 64 := by
    rw [hq]; exact step_exact q (by omega)
  have hstep : (0 : ℚ) < (rate : ℚ) / 8000 := by positivity
  have hN := emitCount_le_maxOut frames rate ((a : ℚ) / 64) hr hr32 (by omega) (by positivity)
  rw [hstepR]
  rw [hstepE] at hN hstep ⊢
  generalize hNe : emitCount frames ((q : ℚ) / 64) ((a : ℚ) / 64) = N at hN ⊢
  have hlt : ∀ j : Nat, j < N → (a : ℚ) / 64 + (j : ℚ) * ((q : ℚ) / 64) < (frames : ℚ) := by
    intro j hj
    rw [← hNe] at hj
    exact (lt_emitCount frames _ _ hstep j).mp hj
  have hpos : ∀ i : Nat, i ≤ N →
      posAfter ((q : ℚ) / 64) ((a : ℚ) / 64) i = (a : ℚ) / 64 + (i : ℚ) * ((q : ℚ) / 64) :=
    fun i hi => posAfter_grid a q i (grid_bound frames a q i N hfr ha hq32 hi hlt)
  have hgen := resampleLoop_general mono_src frames (maxOut frames rate) ((q : ℚ) / 64)
    ((a : ℚ) / 64) N (by omega) hN
    (fun j hj => by rw [hpos j (by omega)]; exact hlt j hj)
    (by
      rw [hpos N (le_refl _), ← hNe]
      exact emitCount_reaches frames _ _ hstep)
  rw [hgen]
  refine ⟨rfl, hpos N (le_refl _), by simp, ?_⟩
  obtain ⟨a2, ha2, e⟩ := phase_onGrid frames q a hq32 (by omega) ha
  rw [hNe] at e
  rw [e]
  have := roundDouble_div64 (a2 : Int) (by
    rw [abs_of_nonneg (by positivity)]
    have : a2 < 2 ^ 53 := by omega
    exact_mod_cast this)
  simpa using this

/-- The phase the call saves is the rounded difference of the position at
loop exit and the frame count. -/
theorem process_phase (adev : Ring) (src : List Int) (frames channels rate : Nat) (p : ℚ)
    (hf : 1 ≤ frames) (hfr : frames < 2 ^ 53) (hch : 1 ≤ channels) (hr : 1 ≤ rate)
    (hr8 : rate ≠ 8000)
    (hge : (frames : ℚ) ≤ (resampleLoop (monoStage true src frames channels) frames
      (maxOut frames rate) (roundDouble ((rate : ℚ) / 8000)) (maxOut frames rate) p []).1) :
    (simcom_voice_process_and_push true true true adev ⟨p, rate, channels⟩ src frames
        channels rate).st.resample_pos
      = roundDouble ((resampleLoop (monoStage true src frames channels) frames
          (maxOut frames rate) (roundDouble ((rate : ℚ) / 8000)) (maxOut frames rate) p []).1
          - (frames : ℚ)) ∧
    (simcom_voice_process_and_push true true true adev ⟨p, rate, channels⟩ src frames
        channels rate).push_frames
      = (resampleLoop (monoStage true src frames channels) frames
          (maxOut frames rate) (roundDouble ((rate : ℚ) / 8000)) (maxOut frames rate) p
          []).2.length := by
  have her : effective_rate rate = rate := by
    unfold effective_rate; rw [if_pos (by omega)]
  have huc : usedChannels channels = channels := by
    unfold usedChannels; rw [if_neg (by omega)]
  have hf0 : frames ≠ 0 := by omega
  have hfrR : roundDouble (frames : ℚ) = (frames : ℚ) := roundDouble_natCast _ hfr
  simp only [simcom_voice_process_and_push, hf0, her, huc, hr8, hfrR, hge,
    Bool.true_eq_false, false_or, if_false, ne_eq, not_false_eq_true, if_true,
    not_true_eq_false, or_self]
  exact ⟨trivial, trivial⟩

/-! ## The conversion loops: the claims -/

/-- C29, as the code has it, in `double` arithmetic: for `frames ≥ 1`, a source
rate `1 ≤ r < 2 ^ 32` other than 8000 with at most `2 ^ 24` output samples
(`frames * 8000 ≤ 2 ^ 24 * r`), `step = (double)r / 8000.0` and a saved phase
`0 ≤ p ≤ step * (1 + 2 ^ -20)`, the conversion loop of
`simcom_voice_process_and_push` emits at most `ceil(frames * 8000 / r) + 1`
samples, fewer than `max_out`, so the bound never cuts it; it exits with
`pos ≥ frames`; and the phase saved, `pos - frames` rounded, is again in
`[0, step * (1 + 2 ^ -20)]`.  When `r` is a multiple of 125 Hz, `frames < 2 ^ 40`
and `p < step` is a multiple of `1 / 64`, nothing rounds: the step is
`r / 8000`, at most `ceil(frames * 8000 / r)` samples are emitted and the phase
saved is `pos - frames < step`. -/
theorem conversion_loop_stays_within_bounds (adev : Ring) (src : List Int)
    (frames channels rate : Nat) (p : ℚ)
    (hf : 1 ≤ frames) (hF : frames * 8000 ≤ 2 ^ 24 * rate) (hch : 1 ≤ channels)
    (hr : 1 ≤ rate) (hr8 : rate ≠ 8000) (hr32 : rate < 2 ^ 32)
    (hp0 : 0 ≤ p) (hp1 : p ≤ roundDouble ((rate : ℚ) / 8000) * (1 + 1 / 2 ^ 20)) :
    (resampleLoop (monoStage true src frames channels) frames (maxOut frames rate)
        (roundDouble ((rate : ℚ) / 8000)) (maxOut frames rate) p []).2.length
      ≤ ⌈((frames : ℚ) * 8000) / (rate : ℚ)⌉₊ + 1 ∧
    (resampleLoop (monoStage true src frames channels) frames (maxOut frames rate)
        (roundDouble ((rate : ℚ) / 8000)) (maxOut frames rate) p []).2.length
      < maxOut frames rate ∧
    (frames : ℚ) ≤ (resampleLoop (monoStage true src frames channels) frames
        (maxOut frames rate) (roundDouble ((rate : ℚ) / 8000)) (maxOut frames rate) p []).1 ∧
    (simcom_voice_process_and_push true true true adev ⟨p, rate, channels⟩ src frames
        channels rate).push_frames
      = (resampleLoop (monoStage true src frames channels) frames (maxOut frames rate)
          (roundDouble ((rate : ℚ) / 8000)) (maxOut frames rate) p []).2.length ∧
    (simcom_voice_process_and_push true true true adev ⟨p, rate, channels⟩ src frames
        channels rate).st.resample_pos
      = roundDouble ((resampleLoop (monoStage true src frames channels) frames
          (maxOut frames rate) (roundDouble ((rate : ℚ) / 8000)) (maxOut frames rate) p []).1
          - (frames : ℚ)) ∧
    0 ≤ (simcom_voice_process_and_push true true true adev ⟨p, rate, channels⟩ src frames
        channels rate).st.resample_pos ∧
    (simcom_voice_process_and_push true true true adev ⟨p, rate, channels⟩ src frames
        channels rate).st.resample_pos
      ≤ roundDouble ((rate : ℚ) / 8000) * (1 + 1 / 2 ^ 20) ∧
    (125 ∣ rate → frames < 2 ^ 40 → OnGrid p → p < (rate : ℚ) / 8000 →
      roundDouble ((rate : ℚ) / 8000) = (rate : ℚ) / 8000 ∧
      (resampleLoop (monoStage true src frames channels) frames (maxOut frames rate)
          (roundDouble ((rate : ℚ) / 8000)) (maxOut frames rate) p []).2.length
        ≤ ⌈((frames : ℚ) * 8000) / (rate : ℚ)⌉₊ ∧
      (simcom_voice_process_and_push true true true adev ⟨p, rate, channels⟩ src frames
          channels rate).st.resample_pos
        = (resampleLoop (monoStage true src frames channels) frames (maxOut frames rate)
            (roundDouble ((rate : ℚ) / 8000)) (maxOut frames rate) p []).1 - (frames : ℚ) ∧
      (simcom_voice_process_and_push true true true adev ⟨p, rate, channels⟩ src frames
          channels rate).st.resample_pos < (rate : ℚ) / 8000) := by
  have hfr48 : frames < 2 ^ 48 := by omega
  have h8 := ceil_add8_le_maxOut frames rate (by omega) hr32 hfr48
  obtain ⟨N, hN, hlt, hge⟩ := loop_exit rate frames p hr hF hp0
  have hgen := resampleLoop_general (monoStage true src frames channels) frames
    (maxOut frames rate) (roundDouble ((rate : ℚ) / 8000)) p N (by omega) (by omega) hlt hge
  have hgeL : (frames : ℚ) ≤ (resampleLoop (monoStage true src frames channels) frames
      (maxOut frames rate) (roundDouble ((rate : ℚ) / 8000)) (maxOut frames rate) p []).1 := by
    rw [hgen]; exact hge
  obtain ⟨hph, hpf⟩ := process_phase adev src frames channels rate p hf (by omega) hch hr hr8
    hgeL
  obtain ⟨hb0, hb1⟩ := phase_bound rate frames p N hr hr32 hf hF hp0 hp1 hlt hge
  have hlen : (resampleLoop (monoStage true src frames channels) frames (maxOut frames rate)
      (roundDouble ((rate : ℚ) / 8000)) (maxOut frames rate) p []).2.length = N := by
    rw [hgen]; simp
  have hpos1 : (resampleLoop (monoStage true src frames channels) frames (maxOut frames rate)
      (roundDouble ((rate : ℚ) / 8000)) (maxOut frames rate) p []).1
      = posAfter (roundDouble ((rate : ℚ) / 8000)) p N := by
    rw [hgen]
  refine ⟨by rw [hlen]; exact hN, by rw [hlen]; omega, hgeL, hpf, hph, ?_, ?_, ?_⟩
  · rw [hph, hpos1]; exact hb0
  · rw [hph, hpos1]; exact hb1
  · intro h125 hfr40 hg hplt
    obtain ⟨e1, e2, e3, e4⟩ := resample_exact_pos (monoStage true src frames channels) frames
      rate p (by omega) h125 hr32 hfr40 hg
    have hstep : (0 : ℚ) < (rate : ℚ) / 8000 := by
      have : 0 < rate := by omega
      positivity
    have hce := emitCount_le_ceil frames rate p (by omega) hp0
    have hpl := phase_after_loop frames ((rate : ℚ) / 8000) p hstep (by omega) hplt
    refine ⟨e1, by rw [e3]; exact hce, ?_, ?_⟩
    · rw [hph, e2, e4]
    · rw [hph, e2, e4]; exact hpl.2

/-- C29 at 441 mono frames captured at 44100 Hz, saved phase 0. -/
theorem conversion_loop_stays_within_bounds_witness :
    (1 ≤ 441 ∧ 441 * 8000 ≤ 2 ^ 24 * 44100 ∧ 1 ≤ 1 ∧ 1 ≤ 44100 ∧ 44100 ≠ 8000 ∧
      44100 < 2 ^ 32 ∧ (0 : ℚ) ≤ 0 ∧
      (0 : ℚ) ≤ roundDouble (((44100 : Nat) : ℚ) / 8000) * (1 + 1 / 2 ^ 20)) ∧
    (resampleLoop (monoStage true (List.replicate 441 0) 441 1) 441 (maxOut 441 44100)
        (roundDouble (((44100 : Nat) : ℚ) / 8000)) (maxOut 441 44100) 0 []).2.length
      ≤ ⌈(((441 : Nat) : ℚ) * 8000) / ((44100 : Nat) : ℚ)⌉₊ + 1 ∧
    (resampleLoop (monoStage true (List.replicate 441 0) 441 1) 441 (maxOut 441 44100)
        (roundDouble (((44100 : Nat) : ℚ) / 8000)) (maxOut 441 44100) 0 []).2.length
      < maxOut 441 44100 ∧
    ((441 : Nat) : ℚ) ≤ (resampleLoop (monoStage true (List.replicate 441 0) 441 1) 441
        (maxOut 441 44100) (roundDouble (((44100 : Nat) : ℚ) / 8000)) (maxOut 441 44100) 0
        []).1 ∧
    0 ≤ (simcom_voice_process_and_push true true true (ensure_ring 16) ⟨0, 44100, 1⟩
        (List.replicate 441 0) 441 1 44100).st.resample_pos ∧
    (simcom_voice_process_and_push true true true (ensure_ring 16) ⟨0, 44100, 1⟩
        (List.replicate 441 0) 441 1 44100).st.resample_pos
      ≤ roundDouble (((44100 : Nat) : ℚ) / 8000) * (1 + 1 / 2 ^ 20) :=
  have hp1 : (0 : ℚ) ≤ roundDouble (((44100 : Nat) : ℚ) / 8000) * (1 + 1 / 2 ^ 20) :=
    mul_nonneg (roundDouble_nonneg _ (by norm_num)) (by norm_num)
  have h := conversion_loop_stays_within_bounds (ensure_ring 16) (List.replicate 441 0) 441 1
    44100 0 (by norm_num) (by norm_num) (by norm_num) (by norm_num) (by norm_num)
    (by norm_num) (le_refl _) hp1
  ⟨⟨by norm_num, by norm_num, by norm_num, by norm_num, by norm_num, by norm_num, le_refl _,
      hp1⟩,
   h.1, h.2.1, h.2.2.1, h.2.2.2.2.2.1, h.2.2.2.2.2.2.1⟩

/-- C29 as stated fails at a rate whose step is not a `double`: at 44100 Hz
the code computes the step `5.5125` and the sums `pos += step` rounded, and
from phase 0 it emits 81 samples of 441 frames, one more than
`ceil(441 * 8000 / 44100) = 80`. -/
theorem conversion_loop_exceeds_ceiling :
    (resampleLoop (monoStage true (List.replicate 441 0) 441 1) 441 (maxOut 441 44100)
        (roundDouble (((44100 : Nat) : ℚ) / 8000)) (maxOut 441 44100) 0 []).2.length = 81 ∧
    ⌈(((441 : Nat) : ℚ) * 8000) / ((44100 : Nat) : ℚ)⌉₊ = 80 ∧
    (simcom_voice_process_and_push true true true (ensure_ring 16) ⟨0, 44100, 1⟩
        (List.replicate 441 0) 441 1 44100).push_frames = 81 := by
  decide!

/-- C28, as the code has it, in `double` arithmetic.  At 8 kHz mono the
samples the downlink path of `out_write` appends to the accumulator are the
input itself.  Otherwise, for a rate `1 ≤ r < 2 ^ 32`, at least one channel and
at most `2 ^ 24` output samples, they are one sample for every position the loop
passes before it reaches the frame count, at most
`ceil(frames * 8000 / r) + 1` of them (`max_out_frames` never cuts the loop),
the positions starting at 0 in every call and advancing by
`step = (double)r / 8000.0` in `double` additions: the input sample at the
whole part of the position for mono input, and for more channels the mean
(truncated toward zero) of the first two channels of that frame.  Nothing is
interpolated, no channel after the second is read and no phase is carried
over.  When `r` is a multiple of 125 Hz the positions are the exact multiples
`k * r / 8000`. -/
theorem downlink_conversion_is_decimation (in16 : List Int) (bytes rate channels : Nat)
    (hr : 1 ≤ rate) (hr32 : rate < 2 ^ 32) (_hch : 1 ≤ channels)
    (hF : bytes / (2 * channels) * 8000 ≤ 2 ^ 24 * rate) :
    (rate = 8000 ∧ channels = 1 →
      downlinkSamples in16 bytes rate channels = readBlock in16 0 (bytes / 2)) ∧
    (¬ (rate = 8000 ∧ channels = 1) →
      ∃ N : Nat,
        N ≤ ⌈(((bytes / (2 * channels) : Nat) : ℚ) * 8000) / (rate : ℚ)⌉₊ + 1 ∧
        (∀ k : Nat, k < N →
          posAfter (roundDouble ((rate : ℚ) / 8000)) 0 k
            < ((bytes / (2 * channels) : Nat) : ℚ)) ∧
        ((bytes / (2 * channels) : Nat) : ℚ)
          ≤ posAfter (roundDouble ((rate : ℚ) / 8000)) 0 N ∧
        downlinkSamples in16 bytes rate channels =
          (List.range N).map (fun k : Nat =>
            if channels = 1 then
              in16.getD ⌊posAfter (roundDouble ((rate : ℚ) / 8000)) 0 k⌋₊ 0
            else wrapS16 (Int.tdiv
              (in16.getD (⌊posAfter (roundDouble ((rate : ℚ) / 8000)) 0 k⌋₊ * channels) 0
                + in16.getD
                    (⌊posAfter (roundDouble ((rate : ℚ) / 8000)) 0 k⌋₊ * channels + 1) 0)
              2))) ∧
    (125 ∣ rate → ∀ k : Nat, k * rate < 2 ^ 59 →
      posAfter (roundDouble ((rate : ℚ) / 8000)) 0 k = (k : ℚ) * ((rate : ℚ) / 8000)) := by
  refine ⟨?_, ?_, fun h125 k hk => posAfter_exact rate k h125 hk⟩
  · rintro ⟨h1, h2⟩
    unfold downlinkSamples downlinkFrames
    rw [if_pos ⟨h1, h2⟩, h2]
  · intro hn
    obtain ⟨N, hN, hlt, hge⟩ := loop_exit rate (bytes / (2 * channels)) 0 hr hF (le_refl _)
    exact ⟨N, hN, hlt, hge, downlink_general in16 bytes rate channels N hr hr32 hF hn hN hlt hge⟩

/-- C28 as the code has it, at seven stereo frames at 44100 Hz, the default
format of a playback stream. -/
theorem downlink_conversion_is_decimation_witness :
    (1 ≤ 44100 ∧ 44100 < 2 ^ 32 ∧ 1 ≤ 2 ∧ 28 / (2 * 2) * 8000 ≤ 2 ^ 24 * 44100 ∧
      ¬ (44100 = 8000 ∧ 2 = 1)) ∧
    ∃ N : Nat,
      N ≤ ⌈(((28 / (2 * 2) : Nat) : ℚ) * 8000) / ((44100 : Nat) : ℚ)⌉₊ + 1 ∧
      (∀ k : Nat, k < N →
        posAfter (roundDouble (((44100 : Nat) : ℚ) / 8000)) 0 k
          < ((28 / (2 * 2) : Nat) : ℚ)) ∧
      ((28 / (2 * 2) : Nat) : ℚ)
        ≤ posAfter (roundDouble (((44100 : Nat) : ℚ) / 8000)) 0 N ∧
      downlinkSamples [1, 3, 0, 0, 0, 0, 0, 0, 0, 0, 50, 70, 100, 100] 28 44100 2 =
        (List.range N).map (fun k : Nat =>
          if 2 = 1 then
            ([1, 3, 0, 0, 0, 0, 0, 0, 0, 0, 50, 70, 100, 100] : List Int).getD
              ⌊posAfter (roundDouble (((44100 : Nat) : ℚ) / 8000)) 0 k⌋₊ 0
          else wrapS16 (Int.tdiv
            (([1, 3, 0, 0, 0, 0, 0, 0, 0, 0, 50, 70, 100, 100] : List Int).getD
                (⌊posAfter (roundDouble (((44100 : Nat) : ℚ) / 8000)) 0 k⌋₊ * 2) 0
              + ([1, 3, 0, 0, 0, 0, 0, 0, 0, 0, 50, 70, 100, 100] : List Int).getD
                (⌊posAfter (roundDouble (((44100 : Nat) : ℚ) / 8000)) 0 k⌋₊ * 2 + 1) 0)
            2)) :=
  ⟨⟨by norm_num, by norm_num, by norm_num, by norm_num, by norm_num⟩,
   (downlink_conversion_is_decimation [1, 3, 0, 0, 0, 0, 0, 0, 0, 0, 50, 70, 100, 100] 28 44100
     2 (by norm_num) (by norm_num) (by norm_num) (by norm_num)).2.1 (by norm_num)⟩

/-- C28 as stated fails on the default playback format, 44100 Hz stereo.  Of
the seven frames `(1, 3), (0, 0), (0, 0), (0, 0), (0, 0), (50, 70), (100, 100)`
the downlink path appends `2, 60`: the frames 0 and 5 as they are.  The kernel
of `simcom_voice_process_and_push` gives `2, 80` for the same input: at the
position `5.5125` it interpolates between the frames 5 and 6.  And 441 frames
of silence are converted to 81 samples at every call, while the kernel,
carrying its phase, gives 81 and then 80. -/
theorem downlink_conversion_differs_from_kernel :
    downlinkSamples [1, 3, 0, 0, 0, 0, 0, 0, 0, 0, 50, 70, 100, 100] 28 44100 2 = [2, 60] ∧
    (simcom_voice_process_and_push true true true (ensure_ring 16) (VoiceState.mk 0 44100 2)
      [1, 3, 0, 0, 0, 0, 0, 0, 0, 0, 50, 70, 100, 100] 7 2 44100).pushed = [2, 80] ∧
    (downlinkSamples (List.replicate 882 0) 1764 44100 2).length = 81 ∧
    (processChunks true true true 441 2 44100 2 (ensure_ring 16) (VoiceState.mk 0 44100 2)
      (List.replicate 1764 0)).2.2.length = 81 + 80 := by
  decide!

end TinyalsaHal
